import Mathlib

/-!
The 9P server engine, the client multiplexer and the codec of libjyq

A shallow embedding of `src/request.cc` (the per-connection fid map and tag map, the
dispatcher `handlereq`, the read path `handlefcall`, `Req9::respond` and the cleanup after a
hangup), of `src/rpc.cc` (the tag table and the sleep list of the client), of the address
handling of `src/socket.cc` and of the mode handling of `src/Msg.h`, with a model of the wire
codec, whose functions are declared in `src/Msg.h` and `src/Fcall.h`.

Conventions of the embedding

* A `Fid*` is the key of the fid it points to in the fid map, a `Req9*` the tag of the
  request in the tag map; `none` is the null pointer. Reading through a null pointer, or
  through a pointer whose target has left its map, is a `Fault`.
* The members of the union `Fcall` are the fields of one record; the overlap of the union
  members in memory is not modelled.
* Machine integers are natural numbers or integers with the wrap written out.
* A user handler is a function that tells what the handler does with the request before it
  returns (`Reaction`). Every handler call and every reply put on the wire is appended to
  the log of the `State`.
* `assert` aborts (assertions are compiled in). The `printfcall` hook, the locks and the
  release of storage are not modelled.
* The server is embedded twice. The first model (`State`, `respond`, `handlereq`,
  `handlefcall`) follows one connection: the `freefid` callback is left out, the transport
  takes every reply whole, and the reference count of the connection is not part of the
  `State` (it is a parameter of the cleanup, and it is followed on its own along the arrival
  of a Tattach, `attachCount`). The second model (`Process`, `Process.respond`,
  `Process.handlereq`, `Process.handlefcall`) follows the whole server process: every
  connection with its reference count and the assertion of `decref_p9conn`, the constructor
  and the destructor of Fid with the `freefid` callback, the static dispatch table of
  handlereq, the members that the declaration `Req9 req;` leaves unset, the comparison of
  the version by `strcmp`, and the call of hangup after a short send.
* A std::string is the list of its characters, an Rpc of the client is known by a number,
  and a call that blocks ends the run of the function that makes it.
-/

namespace jyq

/-! ## Constants -/

/-- Modelled from the spec: the enumeration FType is declared in types.h, which is not among
the sources. The codes are those of the 9P2000 wire protocol the spec names, in which every
reply code is its request code plus one. A type is a uint8, kept as a natural number. -/
@[simp] def FType.TVersion : Nat := 100

namespace FType
@[simp] def RVersion : Nat := 101
@[simp] def TAuth : Nat := 102
@[simp] def RAuth : Nat := 103
@[simp] def TAttach : Nat := 104
@[simp] def RAttach : Nat := 105
@[simp] def RError : Nat := 107
@[simp] def TFlush : Nat := 108
@[simp] def RFlush : Nat := 109
@[simp] def TWalk : Nat := 110
@[simp] def RWalk : Nat := 111
@[simp] def TOpen : Nat := 112
@[simp] def ROpen : Nat := 113
@[simp] def TCreate : Nat := 114
@[simp] def RCreate : Nat := 115
@[simp] def TRead : Nat := 116
@[simp] def RRead : Nat := 117
@[simp] def TWrite : Nat := 118
@[simp] def RWrite : Nat := 119
@[simp] def TClunk : Nat := 120
@[simp] def RClunk : Nat := 121
@[simp] def TRemove : Nat := 122
@[simp] def RRemove : Nat := 123
@[simp] def TStat : Nat := 124
@[simp] def RStat : Nat := 125
@[simp] def TWStat : Nat := 126
@[simp] def RWStat : Nat := 127
end FType

/-- Modelled from the spec: the open modes of types.h (missing), with the values of the
9P2000 protocol. -/
@[simp] def OMode.READ : Nat := 0
@[simp] def OMode.WRITE : Nat := 1
@[simp] def OMode.RDWR : Nat := 2
@[simp] def OMode.EXEC : Nat := 3
@[simp] def OMode.TRUNC : Nat := 16
@[simp] def OMode.CEXEC : Nat := 32
@[simp] def OMode.RCLOSE : Nat := 64

/-- Modelled from the spec: the DIR bit of a qid type (types.h is missing), 9P2000 value. -/
@[simp] def QType.DIR : Nat := 0x80

/-- Modelled from the spec: the DIR bit of a stat mode (types.h is missing), 9P2000 value. -/
@[simp] def DMode.DIR : Nat := 0x80000000

/-- Modelled from the spec: the tag reserved for Tversion (types.h is missing). -/
@[simp] def NoTag : Nat := 0xFFFF

def Eduptag : String := "tag in use"
def Edupfid : String := "fid in use"
def Enofunc : String := "function not implemented"
def Eopen : String := "fid is already open"
def Enofile : String := "file does not exist"
def Enoread : String := "file not open for reading"
def Enofid : String := "fid does not exist"
def Enotag : String := "tag does not exist"
def Enotdir : String := "not a directory"
def Eintr : String := "interrupted"
def Eisdir : String := "cannot perform operation on a directory"

/-! ## Machine integers -/

/-- Conversion of a uint8 to a signed 8-bit value. -/
def toInt8 (m : Nat) : Int :=
  if m % 256 < 128 then ((m % 256 : Nat) : Int) else ((m % 256 : Nat) : Int) - 256

/-- Conversion of a uint32 to `int`. -/
def toInt32 (m : Nat) : Int :=
  if m % 2 ^ 32 < 2 ^ 31 then ((m % 2 ^ 32 : Nat) : Int) else ((m % 2 ^ 32 : Nat) : Int) - 2 ^ 32

/-- Conversion of an `int` to a 32-bit unsigned value. -/
def toUInt32 (i : Int) : Nat := (i % 2 ^ 32).toNat

/-- The low two bits `x & 3` of a signed value in two's complement. -/
def land3 (x : Int) : Nat := (x % 4).toNat

/-- The test `if (~x)` on a uint8 or uint16 `x`: the operand is promoted to `int` before it
is complemented, and the complement of a value between 0 and 65535 is never zero. -/
def notPromoted (x : Nat) : Bool := decide (-1 - (x : Int) ≠ 0)

/-- The test `if (~x)` on an unsigned value of `w` bits, `w` at least 32. -/
def notUnsigned (w x : Nat) : Bool := decide (2 ^ w - 1 - x % 2 ^ w ≠ 0)

/-! ## Data model -/

/-- Modelled from the spec: qid.h is missing; a qid is type:u8, version:u32, path:u64. -/
structure Qid where
  type : Nat := 0
  version : Nat := 0
  path : Nat := 0
deriving DecidableEq, Repr, Inhabited

/-- Modelled from the spec: stat.h is missing; the fields are those of the spec's Stat. -/
structure Stat where
  type : Nat := 0
  dev : Nat := 0
  qid : Qid := {}
  mode : Nat := 0
  atime : Nat := 0
  mtime : Nat := 0
  length : Nat := 0
  name : String := ""
  uid : String := ""
  gid : String := ""
  muid : String := ""
deriving DecidableEq, Repr, Inhabited

/-- The union Fcall of Fcall.h as one record: the header and the fields of the variants. -/
structure Fcall where
  /-- hdr.type -/
  type : Nat := 0
  /-- hdr.tag -/
  tag : Nat := 0
  /-- hdr.fid -/
  fid : Nat := 0
  /-- version.size(), the msize of Tversion and Rversion -/
  msize : Nat := 0
  version : String := ""
  /-- tflush.oldtag -/
  oldtag : Nat := 0
  /-- ropen.qid (also Rcreate, Rattach) -/
  qid : Qid := {}
  /-- ropen.iounit -/
  iounit : Nat := 0
  /-- error.ename -/
  ename : String := ""
  afid : Nat := 0
  uname : String := ""
  aname : String := ""
  perm : Nat := 0
  name : String := ""
  /-- topen.mode and tcreate.mode, a uint8 -/
  mode : Nat := 0
  /-- twalk.newfid -/
  newfid : Nat := 0
  /-- twalk.size() -/
  nwname : Nat := 0
  wname : List String := []
  /-- rwalk.size() -/
  nwqid : Nat := 0
  wqid : List Qid := []
  offset : Nat := 0
  count : Nat := 0
  data : List Nat := []
  /-- twstat.stat -/
  stat : Stat := {}
  /-- rauth.aqid -/
  aqid : Qid := {}
  /-- rstat.size() and rstat.stat, the packed stat of Rstat -/
  nstat : Nat := 0
  rstat : List Nat := []
deriving DecidableEq, Repr, Inhabited

/-- Modelled from the spec: the class Fid is declared in a header that is not among the
sources; its fields are the spec's (fid:u32, omode:i8, iounit:u32, qid). The constructor
of request.cc sets fid and omode = -1; the fields it leaves unset are taken as zero. -/
structure Fid where
  fid : Nat
  omode : Int := -1
  iounit : Nat := 0
  qid : Qid := {}
deriving DecidableEq, Repr, Inhabited

/-- The request of jyq.h. The pointers fid, newfid are keys of the fid map, oldreq is a tag
of the tag map. -/
structure Req9 where
  fid : Option Nat := none
  newfid : Option Nat := none
  oldreq : Option Nat := none
  ifcall : Fcall := {}
  ofcall : Fcall := {}
deriving DecidableEq, Repr, Inhabited

/-- Modelled from the spec: map.h is missing. A map is a table with at most one entry per
key: emplace refuses a key that is present, erase removes the entry of a key. -/
abbrev Map (α : Type) := List (Nat × α)

namespace Map

def find {α : Type} : Map α → Nat → Option α
  | [], _ => none
  | (k, v) :: m, key => if k = key then some v else find m key

def erase {α : Type} : Map α → Nat → Map α
  | [], _ => []
  | (k, v) :: m, key => if k = key then erase m key else (k, v) :: erase m key

def emplace {α : Type} (m : Map α) (key : Nat) (v : α) : Map α × Bool :=
  match find m key with
  | some _ => (m, false)
  | none => (m ++ [(key, v)], true)

/-- Assignment through a pointer to the entry of `key`. -/
def assign {α : Type} : Map α → Nat → α → Map α
  | [], _, _ => []
  | (k, v) :: m, key, w => if k = key then (k, w) :: assign m key w else (k, v) :: assign m key w

end Map

/-- Modelled from the spec: Conn.h is missing. The per-connection state: fid map, tag map,
the sizes of the read and write buffers, and whether the pointer `conn` to the transport
connection is set. -/
structure Conn9 where
  fidmap : Map Fid := []
  tagmap : Map Req9 := []
  rmsg : Nat := 0
  wmsg : Nat := 0
  conn : Bool := false
deriving DecidableEq, Repr, Inhabited

/-- The handler slots of Srv9. -/
inductive Handler where
  | attach | clunk | create | flush | open_ | read | remove | stat | walk | write | wstat
deriving DecidableEq, Repr

/-- What is observable of a run: a call of a user handler on a request, and a reply that was
encoded and sent. -/
inductive Event where
  | call (h : Handler) (ifcall : Fcall)
  | send (ofcall : Fcall)
deriving DecidableEq, Repr

structure State where
  p9conn : Conn9 := {}
  log : List Event := []
deriving DecidableEq, Repr, Inhabited

/-- How a run ends when it does not return. -/
inductive Fault where
  | nullPointer
  | danglingPointer
  | assertion
  | outOfFuel
  | badAnyCast
deriving DecidableEq, Repr

/-- What a user handler does before it returns: it may store a qid in the fid of the
request, it fills the reply `ofcall`, and it either calls `respond` with an error or with
nullptr (`answer = some e`) or leaves the response for later (`answer = none`). -/
structure Reaction where
  fidqid : Option Qid := none
  ofcall : Fcall := {}
  answer : Option (Option String) := none

/-- The handler table Srv9 of jyq.h; attach is required, an empty std::function is none. -/
structure Srv9 where
  attach : Conn9 → Req9 → Reaction
  clunk : Option (Conn9 → Req9 → Reaction) := none
  create : Option (Conn9 → Req9 → Reaction) := none
  flush : Option (Conn9 → Req9 → Reaction) := none
  open_ : Option (Conn9 → Req9 → Reaction) := none
  read : Option (Conn9 → Req9 → Reaction) := none
  remove : Option (Conn9 → Req9 → Reaction) := none
  stat : Option (Conn9 → Req9 → Reaction) := none
  walk : Option (Conn9 → Req9 → Reaction) := none
  write : Option (Conn9 → Req9 → Reaction) := none
  wstat : Option (Conn9 → Req9 → Reaction) := none

/-! ## Fids (request.cc, lines 70-93) -/

/-- The function createfid: a new Fid under the key, or nullptr when the key is in use. -/
def createfid (map : Map Fid) (fid : Nat) : Map Fid × Option Nat :=
  match Map.emplace map fid { fid := fid } with
  | (m, true) => (m, some fid)
  | (_, false) => (map, none)

/-- The function destroyfid: erase the key from the fid map. -/
def destroyfid (p9conn : Conn9) (fid : Nat) : Conn9 :=
  { p9conn with fidmap := Map.erase p9conn.fidmap fid }

/-- The method Conn9::retrieveFid, as a nullable pointer. -/
def Conn9.retrieveFid (p9conn : Conn9) (id : Nat) : Option Nat :=
  match Map.find p9conn.fidmap id with
  | some _ => some id
  | none => none

/-- The method Conn9::retrieveTag, as a nullable pointer. -/
def Conn9.retrieveTag (p9conn : Conn9) (id : Nat) : Option Nat :=
  match Map.find p9conn.tagmap id with
  | some _ => some id
  | none => none

/-- Modelled from the spec: Conn9::removeTag is declared in the missing Conn.h; respond
removes the tag of the request from the tag map. -/
def Conn9.removeTag (p9conn : Conn9) (tag : Nat) : Conn9 :=
  { p9conn with tagmap := Map.erase p9conn.tagmap tag }

/-- Reading through a Fid pointer. -/
def deref (p9conn : Conn9) (p : Option Nat) : Except Fault Fid :=
  match p with
  | none => .error .nullPointer
  | some k =>
    match Map.find p9conn.fidmap k with
    | none => .error .danglingPointer
    | some f => .ok f

/-- Writing a Fid through a pointer to it. -/
def State.store (s : State) (p : Option Nat) (f : Fid) : State :=
  match p with
  | none => s
  | some k => { s with p9conn := { s.p9conn with fidmap := Map.assign s.p9conn.fidmap k f } }

/-- The call `destroyfid(*p9conn, fid)` on the connection of the state. -/
def State.eraseFid (s : State) (fid : Nat) : State :=
  { s with p9conn := destroyfid s.p9conn fid }

/-! ## Req9::respond (request.cc, lines 341-464) -/

/-- The switch on the request type at the head of respond (lines 348-427). `nested` is
respond itself, for the request a Tflush names. The result is the state, the reply under
construction and the local variable `error` after the switch. `maxMsg` is the constant
maximum::Msg of the missing types.h, an int. -/
def respondSwitch (maxMsg : Nat)
    (nested : State → Req9 → Option String → Except Fault (State × Fcall))
    (s : State) (r : Req9) (error : Option String) :
    Except Fault (State × Fcall × Option String) :=
  let t := r.ifcall.type
  if t = FType.TVersion then
    match error with
    | some _ => .error .assertion
    | none =>
      let msize : Int := min (toInt32 r.ofcall.msize) (maxMsg : Int)
      .ok ({ s with p9conn := { s.p9conn with rmsg := toUInt32 msize, wmsg := toUInt32 msize } },
           { r.ofcall with msize := toUInt32 msize }, error)
  else if t = FType.TAttach then
    match error with
    | some _ =>
      match deref s.p9conn r.fid with
      | .error x => .error x
      | .ok f => .ok (s.eraseFid f.fid, r.ofcall, error)
    | none => .ok (s, r.ofcall, error)
  else if t = FType.TOpen ∨ t = FType.TCreate then
    match error with
    | none =>
      match deref s.p9conn r.fid with
      | .error x => .error x
      | .ok f =>
        let ofcall := { r.ofcall with iounit := toUInt32 ((s.p9conn.rmsg : Int) - 24) }
        .ok (s.store r.fid { f with iounit := ofcall.iounit, omode := toInt8 r.ifcall.mode,
                                    qid := ofcall.qid }, ofcall, error)
    | some _ => .ok (s, r.ofcall, error)
  else if t = FType.TWalk then
    if error.isSome ∨ r.ofcall.nwqid < r.ifcall.nwname then
      let error1 := if error.isNone ∧ r.ofcall.nwqid = 0 then some Enofile else error
      if r.ifcall.fid ≠ r.ifcall.newfid ∧ r.newfid.isSome then
        match deref s.p9conn r.newfid with
        | .error x => .error x
        | .ok nf => .ok (s.eraseFid nf.fid, r.ofcall, error1)
      else .ok (s, r.ofcall, error1)
    else
      match deref s.p9conn r.newfid with
      | .error x => .error x
      | .ok nf =>
        if r.ofcall.nwqid = 0 then
          match deref s.p9conn r.fid with
          | .error x => .error x
          | .ok f => .ok (s.store r.newfid { nf with qid := f.qid }, r.ofcall, error)
        else
          .ok (s.store r.newfid { nf with qid := r.ofcall.wqid.getD (r.ofcall.nwqid - 1) {} },
               r.ofcall, error)
  else if t = FType.TWrite then .ok (s, r.ofcall, error)
  else if t = FType.TRemove ∨ t = FType.TClunk then
    match r.fid with
    | none => .ok (s, r.ofcall, error)
    | some _ =>
      match deref s.p9conn r.fid with
      | .error x => .error x
      | .ok f => .ok (s.eraseFid f.fid, r.ofcall, error)
  else if t = FType.TFlush then
    match Map.find s.p9conn.tagmap r.ifcall.oldtag with
    | none => .ok (s, r.ofcall, error)
    | some oldreq =>
      match nested s oldreq (some Eintr) with
      | .error x => .error x
      | .ok (s1, _) => .ok (s1, r.ofcall, error)
  else if t = FType.TWStat ∨ t = FType.TRead ∨ t = FType.TStat then .ok (s, r.ofcall, error)
  else
    match error with
    | none => .error .assertion
    | some _ => .ok (s, r.ofcall, error)

/-- The reply as lines 429-436 complete it: the tag of the request, and the request type
plus one (a uint8) or RError with the error string. -/
def reply (r : Req9) (ofcall : Fcall) (error : Option String) : Fcall :=
  match error with
  | none => { ofcall with tag := r.ifcall.tag, type := (r.ifcall.type + 1) % 256 }
  | some e => { ofcall with tag := r.ifcall.tag, type := FType.RError, ename := e }

/-- Lines 442-450: the tag leaves the tag map, and the reply is encoded and sent when the
connection is still there. -/
def finish (s : State) (r : Req9) (ofcall : Fcall) : State :=
  let s1 : State := { s with p9conn := s.p9conn.removeTag r.ifcall.tag }
  if s1.p9conn.conn then { s1 with log := s1.log ++ [Event.send ofcall] } else s1

/-- The method Req9::respond. The first argument bounds the depth of the nested respond
calls of the Tflush case. The result is the state after the call and the reply. -/
def respond (maxMsg : Nat) : Nat → State → Req9 → Option String → Except Fault (State × Fcall)
  | 0, _, _, _ => .error .outOfFuel
  | fuel + 1, s, r, error =>
    match respondSwitch maxMsg (respond maxMsg fuel) s r error with
    | .error x => .error x
    | .ok (s1, ofcall, error1) => .ok (finish s1 r (reply r ofcall error1), reply r ofcall error1)

/-! ## The dispatcher handlereq (request.cc, lines 144-326) -/

/-- The request is a reference: when it is the entry of the tag map (`inMap`), what the
dispatcher or a handler stores in it is stored in the tag map. -/
def commit (inMap : Bool) (s : State) (r : Req9) : State :=
  if inMap then
    { s with p9conn := { s.p9conn with tagmap := Map.assign s.p9conn.tagmap r.ifcall.tag r } }
  else s

/-- A call `r.respond(error)` made by the dispatcher. -/
def answer (maxMsg fuel : Nat) (inMap : Bool) (s : State) (r : Req9) (error : Option String) :
    Except Fault State :=
  match respond maxMsg fuel (commit inMap s r) r error with
  | .error x => .error x
  | .ok (s1, _) => .ok s1

/-- A call `srv->h(&r)` of a user handler: the call is logged, what the handler stores in
the fid and in the reply is stored, and the handler's own call of respond, if it makes one
before it returns, is run. -/
def invoke (maxMsg fuel : Nat) (inMap : Bool) (h : Handler) (f : Conn9 → Req9 → Reaction)
    (s : State) (r : Req9) : Except Fault State :=
  let s0 := commit inMap s r
  let s1 : State := { s0 with log := s0.log ++ [Event.call h r.ifcall] }
  let re := f s1.p9conn r
  let s2 : State :=
    match re.fidqid, deref s1.p9conn r.fid with
    | some q, .ok fd => s1.store r.fid { fd with qid := q }
    | _, _ => s1
  let r1 : Req9 := { r with ofcall := re.ofcall }
  match re.answer with
  | none => .ok (commit inMap s2 r1)
  | some e => answer maxMsg fuel inMap s2 r1 e

/-- An optional handler slot: "function not implemented" when the slot is empty. -/
def invokeOpt (maxMsg fuel : Nat) (inMap : Bool) (h : Handler)
    (slot : Option (Conn9 → Req9 → Reaction)) (s : State) (r : Req9) : Except Fault State :=
  match slot with
  | none => answer maxMsg fuel inMap s r (some Enofunc)
  | some f => invoke maxMsg fuel inMap h f s r

/-- The function handlereq: the dispatch table keyed by the request type. -/
def handlereq (maxMsg : Nat) (srv : Srv9) (fuel : Nat) (inMap : Bool) (s : State) (r : Req9) :
    Except Fault State :=
  let t := r.ifcall.type
  if t = FType.TVersion then
    let version :=
      if r.ifcall.version = "9P" then "9P"
      else if r.ifcall.version = "9P2000" then "9P2000"
      else "unknown"
    answer maxMsg fuel inMap s
      { r with ofcall := { r.ofcall with version := version, msize := r.ifcall.msize } } none
  else if t = FType.TAttach then
    match createfid s.p9conn.fidmap r.ifcall.fid with
    | (_, none) => answer maxMsg fuel inMap s { r with fid := none } (some Edupfid)
    | (m, some k) =>
      invoke maxMsg fuel inMap Handler.attach srv.attach
        { s with p9conn := { s.p9conn with fidmap := m } } { r with fid := some k }
  else if t = FType.TClunk then
    match s.p9conn.retrieveFid r.ifcall.fid with
    | none => answer maxMsg fuel inMap s { r with fid := none } (some Enofid)
    | some k =>
      match srv.clunk with
      | none => answer maxMsg fuel inMap s { r with fid := some k } none
      | some f => invoke maxMsg fuel inMap Handler.clunk f s { r with fid := some k }
  else if t = FType.TFlush then
    match s.p9conn.retrieveTag r.ifcall.oldtag with
    | none => answer maxMsg fuel inMap s { r with oldreq := none } (some Enotag)
    | some o => invokeOpt maxMsg fuel inMap Handler.flush srv.flush s { r with oldreq := some o }
  else if t = FType.TCreate then
    match Map.find s.p9conn.fidmap r.ifcall.fid with
    | none => answer maxMsg fuel inMap s { r with fid := none } (some Enofid)
    | some fd =>
      let r1 : Req9 := { r with fid := some r.ifcall.fid }
      if fd.omode ≠ -1 then answer maxMsg fuel inMap s r1 (some Eopen)
      else if fd.qid.type &&& QType.DIR = 0 then answer maxMsg fuel inMap s r1 (some Enotdir)
      else invokeOpt maxMsg fuel inMap Handler.create srv.create s r1
  else if t = FType.TOpen then
    match Map.find s.p9conn.fidmap r.ifcall.fid with
    | none => answer maxMsg fuel inMap s { r with fid := none } (some Enofid)
    | some fd =>
      let r1 : Req9 := { r with fid := some r.ifcall.fid }
      if fd.qid.type &&& QType.DIR ≠ 0 ∧
          r.ifcall.mode ||| OMode.RCLOSE ≠ OMode.READ ||| OMode.RCLOSE then
        answer maxMsg fuel inMap s r1 (some Eisdir)
      else
        invokeOpt maxMsg fuel inMap Handler.open_ srv.open_ s
          { r1 with ofcall := { r1.ofcall with qid := fd.qid } }
  else if t = FType.TRead then
    match Map.find s.p9conn.fidmap r.ifcall.fid with
    | none => answer maxMsg fuel inMap s { r with fid := none } (some Enofid)
    | some fd =>
      let r1 : Req9 := { r with fid := some r.ifcall.fid }
      if fd.omode = -1 ∨ fd.omode = (OMode.WRITE : Int) then
        answer maxMsg fuel inMap s r1 (some Enoread)
      else invokeOpt maxMsg fuel inMap Handler.read srv.read s r1
  else if t = FType.TRemove then
    match s.p9conn.retrieveFid r.ifcall.fid with
    | none => answer maxMsg fuel inMap s { r with fid := none } (some Enofid)
    | some k => invokeOpt maxMsg fuel inMap Handler.remove srv.remove s { r with fid := some k }
  else if t = FType.TStat then
    match s.p9conn.retrieveFid r.ifcall.fid with
    | none => answer maxMsg fuel inMap s { r with fid := none } (some Enofid)
    | some k => invokeOpt maxMsg fuel inMap Handler.stat srv.stat s { r with fid := some k }
  else if t = FType.TWalk then
    match Map.find s.p9conn.fidmap r.ifcall.fid with
    | none => answer maxMsg fuel inMap s { r with fid := none } (some Enofid)
    | some fd =>
      let r1 : Req9 := { r with fid := some r.ifcall.fid }
      if fd.omode ≠ -1 then answer maxMsg fuel inMap s r1 (some "cannot walk from an open fid")
      else if r.ifcall.nwname ≠ 0 ∧ fd.qid.type &&& QType.DIR = 0 then
        answer maxMsg fuel inMap s r1 (some Enotdir)
      else if r.ifcall.fid ≠ r.ifcall.newfid then
        match createfid s.p9conn.fidmap r.ifcall.newfid with
        | (_, none) => answer maxMsg fuel inMap s { r1 with newfid := none } (some Edupfid)
        | (m, some k) =>
          invokeOpt maxMsg fuel inMap Handler.walk srv.walk
            { s with p9conn := { s.p9conn with fidmap := m } } { r1 with newfid := some k }
      else invokeOpt maxMsg fuel inMap Handler.walk srv.walk s { r1 with newfid := r1.fid }
  else if t = FType.TWrite then
    match Map.find s.p9conn.fidmap r.ifcall.fid with
    | none => answer maxMsg fuel inMap s { r with fid := none } (some Enofid)
    | some fd =>
      let r1 : Req9 := { r with fid := some r.ifcall.fid }
      if land3 fd.omode ≠ OMode.WRITE ∧ land3 fd.omode ≠ OMode.RDWR then
        answer maxMsg fuel inMap s r1 (some "write on fid not opened for writing")
      else invokeOpt maxMsg fuel inMap Handler.write srv.write s r1
  else if t = FType.TWStat then
    match Map.find s.p9conn.fidmap r.ifcall.fid with
    | none => answer maxMsg fuel inMap s { r with fid := none } (some Enofid)
    | some fd =>
      let r1 : Req9 := { r with fid := some r.ifcall.fid }
      let st := r.ifcall.stat
      if notPromoted st.type then answer maxMsg fuel inMap s r1 (some "wstat of type")
      else if notUnsigned 32 st.dev then answer maxMsg fuel inMap s r1 (some "wstat of dev")
      else if notPromoted st.qid.type ∨ notUnsigned 32 st.qid.version ∨
          notUnsigned 64 st.qid.path then
        answer maxMsg fuel inMap s r1 (some "wstat of qid")
      else if st.muid ≠ "" then answer maxMsg fuel inMap s r1 (some "wstat of muid")
      else if notUnsigned 32 st.mode ∧
          (st.mode &&& DMode.DIR) >>> 24 ≠ fd.qid.type &&& QType.DIR then
        answer maxMsg fuel inMap s r1 (some "wstat on DMDIR bit")
      else invokeOpt maxMsg fuel inMap Handler.wstat srv.wstat s r1
  else answer maxMsg fuel inMap s r (some Enofunc)

/-! ## The read path handlefcall (request.cc, lines 95-126) and the listener -/

/-- The request handlefcall builds around a decoded Fcall; the pointer members, which the
declaration `Req9 req;` leaves unset, are taken as null and the reply as zero. -/
def Req9.incoming (fcall : Fcall) : Req9 := { ifcall := fcall }

/-- The function handlefcall after a message was received and decoded into `fcall`: the
request is installed in the tag map under its tag and dispatched, or answered with
"tag in use" when the tag is taken. -/
def handlefcall (maxMsg : Nat) (srv : Srv9) (fuel : Nat) (s : State) (fcall : Fcall) :
    Except Fault State :=
  let req := Req9.incoming fcall
  let s1 : State := { s with p9conn := { s.p9conn with conn := true } }
  match Map.emplace s1.p9conn.tagmap fcall.tag req with
  | (m, true) =>
    handlereq maxMsg srv fuel true { s1 with p9conn := { s1.p9conn with tagmap := m } } req
  | (_, false) =>
    match respond maxMsg fuel s1 req (some Eduptag) with
    | .error x => .error x
    | .ok (s2, _) => .ok s2

/-- The connection state Conn::serve9conn creates for an accepted connection. -/
def serve9conn : State := { p9conn := { rmsg := 1024, wmsg := 1024 } }

/-- Dispatch of a sequence of decoded requests, one handlefcall each; the result lists the
state after each request. -/
def serve (maxMsg : Nat) (srv : Srv9) (fuel : Nat) :
    State → List Fcall → Except Fault (List State)
  | _, [] => .ok []
  | s, fcall :: rest =>
    match handlefcall maxMsg srv fuel s fcall with
    | .error x => .error x
    | .ok s1 =>
      match serve maxMsg srv fuel s1 rest with
      | .error x => .error x
      | .ok l => .ok (s1 :: l)

/-! ## States and requests used to state the theorems -/

/-- The state in which handlefcall dispatches a request whose tag was free: the transport
connection is recorded and the request is the entry of its tag in the tag map. -/
def arrive (s : State) (fcall : Fcall) : State :=
  { s with p9conn :=
      { s.p9conn with
        conn := true
        tagmap := s.p9conn.tagmap ++ [(fcall.tag, Req9.incoming fcall)] } }

/-- The state after a request that arrived with a free tag was answered with `ofcall` and
nothing else happened: the reply is logged, the fid map and the tag map are as before. -/
def answered (s : State) (ofcall : Fcall) : State :=
  { p9conn := { s.p9conn with conn := true }, log := s.log ++ [Event.send ofcall] }

/-- What the lifecycle property reads in the log: a handler call with its request, and the
type and the tag of a reply. -/
def Event.summary : Event → Event
  | .call h ifcall => .call h ifcall
  | .send ofcall => .send { type := ofcall.type, tag := ofcall.tag }

/-- A connection with fid 0 attached and an Topen of it pending under tag 3. -/
def exOpenState : State :=
  { p9conn := { fidmap := [(0, { fid := 0 })], rmsg := 8192, wmsg := 8192, conn := true,
                tagmap := [(3, { fid := some 0, ifcall := { type := FType.TOpen, tag := 3 } })] } }

/-- A handler that answers at once with no error and leaves the reply as it is. -/
def exNow : Conn9 → Req9 → Reaction := fun _ r => { ofcall := r.ofcall, answer := some none }

/-- A server with every handler answering at once. -/
def exSrv : Srv9 :=
  { attach := exNow, clunk := some exNow, create := some exNow, flush := some exNow,
    open_ := some exNow, read := some exNow, remove := some exNow, stat := some exNow,
    walk := some exNow, write := some exNow, wstat := some exNow }

/-- A live connection on which a Tread with tag 1 is pending. -/
def exPending : State :=
  { p9conn := { tagmap := [(1, { ifcall := { type := FType.TRead, tag := 1 } })],
                rmsg := 1024, wmsg := 1024, conn := true } }

/-- A live connection with no pending request on which fid 0, an unopened directory, and
fid 1, an unopened file, are registered. -/
def exAttached : State :=
  { p9conn := { fidmap := [(0, { fid := 0, qid := { type := QType.DIR, path := 1 } }),
                           (1, { fid := 1, qid := { path := 2 } })],
                rmsg := 1024, wmsg := 1024, conn := true } }

/-- An attach handler that stores the qid of a directory in the fid and answers at once. -/
def exAttachNow : Conn9 → Req9 → Reaction := fun _ r =>
  { fidqid := some { type := QType.DIR, path := 1 },
    ofcall := { r.ofcall with qid := { type := QType.DIR, path := 1 } },
    answer := some none }

/-- A walk handler that returns one qid for every name and answers at once. -/
def exWalkNow : Conn9 → Req9 → Reaction := fun _ r =>
  { ofcall := { r.ofcall with nwqid := r.ifcall.nwname,
                              wqid := List.replicate r.ifcall.nwname { path := 7 } },
    answer := some none }

/-- A file server whose handlers answer at once. -/
def exFs : Srv9 :=
  { attach := exAttachNow, clunk := some exNow, open_ := some exNow, read := some exNow,
    walk := some exWalkNow, write := some exNow }

/-- The msize respond puts in an Rversion and gives both buffers: the smaller of the requested
msize, converted to int, and maximum::Msg, converted back to an unsigned 32-bit value. -/
def versionMsize (maxMsg requested : Nat) : Nat :=
  toUInt32 (min (toInt32 requested) (maxMsg : Int))

/-- The version string of the Rversion, as the Tversion entry of the dispatcher picks it. -/
def versionString (requested : String) : String :=
  if requested = "9P" then "9P" else if requested = "9P2000" then "9P2000" else "unknown"

/-- The Topen of exOpenState with the mode byte 255. -/
def exOpenHigh : Req9 :=
  { fid := some 0, ifcall := { type := FType.TOpen, tag := 3, mode := 255 } }

/-- A pending Tflush with tag 6 whose oldtag is 5. -/
def exFlush6 : Req9 :=
  { oldreq := some 5, ifcall := { type := FType.TFlush, tag := 6, oldtag := 5 } }

/-- A Twstat that changes nothing: every field of the stat carries its don't-touch value. -/
def exWstatNone : Fcall :=
  { type := FType.TWStat, tag := 9, fid := 1,
    stat := { type := 0xFFFF, dev := 0xFFFFFFFF,
              qid := { type := 0xFF, version := 0xFFFFFFFF, path := 0xFFFFFFFFFFFFFFFF },
              mode := 0xFFFFFFFF, atime := 0xFFFFFFFF, mtime := 0xFFFFFFFF,
              length := 0xFFFFFFFFFFFFFFFF } }

/-! ## The mode of a Msg (Msg.h) -/

/-- The enumeration Msg::Mode. -/
inductive Msg.Mode where
  | Pack
  | Unpack
deriving DecidableEq, Repr

/-- The struct Msg: the buffer `data` of `size` cells, the cursor `pos` and the end `end_` as
offsets into the buffer, and the mode. -/
structure Msg where
  data : List Nat := []
  size : Nat := 0
  pos : Nat := 0
  end_ : Nat := 0
  mode : Msg.Mode := Msg.Mode.Pack
deriving DecidableEq, Repr

/-- The members of the class Msg::ModePreserver, but for the reference to its target. -/
structure Msg.ModePreserver where
  oldMode : Msg.Mode
  writePerformed : Bool
deriving DecidableEq, Repr

/-- The constructor of ModePreserver: it takes the mode of the target down, and sets the new
mode if it differs. The result is the target and the object constructed. -/
def Msg.ModePreserver.construct (target : Msg) (newMode : Msg.Mode) :
    Msg × Msg.ModePreserver :=
  let p : Msg.ModePreserver :=
    { oldMode := target.mode, writePerformed := decide (target.mode ≠ newMode) }
  (if p.writePerformed then { target with mode := newMode } else target, p)

/-- The destructor of ModePreserver: it sets the old mode if the constructor set a new one. -/
def Msg.ModePreserver.destroy (p : Msg.ModePreserver) (target : Msg) : Msg :=
  if p.writePerformed then { target with mode := p.oldMode } else target

/-- The member template Msg::pack. Its first statement `ModePreserver(*this, Mode::Pack);`
is an expression statement: the object it constructs is a temporary without a name, which is
destroyed at the end of that statement. The second statement runs the traversal
`packUnpack(value)`, here the function `traversal` on the Msg. -/
def Msg.pack (traversal : Msg → Msg) (m : Msg) : Msg :=
  let (m1, p) := Msg.ModePreserver.construct m Msg.Mode.Pack
  let m2 := p.destroy m1
  traversal m2

/-- The member template Msg::unpack, of the same shape as Msg::pack. -/
def Msg.unpack (traversal : Msg → Msg) (m : Msg) : Msg :=
  let (m1, p) := Msg.ModePreserver.construct m Msg.Mode.Unpack
  let m2 := p.destroy m1
  traversal m2

/-- A traversal that writes the mode it runs in into the first cell of the buffer: 0 for
Pack, 1 for Unpack. -/
def exRecordMode (m : Msg) : Msg :=
  { m with data := [match m.mode with
                    | Msg.Mode.Pack => 0
                    | Msg.Mode.Unpack => 1] }

/-! ## Addresses (socket.cc) -/

/-- A std::string, as the sequence of its characters. -/
abbrev Str := List Char

/-- The member find of std::string for a character: the position of its first occurrence;
npos is none. -/
def Str.find : Str → Char → Option Nat
  | [], _ => none
  | x :: xs, c => if x = c then some 0 else (Str.find xs c).map (fun i => i + 1)

/-- The member substr of std::string: the characters from `pos` on, `count` of them when a
count is given; std::out_of_range when `pos` is beyond the size. -/
def Str.substr (s : Str) (pos : Nat) (count : Option Nat) : Except String Str :=
  if pos > s.length then .error "std::out_of_range"
  else
    match count with
    | none => .ok (s.drop pos)
    | some n => .ok ((s.drop pos).take n)

/-- The function getPort. -/
def getPort (addr : Str) : Except String Str :=
  match Str.find addr '!' with
  | none => .error "no port provided"
  | some spos => Str.substr addr spos none

/-- The function template alookup up to its call of getaddrinfo, which is the parameter
`getaddrinfo` with the arguments node (nullptr is none) and service; the hints are left
out. The result none is the nullptr the function returns for an empty port. -/
def alookup {α : Type} (announce : Bool) (getaddrinfo : Option Str → Str → Option α)
    (host : Str) : Except String (Option α) :=
  match getPort host with
  | .error x => .error x
  | .ok port =>
    if port.isEmpty then .ok none
    else
      let useHost : Bool := if announce then decide (host ≠ "*".toList) else true
      .ok (getaddrinfo (if useHost then some host else none) port)

/-- A stand-in for getaddrinfo that returns the node and the service it was called with. -/
def exLookup : Option Str → Str → Option (Option Str × Str) := fun node service =>
  some (node, service)

/-- The function Connection::decompose. -/
def Connection.decompose (address : Str) : Except String (Str × Str) :=
  match Str.find address '!' with
  | none => .error "no address type defined!"
  | some addrPos =>
    match Str.substr address 0 (some addrPos), Str.substr address (addrPos + 1) none with
    | .ok type, .ok rest => .ok (type, rest)
    | .error x, _ => .error x
    | _, .error x => .error x
/-! ## The client multiplexer (rpc.cc) -/

/-- A pointer to an Rpc: nullptr, the address of the list head `sleep` of the client, or the
address of the Rpc with the number k. -/
inductive Link where
  | null
  | head
  | rpc (k : Nat)
deriving DecidableEq, Repr

/-- Modelled from the spec: Rpc.h is missing. The fields of an Rpc that the functions of
rpc.cc use: the assigned tag, the reply pointer `p` (nullptr is none) and the two links of
the sleep list. -/
structure Rpc where
  tag : Int := 0
  p : Option Fcall := none
  prev : Link := Link.null
  next : Link := Link.null
deriving DecidableEq, Repr

/-- Modelled from the spec: Client.h is missing. The fields of a Client that gettag, puttag,
dispatchandqlock, enqueue and dequeue use: the tag range, the tag table `wait` with its
capacity `mwait`, the count `nwait` and the hint `freetag`, the head `sleep` of the sleep
list, and the Rpcs by number. Counts and indexes are natural numbers, tags are integers. -/
structure Client where
  mintag : Int := 0
  maxtag : Int := 0
  nwait : Nat := 0
  mwait : Nat := 0
  freetag : Nat := 0
  wait : List (Option Nat) := []
  sleep : Rpc := { prev := Link.head, next := Link.head }
  rpc : Nat → Rpc := fun _ => {}

/-- How a call into the client ends when it does not return: it blocks in
`tagrend.sleep()`, it throws "Fell out of loop without free tag!", it reads the tag table
outside its bounds, it follows a null pointer, or an assertion fails. -/
inductive Halt where
  | sleeps
  | thrown
  | outOfBounds
  | nullPointer
  | assertion
deriving DecidableEq, Repr

/-- The lambda Found of gettag: the slot `index` takes the Rpc, which takes the tag. -/
def Client.Found (c : Client) (r : Nat) (index : Nat) : Client × Int :=
  let tag : Int := (index : Int) + c.mintag
  ({ c with
     nwait := c.nwait + 1
     wait := c.wait.set index (some r)
     rpc := Function.update c.rpc r { c.rpc r with tag := tag } }, tag)

/-- One of the two scanning loops of gettag, over `n` slots from index `i`: the first index
whose slot is null, or none when the loop runs out. -/
def scan (wait : List (Option Nat)) : Nat → Nat → Except Halt (Option Nat)
  | _, 0 => .ok none
  | i, n + 1 =>
    match wait[i]? with
    | none => .error Halt.outOfBounds
    | some none => .ok (some i)
    | some (some _) => scan wait (i + 1) n

/-- The lines 88 to 103 of gettag: the probe of the slot `freetag`, the scan from there to
the end of the table and the scan from the start of the table up to `freetag`. -/
def Client.probe (c : Client) (r : Nat) : Except Halt (Client × Int) :=
  match c.wait[c.freetag]? with
  | none => .error Halt.outOfBounds
  | some none => .ok (c.Found r c.freetag)
  | some (some _) =>
    match scan c.wait c.freetag (c.mwait - c.freetag) with
    | .error x => .error x
    | .ok (some i) => .ok (c.Found r i)
    | .ok none =>
      match scan c.wait 0 c.freetag with
      | .error x => .error x
      | .ok (some i) => .ok (c.Found r i)
      | .ok none => .error Halt.thrown

/-- The function Client::gettag, run from its head up to its return or up to the call of
`tagrend.sleep()`; a caller that is woken goes on as a fresh run from the head, on the state
it finds. `alloc n` tells whether realloc to n slots succeeds; the result -1 is the failure
of realloc. -/
def gettag (alloc : Nat → Bool) (c : Client) (r : Nat) : Except Halt (Client × Int) :=
  if c.nwait = c.mwait then
    if (c.mwait : Int) < c.maxtag - c.mintag then
      let mw := if c.mwait = 0 then 1 else c.mwait * 2
      if alloc mw then
        Client.probe
          { c with
            wait := c.wait ++ List.replicate (mw - c.mwait) none
            freetag := c.mwait
            mwait := mw } r
      else .ok (c, -1)
    else .error Halt.sleeps
  else c.probe r

/-- The function Client::puttag. -/
def puttag (c : Client) (r : Nat) : Except Halt Client :=
  let i : Int := (c.rpc r).tag - c.mintag
  if i < 0 then .error Halt.outOfBounds
  else
    match c.wait[i.toNat]? with
    | none => .error Halt.outOfBounds
    | some w =>
      if w ≠ some r then .error Halt.assertion
      else .ok { c with wait := c.wait.set i.toNat none, nwait := c.nwait - 1, freetag := i.toNat }

/-- The field `next` read through a pointer. -/
def Client.next (c : Client) : Link → Link
  | Link.null => Link.null
  | Link.head => c.sleep.next
  | Link.rpc k => (c.rpc k).next

/-- The field `prev` read through a pointer. -/
def Client.prev (c : Client) : Link → Link
  | Link.null => Link.null
  | Link.head => c.sleep.prev
  | Link.rpc k => (c.rpc k).prev

/-- The assignment `l->prev = v`. -/
def Client.setPrev (c : Client) (l : Link) (v : Link) : Except Halt Client :=
  match l with
  | Link.null => .error Halt.nullPointer
  | Link.head => .ok { c with sleep := { c.sleep with prev := v } }
  | Link.rpc k => .ok { c with rpc := Function.update c.rpc k { c.rpc k with prev := v } }

/-- The assignment `l->next = v`. -/
def Client.setNext (c : Client) (l : Link) (v : Link) : Except Halt Client :=
  match l with
  | Link.null => .error Halt.nullPointer
  | Link.head => .ok { c with sleep := { c.sleep with next := v } }
  | Link.rpc k => .ok { c with rpc := Function.update c.rpc k { c.rpc k with next := v } }

/-- The function Client::enqueue. -/
def enqueue (c : Client) (r : Nat) : Except Halt Client :=
  let c1 : Client :=
    { c with rpc := Function.update c.rpc r
                      { c.rpc r with next := c.sleep.next, prev := Link.head } }
  match c1.setPrev (c1.rpc r).next (Link.rpc r) with
  | .error x => .error x
  | .ok c2 => c2.setNext (c2.rpc r).prev (Link.rpc r)

/-- The function Client::dequeue. -/
def dequeue (c : Client) (r : Nat) : Except Halt Client :=
  match c.setPrev (c.rpc r).next (c.rpc r).prev with
  | .error x => .error x
  | .ok c1 =>
    match c1.setNext (c1.rpc r).prev (c1.rpc r).next with
    | .error x => .error x
    | .ok c2 =>
      .ok { c2 with rpc := Function.update c2.rpc r
                             { c2.rpc r with prev := Link.null, next := Link.null } }

/-- The function Client::dispatchandqlock for the reply `f`; the lock and the wake-up of the
waiting caller are left out. A reply that is dropped leaves the client as it is. -/
def dispatchandqlock (c : Client) (f : Fcall) : Except Halt Client :=
  let tag : Int := (f.tag : Int) - c.mintag
  if tag < 0 ∨ tag ≥ (c.mwait : Int) then .ok c
  else
    match c.wait[tag.toNat]? with
    | none => .error Halt.outOfBounds
    | some none => .ok c
    | some (some r2) =>
      if (c.rpc r2).prev = Link.null then .ok c
      else
        dequeue { c with rpc := Function.update c.rpc r2 { c.rpc r2 with p := some f } } r2

/-- The Rpcs of the sleep list in the order of the loop of electmuxer: from `sleep.next`
along the `next` pointers up to `&sleep`; none when the walk meets a null pointer or does
not end within `fuel` steps. -/
def sleepers (c : Client) : Nat → Link → Option (List Nat)
  | _, Link.head => some []
  | _, Link.null => none
  | 0, Link.rpc _ => none
  | fuel + 1, Link.rpc k => (sleepers c fuel (c.rpc k).next).map (fun l => k :: l)

/-- The sleep list holds exactly the Rpcs of `l`, in this order: the `next` pointers lead
from `first` through `l` to the list head, the `prev` pointers lead back. -/
def Client.chain (c : Client) : Link → List Nat → Prop
  | a, [] => c.next a = Link.head ∧ c.sleep.prev = a
  | a, k :: l => c.next a = Link.rpc k ∧ (c.rpc k).prev = a ∧ Client.chain c (Link.rpc k) l

/-- The sleep list is well formed and holds the Rpcs of `l`: they are linked in a ring with
the list head, no Rpc occurs twice, and the `prev` pointer of every other Rpc is null. -/
def Client.sleeping (c : Client) (l : List Nat) : Prop :=
  l.Nodup ∧ c.chain Link.head l ∧ ∀ k, k ∉ l → (c.rpc k).prev = Link.null

/-- A client with the tag range 10 to 11 and no tag table yet. -/
def exClient : Client := { mintag := 10, maxtag := 11 }

/-- A client on whose sleep list the Rpcs 1 and 2 wait under the tags 10 and 11; Rpc 1 was
enqueued first. -/
def exWaiting : Client :=
  { mintag := 10, maxtag := 12, nwait := 2, mwait := 2, freetag := 1,
    wait := [some 1, some 2],
    sleep := { next := Link.rpc 2, prev := Link.rpc 1 },
    rpc := fun k =>
      if k = 1 then { tag := 10, prev := Link.rpc 2, next := Link.head }
      else if k = 2 then { tag := 11, prev := Link.head, next := Link.rpc 1 }
      else {} }

/-- A tag table of four slots of which the slots 0 and 2 are taken; the hint is 2. -/
def exTable : Client :=
  { mintag := 10, maxtag := 14, nwait := 2, mwait := 4, freetag := 2,
    wait := [some 1, none, some 2, none] }

/-- The fields of a client that the list operations leave alone. -/
def Client.sameTable (d c : Client) : Prop :=
  (∀ k, (d.rpc k).p = (c.rpc k).p) ∧ (∀ k, (d.rpc k).tag = (c.rpc k).tag) ∧
  d.wait = c.wait ∧ d.mwait = c.mwait ∧ d.nwait = c.nwait ∧ d.freetag = c.freetag ∧
  d.mintag = c.mintag ∧ d.maxtag = c.maxtag
/-! ## Cleanup after a hangup (request.cc, lines 466-523) -/

/-- What the member `aux`, a std::any, of a request holds in cleanupconn: nothing, a value
of the type `void*`, or a value of the type `Req9*`. The pointers are to the requests that
cleanupconn synthesizes, by their number; nullptr is none. -/
inductive Any where
  | empty
  | voidPtr (p : Option Nat)
  | req9Ptr (p : Option Nat)
deriving DecidableEq, Repr

/-- The call `std::any_cast<Req9*>(aux)`: the value held when it is of the type `Req9*`,
the exception std::bad_any_cast otherwise. -/
def anyCastReq9Ptr : Any → Except Fault (Option Nat)
  | Any.req9Ptr p => .ok p
  | _ => .error Fault.badAnyCast

/-- A request that cleanupconn synthesizes, with its member `aux`. -/
structure Synth where
  req : Req9
  aux : Any
deriving DecidableEq, Repr

/-- The function voidfid for the fid under `entry.1` of the fid map. The context is the
requests synthesized so far and the pointer `*context` to the head of their list: the new
Tclunk stores the old head in its `aux`, as a `void*`, and becomes the head. -/
def voidfid (context : List Synth × Option Nat) (entry : Nat × Fid) : List Synth × Option Nat :=
  let clunk_req : Req9 :=
    { fid := some entry.1
      ifcall := { type := FType.TClunk, tag := NoTag, fid := entry.2.fid } }
  (context.1 ++ [{ req := clunk_req, aux := Any.voidPtr context.2 }], some context.1.length)

/-- The function voidrequest for a request of the tag map: the new Tflush names the tag of
the request as its oldtag. -/
def voidrequest (context : List Synth × Option Nat) (entry : Nat × Req9) :
    List Synth × Option Nat :=
  let flush_req : Req9 :=
    { ifcall := { type := FType.TFlush, tag := NoTag, oldtag := entry.2.ifcall.tag } }
  (context.1 ++ [{ req := flush_req, aux := Any.voidPtr context.2 }], some context.1.length)

/-- The loop of cleanupconn over the list of synthesized requests: the next request is read
from `aux` with std::any_cast, then the request is dispatched. The first argument bounds
the number of passes. -/
def drain (maxMsg : Nat) (srv : Srv9) (fuel : Nat) (synth : List Synth) :
    Nat → Option Nat → State → Except Fault State
  | _, none, s => .ok s
  | 0, some _, _ => .error Fault.outOfFuel
  | n + 1, some r, s =>
    match synth[r]? with
    | none => .error Fault.danglingPointer
    | some sy =>
      match anyCastReq9Ptr sy.aux with
      | .error x => .error x
      | .ok next =>
        match handlereq maxMsg srv fuel false s sy.req with
        | .error x => .error x
        | .ok s1 => drain maxMsg srv fuel synth n next s1

/-- Modelled from the spec: map.h and Conn.h are missing. The function cleanupconn, with
Map::exec taken as the call of the function on every entry of the map in the order of the
table, and the reference count of the connection on entry as the parameter `ref`. The last
statement, decref_p9conn, is left out. -/
def cleanupconn (maxMsg : Nat) (srv : Srv9) (fuel : Nat) (ref : Nat) (s : State) :
    Except Fault State :=
  let s0 : State := { s with p9conn := { s.p9conn with conn := false } }
  let context : List Synth × Option Nat :=
    if ref > 1 then
      s0.p9conn.tagmap.foldl voidrequest (s0.p9conn.fidmap.foldl voidfid ([], none))
    else ([], none)
  drain maxMsg srv fuel context.1 context.1.length context.2 s0

/-- The head of the list of synthesized requests points to a request whose `aux` holds a
`void*`. -/
def Synth.headVoid (context : List Synth × Option Nat) : Prop :=
  ∃ i p, context.2 = some i ∧ (context.1[i]?).map Synth.aux = some (Any.voidPtr p)
/-! ## The wire codec (Msg.h, Fcall.h) -/

/-- The `w` bytes of a value in little-endian order. -/
def toLE : Nat → Nat → List Nat
  | 0, _ => []
  | w + 1, v => v % 256 :: toLE w (v / 256)

/-- The value of bytes in little-endian order. -/
def fromLE : List Nat → Nat
  | [] => 0
  | b :: bs => b + 256 * fromLE bs

/-- The kinds of field the codec knows: an unsigned integer of `w` bytes, a string behind
its 16-bit length, raw data behind its count of `w` bytes, a qid, an array of strings and an
array of qids behind their 16-bit count, and a stat behind its 16-bit size. -/
inductive Kind where
  | int (w : Nat)
  | str
  | data (w : Nat)
  | qid
  | strs
  | qids
  | stat
deriving DecidableEq, Repr

/-- The type of the values of a field. -/
@[reducible] def Kind.type : Kind → Type
  | Kind.int _ => Nat
  | Kind.str => String
  | Kind.data _ => List Nat
  | Kind.qid => Qid
  | Kind.strs => List String
  | Kind.qids => List Qid
  | Kind.stat => Stat

def encStr (s : String) : List Nat := toLE 2 s.data.length ++ s.data.map Char.toNat

def encQid (q : Qid) : List Nat := toLE 1 q.type ++ toLE 4 q.version ++ toLE 8 q.path

def encStatBody (s : Stat) : List Nat :=
  toLE 2 s.type ++ toLE 4 s.dev ++ encQid s.qid ++ toLE 4 s.mode ++ toLE 4 s.atime ++
    toLE 4 s.mtime ++ toLE 8 s.length ++ encStr s.name ++ encStr s.uid ++ encStr s.gid ++
    encStr s.muid

/-- Modelled from the spec: the bodies of the field operations of Msg (pu8 to pqids, pstat)
are not among the sources. The bytes a field operation writes in Pack mode: integers in
little-endian order, a string as its 16-bit length and its characters, data as its count
and its bytes, a qid as type:u8, version:u32, path:u64, an array as its 16-bit count and
its elements, a stat as its 16-bit size and its fields in the order of the data model. -/
def enc : (k : Kind) → k.type → List Nat
  | Kind.int w, v => toLE w v
  | Kind.str, s => encStr s
  | Kind.data w, d => toLE w d.length ++ d
  | Kind.qid, q => encQid q
  | Kind.strs, l => toLE 2 l.length ++ (l.map encStr).flatten
  | Kind.qids, l => toLE 2 l.length ++ (l.map encQid).flatten
  | Kind.stat, s => toLE 2 (encStatBody s).length ++ encStatBody s

def decInt (w : Nat) (bs : List Nat) : Option (Nat × List Nat) :=
  if bs.length < w then none else some (fromLE (bs.take w), bs.drop w)

def decStr (bs : List Nat) : Option (String × List Nat) :=
  match decInt 2 bs with
  | none => none
  | some (n, r) =>
    if r.length < n then none else some (String.mk ((r.take n).map Char.ofNat), r.drop n)

def decQid (bs : List Nat) : Option (Qid × List Nat) :=
  match decInt 1 bs with
  | none => none
  | some (t, r1) =>
    match decInt 4 r1 with
    | none => none
    | some (v, r2) =>
      match decInt 8 r2 with
      | none => none
      | some (p, r3) => some ({ type := t, version := v, path := p }, r3)

/-- An array of `n` elements read one after the other. -/
def decArray {α : Type} (one : List Nat → Option (α × List Nat)) :
    Nat → List Nat → Option (List α × List Nat)
  | 0, bs => some ([], bs)
  | n + 1, bs =>
    match one bs with
    | none => none
    | some (x, r) =>
      match decArray one n r with
      | none => none
      | some (xs, r1) => some (x :: xs, r1)

def decStatBody (bs : List Nat) : Option (Stat × List Nat) :=
  match decInt 2 bs with
  | none => none
  | some (type, r1) =>
  match decInt 4 r1 with
  | none => none
  | some (dev, r2) =>
  match decQid r2 with
  | none => none
  | some (qid, r3) =>
  match decInt 4 r3 with
  | none => none
  | some (mode, r4) =>
  match decInt 4 r4 with
  | none => none
  | some (atime, r5) =>
  match decInt 4 r5 with
  | none => none
  | some (mtime, r6) =>
  match decInt 8 r6 with
  | none => none
  | some (length, r7) =>
  match decStr r7 with
  | none => none
  | some (name, r8) =>
  match decStr r8 with
  | none => none
  | some (uid, r9) =>
  match decStr r9 with
  | none => none
  | some (gid, r10) =>
  match decStr r10 with
  | none => none
  | some (muid, r11) =>
    some ({ type := type, dev := dev, qid := qid, mode := mode, atime := atime, mtime := mtime,
            length := length, name := name, uid := uid, gid := gid, muid := muid }, r11)

/-- Modelled from the spec: the bodies of the field operations of Msg are not among the
sources. What a field operation reads in Unpack mode from the bytes between the cursor and
the end: the value and the bytes left, or none when the field does not fit. -/
def dec : (k : Kind) → List Nat → Option (k.type × List Nat)
  | Kind.int w, bs => decInt w bs
  | Kind.str, bs => decStr bs
  | Kind.data w, bs =>
    match decInt w bs with
    | none => none
    | some (n, r) => if r.length < n then none else some (r.take n, r.drop n)
  | Kind.qid, bs => decQid bs
  | Kind.strs, bs =>
    match decInt 2 bs with
    | none => none
    | some (n, r) => decArray decStr n r
  | Kind.qids, bs =>
    match decInt 2 bs with
    | none => none
    | some (n, r) => decArray decQid n r
  | Kind.stat, bs =>
    match decInt 2 bs with
    | none => none
    | some (_, r) => decStatBody r

/-- Modelled from the spec: a field operation on a Msg, in both directions. In Pack mode the
bytes of the value are written at the cursor when they fit before the end, and the cursor
advances by their number; in Unpack mode the value is read and the cursor advances, and a
field that does not fit leaves the cursor past the end. The result is the Msg and the value
the field holds afterwards. -/
def Msg.field (k : Kind) (m : Msg) (v : k.type) : Msg × k.type :=
  match m.mode with
  | Msg.Mode.Pack =>
    let bs := enc k v
    (if m.pos + bs.length ≤ m.end_ then
       { m with data := m.data.take m.pos ++ bs ++ m.data.drop (m.pos + bs.length),
                pos := m.pos + bs.length }
     else { m with pos := m.pos + bs.length }, v)
  | Msg.Mode.Unpack =>
    match dec k ((m.data.take m.end_).drop m.pos) with
    | some (v1, rest) => ({ m with pos := m.end_ - rest.length }, v1)
    | none => ({ m with pos := m.end_ + 1 }, v)

/-- A field of an Fcall in the traversal: its kind and its place in the Fcall. -/
structure FieldOp where
  kind : Kind
  get : Fcall → kind.type
  set : Fcall → kind.type → Fcall

/-- One step of the traversal: the field operation on the field of the Fcall; in Unpack mode
the value read is stored in the Fcall. -/
def FieldOp.run (op : FieldOp) (s : Msg × Fcall) : Msg × Fcall :=
  let r := Msg.field op.kind s.1 (op.get s.2)
  match s.1.mode with
  | Msg.Mode.Pack => (r.1, s.2)
  | Msg.Mode.Unpack => (r.1, op.set s.2 r.2)

def opFid : FieldOp :=
  { kind := Kind.int 4, get := fun f => f.fid, set := fun f v => { f with fid := v } }

def opQid : FieldOp :=
  { kind := Kind.qid, get := fun f => f.qid, set := fun f v => { f with qid := v } }

/-- Modelled from the spec: Fcall::packUnpack is declared in Fcall.h only. The fields that
follow the header, by message type, as the field tables of the spec list them; an Rattach
holds the qid alone, as its own row of the table has it. -/
def schema (t : Nat) : List FieldOp :=
  let msize : FieldOp :=
    { kind := Kind.int 4, get := fun f => f.msize, set := fun f v => { f with msize := v } }
  let version : FieldOp :=
    { kind := Kind.str, get := fun f => f.version, set := fun f v => { f with version := v } }
  let afid : FieldOp :=
    { kind := Kind.int 4, get := fun f => f.afid, set := fun f v => { f with afid := v } }
  let uname : FieldOp :=
    { kind := Kind.str, get := fun f => f.uname, set := fun f v => { f with uname := v } }
  let aname : FieldOp :=
    { kind := Kind.str, get := fun f => f.aname, set := fun f v => { f with aname := v } }
  let iounit : FieldOp :=
    { kind := Kind.int 4, get := fun f => f.iounit, set := fun f v => { f with iounit := v } }
  let mode : FieldOp :=
    { kind := Kind.int 1, get := fun f => f.mode, set := fun f v => { f with mode := v } }
  let offset : FieldOp :=
    { kind := Kind.int 8, get := fun f => f.offset, set := fun f v => { f with offset := v } }
  let count : FieldOp :=
    { kind := Kind.int 4, get := fun f => f.count, set := fun f v => { f with count := v } }
  let data : FieldOp :=
    { kind := Kind.data 4, get := fun f => f.data,
      set := fun f v => { f with count := v.length, data := v } }
  if t = FType.TVersion ∨ t = FType.RVersion then [msize, version]
  else if t = FType.TAuth then [afid, uname, aname]
  else if t = FType.RAuth then
    [{ kind := Kind.qid, get := fun f => f.aqid, set := fun f v => { f with aqid := v } }]
  else if t = FType.TAttach then [opFid, afid, uname, aname]
  else if t = FType.RAttach then [opQid]
  else if t = FType.RError then
    [{ kind := Kind.str, get := fun f => f.ename, set := fun f v => { f with ename := v } }]
  else if t = FType.TFlush then
    [{ kind := Kind.int 2, get := fun f => f.oldtag, set := fun f v => { f with oldtag := v } }]
  else if t = FType.TWalk then
    [opFid,
     { kind := Kind.int 4, get := fun f => f.newfid, set := fun f v => { f with newfid := v } },
     { kind := Kind.strs, get := fun f => f.wname,
       set := fun f v => { f with nwname := v.length, wname := v } }]
  else if t = FType.RWalk then
    [{ kind := Kind.qids, get := fun f => f.wqid,
       set := fun f v => { f with nwqid := v.length, wqid := v } }]
  else if t = FType.TOpen then [opFid, mode]
  else if t = FType.ROpen ∨ t = FType.RCreate then [opQid, iounit]
  else if t = FType.TCreate then
    [opFid,
     { kind := Kind.str, get := fun f => f.name, set := fun f v => { f with name := v } },
     { kind := Kind.int 4, get := fun f => f.perm, set := fun f v => { f with perm := v } },
     mode]
  else if t = FType.TRead then [opFid, offset, count]
  else if t = FType.RRead then [data]
  else if t = FType.TWrite then [opFid, offset, data]
  else if t = FType.RWrite then [count]
  else if t = FType.TClunk ∨ t = FType.TRemove ∨ t = FType.TStat then [opFid]
  else if t = FType.RStat then
    [{ kind := Kind.data 2, get := fun f => f.rstat,
       set := fun f v => { f with nstat := v.length, rstat := v } }]
  else if t = FType.TWStat then
    [opFid,
     { kind := Kind.stat, get := fun f => f.stat, set := fun f v => { f with stat := v } }]
  else []

/-- The header fields of the traversal: the type byte and the tag. -/
def header : List FieldOp :=
  [{ kind := Kind.int 1, get := fun f => f.type, set := fun f v => { f with type := v } },
   { kind := Kind.int 2, get := fun f => f.tag, set := fun f v => { f with tag := v } }]

/-- Modelled from the spec: Fcall::packUnpack is declared in Fcall.h only. The traversal of
an Fcall: the header, then the fields of the message type the header holds by then. -/
def Fcall.packUnpack (m : Msg) (f : Fcall) : Msg × Fcall :=
  let s1 := header.foldl (fun s op => op.run s) (m, f)
  (schema s1.2.type).foldl (fun s op => op.run s) s1

/-- Modelled from the spec: fcall2msg is declared in Fcall.h only. The buffer is wrapped in
Pack mode, four bytes are kept for the size, the traversal runs, and the size is written to
the first four bytes; the end and the cursor are left at the end and the start of the
message. The result is 0 when the cursor passed the end. -/
def fcall2msg (m : Msg) (f : Fcall) : Nat × Msg :=
  let m0 : Msg := { m with end_ := m.size, pos := 4, mode := Msg.Mode.Pack }
  let m1 := (Fcall.packUnpack m0 f).1
  if m1.pos > m1.end_ then (0, m1)
  else
    let size := m1.pos
    let m2 := (Msg.field (Kind.int 4) { m1 with end_ := m1.pos, pos := 0 } size).1
    (size, { m2 with pos := 0 })

/-- Modelled from the spec: msg2fcall is declared in Fcall.h only. The buffer is wrapped in
Unpack mode behind the four bytes of the size and the traversal runs into a fresh Fcall. The
result is the offset of the cursor, or 0 when the cursor passed the end, with the Fcall and
the Msg. -/
def msg2fcall (m : Msg) : Nat × Fcall × Msg :=
  let m0 : Msg := { m with pos := 4, mode := Msg.Mode.Unpack }
  let r := Fcall.packUnpack m0 {}
  if r.1.pos > r.1.end_ then (0, r.2, r.1) else (r.1.pos, r.2, r.1)

/-- The members of an Fcall that are on the wire: the type, the tag and the fields of the
message type, in an Fcall that holds nothing else. -/
def Fcall.onWire (f : Fcall) : Fcall :=
  (header ++ schema f.type).foldl (fun g op => op.set g (op.get f)) {}

/-- The limit of a field: an integer fits its bytes, a length or count fits its prefix. -/
def Kind.fits : (k : Kind) → k.type → Prop
  | Kind.int w, v => v < 256 ^ w
  | Kind.str, s => s.data.length < 256 ^ 2
  | Kind.data w, d => d.length < 256 ^ w
  | Kind.qid, q => q.type < 256 ^ 1 ∧ q.version < 256 ^ 4 ∧ q.path < 256 ^ 8
  | Kind.strs, l => l.length < 256 ^ 2 ∧ ∀ s, s ∈ l → s.data.length < 256 ^ 2
  | Kind.qids, l =>
    l.length < 256 ^ 2 ∧ ∀ q, q ∈ l → q.type < 256 ^ 1 ∧ q.version < 256 ^ 4 ∧ q.path < 256 ^ 8
  | Kind.stat, s =>
    (encStatBody s).length < 256 ^ 2 ∧ s.type < 256 ^ 2 ∧ s.dev < 256 ^ 4 ∧
    (s.qid.type < 256 ^ 1 ∧ s.qid.version < 256 ^ 4 ∧ s.qid.path < 256 ^ 8) ∧
    s.mode < 256 ^ 4 ∧ s.atime < 256 ^ 4 ∧ s.mtime < 256 ^ 4 ∧ s.length < 256 ^ 8 ∧
    s.name.data.length < 256 ^ 2 ∧ s.uid.data.length < 256 ^ 2 ∧
    s.gid.data.length < 256 ^ 2 ∧ s.muid.data.length < 256 ^ 2

/-- The length limits of an Fcall: every field of its message type is within its limit. -/
def Fcall.fits (f : Fcall) : Prop :=
  ∀ op, op ∈ header ++ schema f.type → op.kind.fits (op.get f)

/-- The bytes that a run of field operations writes for the Fcall `f`. -/
def opsBytes (ops : List FieldOp) (f : Fcall) : List Nat :=
  (ops.map (fun op => enc op.kind (op.get f))).flatten

/-- The bytes of an Fcall behind the size: the header and the fields of its type. -/
def Fcall.bytes (f : Fcall) : List Nat := opsBytes (header ++ schema f.type) f

/-- A Twalk of two names. -/
def exTwalk : Fcall :=
  { type := FType.TWalk, tag := 7, fid := 1, newfid := 2, nwname := 2, wname := ["usr", "bin"] }

/-- A buffer of 40 cells. -/
def exBuf : Msg := { data := List.replicate 40 0, size := 40 }

/-! ## Definitions for the properties of runs -/

/-- The connection after handlefcall has rejected a request whose tag was taken, for the
request types on which respond does nothing but reply: the reply is logged and the entry
of the tag has left the tag map. -/
def rejected (s : State) (tag : Nat) : State :=
  { p9conn := { s.p9conn with conn := true, tagmap := Map.erase s.p9conn.tagmap tag },
    log := s.log ++ [Event.send { type := FType.RError, tag := tag, ename := Eduptag }] }

/-- A handler that leaves the response for later. -/
def exLater : Conn9 → Req9 → Reaction := fun _ r => { ofcall := r.ofcall }

/-- A server whose stat handler answers later and whose flush handler answers later for
the tag 5 and at once for every other tag. -/
def exFlushSrv : Srv9 :=
  { exSrv with
    stat := some exLater
    flush := some (fun c r => if r.ifcall.tag = 5 then exLater c r else exNow c r) }

/-- The Tstat of fid 0 with tag 6, as it is pending with the stat handler. -/
def exStat6 : Req9 := { fid := some 0, ifcall := { type := FType.TStat, tag := 6, fid := 0 } }

/-- The Tflush with tag 5 of the request with tag 6, as it is pending with the flush
handler. -/
def exFlush5 : Req9 :=
  { oldreq := some 6, ifcall := { type := FType.TFlush, tag := 5, oldtag := 6 } }

/-- The connection of exAttached after a Tstat with tag 6 reached the stat handler, a
Tflush of it with tag 5 reached the flush handler, and the stat handler answered the Tstat:
the Tflush with tag 5 is pending and the tag 6 is free again. -/
def exCrossed : State :=
  { exAttached with
    p9conn := { exAttached.p9conn with tagmap := [(5, exFlush5)] }
    log := [Event.call Handler.stat { type := FType.TStat, tag := 6, fid := 0 },
            Event.call Handler.flush { type := FType.TFlush, tag := 5, oldtag := 6 },
            Event.send { type := FType.RStat, tag := 6 }] }

/-- The server exSrv with a create handler that stores the qid of a directory in the fid
and in the reply, as for the creation of a directory. -/
def exMkdir : Srv9 := { exSrv with create := some exAttachNow }

/-- The handler slot of the table Srv9 under its name; attach is always there. -/
def Srv9.slot (srv : Srv9) : Handler → Option (Conn9 → Req9 → Reaction)
  | .attach => some srv.attach
  | .clunk => srv.clunk
  | .create => srv.create
  | .flush => srv.flush
  | .open_ => srv.open_
  | .read => srv.read
  | .remove => srv.remove
  | .stat => srv.stat
  | .walk => srv.walk
  | .write => srv.write
  | .wstat => srv.wstat

/-- The request types that have an entry in the dispatch table of handlereq. -/
def FType.dispatched : List Nat :=
  [FType.TVersion, FType.TAttach, FType.TClunk, FType.TFlush, FType.TCreate, FType.TOpen,
   FType.TRead, FType.TRemove, FType.TStat, FType.TWalk, FType.TWrite, FType.TWStat]

/-- The run of handlefcall on a decoded request returns, and what it sends is one Rerror
with the tag of the request and the error string `e`. -/
def repliesError (maxMsg : Nat) (srv : Srv9) (fuel : Nat) (s : State) (fcall : Fcall)
    (e : String) : Prop :=
  ∃ s1 o, handlefcall maxMsg srv fuel s fcall = .ok s1 ∧ s1.log = s.log ++ [Event.send o] ∧
    o.type = FType.RError ∧ o.tag = fcall.tag ∧ o.ename = e

/-! ## The tag table over runs of gettag and puttag (rpc.cc, lines 54-118) -/

/-- What holds of the tag table between the calls of gettag and puttag: the table has mwait
slots, nwait counts the taken ones, the hint freetag is an index of the table once the
table has a slot, and the Rpc in the slot i holds the tag mintag + i. -/
def Client.tableOk (c : Client) : Prop :=
  c.wait.length = c.mwait ∧
  c.nwait = (c.wait.filter Option.isSome).length ∧
  (0 < c.mwait → c.freetag < c.mwait) ∧
  ∀ (i r : Nat), c.wait[i]? = some (some r) → (c.rpc r).tag = (i : Int) + c.mintag

/-- The client states reached from an empty tag table by calls of gettag and puttag that
return. As in sendrpc, gettag is called for an Rpc that holds no slot of the table; realloc
may fail or succeed at each call. -/
inductive Client.Reachable : Client → Prop where
  | start (c : Client) : c.wait = [] → c.mwait = 0 → c.nwait = 0 → Client.Reachable c
  | byGettag (alloc : Nat → Bool) (c c1 : Client) (r : Nat) (tag : Int) :
      Client.Reachable c → some r ∉ c.wait →
      gettag alloc c r = .ok (c1, tag) → Client.Reachable c1
  | byPuttag (c c1 : Client) (r : Nat) :
      Client.Reachable c → puttag c r = .ok c1 → Client.Reachable c1

/-- A client with the tag range 10 to 13 and no tag table yet. -/
def exRange3 : Client := { mintag := 10, maxtag := 13 }

/-! ## The reference count of a connection (request.cc, lines 52-93 and 114-118) -/

/-- The function decref_p9conn on the count `ref` of a connection whose transport pointer
`conn` is set or not: the count after the decrement. When it is not above zero the
connection state is destroyed, for which the assertion wants the transport pointer null.
The member `ref` is declared in the missing Conn.h; it is taken as a signed integer, which
the listener sets to one. -/
def decref_p9conn (conn : Bool) (ref : Int) : Except Fault Int :=
  if ref - 1 > 0 then .ok (ref - 1)
  else if conn then .error Fault.assertion
  else .ok (ref - 1)

/-- What happens to an object of the class Fid: it is made by the constructor of
request.cc, it is made as a copy of another Fid, or it is destroyed. -/
inductive FidEvent where
  | construct
  | copy
  | destroy
deriving DecidableEq, Repr

/-- The reference count after an event on a Fid of the connection. The constructor
`Fid::Fid` counts a reference and the destructor `Fid::~Fid` gives one back through
decref_p9conn. The class Fid is declared in a header that is not among the sources, so
whether a copy of a Fid counts a reference is the parameter `copyCounts`; request.cc
defines the one constructor and the destructor and no copy constructor, and with the copy
constructor that C++ supplies a copy counts nothing (`copyCounts = false`). -/
def FidEvent.count (copyCounts conn : Bool) (ref : Int) : FidEvent → Except Fault Int
  | .construct => .ok (ref + 1)
  | .copy => .ok (if copyCounts then ref + 1 else ref)
  | .destroy => decref_p9conn conn ref

/-- The Fid objects that the expression
`map.emplace(std::make_pair(fid, Fid(fid, map, p9conn)))` of createfid makes and destroys,
in order: the temporary is constructed, the pair holds a copy of it, the node of the map
holds a copy of the pair; when the key is taken the node is destroyed at once; the pair and
the temporary are destroyed at the end of the expression. -/
def createfidLifetimes (inserted : Bool) : List FidEvent :=
  [FidEvent.construct, FidEvent.copy, FidEvent.copy] ++
    (if inserted then [] else [FidEvent.destroy]) ++ [FidEvent.destroy, FidEvent.destroy]

/-- The reference count after a sequence of events on Fids. -/
def countFids (copyCounts conn : Bool) : Int → List FidEvent → Except Fault Int
  | ref, [] => .ok ref
  | ref, e :: rest =>
    match e.count copyCounts conn ref with
    | .error x => .error x
    | .ok ref1 => countFids copyCounts conn ref1 rest

/-- The reference count after handlefcall has taken in a decoded Tattach whose tag is free
and has dispatched it: `p9conn->ref++` on line 115, then createfid in the Tattach entry of
handlereq; the transport pointer is set by then. -/
def attachCount (copyCounts : Bool) (s : State) (ref : Int) (fcall : Fcall) :
    Except Fault Int :=
  countFids copyCounts true (ref + 1)
    (createfidLifetimes (createfid s.p9conn.fidmap fcall.fid).2.isSome)

/-! ## The server process (request.cc), with what the model above leaves out

The definitions of this part follow the same functions of request.cc as the model above and
carry in addition: the reference count of each connection with `decref_p9conn`, its
assertion and the release of the connection state; the constructor and the destructor of
Fid, on the fids of the fid map and on the temporaries of createfid, with the `freefid`
callback; the static dispatch table of handlereq, whose entries keep the connection of the
first request that was ever dispatched; the members that the declaration `Req9 req;` of
handlefcall leaves unset; the comparison of the version by `strcmp`; the array `wqid`; and
the call of hangup after a short send. A run that does not return keeps the state it
ended in. -/

/-- How a run of the server process ends when it does not return: a null pointer is
followed; a pointer is followed whose target is not there (never was, or was released); an
assertion fails; the nested calls of respond exceed the depth allowed; respond calls hangup
after a short send (hangup is declared in a header that is not among the sources, the run
is followed no further); a cell of the array wqid is read that holds no qid; an empty
std::function is called. -/
inductive Abort where
  | nullPointer
  | danglingPointer
  | assertion
  | outOfFuel
  | hangup
  | unsetCell
  | badFunctionCall
deriving DecidableEq, Repr

/-- The C string that `strcmp` sees behind a `char*`: the characters before the first NUL. -/
def cstr (s : String) : String := String.mk (s.data.takeWhile (fun ch => ch ≠ Char.ofNat 0))

namespace Process

/-- A pointer to a Fid or to a Req9: the connection in whose map the target sits, and its
key there; none is the null pointer. -/
abbrev Ptr := Option (Nat × Nat)

/-- The request of jyq.h, with the connection `conn` it arrived on. -/
structure Req9 where
  conn : Nat := 0
  fid : Ptr := none
  newfid : Ptr := none
  oldreq : Ptr := none
  ifcall : Fcall := {}
  ofcall : Fcall := {}
deriving DecidableEq, Repr, Inhabited

/-- Modelled from the spec: Conn.h is missing. The per-connection state with its reference
count `ref`, a signed integer that the listener sets to one, and the handler table `srv` it
was accepted for (by number). -/
structure Conn9 where
  fidmap : Map Fid := []
  tagmap : Map Req9 := []
  rmsg : Nat := 0
  wmsg : Nat := 0
  conn : Bool := false
  ref : Int := 0
  srv : Nat := 0
deriving DecidableEq, Repr, Inhabited

/-- What is observable of a run: a call of the handler `h` of the handler table `srv` on a
request that arrived on the connection `conn`; a reply handed to sendmsg for the connection
`conn`; a call of the freefid callback of the handler table `srv` on a Fid. -/
inductive Event where
  | call (srv : Nat) (h : Handler) (conn : Nat) (ifcall : Fcall)
  | send (conn : Nat) (ofcall : Fcall)
  | freefid (srv : Nat) (fid : Nat)
deriving DecidableEq, Repr

end Process

/-- The state of the server process: the connections by address, the static dispatch table
of handlereq (none until handlereq is called for the first time, then the connection and the
handler table that its entries captured), and the log. -/
structure Process where
  conns : Map Process.Conn9 := []
  table : Option (Nat × Nat) := none
  log : List Process.Event := []
deriving DecidableEq, Repr, Inhabited

/-- A run of the server process: the result, or how the run ended and in which state. -/
abbrev Run (α : Type) := Except (Abort × Process) α

/-- The state in which a run ended, returned or not. -/
def Run.ended {α : Type} (f : α → Process) : Run α → Process
  | .ok x => f x
  | .error (_, p) => p

namespace Process

/-- The handler table Srv9 of jyq.h; attach is required, an empty std::function is none;
`freefid` tells whether the freefid member is set. -/
structure Srv9 where
  attach : Process → Req9 → Reaction
  clunk : Option (Process → Req9 → Reaction) := none
  create : Option (Process → Req9 → Reaction) := none
  flush : Option (Process → Req9 → Reaction) := none
  open_ : Option (Process → Req9 → Reaction) := none
  read : Option (Process → Req9 → Reaction) := none
  remove : Option (Process → Req9 → Reaction) := none
  stat : Option (Process → Req9 → Reaction) := none
  walk : Option (Process → Req9 → Reaction) := none
  write : Option (Process → Req9 → Reaction) := none
  wstat : Option (Process → Req9 → Reaction) := none
  freefid : Bool := false

/-- What the process is run with: the constant maximum::Msg of the missing types.h; whether
a copy of a Fid counts a reference (the class Fid is declared in a header that is not among
the sources; request.cc defines one constructor and the destructor and no copy constructor,
and with the copy constructor that C++ supplies a copy counts nothing, `copyCounts =
false`); whether sendmsg puts a reply on the wire whole; and the handler tables by number. -/
structure Env where
  maxMsg : Nat
  copyCounts : Bool
  whole : Fcall → Bool
  srvs : Nat → Srv9

/-- Reading a connection through a pointer to it. -/
def get (p : Process) (c : Nat) : Run Conn9 :=
  match Map.find p.conns c with
  | none => .error (Abort.danglingPointer, p)
  | some cn => .ok cn

/-- Writing a connection through a pointer to it. -/
def set (p : Process) (c : Nat) (cn : Conn9) : Process :=
  { p with conns := Map.assign p.conns c cn }

/-- Reading through a Fid pointer. -/
def deref (p : Process) (ptr : Ptr) : Run Fid :=
  match ptr with
  | none => .error (Abort.nullPointer, p)
  | some (a, k) =>
    match Map.find p.conns a with
    | none => .error (Abort.danglingPointer, p)
    | some cn =>
      match Map.find cn.fidmap k with
      | none => .error (Abort.danglingPointer, p)
      | some f => .ok f

/-- Writing a Fid through a pointer to it. -/
def store (p : Process) (ptr : Ptr) (f : Fid) : Process :=
  match ptr with
  | none => p
  | some (a, k) =>
    match Map.find p.conns a with
    | none => p
    | some cn => p.set a { cn with fidmap := Map.assign cn.fidmap k f }

/-- The connection state Conn::serve9conn sets up for an accepted connection, at the
address `c`, for the handler table `srv`. -/
def serve9conn (p : Process) (c srv : Nat) : Process :=
  { p with conns := (Map.emplace p.conns c
      { rmsg := 1024, wmsg := 1024, ref := 1, srv := srv }).1 }

/-! ### The reference count and the fids (request.cc, lines 52-93) -/

/-- The function decref_p9conn: the count is decremented; while it is above zero nothing
else happens; otherwise the assertion wants the transport pointer null, and the connection
state is released. -/
def decref_p9conn (p : Process) (c : Nat) : Run Process :=
  match p.get c with
  | .error x => .error x
  | .ok cn =>
    let p1 := p.set c { cn with ref := cn.ref - 1 }
    if cn.ref - 1 > 0 then .ok p1
    else if cn.conn then .error (Abort.assertion, p1)
    else .ok { p1 with conns := Map.erase p1.conns c }

/-- The destructor Fid::~Fid of a Fid with the number `fid` whose member `conn` refers to
the connection `c`: the freefid callback of the handler table of the connection, if it is
set, and decref_p9conn. -/
def destructFid (E : Env) (p : Process) (c fid : Nat) : Run Process :=
  match p.get c with
  | .error x => .error x
  | .ok cn =>
    decref_p9conn
      (if (E.srvs cn.srv).freefid then { p with log := p.log ++ [Event.freefid cn.srv fid] }
       else p) c

/-- The function createfid on the connection `c` (its fid map and, as the third argument,
the connection itself). The expression
`map.emplace(std::make_pair(fid, Fid(fid, map, p9conn)))` constructs a temporary Fid, which
counts a reference, copies it into the pair and the pair into a node of the map; a node
whose key is taken is destroyed at once; the pair and the temporary are destroyed at the end
of the expression. The result is the pointer to the new entry, or nullptr. -/
def createfid (E : Env) (p : Process) (c fid : Nat) : Run (Process × Ptr) :=
  match p.get c with
  | .error x => .error x
  | .ok cn =>
    let made : Int := cn.ref + 1 + (if E.copyCounts then 2 else 0)
    match Map.emplace cn.fidmap fid { fid := fid } with
    | (m, true) =>
      match destructFid E (p.set c { cn with ref := made, fidmap := m }) c fid with
      | .error x => .error x
      | .ok p1 =>
        match destructFid E p1 c fid with
        | .error x => .error x
        | .ok p2 => .ok (p2, some (c, fid))
    | (_, false) =>
      match destructFid E (p.set c { cn with ref := made }) c fid with
      | .error x => .error x
      | .ok p1 =>
        match destructFid E p1 c fid with
        | .error x => .error x
        | .ok p2 =>
          match destructFid E p2 c fid with
          | .error x => .error x
          | .ok p3 => .ok (p3, none)

/-- The function destroyfid on the connection `c`: the entry of the key leaves the fid map
of `c`, and with it the Fid is destroyed. A Fid of the fid map of a connection refers to
that connection, since createfid makes it so. -/
def destroyfid (E : Env) (p : Process) (c fid : Nat) : Run Process :=
  match p.get c with
  | .error x => .error x
  | .ok cn =>
    match Map.find cn.fidmap fid with
    | none => .ok p
    | some f => destructFid E (p.set c { cn with fidmap := Map.erase cn.fidmap fid }) c f.fid

/-! ### Req9::respond (request.cc, lines 341-464) -/

/-- The switch on the request type at the head of respond (lines 348-427), on the
connection `r.conn` of the request. `nested` is respond itself, for the request that a
Tflush names. -/
def respondSwitch (E : Env)
    (nested : Process → Req9 → Option String → Run (Process × Fcall))
    (p : Process) (r : Req9) (error : Option String) :
    Run (Process × Fcall × Option String) :=
  let t := r.ifcall.type
  if t = FType.TVersion then
    match error with
    | some _ => .error (Abort.assertion, p)
    | none =>
      match p.get r.conn with
      | .error x => .error x
      | .ok cn =>
        let msize : Int := min (toInt32 r.ofcall.msize) (E.maxMsg : Int)
        .ok (p.set r.conn { cn with rmsg := toUInt32 msize, wmsg := toUInt32 msize },
             { r.ofcall with msize := toUInt32 msize }, error)
  else if t = FType.TAttach then
    match error with
    | some _ =>
      match p.deref r.fid with
      | .error x => .error x
      | .ok f =>
        match destroyfid E p r.conn f.fid with
        | .error x => .error x
        | .ok p1 => .ok (p1, r.ofcall, error)
    | none => .ok (p, r.ofcall, error)
  else if t = FType.TOpen ∨ t = FType.TCreate then
    match error with
    | none =>
      match p.get r.conn with
      | .error x => .error x
      | .ok cn =>
        match p.deref r.fid with
        | .error x => .error x
        | .ok f =>
          let ofcall := { r.ofcall with iounit := toUInt32 ((cn.rmsg : Int) - 24) }
          .ok (p.store r.fid { f with iounit := ofcall.iounit, omode := toInt8 r.ifcall.mode,
                                      qid := ofcall.qid }, ofcall, error)
    | some _ => .ok (p, r.ofcall, error)
  else if t = FType.TWalk then
    if error.isSome ∨ r.ofcall.nwqid < r.ifcall.nwname then
      let error1 := if error.isNone ∧ r.ofcall.nwqid = 0 then some Enofile else error
      if r.ifcall.fid ≠ r.ifcall.newfid ∧ r.newfid.isSome then
        match p.deref r.newfid with
        | .error x => .error x
        | .ok nf =>
          match destroyfid E p r.conn nf.fid with
          | .error x => .error x
          | .ok p1 => .ok (p1, r.ofcall, error1)
      else .ok (p, r.ofcall, error1)
    else
      match p.deref r.newfid with
      | .error x => .error x
      | .ok nf =>
        if r.ofcall.nwqid = 0 then
          match p.deref r.fid with
          | .error x => .error x
          | .ok f => .ok (p.store r.newfid { nf with qid := f.qid }, r.ofcall, error)
        else
          match r.ofcall.wqid[r.ofcall.nwqid - 1]? with
          | none => .error (Abort.unsetCell, p)
          | some q => .ok (p.store r.newfid { nf with qid := q }, r.ofcall, error)
  else if t = FType.TWrite then .ok (p, r.ofcall, error)
  else if t = FType.TRemove ∨ t = FType.TClunk then
    match r.fid with
    | none => .ok (p, r.ofcall, error)
    | some _ =>
      match p.deref r.fid with
      | .error x => .error x
      | .ok f =>
        match destroyfid E p r.conn f.fid with
        | .error x => .error x
        | .ok p1 => .ok (p1, r.ofcall, error)
  else if t = FType.TFlush then
    match p.get r.conn with
    | .error x => .error x
    | .ok cn =>
      match Map.find cn.tagmap r.ifcall.oldtag with
      | none => .ok (p, r.ofcall, error)
      | some oldreq =>
        match nested p oldreq (some Eintr) with
        | .error x => .error x
        | .ok (p1, _) => .ok (p1, r.ofcall, error)
  else if t = FType.TWStat ∨ t = FType.TRead ∨ t = FType.TStat then .ok (p, r.ofcall, error)
  else
    match error with
    | none => .error (Abort.assertion, p)
    | some _ => .ok (p, r.ofcall, error)

/-- The reply as lines 429-436 complete it: the tag of the request, and the request type
plus one (a uint8) or RError with the error string. -/
def reply (ifcall ofcall : Fcall) (error : Option String) : Fcall :=
  match error with
  | none => { ofcall with tag := ifcall.tag, type := (ifcall.type + 1) % 256 }
  | some e => { ofcall with tag := ifcall.tag, type := FType.RError, ename := e }

/-- Lines 442-463: the tag leaves the tag map of the connection; when the transport pointer
is set the reply is encoded and handed to sendmsg, and hangup is called if it was not sent
whole; decref_p9conn ends the call. -/
def finish (E : Env) (p : Process) (r : Req9) (o : Fcall) : Run (Process × Fcall) :=
  match p.get r.conn with
  | .error x => .error x
  | .ok cn =>
    let p1 := p.set r.conn { cn with tagmap := Map.erase cn.tagmap r.ifcall.tag }
    if cn.conn then
      if E.whole o then
        match decref_p9conn { p1 with log := p1.log ++ [Event.send r.conn o] } r.conn with
        | .error x => .error x
        | .ok p2 => .ok (p2, o)
      else .error (Abort.hangup, { p1 with log := p1.log ++ [Event.send r.conn o] })
    else
      match decref_p9conn p1 r.conn with
      | .error x => .error x
      | .ok p2 => .ok (p2, o)

/-- The method Req9::respond. The first argument bounds the depth of the nested respond
calls of the Tflush case. The result is the state after the call and the reply. -/
def respond (E : Env) : Nat → Process → Req9 → Option String → Run (Process × Fcall)
  | 0, p, _, _ => .error (Abort.outOfFuel, p)
  | fuel + 1, p, r, error =>
    match respondSwitch E (respond E fuel) p r error with
    | .error x => .error x
    | .ok (p1, ofcall, error1) => finish E p1 r (reply r.ifcall ofcall error1)

/-! ### The dispatcher handlereq (request.cc, lines 144-326) -/

/-- The request handed to the dispatcher is the entry of its tag in the tag map of its
connection: what the dispatcher or a handler stores in it is stored there. -/
def commit (p : Process) (r : Req9) : Process :=
  match Map.find p.conns r.conn with
  | none => p
  | some cn => p.set r.conn { cn with tagmap := Map.assign cn.tagmap r.ifcall.tag r }

/-- A call `r.respond(error)` made by the dispatcher. -/
def answer (E : Env) (fuel : Nat) (p : Process) (r : Req9) (error : Option String) :
    Run Process :=
  match respond E fuel (commit p r) r error with
  | .error x => .error x
  | .ok (p1, _) => .ok p1

/-- A call `srv->h(&r)` of a handler of the handler table `srv`: the call is logged, what
the handler stores in the fid and in the reply is stored, and the handler's own call of
respond, if it makes one before it returns, is run. -/
def invoke (E : Env) (fuel : Nat) (srv : Nat) (h : Handler)
    (f : Process → Req9 → Reaction) (p : Process) (r : Req9) : Run Process :=
  let p0 := commit p r
  let p1 : Process := { p0 with log := p0.log ++ [Event.call srv h r.conn r.ifcall] }
  let re := f p1 r
  let p2 : Process :=
    match re.fidqid, p1.deref r.fid with
    | some q, .ok fd => p1.store r.fid { fd with qid := q }
    | _, _ => p1
  let r1 : Req9 := { r with ofcall := re.ofcall }
  match re.answer with
  | none => .ok (commit p2 r1)
  | some e => answer E fuel p2 r1 e

/-- An optional handler slot: "function not implemented" when the slot is empty. -/
def invokeOpt (E : Env) (fuel : Nat) (srv : Nat) (h : Handler)
    (slot : Option (Process → Req9 → Reaction)) (p : Process) (r : Req9) : Run Process :=
  match slot with
  | none => answer E fuel p r (some Enofunc)
  | some f => invoke E fuel srv h f p r

/-- A call `srv->h(&r)` of a slot that was not tested: calling an empty std::function
throws. The entries of Tcreate and Topen test the slot of the table that the captured
connection refers to and call the slot of the captured table. -/
def invokeSet (E : Env) (fuel : Nat) (srv : Nat) (h : Handler)
    (slot : Option (Process → Req9 → Reaction)) (p : Process) (r : Req9) : Run Process :=
  match slot with
  | none => .error (Abort.badFunctionCall, p)
  | some f => invoke E fuel srv h f p r

/-- The method Conn9::retrieveFid on the connection `a`, as a nullable pointer. -/
def retrieveFid (cn : Conn9) (a id : Nat) : Ptr :=
  match Map.find cn.fidmap id with
  | some _ => some (a, id)
  | none => none

/-- The method Conn9::retrieveTag on the connection `a`, as a nullable pointer. -/
def retrieveTag (cn : Conn9) (a id : Nat) : Ptr :=
  match Map.find cn.tagmap id with
  | some _ => some (a, id)
  | none => none

/-- The entries of the dispatch table that use the captured connection `a` and the captured
handler table `sv`: every entry but the one of Tversion. `cn` is the state of the captured
connection. -/
def entry (E : Env) (fuel : Nat) (a sv : Nat) (cn : Conn9) (p : Process) (r : Req9) :
    Run Process :=
  let t := r.ifcall.type
  let srv := E.srvs sv
  if t = FType.TAttach then
    match createfid E p a r.ifcall.fid with
    | .error x => .error x
    | .ok (p1, none) => answer E fuel p1 { r with fid := none } (some Edupfid)
    | .ok (p1, some k) => invoke E fuel sv Handler.attach srv.attach p1 { r with fid := some k }
  else if t = FType.TClunk then
    match retrieveFid cn a r.ifcall.fid with
    | none => answer E fuel p { r with fid := none } (some Enofid)
    | some k =>
      match srv.clunk with
      | none => answer E fuel p { r with fid := some k } none
      | some f => invoke E fuel sv Handler.clunk f p { r with fid := some k }
  else if t = FType.TFlush then
    match retrieveTag cn a r.ifcall.oldtag with
    | none => answer E fuel p { r with oldreq := none } (some Enotag)
    | some o => invokeOpt E fuel sv Handler.flush srv.flush p { r with oldreq := some o }
  else if t = FType.TCreate then
    match Map.find cn.fidmap r.ifcall.fid with
    | none => answer E fuel p { r with fid := none } (some Enofid)
    | some fd =>
      let r1 : Req9 := { r with fid := some (a, r.ifcall.fid) }
      if fd.omode ≠ -1 then answer E fuel p r1 (some Eopen)
      else if fd.qid.type &&& QType.DIR = 0 then answer E fuel p r1 (some Enotdir)
      else
        match (E.srvs cn.srv).create with
        | none => answer E fuel p r1 (some Enofunc)
        | some _ => invokeSet E fuel sv Handler.create srv.create p r1
  else if t = FType.TOpen then
    match Map.find cn.fidmap r.ifcall.fid with
    | none => answer E fuel p { r with fid := none } (some Enofid)
    | some fd =>
      let r1 : Req9 := { r with fid := some (a, r.ifcall.fid) }
      if fd.qid.type &&& QType.DIR ≠ 0 ∧
          r.ifcall.mode ||| OMode.RCLOSE ≠ OMode.READ ||| OMode.RCLOSE then
        answer E fuel p r1 (some Eisdir)
      else
        match (E.srvs cn.srv).open_ with
        | none =>
          answer E fuel p { r1 with ofcall := { r1.ofcall with qid := fd.qid } } (some Enofunc)
        | some _ =>
          invokeSet E fuel sv Handler.open_ srv.open_ p
            { r1 with ofcall := { r1.ofcall with qid := fd.qid } }
  else if t = FType.TRead then
    match Map.find cn.fidmap r.ifcall.fid with
    | none => answer E fuel p { r with fid := none } (some Enofid)
    | some fd =>
      let r1 : Req9 := { r with fid := some (a, r.ifcall.fid) }
      if fd.omode = -1 ∨ fd.omode = (OMode.WRITE : Int) then
        answer E fuel p r1 (some Enoread)
      else invokeOpt E fuel sv Handler.read srv.read p r1
  else if t = FType.TRemove then
    match retrieveFid cn a r.ifcall.fid with
    | none => answer E fuel p { r with fid := none } (some Enofid)
    | some k => invokeOpt E fuel sv Handler.remove srv.remove p { r with fid := some k }
  else if t = FType.TStat then
    match retrieveFid cn a r.ifcall.fid with
    | none => answer E fuel p { r with fid := none } (some Enofid)
    | some k => invokeOpt E fuel sv Handler.stat srv.stat p { r with fid := some k }
  else if t = FType.TWalk then
    match Map.find cn.fidmap r.ifcall.fid with
    | none => answer E fuel p { r with fid := none } (some Enofid)
    | some fd =>
      let r1 : Req9 := { r with fid := some (a, r.ifcall.fid) }
      if fd.omode ≠ -1 then answer E fuel p r1 (some "cannot walk from an open fid")
      else if r.ifcall.nwname ≠ 0 ∧ fd.qid.type &&& QType.DIR = 0 then
        answer E fuel p r1 (some Enotdir)
      else if r.ifcall.fid ≠ r.ifcall.newfid then
        match createfid E p a r.ifcall.newfid with
        | .error x => .error x
        | .ok (p1, none) => answer E fuel p1 { r1 with newfid := none } (some Edupfid)
        | .ok (p1, some k) =>
          invokeOpt E fuel sv Handler.walk srv.walk p1 { r1 with newfid := some k }
      else invokeOpt E fuel sv Handler.walk srv.walk p { r1 with newfid := r1.fid }
  else if t = FType.TWrite then
    match Map.find cn.fidmap r.ifcall.fid with
    | none => answer E fuel p { r with fid := none } (some Enofid)
    | some fd =>
      let r1 : Req9 := { r with fid := some (a, r.ifcall.fid) }
      if land3 fd.omode ≠ OMode.WRITE ∧ land3 fd.omode ≠ OMode.RDWR then
        answer E fuel p r1 (some "write on fid not opened for writing")
      else invokeOpt E fuel sv Handler.write srv.write p r1
  else if t = FType.TWStat then
    match Map.find cn.fidmap r.ifcall.fid with
    | none => answer E fuel p { r with fid := none } (some Enofid)
    | some fd =>
      let r1 : Req9 := { r with fid := some (a, r.ifcall.fid) }
      let st := r.ifcall.stat
      if notPromoted st.type then answer E fuel p r1 (some "wstat of type")
      else if notUnsigned 32 st.dev then answer E fuel p r1 (some "wstat of dev")
      else if notPromoted st.qid.type ∨ notUnsigned 32 st.qid.version ∨
          notUnsigned 64 st.qid.path then
        answer E fuel p r1 (some "wstat of qid")
      else if st.muid ≠ "" then answer E fuel p r1 (some "wstat of muid")
      else if notUnsigned 32 st.mode ∧
          (st.mode &&& DMode.DIR) >>> 24 ≠ fd.qid.type &&& QType.DIR then
        answer E fuel p r1 (some "wstat on DMDIR bit")
      else invokeOpt E fuel sv Handler.wstat srv.wstat p r1
  else answer E fuel p r (some Enofunc)

/-- The request types that have an entry in the dispatch table which uses the captured
connection. -/
def captured : List Nat :=
  [FType.TAttach, FType.TClunk, FType.TFlush, FType.TCreate, FType.TOpen, FType.TRead,
   FType.TRemove, FType.TStat, FType.TWalk, FType.TWrite, FType.TWStat]

/-- The function handlereq. The dispatch table is a static local: it is built by the first
call, and its entries keep a reference to the connection of that call and a copy of the
pointer to its handler table; every later call, for whatever connection, runs these
entries. The entry of Tversion captures nothing; a type without entry is answered "function
not implemented". -/
def handlereq (E : Env) (fuel : Nat) (p : Process) (r : Req9) : Run Process :=
  match p.get r.conn with
  | .error x => .error x
  | .ok own =>
    let tb : Nat × Nat := p.table.getD (r.conn, own.srv)
    let p1 : Process := { p with table := some tb }
    let t := r.ifcall.type
    if t = FType.TVersion then
      let version :=
        if cstr r.ifcall.version = "9P" then "9P"
        else if cstr r.ifcall.version = "9P2000" then "9P2000"
        else "unknown"
      answer E fuel p1
        { r with ofcall := { r.ofcall with version := version, msize := r.ifcall.msize } } none
    else if t ∈ captured then
      match p1.get tb.1 with
      | .error x => .error x
      | .ok cn => entry E fuel tb.1 tb.2 cn p1 r
    else answer E fuel p1 r (some Enofunc)

/-! ### The read path handlefcall (request.cc, lines 95-126) -/

/-- The request that handlefcall builds around a decoded Fcall for the connection `c`:
the declaration `Req9 req;` gives no value to the pointers fid, newfid and oldreq and to the
reply, which hold what `unset` holds; the connection and the request are assigned. -/
def incoming (unset : Req9) (c : Nat) (fcall : Fcall) : Req9 :=
  { unset with conn := c, ifcall := fcall }

/-- The function handlefcall on the connection `c` after a message was received and decoded
into `fcall`: the reference count grows by one, the transport pointer is set, and the
request is installed in the tag map under its tag and dispatched, or answered with
"tag in use" when the tag is taken. -/
def handlefcall (E : Env) (fuel : Nat) (p : Process) (c : Nat) (unset : Req9)
    (fcall : Fcall) : Run Process :=
  match p.get c with
  | .error x => .error x
  | .ok cn =>
    let req := incoming unset c fcall
    let cn1 : Conn9 := { cn with ref := cn.ref + 1, conn := true }
    match Map.emplace cn1.tagmap fcall.tag req with
    | (m, true) => handlereq E fuel (p.set c { cn1 with tagmap := m }) req
    | (_, false) =>
      match respond E fuel (p.set c cn1) req (some Eduptag) with
      | .error x => .error x
      | .ok (p1, _) => .ok p1

/-- What happens to the process, one step at a time: a connection is accepted at an address
for a handler table; a decoded request arrives on a connection; the handler that was left
with the request of a tag fills the reply and calls respond. -/
inductive Step where
  | accept (c srv : Nat)
  | arrive (c : Nat) (unset : Req9) (fcall : Fcall)
  | answer (c tag : Nat) (fill : Fcall → Fcall) (error : Option String)

/-- One step of the process. -/
def step (E : Env) (fuel : Nat) (p : Process) : Step → Run Process
  | .accept c srv => .ok (p.serve9conn c srv)
  | .arrive c unset fcall => handlefcall E fuel p c unset fcall
  | .answer c tag fill error =>
    match p.get c with
    | .error x => .error x
    | .ok cn =>
      match Map.find cn.tagmap tag with
      | none => .error (Abort.danglingPointer, p)
      | some r =>
        match respond E fuel (commit p { r with ofcall := fill r.ofcall })
            { r with ofcall := fill r.ofcall } error with
        | .error x => .error x
        | .ok (p1, _) => .ok p1

/-- A run of the process over a list of steps, up to the first step that does not
return. -/
def run (E : Env) (fuel : Nat) : Process → List Step → Run Process
  | p, [] => .ok p
  | p, s :: rest =>
    match step E fuel p s with
    | .error x => .error x
    | .ok p1 => run E fuel p1 rest

end Process

/-! ### Example handler tables and runs of the server process -/

/-- A handler that fills nothing in and answers at once with no error. -/
def exAtOnce : Process → Process.Req9 → Reaction :=
  fun _ r => { ofcall := r.ofcall, answer := some none }

/-- A handler that keeps the request and answers later. -/
def exDefer : Process → Process.Req9 → Reaction := fun _ r => { ofcall := r.ofcall }

/-- An attach handler that stores the qid of a directory in the fid and in the reply and
answers at once. -/
def exAttachAtOnce : Process → Process.Req9 → Reaction := fun _ r =>
  { fidqid := some { type := QType.DIR, path := 1 },
    ofcall := { r.ofcall with qid := { type := QType.DIR, path := 1 } },
    answer := some none }

/-- An attach handler that stores the qid of a directory in the fid and in the reply and
answers later. -/
def exAttachDefer : Process → Process.Req9 → Reaction := fun _ r =>
  { fidqid := some { type := QType.DIR, path := 1 },
    ofcall := { r.ofcall with qid := { type := QType.DIR, path := 1 } } }

/-- A walk handler that answers at once with one qid for each name. -/
def exWalkAtOnce : Process → Process.Req9 → Reaction := fun _ r =>
  { ofcall := { r.ofcall with nwqid := r.ifcall.nwname,
                              wqid := List.replicate r.ifcall.nwname { path := 7 } },
    answer := some none }

/-- The handler table of a file server whose handlers answer at once with no error. -/
def exServerAtOnce : Process.Srv9 :=
  { attach := exAttachAtOnce, clunk := some exAtOnce, open_ := some exAtOnce,
    read := some exAtOnce, walk := some exWalkAtOnce, write := some exAtOnce,
    remove := some exAtOnce, stat := some exAtOnce }

/-- The handler table of a file server whose handlers keep every request and answer later;
it has no clunk handler, and the root it attaches is a directory. -/
def exServerDefer : Process.Srv9 :=
  { attach := exAttachDefer, open_ := some exDefer, read := some exDefer,
    walk := some exDefer, write := some exDefer, remove := some exDefer,
    stat := some exDefer, flush := some exDefer, create := some exDefer }

/-- The handler table exServerDefer with a root that is a plain file. -/
def exServerFile : Process.Srv9 := { exServerDefer with attach := exDefer }

/-- The process as request.cc gives it: maximum::Msg is 8192, a copy of a Fid counts no
reference, every reply is sent whole; the handler table 0 answers at once, the handler
table 1 answers later, the handler table 2 answers later and serves a plain file. -/
def exEnv : Process.Env :=
  { maxMsg := 8192, copyCounts := false, whole := fun _ => true,
    srvs := fun n => if n = 0 then exServerAtOnce else if n = 1 then exServerDefer
                     else exServerFile }

/-- The process exEnv, had the class Fid a copy constructor that counts a reference. -/
def exEnvCounting : Process.Env := { exEnv with copyCounts := true }

/-- A request whose unset members hold null pointers and an empty reply. -/
def exUnset : Process.Req9 := {}

/-- The state in which handlefcall hands a request with a free tag to handlereq and
handlereq to the entry of the dispatch table: the request is counted, the transport pointer
is set, the request is in the tag map under its tag, and the dispatch table is built. -/
def Process.arrived (p : Process) (c : Nat) (unset : Process.Req9) (fcall : Fcall) : Process :=
  match Map.find p.conns c with
  | none => p
  | some cn =>
    { conns := Map.assign p.conns c
        { cn with ref := cn.ref + 1, conn := true,
                  tagmap := cn.tagmap ++ [(fcall.tag, Process.incoming unset c fcall)] },
      table := some (p.table.getD (c, cn.srv)),
      log := p.log }

/-- The process after a connection was accepted for the handler table 1 and a Tattach of
fid 0 arrived, which the attach handler keeps: fid 0 is a directory and is not open. -/
def exAttachedDir : Process :=
  Run.ended id (Process.run exEnv 1 {}
    [Process.Step.accept 0 1,
     Process.Step.arrive 0 exUnset { type := FType.TAttach, tag := 1, fid := 0 }])

/-- The process after a connection was accepted for the handler table 2 and a Tattach of
fid 0 arrived, which the attach handler keeps: fid 0 is a plain file and is not open. -/
def exAttachedFile : Process :=
  Run.ended id (Process.run exEnv 1 {}
    [Process.Step.accept 0 2,
     Process.Step.arrive 0 exUnset { type := FType.TAttach, tag := 1, fid := 0 }])

/-- The process exAttachedFile after a Topen of fid 0 with the mode RDWR was answered with
no error. -/
def exOpenedRdwr : Process :=
  Run.ended id (Process.run exEnv 1 exAttachedFile
    [Process.Step.arrive 0 exUnset
       { type := FType.TOpen, tag := 2, fid := 0, mode := OMode.RDWR },
     Process.Step.answer 0 2 id none])

/-- The process exAttachedFile after a Topen of fid 0 arrived, which the open handler
keeps. -/
def exOpenPending : Process :=
  Run.ended id (Process.run exEnv 1 exAttachedFile
    [Process.Step.arrive 0 exUnset { type := FType.TOpen, tag := 2, fid := 0 }])

/-- The pending Topen of exOpenPending, as it is in the tag map. -/
def exOpenPendingReq : Process.Req9 :=
  { conn := 0, fid := some (0, 0), ifcall := { type := FType.TOpen, tag := 2, fid := 0 } }

/-- The process exOpenedRdwr after a Tread and a Tstat of fid 0 and a Tflush of the Tread
arrived, which the handlers keep. -/
def exFlushPending : Process :=
  Run.ended id (Process.run exEnv 1 exOpenedRdwr
    [Process.Step.arrive 0 exUnset { type := FType.TRead, tag := 3, fid := 0, count := 100 },
     Process.Step.arrive 0 exUnset { type := FType.TStat, tag := 5, fid := 0 },
     Process.Step.arrive 0 exUnset { type := FType.TFlush, tag := 4, oldtag := 3 }])

/-- The pending Tread of exFlushPending, as it is in the tag map. -/
def exReadPendingReq : Process.Req9 :=
  { conn := 0, fid := some (0, 0),
    ifcall := { type := FType.TRead, tag := 3, fid := 0, count := 100 } }

/-- The pending Tflush of exFlushPending, as it is in the tag map. -/
def exFlushPendingReq : Process.Req9 :=
  { conn := 0, oldreq := some (0, 3), ifcall := { type := FType.TFlush, tag := 4, oldtag := 3 } }

/-- A connection whose transport pointer is null (cleanupconn resets it when the
connection is hung up) on which a Tread with tag 3 and a Tflush of it with tag 4 are
pending. -/
def exHungUpProcess : Process :=
  { conns := [(0, { tagmap := [(3, exReadPendingReq), (4, exFlushPendingReq)],
                    rmsg := 1024, wmsg := 1024, conn := false, ref := 3, srv := 2 })],
    table := some (0, 2) }

/-- From the state `p` to the state `q` the dispatch table is kept, no connection appears,
and no connection other than `a` gets a fid into an empty fid map. -/
def Process.keepsFids (a : Option Nat) (p q : Process) : Prop :=
  q.table = p.table ∧
  ∀ c cn1, a ≠ some c → Map.find q.conns c = some cn1 →
    ∃ cn, Map.find p.conns c = some cn ∧ (cn.fidmap = [] → cn1.fidmap = [])

/-- Every fid of the process is in the fid map of the connection that the dispatch table
kept. -/
def Process.fidsAtTable (p : Process) : Prop :=
  ∀ c cn, Map.find p.conns c = some cn → cn.fidmap ≠ [] → ∃ sv, p.table = some (c, sv)

/-! ## Lemmas on maps -/

theorem Map.find_erase_self {α : Type} (m : Map α) (k : Nat) : Map.find (Map.erase m k) k = none := by
  induction m with
  | nil => rfl
  | cons e m ih =>
    obtain ⟨k', v⟩ := e
    by_cases hk : k' = k <;> simp [Map.erase, Map.find, hk, ih]

theorem Map.find_erase_ne {α : Type} (m : Map α) (k j : Nat) (h : j ≠ k) :
    Map.find (Map.erase m k) j = Map.find m j := by
  induction m with
  | nil => rfl
  | cons e m ih =>
    obtain ⟨k', v⟩ := e
    by_cases hk : k' = k
    · subst hk
      have : ¬ k' = j := fun h' => h h'.symm
      simp [Map.erase, Map.find, ih, this]
    · by_cases hj : k' = j
      · subst hj
        simp [Map.erase, Map.find, hk]
      · simp [Map.erase, Map.find, hk, hj, ih]

theorem Map.find_assign_self {α : Type} (m : Map α) (k : Nat) (v w : α)
    (h : Map.find m k = some v) : Map.find (Map.assign m k w) k = some w := by
  induction m with
  | nil => simp [Map.find] at h
  | cons e m ih =>
    obtain ⟨k', v'⟩ := e
    by_cases hk : k' = k
    · simp [Map.assign, Map.find, hk]
    · simp [Map.find, hk] at h
      simp [Map.assign, Map.find, hk, ih h]

theorem Map.find_assign_ne {α : Type} (m : Map α) (k j : Nat) (w : α) (h : j ≠ k) :
    Map.find (Map.assign m k w) j = Map.find m j := by
  induction m with
  | nil => rfl
  | cons e m ih =>
    obtain ⟨k', v'⟩ := e
    by_cases hk : k' = k
    · subst hk
      have : ¬ k' = j := fun h' => h h'.symm
      simp [Map.assign, Map.find, ih, this]
    · by_cases hj : k' = j
      · subst hj
        simp [Map.assign, Map.find, hk]
      · simp [Map.assign, Map.find, hk, hj, ih]

theorem Map.erase_assign {α : Type} (m : Map α) (k : Nat) (w : α) :
    Map.erase (Map.assign m k w) k = Map.erase m k := by
  induction m with
  | nil => rfl
  | cons e m ih =>
    obtain ⟨k', v'⟩ := e
    by_cases hk : k' = k <;> simp [Map.assign, Map.erase, hk, ih]

theorem Map.find_append {α : Type} (m : Map α) (k j : Nat) (v : α) :
    Map.find (m ++ [(k, v)]) j = (Map.find m j).orElse (fun _ => if k = j then some v else none) := by
  induction m with
  | nil => by_cases hk : k = j <;> simp [Map.find, hk]
  | cons e m ih =>
    obtain ⟨k', v'⟩ := e
    by_cases hk : k' = j <;> simp [Map.find, hk, ih]

theorem Map.erase_append_new {α : Type} (m : Map α) (k : Nat) (v : α)
    (h : Map.find m k = none) : Map.erase (m ++ [(k, v)]) k = m := by
  induction m with
  | nil => simp [Map.erase]
  | cons e m ih =>
    obtain ⟨k', v'⟩ := e
    by_cases hk : k' = k
    · simp [Map.find, hk] at h
    · simp [Map.find, hk] at h
      simp [Map.erase, hk, ih h]

/-! ## Lemmas on the dispatcher -/

theorem handlefcall_free (maxMsg : Nat) (srv : Srv9) (fuel : Nat) (s : State) (fcall : Fcall)
    (hfree : Map.find s.p9conn.tagmap fcall.tag = none) :
    handlefcall maxMsg srv fuel s fcall
      = handlereq maxMsg srv fuel true (arrive s fcall) (Req9.incoming fcall) := by
  simp [handlefcall, Map.emplace, hfree, arrive]

/-- With an error, the switch of respond does nothing for a request that is no Tversion,
Tattach or Tflush, holds no fid pointer if it is a Tremove or Tclunk, and holds no pointer to
a newly made fid if it is a Twalk. -/
theorem respondSwitch_error_noop (maxMsg : Nat)
    (nested : State → Req9 → Option String → Except Fault (State × Fcall))
    (s : State) (r : Req9) (e : String)
    (h1 : r.ifcall.type ≠ FType.TVersion) (h2 : r.ifcall.type ≠ FType.TAttach)
    (h3 : r.ifcall.type ≠ FType.TFlush)
    (h4 : r.ifcall.type = FType.TRemove ∨ r.ifcall.type = FType.TClunk → r.fid = none)
    (h5 : r.ifcall.type = FType.TWalk → r.ifcall.fid = r.ifcall.newfid ∨ r.newfid = none) :
    respondSwitch maxMsg nested s r (some e) = .ok (s, r.ofcall, some e) := by
  unfold respondSwitch
  simp only [FType.TVersion, FType.TAttach, FType.TFlush] at h1 h2 h3
  simp only [h1, h2, h3, if_false, FType.TVersion, FType.TAttach, FType.TFlush]
  split_ifs with a b c d
  all_goals (try rfl)
  all_goals (simp_all)

theorem answer_error_arrive (maxMsg fuel : Nat) (s : State) (fcall : Fcall) (r : Req9) (e : String)
    (hfree : Map.find s.p9conn.tagmap fcall.tag = none)
    (hr : r.ifcall = fcall)
    (h1 : fcall.type ≠ FType.TVersion) (h2 : fcall.type ≠ FType.TAttach)
    (h3 : fcall.type ≠ FType.TFlush)
    (h4 : fcall.type = FType.TRemove ∨ fcall.type = FType.TClunk → r.fid = none)
    (h5 : fcall.type = FType.TWalk → fcall.fid = fcall.newfid ∨ r.newfid = none) :
    answer maxMsg (fuel + 1) true (arrive s fcall) r (some e)
      = .ok (answered s (reply r r.ofcall (some e))) := by
  subst hr
  unfold answer
  simp only [respond, respondSwitch_error_noop maxMsg _ _ r e h1 h2 h3 h4 h5]
  simp [finish, commit, arrive, answered, Conn9.removeTag, Map.erase_assign,
    Map.erase_append_new _ _ _ hfree]

/-- The mode test of the Topen entry: or-ing RCLOSE in gives READ|RCLOSE exactly for the
modes READ and READ|RCLOSE. -/
theorem lor_rclose (m : Nat) : m ||| 64 = 0 ||| 64 ↔ m = 0 ∨ m = 64 := by
  constructor
  · intro h
    have hle : m ≤ m ||| 64 := Nat.le_of_testBit (fun i hi => by simp [hi])
    rw [h] at hle
    have hle : m ≤ 64 := hle
    interval_cases m <;> simp_all
  · rintro (h | h) <;> subst h <;> rfl

/-! ## Writing through a fid pointer -/

theorem store_fidmap (s : State) (k : Nat) (f : Fid) :
    (s.store (some k) f).p9conn.fidmap = Map.assign s.p9conn.fidmap k f := rfl

/-! ## Respond, case by case -/

theorem finish_fidmap (s : State) (r : Req9) (o : Fcall) :
    (finish s r o).p9conn.fidmap = s.p9conn.fidmap := by
  unfold finish
  simp only []
  split <;> rfl

/-- Respond without an error on a Tversion: both buffers and the msize of the reply become
the smaller of the requested msize, read as an int, and maximum::Msg. -/
theorem respond_version (maxMsg fuel : Nat) (s : State) (r : Req9)
    (ht : r.ifcall.type = FType.TVersion) :
    respond maxMsg (fuel + 1) s r none
      = .ok (finish
          { s with p9conn := { s.p9conn with
              rmsg := toUInt32 (min (toInt32 r.ofcall.msize) (maxMsg : Int)),
              wmsg := toUInt32 (min (toInt32 r.ofcall.msize) (maxMsg : Int)) } } r
          (reply r { r.ofcall with
            msize := toUInt32 (min (toInt32 r.ofcall.msize) (maxMsg : Int)) } none),
        reply r { r.ofcall with
            msize := toUInt32 (min (toInt32 r.ofcall.msize) (maxMsg : Int)) } none) := by
  simp [respond, respondSwitch, ht]

/-! ## Projections of the state after finish, commit, setFid and eraseFid -/

theorem finish_tagmap (s : State) (r : Req9) (o : Fcall) :
    (finish s r o).p9conn.tagmap = Map.erase s.p9conn.tagmap r.ifcall.tag := by
  unfold finish
  simp only []
  split <;> rfl

theorem finish_conn (s : State) (r : Req9) (o : Fcall) :
    (finish s r o).p9conn.conn = s.p9conn.conn := by
  unfold finish
  simp only []
  split <;> rfl

theorem finish_log (s : State) (r : Req9) (o : Fcall) (hc : s.p9conn.conn = true) :
    (finish s r o).log = s.log ++ [Event.send o] := by
  unfold finish
  simp [Conn9.removeTag, hc]

theorem commit_fidmap (inMap : Bool) (s : State) (r : Req9) :
    (commit inMap s r).p9conn.fidmap = s.p9conn.fidmap := by
  cases inMap <;> rfl

theorem commit_conn (inMap : Bool) (s : State) (r : Req9) :
    (commit inMap s r).p9conn.conn = s.p9conn.conn := by
  cases inMap <;> rfl

theorem commit_rmsg (inMap : Bool) (s : State) (r : Req9) :
    (commit inMap s r).p9conn.rmsg = s.p9conn.rmsg := by
  cases inMap <;> rfl

theorem commit_log (inMap : Bool) (s : State) (r : Req9) :
    (commit inMap s r).log = s.log := by
  cases inMap <;> rfl

theorem commit_tagmap (s : State) (r : Req9) :
    (commit true s r).p9conn.tagmap = Map.assign s.p9conn.tagmap r.ifcall.tag r := rfl

/-! ## The state after a reply -/

/-- Respond with an error on a Topen, Tcreate, Tread, Twrite, Tstat or Twstat changes
nothing but the tag map and the log. -/
theorem respond_error_plain (maxMsg fuel : Nat) (s : State) (r : Req9) (e : String)
    (ht : r.ifcall.type = FType.TOpen ∨ r.ifcall.type = FType.TCreate ∨
      r.ifcall.type = FType.TRead ∨ r.ifcall.type = FType.TWrite ∨
      r.ifcall.type = FType.TStat ∨ r.ifcall.type = FType.TWStat) :
    respond maxMsg (fuel + 1) s r (some e)
      = .ok (finish s r (reply r r.ofcall (some e)), reply r r.ofcall (some e)) := by
  have hsw : respondSwitch maxMsg (respond maxMsg fuel) s r (some e)
      = .ok (s, r.ofcall, some e) := by
    unfold respondSwitch
    rcases ht with h | h | h | h | h | h <;> simp [h]
  simp only [respond, hsw]

/-! ## Requests that arrive with a free tag -/

/-- The end of a request that arrived with a free tag: when respond has run on it and
left the tag map and the live connection as they were, the request is answered, the reply
is logged and the tag map is the one before the arrival. -/
theorem answer_arrive (maxMsg fuel : Nat) (s X : State) (fcall : Fcall) (r : Req9)
    (error : Option String) (o : Fcall)
    (hfree : Map.find s.p9conn.tagmap fcall.tag = none)
    (hr : r.ifcall.tag = fcall.tag)
    (h : respond maxMsg fuel (commit true (arrive s fcall) r) r error = .ok (finish X r o, o))
    (hX : X.p9conn.tagmap = (commit true (arrive s fcall) r).p9conn.tagmap)
    (hc : X.p9conn.conn = true) :
    answer maxMsg fuel true (arrive s fcall) r error
      = .ok { p9conn := { X.p9conn with tagmap := s.p9conn.tagmap },
              log := X.log ++ [Event.send o] } := by
  have ht : Map.erase X.p9conn.tagmap r.ifcall.tag = s.p9conn.tagmap := by
    rw [hX, commit_tagmap, hr]
    show Map.erase (Map.assign (s.p9conn.tagmap ++ [(fcall.tag, Req9.incoming fcall)])
      fcall.tag r) fcall.tag = _
    rw [Map.erase_assign, Map.erase_append_new _ _ _ hfree]
  simp only [answer, h]
  simp [finish, Conn9.removeTag, hc, ht]

theorem handlefcall_version (maxMsg : Nat) (srv : Srv9) (fuel : Nat) (s : State)
    (fcall : Fcall) (ht : fcall.type = FType.TVersion)
    (hfree : Map.find s.p9conn.tagmap fcall.tag = none) :
    handlefcall maxMsg srv (fuel + 1) s fcall
      = .ok { p9conn := { s.p9conn with conn := true,
                                        rmsg := versionMsize maxMsg fcall.msize,
                                        wmsg := versionMsize maxMsg fcall.msize },
              log := s.log ++ [Event.send
                { type := FType.RVersion, tag := fcall.tag,
                  version := versionString fcall.version,
                  msize := versionMsize maxMsg fcall.msize }] } := by
  rw [handlefcall_free maxMsg srv _ s fcall hfree]
  simp only [handlereq, Req9.incoming, ht, if_true]
  rw [answer_arrive maxMsg (fuel + 1) s _ fcall _ none _ hfree rfl
    (respond_version maxMsg fuel _ _ ht) rfl rfl]
  simp [reply, ht, versionMsize, versionString, commit_log, commit_fidmap, commit_rmsg,
    commit_conn, arrive]

/-- Below 2^31 the msize of the reply is the smaller of the requested msize and
maximum::Msg. -/
theorem versionMsize_clamps (maxMsg requested : Nat) (hr : requested < 2 ^ 31) :
    versionMsize maxMsg requested = min requested maxMsg := by
  unfold versionMsize toInt32 toUInt32
  have h1 : requested % 2 ^ 32 = requested := Nat.mod_eq_of_lt (by omega)
  simp only [h1, hr, if_true]
  have h2 : min (requested : Int) (maxMsg : Int) = ((min requested maxMsg : Nat) : Int) := by
    omega
  rw [h2]
  have h3 : (min requested maxMsg : Nat) < 2 ^ 32 := by omega
  omega

/-- From 2^31 on the conversion to int makes the requested msize negative, and the msize of
the reply is the requested msize, whatever maximum::Msg is. -/
theorem versionMsize_wraps (maxMsg requested : Nat) (hlo : 2 ^ 31 ≤ requested)
    (hhi : requested < 2 ^ 32) : versionMsize maxMsg requested = requested := by
  unfold versionMsize toInt32 toUInt32
  have h1 : requested % 2 ^ 32 = requested := Nat.mod_eq_of_lt hhi
  have h2 : ¬ requested < 2 ^ 31 := by omega
  simp only [h1, h2, if_false]
  have h3 : min ((requested : Int) - 2 ^ 32) (maxMsg : Int) = (requested : Int) - 2 ^ 32 := by
    omega
  rw [h3]
  omega

/-! ## Tflush -/

/-- A Tflush that is itself the request its oldtag names in the tag map: respond on it
never returns, whatever the depth allowed to the nested calls. -/
theorem respond_flush_self (maxMsg : Nat) (s : State) (r : Req9)
    (ht : r.ifcall.type = FType.TFlush)
    (hself : Map.find s.p9conn.tagmap r.ifcall.oldtag = some r) :
    ∀ (fuel : Nat) (error : Option String),
      respond maxMsg fuel s r error = .error Fault.outOfFuel := by
  intro fuel
  induction fuel with
  | zero => intro error; rfl
  | succ n ih =>
    intro error
    have hsw : respondSwitch maxMsg (respond maxMsg n) s r error = .error Fault.outOfFuel := by
      unfold respondSwitch
      simp [ht, hself, ih]
    simp only [respond, hsw]

/-- Respond on a Tflush whose oldtag names no request of the tag map: the switch does
nothing. -/
theorem respond_flush_none (maxMsg fuel : Nat) (s : State) (r : Req9) (error : Option String)
    (ht : r.ifcall.type = FType.TFlush)
    (hnone : Map.find s.p9conn.tagmap r.ifcall.oldtag = none) :
    respond maxMsg (fuel + 1) s r error
      = .ok (finish s r (reply r r.ofcall error), reply r r.ofcall error) := by
  have hsw : respondSwitch maxMsg (respond maxMsg fuel) s r error = .ok (s, r.ofcall, error) := by
    unfold respondSwitch
    simp [ht, hnone]
  simp only [respond, hsw]

/-- The Tflush entry of the dispatcher for a request that arrives with a free tag: when
oldtag names neither a pending request nor the request itself, the answer is Rerror "tag
does not exist" and nothing else happens; when oldtag names a request of the tag map, the
arriving request included, and the server has a flush handler, the request reaches the
handler. -/
theorem tflush_dispatch (maxMsg : Nat) (srv : Srv9) (fuel : Nat) (s : State) (fcall : Fcall)
    (ht : fcall.type = FType.TFlush)
    (hfree : Map.find s.p9conn.tagmap fcall.tag = none) :
    (Map.find s.p9conn.tagmap fcall.oldtag = none → fcall.oldtag ≠ fcall.tag →
      handlefcall maxMsg srv (fuel + 1) s fcall
        = .ok (answered s { type := FType.RError, tag := fcall.tag, ename := Enotag })) ∧
    (∀ h, srv.flush = some h →
      (Map.find s.p9conn.tagmap fcall.oldtag).isSome = true ∨ fcall.oldtag = fcall.tag →
      handlefcall maxMsg srv (fuel + 1) s fcall
        = invoke maxMsg (fuel + 1) true Handler.flush h (arrive s fcall)
            { Req9.incoming fcall with oldreq := some fcall.oldtag }) := by
  rw [handlefcall_free maxMsg srv _ s fcall hfree]
  have hfind : Map.find (arrive s fcall).p9conn.tagmap fcall.oldtag
      = (Map.find s.p9conn.tagmap fcall.oldtag).orElse
          (fun _ => if fcall.tag = fcall.oldtag then some (Req9.incoming fcall) else none) :=
    Map.find_append _ _ _ _
  constructor
  · intro hnone hne
    have hne' : ¬ fcall.tag = fcall.oldtag := fun h => hne h.symm
    have hnone' : Map.find (arrive s fcall).p9conn.tagmap fcall.oldtag = none := by
      rw [hfind, hnone]
      simp [hne']
    simp only [handlereq, Req9.incoming, ht, FType.TVersion, FType.TAttach, FType.TClunk,
      FType.TFlush, Conn9.retrieveTag, hnone']
    simp only [Nat.reduceEqDiff, if_false, if_true]
    have hc : Map.find (commit true (arrive s fcall)
        { oldreq := none, ifcall := fcall }).p9conn.tagmap fcall.oldtag = none := by
      rw [commit_tagmap]
      show Map.find (Map.assign (arrive s fcall).p9conn.tagmap fcall.tag _) fcall.oldtag = none
      rw [Map.find_assign_ne _ _ _ _ hne, hnone']
    rw [answer_arrive maxMsg (fuel + 1) s _ fcall _ (some Enotag) _ hfree rfl
      (respond_flush_none maxMsg fuel _ _ (some Enotag) ht hc) rfl rfl]
    simp [reply, answered, commit_log, commit_fidmap, commit_rmsg, commit_conn, arrive]
    rfl
  · intro h hh hin
    have hsome : ∃ x, Map.find (arrive s fcall).p9conn.tagmap fcall.oldtag = some x := by
      rw [hfind]
      rcases hin with h1 | h1
      · cases hx : Map.find s.p9conn.tagmap fcall.oldtag with
        | none => simp [hx] at h1
        | some x => exact ⟨x, by simp⟩
      · cases hx : Map.find s.p9conn.tagmap fcall.oldtag with
        | none => exact ⟨Req9.incoming fcall, by simp [h1]⟩
        | some x => exact ⟨x, by simp⟩
    obtain ⟨x, hx⟩ := hsome
    simp only [handlereq, Req9.incoming, ht, FType.TVersion, FType.TAttach, FType.TClunk,
      FType.TFlush, Conn9.retrieveTag, hx, invokeOpt, hh]
    simp only [Nat.reduceEqDiff, if_false, if_true]

/-! ## Respond with an error -/

/-- The switch of respond on the error path of a request that is neither a Tversion nor a
Tflush, when the fid pointers it follows point into the fid map: it returns, keeps the error
and the reply, and leaves the log, the tag map and the connection pointer as they are. -/
theorem respondSwitch_error_live (maxMsg : Nat)
    (nested : State → Req9 → Option String → Except Fault (State × Fcall))
    (s : State) (r : Req9) (e : String)
    (hv : r.ifcall.type ≠ FType.TVersion) (hf : r.ifcall.type ≠ FType.TFlush)
    (hatt : r.ifcall.type = FType.TAttach → ∃ fd, deref s.p9conn r.fid = .ok fd)
    (hwalk : r.ifcall.type = FType.TWalk → r.ifcall.fid ≠ r.ifcall.newfid →
      r.newfid.isSome = true → ∃ fd, deref s.p9conn r.newfid = .ok fd)
    (hclunk : r.ifcall.type = FType.TRemove ∨ r.ifcall.type = FType.TClunk →
      r.fid.isSome = true → ∃ fd, deref s.p9conn r.fid = .ok fd) :
    ∃ s1, respondSwitch maxMsg nested s r (some e) = .ok (s1, r.ofcall, some e) ∧
      s1.log = s.log ∧ s1.p9conn.tagmap = s.p9conn.tagmap ∧ s1.p9conn.conn = s.p9conn.conn := by
  unfold respondSwitch
  simp only [Option.isSome_some, true_or, if_true, Option.isNone_some, Bool.false_eq_true,
    false_and, if_false, if_neg hv, if_neg hf]
  by_cases h2 : r.ifcall.type = FType.TAttach
  · obtain ⟨fd, hfd⟩ := hatt h2
    simp only [if_pos h2, hfd]
    exact ⟨_, rfl, rfl, rfl, rfl⟩
  simp only [if_neg h2]
  by_cases h3 : r.ifcall.type = FType.TOpen ∨ r.ifcall.type = FType.TCreate
  · simp only [if_pos h3]
    exact ⟨_, rfl, rfl, rfl, rfl⟩
  simp only [if_neg h3]
  by_cases h4 : r.ifcall.type = FType.TWalk
  · simp only [if_pos h4]
    by_cases h6 : r.ifcall.fid ≠ r.ifcall.newfid ∧ r.newfid.isSome = true
    · obtain ⟨fd, hfd⟩ := hwalk h4 h6.1 h6.2
      simp only [if_pos h6, hfd]
      exact ⟨_, rfl, rfl, rfl, rfl⟩
    · simp only [if_neg h6]
      exact ⟨_, rfl, rfl, rfl, rfl⟩
  simp only [if_neg h4]
  by_cases h5 : r.ifcall.type = FType.TWrite
  · simp only [if_pos h5]
    exact ⟨_, rfl, rfl, rfl, rfl⟩
  simp only [if_neg h5]
  by_cases h8 : r.ifcall.type = FType.TRemove ∨ r.ifcall.type = FType.TClunk
  · simp only [if_pos h8]
    cases hfid : r.fid with
    | none => exact ⟨_, rfl, rfl, rfl, rfl⟩
    | some k =>
      obtain ⟨fd, hfd⟩ := hclunk h8 (by simp [hfid])
      rw [hfid] at hfd
      simp only [hfd]
      exact ⟨_, rfl, rfl, rfl, rfl⟩
  simp only [if_neg h8]
  split_ifs <;> exact ⟨_, rfl, rfl, rfl, rfl⟩

/-- Respond with an error on a request that is neither a Tversion nor a Tflush and whose fid
pointers on the error path point into the fid map: one Rerror with the tag of the request is
sent on a live connection and the tag leaves the tag map. -/
theorem respond_error_live (maxMsg fuel : Nat) (s : State) (r : Req9) (e : String)
    (hv : r.ifcall.type ≠ FType.TVersion) (hf : r.ifcall.type ≠ FType.TFlush)
    (hatt : r.ifcall.type = FType.TAttach → ∃ fd, deref s.p9conn r.fid = .ok fd)
    (hwalk : r.ifcall.type = FType.TWalk → r.ifcall.fid ≠ r.ifcall.newfid →
      r.newfid.isSome = true → ∃ fd, deref s.p9conn r.newfid = .ok fd)
    (hclunk : r.ifcall.type = FType.TRemove ∨ r.ifcall.type = FType.TClunk →
      r.fid.isSome = true → ∃ fd, deref s.p9conn r.fid = .ok fd)
    (hc : s.p9conn.conn = true) :
    ∃ s1, respond maxMsg (fuel + 1) s r (some e) = .ok (s1, reply r r.ofcall (some e)) ∧
      s1.log = s.log ++ [Event.send (reply r r.ofcall (some e))] ∧
      s1.p9conn.tagmap = Map.erase s.p9conn.tagmap r.ifcall.tag ∧
      s1.p9conn.conn = true := by
  obtain ⟨s0, hsw, hl, ht, hcn⟩ :=
    respondSwitch_error_live maxMsg (respond maxMsg fuel) s r e hv hf hatt hwalk hclunk
  refine ⟨finish s0 r (reply r r.ofcall (some e)), ?_, ?_, ?_, ?_⟩
  · simp only [respond, hsw]
  · rw [finish_log _ _ _ (by rw [hcn, hc]), hl]
  · rw [finish_tagmap, ht]
  · rw [finish_conn, hcn, hc]

/-! ## Lemmas on strings -/

theorem Str.find_none_iff (s : Str) (c : Char) : Str.find s c = none ↔ c ∉ s := by
  induction s with
  | nil => simp [Str.find]
  | cons x xs ih =>
    by_cases hx : x = c
    · simp [Str.find, hx]
    · have hx' : ¬ c = x := fun h => hx h.symm
      simp [Str.find, hx, hx', ih]

/-- The position find returns splits the string around the first occurrence. -/
theorem Str.find_some (s : Str) (c : Char) (i : Nat) (h : Str.find s c = some i) :
    i < s.length ∧ s.take i ++ c :: s.drop (i + 1) = s ∧ c ∉ s.take i := by
  induction s generalizing i with
  | nil => simp [Str.find] at h
  | cons x xs ih =>
    by_cases hx : x = c
    · simp only [Str.find, hx, if_true, Option.some.injEq] at h
      subst h
      simp [hx]
    · simp only [Str.find, hx, if_false, Option.map_eq_some'] at h
      obtain ⟨j, hj, rfl⟩ := h
      obtain ⟨h1, h2, h3⟩ := ih j hj
      have hx' : ¬ c = x := fun h => hx h.symm
      refine ⟨by simp [h1], ?_, ?_⟩
      · simp only [List.take_succ_cons, List.drop_succ_cons, List.cons_append, h2]
      · simp [List.take_succ_cons, hx', h3]

/-- The position of the first occurrence of a character that follows a prefix without it. -/
theorem Str.find_past_head (h p : Str) (c : Char) (hh : c ∉ h) :
    Str.find (h ++ c :: p) c = some h.length := by
  induction h with
  | nil => simp [Str.find]
  | cons x xs ih =>
    have hx : ¬ x = c := fun e => hh (by simp [e])
    have hxs : c ∉ xs := fun e => hh (by simp [e])
    simp [Str.find, hx, ih hxs]

/-! ## The tag table of the client -/

/-- A scanning loop of gettag that stays inside the table returns the first free index of
its range, or none when every slot of the range is taken. -/
theorem scan_spec (wait : List (Option Nat)) (n : Nat) :
    ∀ i, i + n ≤ wait.length →
      (∃ k, scan wait i n = .ok (some k) ∧ i ≤ k ∧ k < i + n ∧ wait[k]? = some none ∧
        ∀ j, i ≤ j → j < k → ∃ r, wait[j]? = some (some r)) ∨
      (scan wait i n = .ok none ∧ ∀ j, i ≤ j → j < i + n → ∃ r, wait[j]? = some (some r)) := by
  induction n with
  | zero =>
    intro i _
    right
    exact ⟨rfl, fun j h1 h2 => by omega⟩
  | succ n ih =>
    intro i hi
    have hlt : i < wait.length := by omega
    cases hw : wait[i]? with
    | none =>
      rw [List.getElem?_eq_none_iff] at hw
      omega
    | some w =>
      cases w with
      | none =>
        left
        exact ⟨i, by simp [scan, hw], le_refl _, by omega, hw, fun j h1 h2 => by omega⟩
      | some r =>
        have hstep : scan wait i (n + 1) = scan wait (i + 1) n := by simp [scan, hw]
        rcases ih (i + 1) (by omega) with ⟨k, h1, h2, h3, h4, h5⟩ | ⟨h1, h2⟩
        · left
          refine ⟨k, by rw [hstep, h1], by omega, by omega, h4, fun j hj1 hj2 => ?_⟩
          by_cases hji : j = i
          · subst hji
            exact ⟨r, hw⟩
          · exact h5 j (by omega) hj2
        · right
          refine ⟨by rw [hstep, h1], fun j hj1 hj2 => ?_⟩
          by_cases hji : j = i
          · subst hji
            exact ⟨r, hw⟩
          · exact h2 j (by omega) (by omega)

/-- A table with fewer taken slots than slots has a free slot. -/
theorem exists_free_slot (wait : List (Option Nat))
    (h : (wait.filter Option.isSome).length < wait.length) :
    ∃ j : Nat, wait[j]? = some none := by
  induction wait with
  | nil => simp at h
  | cons w ws ih =>
    cases w with
    | none => exact ⟨0, by simp⟩
    | some r =>
      have h' : (ws.filter Option.isSome).length < ws.length := by
        simpa [List.filter] using h
      obtain ⟨j, hj⟩ := ih h'
      exact ⟨j + 1, by simpa using hj⟩

/-- A scanning loop never blocks. -/
theorem scan_ne_sleeps (wait : List (Option Nat)) (n : Nat) :
    ∀ i, scan wait i n ≠ .error Halt.sleeps := by
  induction n with
  | zero => intro i; simp [scan]
  | succ n ih =>
    intro i
    unfold scan
    split
    · simp
    · simp
    · exact ih (i + 1)

/-- The probe and the scans of gettag never block. -/
theorem probe_ne_sleeps (c : Client) (r : Nat) : c.probe r ≠ .error Halt.sleeps := by
  unfold Client.probe
  split
  · simp
  · simp
  · split
    · rename_i x hx
      intro h
      simp only [Except.error.injEq] at h
      subst h
      exact scan_ne_sleeps _ _ _ hx
    · simp
    · split
      · rename_i x hx
        intro h
        simp only [Except.error.injEq] at h
        subst h
        exact scan_ne_sleeps _ _ _ hx
      · simp
      · simp

/-- The calls of gettag that block: the table is full and may not grow. -/
theorem gettag_sleeps_iff (alloc : Nat → Bool) (c : Client) (r : Nat) :
    gettag alloc c r = .error Halt.sleeps ↔
      c.nwait = c.mwait ∧ c.maxtag - c.mintag ≤ (c.mwait : Int) := by
  unfold gettag
  by_cases h1 : c.nwait = c.mwait
  · by_cases h2 : (c.mwait : Int) < c.maxtag - c.mintag
    · have h2' : ¬ c.maxtag - c.mintag ≤ (c.mwait : Int) := by omega
      by_cases h3 : alloc (if c.mwait = 0 then 1 else c.mwait * 2) = true
      · simp only [h1, h2, h3, if_true, h2', and_false, iff_false]
        exact probe_ne_sleeps _ r
      · simp [h1, h2, h3, h2']
    · have h2' : c.maxtag - c.mintag ≤ (c.mwait : Int) := by omega
      simp [h1, h2, h2']
  · simp only [h1, if_false, false_and, iff_false]
    exact probe_ne_sleeps _ r

/-! ## The sleep list of the client -/

/-- A chain depends only on the links of its nodes. -/
theorem Client.chain_congr (c d : Client) (l : List Nat) :
    ∀ a, d.next a = c.next a →
      (∀ k, k ∈ l → (d.rpc k).next = (c.rpc k).next ∧ (d.rpc k).prev = (c.rpc k).prev) →
      d.sleep.prev = c.sleep.prev → c.chain a l → d.chain a l := by
  induction l with
  | nil =>
    intro a ha _ hs h
    exact ⟨by rw [ha]; exact h.1, by rw [hs]; exact h.2⟩
  | cons k l ih =>
    intro a ha hk hs h
    have hkk := hk k (by simp)
    refine ⟨by rw [ha]; exact h.1, by rw [hkk.2]; exact h.2.1, ?_⟩
    exact ih (Link.rpc k) hkk.1 (fun j hj => hk j (by simp [hj])) hs h.2.2

/-- The node before an Rpc of a chain is the start of the chain or an Rpc before it. -/
theorem Client.chain_prev_mem (c : Client) (x : Nat) (B : List Nat) :
    ∀ (A : List Nat) (a : Link), c.chain a (A ++ x :: B) →
      (c.rpc x).prev = a ∨ ∃ k, k ∈ A ∧ (c.rpc x).prev = Link.rpc k := by
  intro A
  induction A with
  | nil =>
    intro a h
    exact Or.inl h.2.1
  | cons z A ih =>
    intro a h
    rcases ih (Link.rpc z) h.2.2 with h1 | ⟨k, hk, h1⟩
    · exact Or.inr ⟨z, by simp, h1⟩
    · exact Or.inr ⟨k, by simp [hk], h1⟩

/-- The node after an Rpc of a chain is the list head or an Rpc after it. -/
theorem Client.chain_next_mem (c : Client) (x : Nat) (B : List Nat) :
    ∀ (A : List Nat) (a : Link), c.chain a (A ++ x :: B) →
      (c.rpc x).next = Link.head ∨ ∃ k, k ∈ B ∧ (c.rpc x).next = Link.rpc k := by
  intro A
  induction A with
  | nil =>
    intro a h
    cases B with
    | nil => exact Or.inl h.2.2.1
    | cons y B => exact Or.inr ⟨y, by simp, h.2.2.1⟩
  | cons z A ih =>
    intro a h
    exact ih (Link.rpc z) h.2.2

/-- Unlinking the Rpc `x` from a chain: in a client `d` whose links are those of `c`, but
that the node before `x` and the node after `x` point to each other, the chain holds the
other Rpcs in their order. -/
theorem Client.chain_unlink (c d : Client) (x : Nat) (B : List Nat)
    (hnext : ∀ l, l ≠ Link.rpc x → l ≠ (c.rpc x).prev → d.next l = c.next l)
    (hprev : ∀ l, l ≠ Link.rpc x → l ≠ (c.rpc x).next → d.prev l = c.prev l)
    (hP : d.next (c.rpc x).prev = (c.rpc x).next)
    (hN : d.prev (c.rpc x).next = (c.rpc x).prev) :
    ∀ (A : List Nat) (a : Link), (A ++ x :: B).Nodup → (∀ k, k ∈ A ++ x :: B → a ≠ Link.rpc k) →
      c.chain a (A ++ x :: B) → d.chain a (A ++ B) := by
  intro A
  induction A with
  | nil =>
    intro a hnd ha h
    obtain ⟨h1, h2, h3⟩ := h
    simp only [List.nil_append] at hnd ha ⊢
    have hxB : x ∉ B := (List.nodup_cons.1 hnd).1
    cases B with
    | nil =>
      obtain ⟨g1, g2⟩ := h3
      have g1' : (c.rpc x).next = Link.head := g1
      refine ⟨?_, ?_⟩
      · rw [← h2, hP, g1']
      · have := hN
        rw [g1', h2] at this
        exact this
    | cons y B =>
      obtain ⟨g1, g2, g3⟩ := h3
      have g1' : (c.rpc x).next = Link.rpc y := g1
      have hxy : x ≠ y := fun e => hxB (by simp [e])
      have hyB : y ∉ B := (List.nodup_cons.1 (List.nodup_cons.1 hnd).2).1
      refine ⟨?_, ?_, ?_⟩
      · rw [← h2, hP, g1']
      · have := hN
        rw [g1', h2] at this
        exact this
      · refine Client.chain_congr c d B (Link.rpc y) ?_ ?_ ?_ g3
        · refine hnext _ ?_ ?_
          · simp [Ne.symm hxy]
          · rw [h2]
            exact (ha y (by simp)).symm
        · intro k hk
          have hkx : k ≠ x := fun e => hxB (by simp [← e, hk])
          have hky : k ≠ y := fun e => hyB (e ▸ hk)
          constructor
          · refine hnext (Link.rpc k) (by simp [hkx]) ?_
            rw [h2]
            exact (ha k (by simp [hk])).symm
          · refine hprev (Link.rpc k) (by simp [hkx]) ?_
            rw [g1']
            simp [hky]
        · refine hprev Link.head (by simp) ?_
          rw [g1']
          simp
  | cons z A ih =>
    intro a hnd ha h
    obtain ⟨h1, h2, h3⟩ := h
    have hnd' : (A ++ x :: B).Nodup := (List.nodup_cons.1 hnd).2
    have hz : z ∉ A ++ x :: B := (List.nodup_cons.1 hnd).1
    have hzx : z ≠ x := fun e => hz (by simp [e])
    have hzB : z ∉ B := fun e => hz (by simp [e])
    have hzA : z ∉ A := fun e => hz (by simp [e])
    refine ⟨?_, ?_, ?_⟩
    · rw [hnext a ?_ ?_]
      · exact h1
      · exact ha x (by simp)
      · rcases Client.chain_prev_mem c x B A (Link.rpc z) h3 with e | ⟨k, hk, e⟩
        · rw [e]
          exact ha z (by simp)
        · rw [e]
          exact ha k (by simp [hk])
    · have : d.prev (Link.rpc z) = c.prev (Link.rpc z) := by
        refine hprev _ (by simp [hzx]) ?_
        rcases Client.chain_next_mem c x B A (Link.rpc z) h3 with e | ⟨k, hk, e⟩
        · rw [e]
          simp
        · rw [e]
          intro e2
          simp only [Link.rpc.injEq] at e2
          exact hzB (e2 ▸ hk)
      exact this.trans h2
    · refine ih (Link.rpc z) hnd' ?_ h3
      intro k hk e
      simp only [Link.rpc.injEq] at e
      exact hz (e ▸ hk)

/-- The walk of electmuxer over a well-formed sleep list visits its Rpcs in their order. -/
theorem sleepers_chain (c : Client) (l : List Nat) :
    ∀ a, c.chain a l → sleepers c l.length (c.next a) = some l := by
  induction l with
  | nil =>
    intro a h
    rw [h.1]
    rfl
  | cons k l ih =>
    intro a h
    rw [h.1]
    have := ih (Link.rpc k) h.2.2
    simp only [Client.next] at this
    simp [sleepers, this]

theorem Client.sameTable_refl (c : Client) : c.sameTable c :=
  ⟨fun _ => rfl, fun _ => rfl, rfl, rfl, rfl, rfl, rfl, rfl⟩

theorem Client.sameTable_trans (e d c : Client) (h1 : e.sameTable d) (h2 : d.sameTable c) :
    e.sameTable c := by
  obtain ⟨a1, a2, a3, a4, a5, a6, a7, a8⟩ := h1
  obtain ⟨b1, b2, b3, b4, b5, b6, b7, b8⟩ := h2
  exact ⟨fun k => (a1 k).trans (b1 k), fun k => (a2 k).trans (b2 k), a3.trans b3, a4.trans b4,
    a5.trans b5, a6.trans b6, a7.trans b7, a8.trans b8⟩

/-- The assignment `l->prev = v` through a pointer that is not null. -/
theorem Client.setPrev_spec (c : Client) (l v : Link) (hl : l ≠ Link.null) :
    ∃ d, c.setPrev l v = .ok d ∧ d.prev l = v ∧ (∀ m, m ≠ l → d.prev m = c.prev m) ∧
      (∀ m, d.next m = c.next m) ∧ d.sameTable c := by
  cases l with
  | null => exact absurd rfl hl
  | head =>
    refine ⟨_, rfl, rfl, ?_, ?_, Client.sameTable_refl c⟩
    · intro m hm
      cases m with
      | null => rfl
      | head => exact absurd rfl hm
      | rpc k => rfl
    · intro m
      cases m <;> rfl
  | rpc j =>
    refine ⟨_, rfl, by simp [Client.prev], ?_, ?_, ?_⟩
    · intro m hm
      cases m with
      | null => rfl
      | head => rfl
      | rpc k =>
        have : k ≠ j := fun e => hm (by rw [e])
        simp [Client.prev, Function.update, this]
    · intro m
      cases m with
      | null => rfl
      | head => rfl
      | rpc k => by_cases hk : k = j <;> simp [Client.next, Function.update, hk]
    · refine ⟨?_, ?_, rfl, rfl, rfl, rfl, rfl, rfl⟩
      · intro k
        by_cases hk : k = j <;> simp [Function.update, hk]
      · intro k
        by_cases hk : k = j <;> simp [Function.update, hk]

/-- The assignment `l->next = v` through a pointer that is not null. -/
theorem Client.setNext_spec (c : Client) (l v : Link) (hl : l ≠ Link.null) :
    ∃ d, c.setNext l v = .ok d ∧ d.next l = v ∧ (∀ m, m ≠ l → d.next m = c.next m) ∧
      (∀ m, d.prev m = c.prev m) ∧ d.sameTable c := by
  cases l with
  | null => exact absurd rfl hl
  | head =>
    refine ⟨_, rfl, rfl, ?_, ?_, Client.sameTable_refl c⟩
    · intro m hm
      cases m with
      | null => rfl
      | head => exact absurd rfl hm
      | rpc k => rfl
    · intro m
      cases m <;> rfl
  | rpc j =>
    refine ⟨_, rfl, by simp [Client.next], ?_, ?_, ?_⟩
    · intro m hm
      cases m with
      | null => rfl
      | head => rfl
      | rpc k =>
        have : k ≠ j := fun e => hm (by rw [e])
        simp [Client.next, Function.update, this]
    · intro m
      cases m with
      | null => rfl
      | head => rfl
      | rpc k => by_cases hk : k = j <;> simp [Client.prev, Function.update, hk]
    · refine ⟨?_, ?_, rfl, rfl, rfl, rfl, rfl, rfl⟩
      · intro k
        by_cases hk : k = j <;> simp [Function.update, hk]
      · intro k
        by_cases hk : k = j <;> simp [Function.update, hk]

/-- What dequeue does to an Rpc whose two neighbours are there: the neighbours point to each
other, the links of the Rpc are null, and nothing else changes. -/
theorem dequeue_spec (c : Client) (x : Nat)
    (hP : (c.rpc x).prev ≠ Link.null) (hN : (c.rpc x).next ≠ Link.null)
    (hPx : (c.rpc x).prev ≠ Link.rpc x) (hNx : (c.rpc x).next ≠ Link.rpc x) :
    ∃ d, dequeue c x = .ok d ∧
      (∀ l, l ≠ Link.rpc x → l ≠ (c.rpc x).prev → d.next l = c.next l) ∧
      (∀ l, l ≠ Link.rpc x → l ≠ (c.rpc x).next → d.prev l = c.prev l) ∧
      d.next (c.rpc x).prev = (c.rpc x).next ∧
      d.prev (c.rpc x).next = (c.rpc x).prev ∧
      (d.rpc x).prev = Link.null ∧ (d.rpc x).next = Link.null ∧ d.sameTable c := by
  obtain ⟨c1, e1, a1, a2, a3, a4⟩ := Client.setPrev_spec c (c.rpc x).next (c.rpc x).prev hN
  have hp1 : (c1.rpc x).prev = (c.rpc x).prev := a2 (Link.rpc x) (Ne.symm hNx)
  have hn1 : (c1.rpc x).next = (c.rpc x).next := a3 (Link.rpc x)
  obtain ⟨c2, e2, b1, b2, b3, b4⟩ :=
    Client.setNext_spec c1 (c1.rpc x).prev (c1.rpc x).next (by rw [hp1]; exact hP)
  rw [hp1, hn1] at e2 b1
  rw [hp1] at b2
  refine ⟨{ c2 with rpc := Function.update c2.rpc x
                             { c2.rpc x with prev := Link.null, next := Link.null } },
    by simp [dequeue, e1, hp1, hn1, e2], ?_, ?_, ?_, ?_, by simp [Function.update],
    by simp [Function.update], ?_⟩
  · intro l h1 h2
    cases l with
    | null => rfl
    | head => exact (b2 Link.head h2).trans (a3 Link.head)
    | rpc k =>
      have hk : k ≠ x := fun e => h1 (by rw [e])
      have := (b2 (Link.rpc k) h2).trans (a3 (Link.rpc k))
      simpa [Client.next, Function.update, hk] using this
  · intro l h1 h2
    cases l with
    | null => rfl
    | head => exact (b3 Link.head).trans (a2 Link.head h2)
    | rpc k =>
      have hk : k ≠ x := fun e => h1 (by rw [e])
      have := (b3 (Link.rpc k)).trans (a2 (Link.rpc k) h2)
      simpa [Client.prev, Function.update, hk] using this
  · cases hp : (c.rpc x).prev with
    | null => exact absurd hp hP
    | head =>
      rw [hp] at b1
      exact b1
    | rpc k =>
      have hk : k ≠ x := fun e => hPx (by rw [hp, e])
      rw [hp] at b1
      simpa [Client.next, Function.update, hk] using b1
  · cases hn : (c.rpc x).next with
    | null => exact absurd hn hN
    | head =>
      have := (b3 Link.head).trans (hn ▸ a1)
      exact this
    | rpc k =>
      have hk : k ≠ x := fun e => hNx (by rw [hn, e])
      have := (b3 (Link.rpc k)).trans (hn ▸ a1)
      simpa [Client.prev, Function.update, hk] using this
  · have h21 := Client.sameTable_trans c2 c1 c b4 a4
    obtain ⟨t1, t2, t3, t4, t5, t6, t7, t8⟩ := h21
    refine ⟨?_, ?_, t3, t4, t5, t6, t7, t8⟩
    · intro k
      by_cases hk : k = x
      · subst hk
        simpa [Function.update] using t1 k
      · simpa [Function.update, hk] using t1 k
    · intro k
      by_cases hk : k = x
      · subst hk
        simpa [Function.update] using t2 k
      · simpa [Function.update, hk] using t2 k

/-! ## Cleanup after a hangup -/

theorem voidfid_headVoid (context : List Synth × Option Nat) (entry : Nat × Fid) :
    Synth.headVoid (voidfid context entry) :=
  ⟨context.1.length, context.2, rfl, by simp [voidfid]⟩

theorem voidrequest_headVoid (context : List Synth × Option Nat) (entry : Nat × Req9) :
    Synth.headVoid (voidrequest context entry) :=
  ⟨context.1.length, context.2, rfl, by simp [voidrequest]⟩

theorem foldl_headVoid {α : Type} (f : List Synth × Option Nat → α → List Synth × Option Nat)
    (hf : ∀ context x, Synth.headVoid (f context x)) :
    ∀ (l : List α) (context : List Synth × Option Nat),
      l ≠ [] ∨ Synth.headVoid context → Synth.headVoid (l.foldl f context) := by
  intro l
  induction l with
  | nil =>
    intro context h
    rcases h with h | h
    · exact absurd rfl h
    · exact h
  | cons x l ih =>
    intro context _
    exact ih (f context x) (Or.inr (hf context x))

/-- The loop of cleanupconn on a list whose head holds a `void*` in its `aux`: the first
std::any_cast throws. -/
theorem drain_headVoid (maxMsg : Nat) (srv : Srv9) (fuel : Nat) (synth : List Synth)
    (head : Option Nat) (s : State) (h : Synth.headVoid (synth, head)) :
    drain maxMsg srv fuel synth synth.length head s = .error Fault.badAnyCast := by
  obtain ⟨i, p, h1, h2⟩ := h
  simp only at h1 h2
  cases hsy : synth[i]? with
  | none => simp [hsy] at h2
  | some sy =>
    have h3 : sy.aux = Any.voidPtr p := by simpa [hsy] using h2
    have hi : i < synth.length := by
      by_contra hcon
      rw [List.getElem?_eq_none_iff.2 (by omega)] at hsy
      simp at hsy
    obtain ⟨n, hn⟩ : ∃ n, synth.length = n + 1 := ⟨synth.length - 1, by omega⟩
    rw [hn, h1]
    simp [drain, hsy, h3, anyCastReq9Ptr]

/-! ## The wire codec -/

theorem toLE_length (w v : Nat) : (toLE w v).length = w := by
  induction w generalizing v with
  | zero => rfl
  | succ w ih => simp [toLE, ih]

theorem fromLE_toLE (w : Nat) : ∀ v, v < 256 ^ w → fromLE (toLE w v) = v := by
  induction w with
  | zero =>
    intro v hv
    simp at hv
    simp [toLE, fromLE, hv]
  | succ w ih =>
    intro v hv
    have h1 : v / 256 < 256 ^ w := by
      rw [Nat.div_lt_iff_lt_mul (by norm_num)]
      rw [pow_succ] at hv
      exact hv
    simp only [toLE, fromLE, ih _ h1]
    omega

theorem decInt_toLE (w v : Nat) (rest : List Nat) (hv : v < 256 ^ w) :
    decInt w (toLE w v ++ rest) = some (v, rest) := by
  have hl := toLE_length w v
  simp [decInt, hl, List.take_append_eq_append_take, List.drop_append_eq_append_drop,
    fromLE_toLE w v hv]

theorem decStr_encStr (s : String) (rest : List Nat) (hs : s.data.length < 256 ^ 2) :
    decStr (encStr s ++ rest) = some (s, rest) := by
  have hmap : (s.data.map Char.toNat).map Char.ofNat = s.data := by
    rw [List.map_map]
    have : (Char.ofNat ∘ Char.toNat) = id := by
      funext c
      simp [Char.ofNat_toNat]
    rw [this, List.map_id]
  simp only [decStr, encStr, List.append_assoc, decInt_toLE 2 _ _ hs]
  simp [List.take_append_eq_append_take, List.drop_append_eq_append_drop, hmap]

theorem decQid_encQid (q : Qid) (rest : List Nat)
    (hq : q.type < 256 ^ 1 ∧ q.version < 256 ^ 4 ∧ q.path < 256 ^ 8) :
    decQid (encQid q ++ rest) = some (q, rest) := by
  simp only [decQid, encQid, List.append_assoc, decInt_toLE 1 _ _ hq.1,
    decInt_toLE 4 _ _ hq.2.1, decInt_toLE 8 _ _ hq.2.2]

theorem decArray_flatten {α : Type} (one : List Nat → Option (α × List Nat))
    (encOne : α → List Nat) (l : List α)
    (h : ∀ x, x ∈ l → ∀ rest, one (encOne x ++ rest) = some (x, rest)) (rest : List Nat) :
    decArray one l.length ((l.map encOne).flatten ++ rest) = some (l, rest) := by
  induction l with
  | nil => simp [decArray]
  | cons x l ih =>
    have hx := h x (by simp) ((l.map encOne).flatten ++ rest)
    have hl := ih (fun y hy => h y (by simp [hy]))
    simp [decArray, List.append_assoc, hx, hl]

theorem decStatBody_enc (s : Stat) (rest : List Nat) (h : Kind.fits Kind.stat s) :
    decStatBody (encStatBody s ++ rest) = some (s, rest) := by
  obtain ⟨-, h1, h2, h3, h4, h5, h6, h7, h8, h9, h10, h11⟩ := h
  simp only [decStatBody, encStatBody, List.append_assoc, decInt_toLE 2 _ _ h1,
    decInt_toLE 4 _ _ h2, decQid_encQid _ _ h3, decInt_toLE 4 _ _ h4, decInt_toLE 4 _ _ h5,
    decInt_toLE 4 _ _ h6, decInt_toLE 8 _ _ h7, decStr_encStr _ _ h8, decStr_encStr _ _ h9,
    decStr_encStr _ _ h10, decStr_encStr _ _ h11]

theorem dec_enc_data (w : Nat) (d : List Nat) (rest : List Nat) (h : d.length < 256 ^ w) :
    dec (Kind.data w) (enc (Kind.data w) d ++ rest) = some (d, rest) := by
  show (match decInt w ((toLE w d.length ++ d) ++ rest) with
    | none => none
    | some (n, r) => if r.length < n then none else some (r.take n, r.drop n)) = some (d, rest)
  rw [List.append_assoc, decInt_toLE w _ _ h]
  simp [List.take_append_eq_append_take, List.drop_append_eq_append_drop]

theorem dec_enc_strs (l : List String) (rest : List Nat)
    (h : l.length < 256 ^ 2 ∧ ∀ s, s ∈ l → s.data.length < 256 ^ 2) :
    dec Kind.strs (enc Kind.strs l ++ rest) = some (l, rest) := by
  show (match decInt 2 ((toLE 2 l.length ++ (l.map encStr).flatten) ++ rest) with
    | none => none
    | some (n, r) => decArray decStr n r) = some (l, rest)
  rw [List.append_assoc, decInt_toLE 2 _ _ h.1]
  exact decArray_flatten decStr encStr l (fun x hx r => decStr_encStr x r (h.2 x hx)) rest

theorem dec_enc_qids (l : List Qid) (rest : List Nat)
    (h : l.length < 256 ^ 2 ∧
      ∀ q, q ∈ l → q.type < 256 ^ 1 ∧ q.version < 256 ^ 4 ∧ q.path < 256 ^ 8) :
    dec Kind.qids (enc Kind.qids l ++ rest) = some (l, rest) := by
  show (match decInt 2 ((toLE 2 l.length ++ (l.map encQid).flatten) ++ rest) with
    | none => none
    | some (n, r) => decArray decQid n r) = some (l, rest)
  rw [List.append_assoc, decInt_toLE 2 _ _ h.1]
  exact decArray_flatten decQid encQid l (fun x hx r => decQid_encQid x r (h.2 x hx)) rest

theorem dec_enc_stat (s : Stat) (rest : List Nat) (h : Kind.fits Kind.stat s) :
    dec Kind.stat (enc Kind.stat s ++ rest) = some (s, rest) := by
  show (match decInt 2 ((toLE 2 (encStatBody s).length ++ encStatBody s) ++ rest) with
    | none => none
    | some (_, r) => decStatBody r) = some (s, rest)
  rw [List.append_assoc, decInt_toLE 2 _ _ h.1]
  exact decStatBody_enc s rest h

/-- What a field operation writes in Pack mode, it reads back in Unpack mode, for a value
within its limit. -/
theorem dec_enc (k : Kind) (v : k.type) (rest : List Nat) (h : k.fits v) :
    dec k (enc k v ++ rest) = some (v, rest) := by
  cases k with
  | int w => exact decInt_toLE w v rest h
  | str => exact decStr_encStr v rest h
  | data w => exact dec_enc_data w v rest h
  | qid => exact decQid_encQid v rest h
  | strs => exact dec_enc_strs v rest h
  | qids => exact dec_enc_qids v rest h
  | stat => exact dec_enc_stat v rest h

/-- In Pack mode a run of field operations that fits before the end writes its bytes at the
cursor, advances the cursor by their number and leaves the Fcall as it is. -/
theorem pack_run (ops : List FieldOp) (f : Fcall) :
    ∀ m : Msg, m.mode = Msg.Mode.Pack → m.pos + (opsBytes ops f).length ≤ m.end_ →
      m.end_ ≤ m.data.length →
      ops.foldl (fun s op => op.run s) (m, f)
        = ({ m with data := m.data.take m.pos ++ opsBytes ops f ++
                              m.data.drop (m.pos + (opsBytes ops f).length),
                    pos := m.pos + (opsBytes ops f).length }, f) := by
  induction ops with
  | nil =>
    intro m _ _ _
    simp [opsBytes]
  | cons op ops ih =>
    intro m hm hfit hend
    have hb : opsBytes (op :: ops) f = enc op.kind (op.get f) ++ opsBytes ops f := by
      simp [opsBytes]
    rw [hb, List.length_append] at hfit
    have hstep : op.run (m, f)
        = ({ m with data := m.data.take m.pos ++ enc op.kind (op.get f) ++
                              m.data.drop (m.pos + (enc op.kind (op.get f)).length),
                    pos := m.pos + (enc op.kind (op.get f)).length }, f) := by
      have : m.pos + (enc op.kind (op.get f)).length ≤ m.end_ := by omega
      simp [FieldOp.run, Msg.field, hm, this]
    have hih := ih
      { m with data := m.data.take m.pos ++ enc op.kind (op.get f) ++
                         m.data.drop (m.pos + (enc op.kind (op.get f)).length),
               pos := m.pos + (enc op.kind (op.get f)).length }
      hm (by simp only []; omega)
      (by simp only [List.length_append, List.length_take, List.length_drop]; omega)
    rw [List.foldl_cons, hstep, hih]
    rw [hb]
    congr 1
    have hp : m.pos ≤ m.data.length := by omega
    simp only [List.length_append, Nat.add_assoc]
    congr 1
    have e1 : List.take (m.pos + (enc op.kind (op.get f)).length)
        (List.take m.pos m.data ++ enc op.kind (op.get f) ++
          List.drop (m.pos + (enc op.kind (op.get f)).length) m.data)
        = List.take m.pos m.data ++ enc op.kind (op.get f) := by
      rw [List.take_append_eq_append_take]
      simp [List.length_take, hp]
    have e2 : List.drop (m.pos + ((enc op.kind (op.get f)).length + (opsBytes ops f).length))
        (List.take m.pos m.data ++ enc op.kind (op.get f) ++
          List.drop (m.pos + (enc op.kind (op.get f)).length) m.data)
        = List.drop (m.pos + ((enc op.kind (op.get f)).length + (opsBytes ops f).length))
            m.data := by
      rw [List.drop_append_eq_append_drop]
      simp only [List.length_append, List.length_take, Nat.min_eq_left hp, List.drop_drop]
      have hz : List.drop (m.pos + ((enc op.kind (op.get f)).length + (opsBytes ops f).length))
          (List.take m.pos m.data ++ enc op.kind (op.get f)) = [] := by
        apply List.drop_eq_nil_of_le
        simp only [List.length_append, List.length_take]
        omega
      rw [hz, List.nil_append]
      congr 1
      omega
    rw [e1, e2]
    simp [List.append_assoc]

/-- In Unpack mode a run of field operations on the bytes that the same run wrote for the
Fcall `f` reads the fields of `f`, stores them, and advances the cursor by the number of
the bytes. -/
theorem unpack_run (ops : List FieldOp) (f : Fcall) (rest : List Nat) :
    ∀ (m : Msg) (g : Fcall), m.mode = Msg.Mode.Unpack → m.pos ≤ m.end_ →
      m.end_ ≤ m.data.length →
      (m.data.take m.end_).drop m.pos = opsBytes ops f ++ rest →
      (∀ op, op ∈ ops → op.kind.fits (op.get f)) →
      ops.foldl (fun s op => op.run s) (m, g)
        = ({ m with pos := m.pos + (opsBytes ops f).length },
           ops.foldl (fun g op => op.set g (op.get f)) g) := by
  induction ops with
  | nil =>
    intro m g _ _ _ _ _
    simp [opsBytes]
  | cons op ops ih =>
    intro m g hm hpos hend hin hfits
    have hb : opsBytes (op :: ops) f = enc op.kind (op.get f) ++ opsBytes ops f := by
      simp [opsBytes]
    rw [hb, List.append_assoc] at hin
    have hlen : m.end_ - m.pos
        = (enc op.kind (op.get f)).length + ((opsBytes ops f).length + rest.length) := by
      have := congrArg List.length hin
      simp only [List.length_drop, List.length_take, List.length_append,
        Nat.min_eq_left hend] at this
      exact this
    have hdec := dec_enc op.kind (op.get f) (opsBytes ops f ++ rest) (hfits op (by simp))
    have hstep : op.run (m, g)
        = ({ m with pos := m.pos + (enc op.kind (op.get f)).length }, op.set g (op.get f)) := by
      have hp : m.end_ - ((opsBytes ops f).length + rest.length)
          = m.pos + (enc op.kind (op.get f)).length := by omega
      simp [FieldOp.run, Msg.field, hm, hin, hdec, hp]
    have hih := ih { m with pos := m.pos + (enc op.kind (op.get f)).length }
      (op.set g (op.get f)) hm (by simp only []; omega) hend
      (by
        simp only []
        rw [← List.drop_drop, hin, List.drop_left])
      (fun o ho => hfits o (by simp [ho]))
    rw [List.foldl_cons, hstep, hih, hb]
    simp [Nat.add_assoc]

theorem packUnpack_pack (m : Msg) (f : Fcall) (hm : m.mode = Msg.Mode.Pack)
    (hfit : m.pos + f.bytes.length ≤ m.end_) (hend : m.end_ ≤ m.data.length) :
    Fcall.packUnpack m f
      = ({ m with data := m.data.take m.pos ++ f.bytes ++ m.data.drop (m.pos + f.bytes.length),
                  pos := m.pos + f.bytes.length }, f) := by
  have hb : f.bytes = opsBytes header f ++ opsBytes (schema f.type) f := by
    simp [Fcall.bytes, opsBytes]
  have h1 := pack_run header f m hm (by rw [hb, List.length_append] at hfit; omega) hend
  have hfold : Fcall.packUnpack m f
      = (header ++ schema f.type).foldl (fun s op => op.run s) (m, f) := by
    rw [List.foldl_append]
    unfold Fcall.packUnpack
    simp only [h1]
  rw [hfold]
  exact pack_run (header ++ schema f.type) f m hm hfit hend

theorem packUnpack_unpack (m : Msg) (f : Fcall) (rest : List Nat)
    (hm : m.mode = Msg.Mode.Unpack) (hpos : m.pos ≤ m.end_) (hend : m.end_ ≤ m.data.length)
    (hin : (m.data.take m.end_).drop m.pos = f.bytes ++ rest) (hfits : f.fits) :
    Fcall.packUnpack m {} = ({ m with pos := m.pos + f.bytes.length }, f.onWire) := by
  have hb : f.bytes = opsBytes header f ++ opsBytes (schema f.type) f := by
    simp [Fcall.bytes, opsBytes]
  have h1 := unpack_run header f (opsBytes (schema f.type) f ++ rest) m {} hm hpos hend
    (by rw [hin, hb, List.append_assoc]) (fun op hop => hfits op (by simp [hop]))
  have htype : (header.foldl (fun g op => op.set g (op.get f)) ({} : Fcall)).type = f.type := rfl
  have hlen : m.end_ - m.pos = f.bytes.length + rest.length := by
    have := congrArg List.length hin
    simp only [List.length_drop, List.length_take, List.length_append,
      Nat.min_eq_left hend] at this
    exact this
  have h2 := unpack_run (schema f.type) f rest
    { m with pos := m.pos + (opsBytes header f).length }
    (header.foldl (fun g op => op.set g (op.get f)) {}) hm
    (by
      simp only []
      rw [hb, List.length_append] at hlen
      omega) hend
    (by
      simp only []
      rw [← List.drop_drop, hin, hb, List.append_assoc, List.drop_left])
    (fun op hop => hfits op (by simp [hop]))
  unfold Fcall.packUnpack
  simp only [h1, htype, h2]
  simp [Fcall.onWire, List.foldl_append, hb, Nat.add_assoc]

/-! ## Lemmas for the error paths of the server -/

/-- Two Tflush requests of the tag map whose oldtags name one another: respond on either
never returns, whatever the depth allowed to the nested calls. -/
theorem respond_flush_pair (maxMsg : Nat) (s : State) (a b : Req9)
    (hta : a.ifcall.type = FType.TFlush) (htb : b.ifcall.type = FType.TFlush)
    (hab : Map.find s.p9conn.tagmap a.ifcall.oldtag = some b)
    (hba : Map.find s.p9conn.tagmap b.ifcall.oldtag = some a) :
    ∀ (fuel : Nat),
      (∀ error, respond maxMsg fuel s a error = .error Fault.outOfFuel) ∧
      (∀ error, respond maxMsg fuel s b error = .error Fault.outOfFuel) := by
  intro fuel
  induction fuel with
  | zero => exact ⟨fun _ => rfl, fun _ => rfl⟩
  | succ n ih =>
    constructor
    · intro error
      have hsw : respondSwitch maxMsg (respond maxMsg n) s a error
          = .error Fault.outOfFuel := by
        unfold respondSwitch
        simp [hta, hab, ih.2]
      simp only [respond, hsw]
    · intro error
      have hsw : respondSwitch maxMsg (respond maxMsg n) s b error
          = .error Fault.outOfFuel := by
        unfold respondSwitch
        simp [htb, hba, ih.1]
      simp only [respond, hsw]

/-- A call of respond with an error by the dispatcher, on a live connection, for a request
that is neither a Tversion nor a Tflush and whose fid pointers point into the fid map: it
returns and sends one Rerror carrying the tag of the request and the error. -/
theorem answer_error_sends (maxMsg fuel : Nat) (inMap : Bool) (s : State) (r : Req9)
    (e : String)
    (hv : r.ifcall.type ≠ FType.TVersion) (hf : r.ifcall.type ≠ FType.TFlush)
    (hatt : r.ifcall.type = FType.TAttach → ∃ fd, deref s.p9conn r.fid = .ok fd)
    (hwalk : r.ifcall.type = FType.TWalk → r.ifcall.fid ≠ r.ifcall.newfid →
      r.newfid.isSome = true → ∃ fd, deref s.p9conn r.newfid = .ok fd)
    (hclunk : r.ifcall.type = FType.TRemove ∨ r.ifcall.type = FType.TClunk →
      r.fid.isSome = true → ∃ fd, deref s.p9conn r.fid = .ok fd)
    (hc : s.p9conn.conn = true) :
    ∃ s1 o, answer maxMsg (fuel + 1) inMap s r (some e) = .ok s1 ∧
      s1.log = s.log ++ [Event.send o] ∧
      o.type = FType.RError ∧ o.tag = r.ifcall.tag ∧ o.ename = e := by
  have hfm : (commit inMap s r).p9conn.fidmap = s.p9conn.fidmap := commit_fidmap inMap s r
  have hd : ∀ p, deref (commit inMap s r).p9conn p = deref s.p9conn p := by
    intro p
    unfold deref
    rw [hfm]
  obtain ⟨s1, h1, h2, -, -⟩ := respond_error_live maxMsg fuel (commit inMap s r) r e hv hf
    (by intro h; rw [hd]; exact hatt h)
    (by intro h h' h''; rw [hd]; exact hwalk h h' h'')
    (by intro h h'; rw [hd]; exact hclunk h h')
    (by rw [commit_conn]; exact hc)
  refine ⟨s1, reply r r.ofcall (some e), ?_, ?_, rfl, rfl, rfl⟩
  · simp only [answer, h1]
  · rw [h2, commit_log]

/-- A request that arrived with a free tag and is answered by the dispatcher with an error,
under the conditions of answer_error_sends: handlefcall returns and the Rerror is the one
reply. -/
theorem repliesError_of_answer (maxMsg : Nat) (srv : Srv9) (fuel : Nat) (s s1 : State)
    (fcall : Fcall) (r : Req9) (e : String)
    (hfree : Map.find s.p9conn.tagmap fcall.tag = none)
    (hq : handlereq maxMsg srv (fuel + 1) true (arrive s fcall) (Req9.incoming fcall)
      = answer maxMsg (fuel + 1) true s1 r (some e))
    (hr : r.ifcall = fcall) (hlog : s1.log = s.log) (hc : s1.p9conn.conn = true)
    (hv : fcall.type ≠ FType.TVersion) (hf : fcall.type ≠ FType.TFlush)
    (hatt : fcall.type ≠ FType.TAttach)
    (hwalk : fcall.type = FType.TWalk → fcall.fid ≠ fcall.newfid →
      r.newfid.isSome = true → ∃ fd, deref s1.p9conn r.newfid = .ok fd)
    (hclunk : fcall.type = FType.TRemove ∨ fcall.type = FType.TClunk →
      r.fid.isSome = true → ∃ fd, deref s1.p9conn r.fid = .ok fd) :
    repliesError maxMsg srv (fuel + 1) s fcall e := by
  subst hr
  obtain ⟨s2, o, h1, h2, h3, h4, h5⟩ := answer_error_sends maxMsg fuel true s1 r e hv hf
    (fun h => absurd h hatt) hwalk hclunk hc
  refine ⟨s2, o, ?_, ?_, h3, h4, h5⟩
  · rw [handlefcall_free maxMsg srv _ s _ hfree, hq, h1]
  · rw [h2, hlog]

/-- For every request handlereq is one call of a handler of the table Srv9 or one call of
respond. -/
theorem handlereq_one_call (maxMsg : Nat) (srv : Srv9) (fuel : Nat) (inMap : Bool)
    (s : State) (r : Req9) :
    (∃ h f s1 r1, srv.slot h = some f ∧
      handlereq maxMsg srv fuel inMap s r = invoke maxMsg fuel inMap h f s1 r1) ∨
    (∃ s1 r1 e, handlereq maxMsg srv fuel inMap s r = answer maxMsg fuel inMap s1 r1 e) := by
  have hopt : ∀ (h : Handler) (s1 : State) (r1 : Req9),
      (∃ h' f s2 r2, srv.slot h' = some f ∧
        invokeOpt maxMsg fuel inMap h (srv.slot h) s1 r1 = invoke maxMsg fuel inMap h' f s2 r2) ∨
      (∃ s2 r2 e, invokeOpt maxMsg fuel inMap h (srv.slot h) s1 r1
        = answer maxMsg fuel inMap s2 r2 e) := by
    intro h s1 r1
    cases hs : srv.slot h with
    | none => exact Or.inr ⟨_, _, _, rfl⟩
    | some f => exact Or.inl ⟨h, f, _, _, hs, rfl⟩
  unfold handlereq
  dsimp only
  by_cases h1 : r.ifcall.type = FType.TVersion
  · rw [if_pos h1]; exact Or.inr ⟨_, _, _, rfl⟩
  rw [if_neg h1]
  by_cases h2 : r.ifcall.type = FType.TAttach
  · rw [if_pos h2]
    split
    · exact Or.inr ⟨_, _, _, rfl⟩
    · exact Or.inl ⟨Handler.attach, _, _, _, rfl, rfl⟩
  rw [if_neg h2]
  by_cases h3 : r.ifcall.type = FType.TClunk
  · rw [if_pos h3]
    split
    · exact Or.inr ⟨_, _, _, rfl⟩
    · split
      · exact Or.inr ⟨_, _, _, rfl⟩
      · rename_i hs
        exact Or.inl ⟨Handler.clunk, _, _, _, hs, rfl⟩
  rw [if_neg h3]
  by_cases h4 : r.ifcall.type = FType.TFlush
  · rw [if_pos h4]
    split
    · exact Or.inr ⟨_, _, _, rfl⟩
    · exact hopt Handler.flush _ _
  rw [if_neg h4]
  by_cases h5 : r.ifcall.type = FType.TCreate
  · rw [if_pos h5]
    split
    · exact Or.inr ⟨_, _, _, rfl⟩
    · split_ifs
      · exact Or.inr ⟨_, _, _, rfl⟩
      · exact Or.inr ⟨_, _, _, rfl⟩
      · exact hopt Handler.create _ _
  rw [if_neg h5]
  by_cases h6 : r.ifcall.type = FType.TOpen
  · rw [if_pos h6]
    split
    · exact Or.inr ⟨_, _, _, rfl⟩
    · split_ifs
      · exact Or.inr ⟨_, _, _, rfl⟩
      · exact hopt Handler.open_ _ _
  rw [if_neg h6]
  by_cases h7 : r.ifcall.type = FType.TRead
  · rw [if_pos h7]
    split
    · exact Or.inr ⟨_, _, _, rfl⟩
    · split_ifs
      · exact Or.inr ⟨_, _, _, rfl⟩
      · exact hopt Handler.read _ _
  rw [if_neg h7]
  by_cases h8 : r.ifcall.type = FType.TRemove
  · rw [if_pos h8]
    split
    · exact Or.inr ⟨_, _, _, rfl⟩
    · exact hopt Handler.remove _ _
  rw [if_neg h8]
  by_cases h9 : r.ifcall.type = FType.TStat
  · rw [if_pos h9]
    split
    · exact Or.inr ⟨_, _, _, rfl⟩
    · exact hopt Handler.stat _ _
  rw [if_neg h9]
  by_cases h10 : r.ifcall.type = FType.TWalk
  · rw [if_pos h10]
    split
    · exact Or.inr ⟨_, _, _, rfl⟩
    · split_ifs
      · exact Or.inr ⟨_, _, _, rfl⟩
      · exact Or.inr ⟨_, _, _, rfl⟩
      · split
        · exact Or.inr ⟨_, _, _, rfl⟩
        · exact hopt Handler.walk _ _
      · exact hopt Handler.walk _ _
  rw [if_neg h10]
  by_cases h11 : r.ifcall.type = FType.TWrite
  · rw [if_pos h11]
    split
    · exact Or.inr ⟨_, _, _, rfl⟩
    · split_ifs
      · exact Or.inr ⟨_, _, _, rfl⟩
      · exact hopt Handler.write _ _
  rw [if_neg h11]
  by_cases h12 : r.ifcall.type = FType.TWStat
  · rw [if_pos h12]
    split
    · exact Or.inr ⟨_, _, _, rfl⟩
    · split_ifs
      · exact Or.inr ⟨_, _, _, rfl⟩
      · exact Or.inr ⟨_, _, _, rfl⟩
      · exact Or.inr ⟨_, _, _, rfl⟩
      · exact Or.inr ⟨_, _, _, rfl⟩
      · exact Or.inr ⟨_, _, _, rfl⟩
      · exact hopt Handler.wstat _ _
  rw [if_neg h12]
  exact Or.inr ⟨_, _, _, rfl⟩

/-! ## The tag table over runs of gettag and puttag -/

/-- A scanning loop of gettag returns the index of a free slot. -/
theorem scan_free (wait : List (Option Nat)) (n : Nat) :
    ∀ i k, scan wait i n = .ok (some k) → wait[k]? = some none := by
  induction n with
  | zero => intro i k h; simp [scan] at h
  | succ n ih =>
    intro i k h
    unfold scan at h
    split at h
    · simp at h
    · rename_i hw
      simp only [Except.ok.injEq, Option.some.injEq] at h
      rw [← h]; exact hw
    · exact ih _ _ h

/-- A probe that returns has taken a free slot through Found. -/
theorem probe_found (c c1 : Client) (r : Nat) (tag : Int) (h : c.probe r = .ok (c1, tag)) :
    ∃ i : Nat, c.wait[i]? = some none ∧ c.Found r i = (c1, tag) := by
  unfold Client.probe at h
  split at h
  · simp at h
  · rename_i hw
    simp only [Except.ok.injEq] at h
    exact ⟨_, hw, h⟩
  · split at h
    · simp at h
    · rename_i k hk
      simp only [Except.ok.injEq] at h
      exact ⟨k, scan_free _ _ _ _ hk, h⟩
    · split at h
      · simp at h
      · rename_i k hk
        simp only [Except.ok.injEq] at h
        exact ⟨k, scan_free _ _ _ _ hk, h⟩
      · simp at h

/-- Filling a free slot adds one to the number of taken slots. -/
theorem count_set_some (l : List (Option Nat)) :
    ∀ (i r : Nat), l[i]? = some none →
      ((l.set i (some r)).filter Option.isSome).length = (l.filter Option.isSome).length + 1 := by
  induction l with
  | nil => intro i r h; simp at h
  | cons w ws ih =>
    intro i r h
    cases i with
    | zero =>
      simp only [List.getElem?_cons_zero, Option.some.injEq] at h
      subst h
      simp [List.filter]
    | succ j =>
      simp only [List.getElem?_cons_succ] at h
      have := ih j r h
      cases w with
      | none => simpa [List.filter] using this
      | some x => simpa [List.filter] using this

/-- Clearing a taken slot takes one from the number of taken slots. -/
theorem count_set_none (l : List (Option Nat)) :
    ∀ (i r : Nat), l[i]? = some (some r) →
      ((l.set i none).filter Option.isSome).length + 1 = (l.filter Option.isSome).length := by
  induction l with
  | nil => intro i r h; simp at h
  | cons w ws ih =>
    intro i r h
    cases i with
    | zero =>
      simp only [List.getElem?_cons_zero, Option.some.injEq] at h
      subst h
      simp [List.filter]
    | succ j =>
      simp only [List.getElem?_cons_succ] at h
      have := ih j r h
      cases w with
      | none => simpa [List.filter] using this
      | some x => simpa [List.filter] using this

/-- Found on a free slot, for an Rpc that holds no slot, keeps the table in order. -/
theorem Found_tableOk (c : Client) (r i : Nat) (hc : c.tableOk)
    (hfree : c.wait[i]? = some none) (hfresh : ∀ j : Nat, c.wait[j]? ≠ some (some r)) :
    (c.Found r i).1.tableOk ∧ (c.Found r i).2 = (i : Int) + c.mintag ∧ i < c.mwait ∧
      (c.Found r i).1.mwait = c.mwait ∧ (c.Found r i).1.mintag = c.mintag ∧
      (c.Found r i).1.maxtag = c.maxtag := by
  obtain ⟨h0, h1, h2, h3⟩ := hc
  have hi : i < c.wait.length := by
    by_contra hcon
    rw [List.getElem?_eq_none_iff.2 (by omega)] at hfree
    simp at hfree
  refine ⟨⟨?_, ?_, ?_, ?_⟩, rfl, by omega, rfl, rfl, rfl⟩
  · simp [Client.Found, h0]
  · show c.nwait + 1 = ((c.wait.set i (some r)).filter Option.isSome).length
    rw [count_set_some c.wait i r hfree, h1]
  · exact h2
  · intro j q hj
    have hj' : (c.wait.set i (some r))[j]? = some (some q) := hj
    by_cases hji : i = j
    · subst hji
      rw [List.getElem?_set_self hi] at hj'
      simp only [Option.some.injEq] at hj'
      subst hj'
      simp [Client.Found]
    · rw [List.getElem?_set_ne hji] at hj'
      have hq : q ≠ r := by
        rintro rfl
        exact hfresh j hj'
      show (Function.update c.rpc r _ q).tag = _
      rw [Function.update_noteq hq]
      exact h3 j q hj'

/-- The growth of the table in gettag keeps the table in order. -/
theorem grow_tableOk (c : Client) (mw : Nat) (hc : c.tableOk) (hmw : c.mwait < mw) :
    Client.tableOk { c with wait := c.wait ++ List.replicate (mw - c.mwait) none,
                            freetag := c.mwait, mwait := mw } := by
  obtain ⟨h0, h1, h2, h3⟩ := hc
  refine ⟨?_, ?_, fun _ => hmw, ?_⟩
  · simp [h0]; omega
  · show c.nwait = ((c.wait ++ List.replicate (mw - c.mwait) none).filter Option.isSome).length
    rw [List.filter_append, List.length_append, ← h1]
    have : (List.replicate (mw - c.mwait) (none : Option Nat)).filter Option.isSome = [] := by
      rw [List.filter_eq_nil_iff]
      intro a ha
      rw [List.eq_of_mem_replicate ha]
      simp
    rw [this]
    simp
  · intro i r hi
    have hi' : (c.wait ++ List.replicate (mw - c.mwait) none)[i]? = some (some r) := hi
    by_cases hlt : i < c.wait.length
    · rw [List.getElem?_append_left hlt] at hi'
      exact h3 i r hi'
    · rw [List.getElem?_append_right (by omega)] at hi'
      rw [List.getElem?_replicate] at hi'
      split at hi' <;> simp at hi'

/-- A call of gettag that returns, for an Rpc that holds no slot, keeps the table in
order; the tag it returns, unless realloc failed, is mintag plus an index of the table. -/
theorem gettag_tableOk (alloc : Nat → Bool) (c c1 : Client) (r : Nat) (tag : Int)
    (hc : c.tableOk) (hfresh : ∀ j : Nat, c.wait[j]? ≠ some (some r))
    (h : gettag alloc c r = .ok (c1, tag)) :
    c1.tableOk ∧ c1.mintag = c.mintag ∧ c1.maxtag = c.maxtag ∧
      ((c1.wait = c.wait ∧ tag = -1) ∨
        ∃ i : Nat, i < c1.mwait ∧ tag = (i : Int) + c.mintag ∧ c1.wait[i]? = some (some r)) := by
  have hprobe : ∀ d : Client, d.tableOk → (∀ j : Nat, d.wait[j]? ≠ some (some r)) →
      d.probe r = .ok (c1, tag) →
      c1.tableOk ∧ c1.mintag = d.mintag ∧ c1.maxtag = d.maxtag ∧
        ∃ i : Nat, i < c1.mwait ∧ tag = (i : Int) + d.mintag ∧ c1.wait[i]? = some (some r) := by
    intro d hd hf hp
    obtain ⟨i, hi, hF⟩ := probe_found d c1 r tag hp
    obtain ⟨g1, g2, g3, g4, g5, g6⟩ := Found_tableOk d r i hd hi hf
    rw [hF] at g1 g2 g4 g5 g6
    simp only at g1 g2 g4 g5 g6
    refine ⟨g1, g5, g6, i, by omega, g2, ?_⟩
    have hw : c1.wait = d.wait.set i (some r) := by
      have := congrArg (fun p => p.1.wait) hF
      simpa [Client.Found] using this.symm
    rw [hw, List.getElem?_set_self (by rw [hd.1]; exact g3)]
  unfold gettag at h
  by_cases h1 : c.nwait = c.mwait
  · rw [if_pos h1] at h
    by_cases h2 : (c.mwait : Int) < c.maxtag - c.mintag
    · rw [if_pos h2] at h
      simp only at h
      by_cases h3 : alloc (if c.mwait = 0 then 1 else c.mwait * 2) = true
      · rw [if_pos h3] at h
        have hmw : c.mwait < (if c.mwait = 0 then 1 else c.mwait * 2) := by
          split_ifs with h0 <;> omega
        have hg := grow_tableOk c _ hc hmw
        have hf : ∀ j : Nat, (c.wait ++ List.replicate
            ((if c.mwait = 0 then 1 else c.mwait * 2) - c.mwait) none)[j]? ≠ some (some r) := by
          intro j hj
          by_cases hlt : j < c.wait.length
          · rw [List.getElem?_append_left hlt] at hj
            exact hfresh j hj
          · rw [List.getElem?_append_right (by omega), List.getElem?_replicate] at hj
            split at hj <;> simp at hj
        obtain ⟨g1, g2, g3, g4⟩ := hprobe _ hg hf h
        exact ⟨g1, g2, g3, Or.inr g4⟩
      · rw [if_neg h3] at h
        simp only [Except.ok.injEq, Prod.mk.injEq] at h
        obtain ⟨rfl, rfl⟩ := h
        exact ⟨hc, rfl, rfl, Or.inl ⟨rfl, rfl⟩⟩
    · rw [if_neg h2] at h
      simp at h
  · rw [if_neg h1] at h
    obtain ⟨g1, g2, g3, g4⟩ := hprobe c hc hfresh h
    exact ⟨g1, g2, g3, Or.inr g4⟩

/-- A call of puttag that returns keeps the table in order. -/
theorem puttag_tableOk (c c1 : Client) (r : Nat) (hc : c.tableOk)
    (h : puttag c r = .ok c1) :
    c1.tableOk ∧ c1.mintag = c.mintag ∧ c1.maxtag = c.maxtag ∧ c1.mwait = c.mwait := by
  obtain ⟨h0, h1, h2, h3⟩ := hc
  unfold puttag at h
  simp only at h
  split_ifs at h with hneg
  split at h
  · simp at h
  · rename_i w hw
    split_ifs at h with hne
    simp only [ne_eq, not_not] at hne
    subst hne
    simp only [Except.ok.injEq] at h
    subst h
    have hi : ((c.rpc r).tag - c.mintag).toNat < c.wait.length := by
      by_contra hcon
      rw [List.getElem?_eq_none_iff.2 (by omega)] at hw
      simp at hw
    refine ⟨⟨?_, ?_, ?_, ?_⟩, rfl, rfl, rfl⟩
    · simp [h0]
    · show c.nwait - 1 = ((c.wait.set _ none).filter Option.isSome).length
      have := count_set_none c.wait _ r hw
      omega
    · intro _
      show ((c.rpc r).tag - c.mintag).toNat < c.mwait
      omega
    · intro j q hj
      have hj' : (c.wait.set ((c.rpc r).tag - c.mintag).toNat none)[j]? = some (some q) := hj
      by_cases hji : ((c.rpc r).tag - c.mintag).toNat = j
      · rw [hji] at hj' hi
        rw [List.getElem?_set_self hi] at hj'
        simp at hj'
      · rw [List.getElem?_set_ne hji] at hj'
        exact h3 j q hj'

/-- Every state reached from an empty tag table has its table in order. -/
theorem Reachable_tableOk (c : Client) (h : c.Reachable) : c.tableOk := by
  induction h with
  | start c hw hm hn =>
    refine ⟨by simp [hw, hm], by simp [hw, hn], fun h => by omega, ?_⟩
    intro i r hi
    simp [hw] at hi
  | byGettag alloc c c1 r tag _ hfresh hg ih =>
    exact (gettag_tableOk alloc c c1 r tag ih (fun j hj => hfresh (List.getElem?_mem hj)) hg).1
  | byPuttag c c1 r _ hp ih => exact (puttag_tableOk c c1 r ih hp).1

/-! ## Lemmas on the server process -/

theorem proc_get_of_find (p : Process) (c : Nat) (cn : Process.Conn9)
    (h : Map.find p.conns c = some cn) : p.get c = .ok cn := by
  simp [Process.get, h]

theorem proc_get_cases (p : Process) (c : Nat) :
    (∃ cn, Map.find p.conns c = some cn ∧ p.get c = .ok cn) ∨
    (Map.find p.conns c = none ∧ p.get c = .error (Abort.danglingPointer, p)) := by
  unfold Process.get
  cases h : Map.find p.conns c with
  | none => exact Or.inr ⟨rfl, rfl⟩
  | some cn => exact Or.inl ⟨cn, rfl, rfl⟩

theorem proc_find_set_self (p : Process) (c : Nat) (cn cn1 : Process.Conn9)
    (h : Map.find p.conns c = some cn) : Map.find (p.set c cn1).conns c = some cn1 :=
  Map.find_assign_self p.conns c cn cn1 h

theorem proc_decref_log (p : Process) (c : Nat) :
    (Run.ended id (Process.decref_p9conn p c)).log = p.log := by
  unfold Process.decref_p9conn
  rcases proc_get_cases p c with ⟨cn, -, h⟩ | ⟨-, h⟩
  · rw [h]
    simp only []
    split_ifs <;> rfl
  · rw [h]
    rfl

theorem proc_destructFid_log (E : Process.Env) (p : Process) (c fid : Nat) :
    ∃ l, (Run.ended id (Process.destructFid E p c fid)).log = p.log ++ l ∧
      ∀ e ∈ l, ∃ sv k, e = Process.Event.freefid sv k := by
  unfold Process.destructFid
  rcases proc_get_cases p c with ⟨cn, -, h⟩ | ⟨-, h⟩
  · rw [h]
    simp only []
    rw [proc_decref_log]
    split_ifs
    · exact ⟨[_], rfl, by simp⟩
    · exact ⟨[], by simp, by simp⟩
  · rw [h]
    exact ⟨[], by simp [Run.ended], by simp⟩

theorem Map.assign_assign {α : Type} (m : Map α) (k : Nat) (v w : α) :
    Map.assign (Map.assign m k v) k w = Map.assign m k w := by
  induction m with
  | nil => rfl
  | cons e m ih =>
    obtain ⟨j, x⟩ := e
    by_cases h : j = k
    · simp [Map.assign, h, ih]
    · simp [Map.assign, h, ih]

theorem proc_set_set (p : Process) (c : Nat) (v w : Process.Conn9) :
    (p.set c v).set c w = p.set c w := by
  simp [Process.set, Map.assign_assign]

theorem proc_decref_ok (p : Process) (c : Nat) (cn : Process.Conn9)
    (h : Map.find p.conns c = some cn) (hr : 2 ≤ cn.ref) :
    Process.decref_p9conn p c = .ok (p.set c { cn with ref := cn.ref - 1 }) := by
  unfold Process.decref_p9conn
  rw [proc_get_of_find p c cn h]
  simp only []
  rw [if_pos (by omega)]

/-- How decref_p9conn ends on a connection whose transport pointer is set: the count is
one less, and nothing else changed. -/
theorem proc_decref_live (p : Process) (c : Nat) (cn : Process.Conn9)
    (h : Map.find p.conns c = some cn) (hc : cn.conn = true) :
    Run.ended id (Process.decref_p9conn p c) = p.set c { cn with ref := cn.ref - 1 } := by
  unfold Process.decref_p9conn
  rw [proc_get_of_find p c cn h]
  simp only []
  by_cases hr : cn.ref - 1 > 0
  · rw [if_pos hr]; rfl
  · rw [if_neg hr, if_pos hc]; rfl

theorem proc_finish_live (E : Process.Env) (p : Process) (r : Process.Req9) (o : Fcall)
    (cn : Process.Conn9) (h : Map.find p.conns r.conn = some cn) (hc : cn.conn = true) :
    ∃ d : Int,
      Run.ended Prod.fst (Process.finish E p r o)
        = { p with
            conns := Map.assign p.conns r.conn
              { cn with tagmap := Map.erase cn.tagmap r.ifcall.tag, ref := cn.ref - d },
            log := p.log ++ [Process.Event.send r.conn o] } := by
  unfold Process.finish
  rw [proc_get_of_find p r.conn cn h]
  simp only []
  rw [if_pos hc]
  by_cases hw : E.whole o = true
  · rw [if_pos hw]
    refine ⟨1, ?_⟩
    have h1 : Map.find ({ p.set r.conn { cn with tagmap := Map.erase cn.tagmap r.ifcall.tag } with
        log := (p.set r.conn { cn with tagmap := Map.erase cn.tagmap r.ifcall.tag }).log ++
          [Process.Event.send r.conn o] } : Process).conns r.conn
        = some { cn with tagmap := Map.erase cn.tagmap r.ifcall.tag } :=
      proc_find_set_self p r.conn cn _ h
    have h2 := proc_decref_live _ r.conn _ h1 hc
    cases hd : Process.decref_p9conn
        ({ p.set r.conn { cn with tagmap := Map.erase cn.tagmap r.ifcall.tag } with
          log := (p.set r.conn { cn with tagmap := Map.erase cn.tagmap r.ifcall.tag }).log ++
            [Process.Event.send r.conn o] } : Process) r.conn with
    | error x =>
      rw [hd] at h2
      obtain ⟨ab, q⟩ := x
      simp only [Run.ended] at h2 ⊢
      rw [h2]
      simp [Process.set, Map.assign_assign]
    | ok q =>
      rw [hd] at h2
      simp only [Run.ended, id] at h2 ⊢
      rw [h2]
      simp [Process.set, Map.assign_assign]
  · rw [if_neg hw]
    refine ⟨0, ?_⟩
    simp [Run.ended, Process.set]

theorem proc_finish_ok (E : Process.Env) (p : Process) (r : Process.Req9) (o : Fcall)
    (cn : Process.Conn9) (h : Map.find p.conns r.conn = some cn) (hr : 2 ≤ cn.ref)
    (hw : cn.conn = true → E.whole o = true) :
    Process.finish E p r o
      = .ok ({ p with
               conns := Map.assign p.conns r.conn
                 { cn with tagmap := Map.erase cn.tagmap r.ifcall.tag, ref := cn.ref - 1 },
               log := if cn.conn then p.log ++ [Process.Event.send r.conn o] else p.log }, o) := by
  unfold Process.finish
  rw [proc_get_of_find p r.conn cn h]
  simp only []
  by_cases hc : cn.conn = true
  · rw [if_pos hc, if_pos (hw hc)]
    have h1 : Map.find ({ p.set r.conn { cn with tagmap := Map.erase cn.tagmap r.ifcall.tag } with
        log := (p.set r.conn { cn with tagmap := Map.erase cn.tagmap r.ifcall.tag }).log ++
          [Process.Event.send r.conn o] } : Process).conns r.conn
        = some { cn with tagmap := Map.erase cn.tagmap r.ifcall.tag } :=
      proc_find_set_self p r.conn cn _ h
    rw [proc_decref_ok _ r.conn _ h1 hr]
    simp [Process.set, Map.assign_assign, hc]
  · rw [if_neg hc]
    rw [proc_decref_ok _ r.conn { cn with tagmap := Map.erase cn.tagmap r.ifcall.tag }
      (proc_find_set_self p r.conn cn _ h) hr]
    simp [Process.set, Map.assign_assign, hc]

theorem proc_commit_of_find (p : Process) (r : Process.Req9) (cn : Process.Conn9)
    (h : Map.find p.conns r.conn = some cn) :
    Process.commit p r
      = p.set r.conn { cn with tagmap := Map.assign cn.tagmap r.ifcall.tag r } := by
  simp [Process.commit, h]

theorem proc_ended_answer (E : Process.Env) (fuel : Nat) (p : Process) (r : Process.Req9)
    (error : Option String) :
    Run.ended id (Process.answer E fuel p r error)
      = Run.ended Prod.fst (Process.respond E fuel (Process.commit p r) r error) := by
  unfold Process.answer
  cases Process.respond E fuel (Process.commit p r) r error with
  | error x => rfl
  | ok x => rfl

/-- The switch of respond does nothing when the call carries an error and the request is
an Topen, Tcreate, Twrite, Twstat, Tread or Tstat, a Twalk to the same fid or with a null
newfid pointer, or a Tremove or Tclunk with a null fid pointer. -/
theorem proc_respondSwitch_error_skip (E : Process.Env)
    (nested : Process → Process.Req9 → Option String → Run (Process × Fcall))
    (p : Process) (r : Process.Req9) (e : String)
    (ht : r.ifcall.type ∈ [FType.TOpen, FType.TCreate, FType.TWrite, FType.TWStat,
            FType.TRead, FType.TStat] ∨
          (r.ifcall.type = FType.TWalk ∧
            (r.ifcall.fid = r.ifcall.newfid ∨ r.newfid = none)) ∨
          ((r.ifcall.type = FType.TRemove ∨ r.ifcall.type = FType.TClunk) ∧ r.fid = none)) :
    Process.respondSwitch E nested p r (some e) = .ok (p, r.ofcall, some e) := by
  unfold Process.respondSwitch
  rcases ht with ht | ⟨ht, hn⟩ | ⟨ht, hn⟩
  · simp only [List.mem_cons, List.mem_singleton, List.not_mem_nil, or_false] at ht
    rcases ht with h | h | h | h | h | h <;> simp [h]
  · rcases hn with hn | hn
    · simp [ht, hn]
    · simp [ht, hn]
  · rcases ht with h | h <;> simp [h, hn]

theorem proc_answer_error_live (E : Process.Env) (fuel : Nat) (p : Process) (r : Process.Req9)
    (e : String) (cn : Process.Conn9)
    (h : Map.find p.conns r.conn = some cn) (hc : cn.conn = true)
    (ht : r.ifcall.type ∈ [FType.TOpen, FType.TCreate, FType.TWrite, FType.TWStat,
            FType.TRead, FType.TStat] ∨
          (r.ifcall.type = FType.TWalk ∧
            (r.ifcall.fid = r.ifcall.newfid ∨ r.newfid = none)) ∨
          ((r.ifcall.type = FType.TRemove ∨ r.ifcall.type = FType.TClunk) ∧ r.fid = none)) :
    ∃ d : Int,
      Run.ended id (Process.answer E (fuel + 1) p r (some e))
        = { p with
            conns := Map.assign p.conns r.conn
              { cn with tagmap := Map.erase cn.tagmap r.ifcall.tag, ref := cn.ref - d },
            log := p.log ++
              [Process.Event.send r.conn (Process.reply r.ifcall r.ofcall (some e))] } := by
  rw [proc_ended_answer, proc_commit_of_find p r cn h]
  simp only [Process.respond]
  rw [proc_respondSwitch_error_skip E _ _ r e ht]
  simp only []
  obtain ⟨d, hd⟩ := proc_finish_live E (p.set r.conn
      { cn with tagmap := Map.assign cn.tagmap r.ifcall.tag r }) r
    (Process.reply r.ifcall r.ofcall (some e)) _ (proc_find_set_self p r.conn cn _ h) hc
  refine ⟨d, ?_⟩
  rw [hd]
  simp [Process.set, Map.assign_assign, Map.erase_assign]

theorem proc_handlefcall_arrived (E : Process.Env) (fuel : Nat) (p : Process) (c : Nat)
    (unset : Process.Req9) (fcall : Fcall) (own : Process.Conn9)
    (hown : Map.find p.conns c = some own)
    (hfree : Map.find own.tagmap fcall.tag = none) :
    Process.handlefcall E fuel p c unset fcall
      = Process.handlereq E fuel
          (p.set c { own with ref := own.ref + 1, conn := true,
                              tagmap := own.tagmap ++ [(fcall.tag, Process.incoming unset c fcall)] })
          (Process.incoming unset c fcall) := by
  unfold Process.handlefcall
  rw [proc_get_of_find p c own hown]
  simp [Map.emplace, hfree]

theorem proc_handlereq_entry (E : Process.Env) (fuel : Nat) (q : Process) (r : Process.Req9)
    (own cn : Process.Conn9)
    (hown : Map.find q.conns r.conn = some own)
    (hcn : Map.find q.conns (q.table.getD (r.conn, own.srv)).1 = some cn)
    (ht : r.ifcall.type ∈ Process.captured) :
    Process.handlereq E fuel q r
      = Process.entry E fuel (q.table.getD (r.conn, own.srv)).1 (q.table.getD (r.conn, own.srv)).2
          cn { q with table := some (q.table.getD (r.conn, own.srv)) } r := by
  have hv : r.ifcall.type ≠ FType.TVersion := by
    intro h
    rw [h] at ht
    revert ht
    decide
  unfold Process.handlereq
  rw [proc_get_of_find q r.conn own hown]
  simp only []
  rw [if_neg hv, if_pos ht]
  have hg : Process.get { q with table := some (q.table.getD (r.conn, own.srv)) }
      (q.table.getD (r.conn, own.srv)).1 = .ok cn :=
    proc_get_of_find _ _ _ hcn
  rw [hg]

/-- A request of a type whose entry uses the captured connection, arriving with a free tag,
is handed to that entry in the state `arrived`, with the captured connection as it is
then. -/
theorem proc_handlefcall_entry (E : Process.Env) (fuel : Nat) (p : Process) (c : Nat)
    (unset : Process.Req9) (fcall : Fcall) (own cn : Process.Conn9)
    (hown : Map.find p.conns c = some own)
    (hfree : Map.find own.tagmap fcall.tag = none)
    (hcn : Map.find p.conns (p.table.getD (c, own.srv)).1 = some cn)
    (ht : fcall.type ∈ Process.captured) :
    ∃ cn1,
      Process.handlefcall E fuel p c unset fcall
        = Process.entry E fuel (p.table.getD (c, own.srv)).1 (p.table.getD (c, own.srv)).2 cn1
            (p.arrived c unset fcall) (Process.incoming unset c fcall) ∧
      Map.find (p.arrived c unset fcall).conns (p.table.getD (c, own.srv)).1 = some cn1 ∧
      cn1.fidmap = cn.fidmap ∧ cn1.srv = cn.srv ∧
      cn1.ref = cn.ref + (if (p.table.getD (c, own.srv)).1 = c then 1 else 0) := by
  rw [proc_handlefcall_arrived E fuel p c unset fcall own hown hfree]
  have harr : p.arrived c unset fcall
      = { conns := Map.assign p.conns c
            { own with ref := own.ref + 1, conn := true,
                       tagmap := own.tagmap ++ [(fcall.tag, Process.incoming unset c fcall)] },
          table := some (p.table.getD (c, own.srv)),
          log := p.log } := by
    simp [Process.arrived, hown]
  have hself := proc_find_set_self p c own
    { own with ref := own.ref + 1, conn := true,
               tagmap := own.tagmap ++ [(fcall.tag, Process.incoming unset c fcall)] } hown
  by_cases ha : (p.table.getD (c, own.srv)).1 = c
  · have hcn' : cn = own := by
      rw [ha, hown] at hcn
      exact (Option.some.inj hcn).symm
    refine ⟨{ own with
              ref := own.ref + 1, conn := true,
              tagmap := own.tagmap ++ [(fcall.tag, Process.incoming unset c fcall)] },
      ?_, ?_, ?_, ?_, ?_⟩
    · rw [proc_handlereq_entry E fuel _ (Process.incoming unset c fcall) _ _ hself
        (by
          show Map.find (Map.assign p.conns c _) (p.table.getD (c, own.srv)).1 = _
          rw [ha]
          exact hself) ht, harr]
      rfl
    · rw [harr, ha]
      exact hself
    · rw [hcn']
    · rw [hcn']
    · rw [hcn', if_pos ha]
  · refine ⟨cn, ?_, ?_, rfl, rfl, ?_⟩
    · rw [proc_handlereq_entry E fuel _ (Process.incoming unset c fcall) _ cn hself
        (by
          show Map.find (Map.assign p.conns c _) (p.table.getD (c, own.srv)).1 = _
          rw [Map.find_assign_ne _ _ _ _ ha]
          exact hcn) ht, harr]
      rfl
    · rw [harr]
      show Map.find (Map.assign p.conns c _) _ = _
      rw [Map.find_assign_ne _ _ _ _ ha]
      exact hcn
    · rw [if_neg ha]; simp

theorem proc_destroyfid_log (E : Process.Env) (p : Process) (c fid : Nat) :
    ∃ l, (Run.ended id (Process.destroyfid E p c fid)).log = p.log ++ l ∧
      ∀ e ∈ l, ∃ sv k, e = Process.Event.freefid sv k := by
  unfold Process.destroyfid
  rcases proc_get_cases p c with ⟨cn, -, h⟩ | ⟨-, h⟩
  · rw [h]
    simp only []
    cases Map.find cn.fidmap fid with
    | none => exact ⟨[], by simp [Run.ended], by simp⟩
    | some f =>
      simp only []
      exact proc_destructFid_log E _ c f.fid
  · rw [h]
    exact ⟨[], by simp [Run.ended], by simp⟩

theorem proc_store_log (p : Process) (ptr : Process.Ptr) (f : Fid) : (p.store ptr f).log = p.log := by
  unfold Process.store
  cases ptr with
  | none => rfl
  | some x =>
    obtain ⟨a, k⟩ := x
    simp only []
    cases Map.find p.conns a with
    | none => rfl
    | some cn => rfl

theorem proc_deref_error (p : Process) (ptr : Process.Ptr) (x : Abort × Process)
    (h : p.deref ptr = .error x) : x.2 = p := by
  unfold Process.deref at h
  cases ptr with
  | none => simp at h; rw [← h]
  | some y =>
    obtain ⟨a, k⟩ := y
    simp only [] at h
    cases h1 : Map.find p.conns a with
    | none => rw [h1] at h; simp at h; rw [← h]
    | some cn =>
      rw [h1] at h
      simp only [] at h
      cases h2 : Map.find cn.fidmap k with
      | none => rw [h2] at h; simp at h; rw [← h]
      | some f => rw [h2] at h; simp at h

theorem proc_get_error (p : Process) (c : Nat) (x : Abort × Process)
    (h : p.get c = .error x) : x.2 = p := by
  rcases proc_get_cases p c with ⟨cn, -, h1⟩ | ⟨-, h1⟩
  · rw [h1] at h; simp at h
  · rw [h1] at h
    simp at h
    rw [← h]

/-- The part of respond that destroys a fid through a pointer: it appends freefid events
only. -/
theorem proc_destroy_through_log (E : Process.Env) (p : Process) (ptr : Process.Ptr) (c : Nat)
    (o : Fcall) (err : Option String) :
    ∃ l, (Run.ended (fun x => x.1)
        (match p.deref ptr with
         | .error x => (.error x : Run (Process × Fcall × Option String))
         | .ok f =>
           match Process.destroyfid E p c f.fid with
           | .error x => .error x
           | .ok p1 => .ok (p1, o, err))).log = p.log ++ l ∧
      ∀ e ∈ l, ∀ sv h c1 f1, e ≠ Process.Event.call sv h c1 f1 := by
  cases hd : p.deref ptr with
  | error x =>
    refine ⟨[], ?_, by simp⟩
    simp only [Run.ended]
    rw [proc_deref_error p ptr x hd]
    simp
  | ok f =>
    simp only []
    obtain ⟨l, hl, hp⟩ := proc_destroyfid_log E p c f.fid
    refine ⟨l, ?_, ?_⟩
    · cases hx : Process.destroyfid E p c f.fid with
      | error x =>
        rw [hx] at hl
        exact hl
      | ok p1 =>
        rw [hx] at hl
        exact hl
    · intro e he sv h c1 f1 hc
      obtain ⟨sv1, k, hk⟩ := hp e he
      rw [hk] at hc
      exact Process.Event.noConfusion hc

theorem proc_respondSwitch_log (E : Process.Env)
    (nested : Process → Process.Req9 → Option String → Run (Process × Fcall))
    (hn : ∀ q r1 e1, ∃ l, (Run.ended Prod.fst (nested q r1 e1)).log = q.log ++ l ∧
      ∀ e ∈ l, ∀ sv h c1 f1, e ≠ Process.Event.call sv h c1 f1)
    (p : Process) (r : Process.Req9) (error : Option String) :
    ∃ l, (Run.ended (fun x => x.1) (Process.respondSwitch E nested p r error)).log = p.log ++ l ∧
      ∀ e ∈ l, ∀ sv h c1 f1, e ≠ Process.Event.call sv h c1 f1 := by
  have hnil : ∀ q : Process, q.log = p.log →
      ∃ l, q.log = p.log ++ l ∧ ∀ e ∈ l, ∀ sv h c1 f1, e ≠ Process.Event.call sv h c1 f1 :=
    fun q hq => ⟨[], by simp [hq], by simp⟩
  unfold Process.respondSwitch
  simp only []
  by_cases h1 : r.ifcall.type = FType.TVersion
  · rw [if_pos h1]
    cases error with
    | some e => exact hnil _ rfl
    | none =>
      simp only []
      cases hg : p.get r.conn with
      | error x => exact hnil _ (by simp only [Run.ended]; rw [proc_get_error p _ x hg])
      | ok cn => exact hnil _ rfl
  rw [if_neg h1]
  by_cases h2 : r.ifcall.type = FType.TAttach
  · rw [if_pos h2]
    cases error with
    | some e => exact proc_destroy_through_log E p r.fid r.conn r.ofcall (some e)
    | none => exact hnil _ rfl
  rw [if_neg h2]
  by_cases h3 : r.ifcall.type = FType.TOpen ∨ r.ifcall.type = FType.TCreate
  · rw [if_pos h3]
    cases error with
    | some e => exact hnil _ rfl
    | none =>
      simp only []
      cases hg : p.get r.conn with
      | error x => exact hnil _ (by simp only [Run.ended]; rw [proc_get_error p _ x hg])
      | ok cn =>
        simp only []
        cases hd : p.deref r.fid with
        | error x => exact hnil _ (by simp only [Run.ended]; rw [proc_deref_error p _ x hd])
        | ok f => exact hnil _ (proc_store_log _ _ _)
  rw [if_neg h3]
  by_cases h4 : r.ifcall.type = FType.TWalk
  · rw [if_pos h4]
    by_cases h5 : error.isSome = true ∨ r.ofcall.nwqid < r.ifcall.nwname
    · rw [if_pos h5]
      by_cases h6 : r.ifcall.fid ≠ r.ifcall.newfid ∧ r.newfid.isSome = true
      · rw [if_pos h6]
        exact proc_destroy_through_log E p r.newfid r.conn r.ofcall _
      · rw [if_neg h6]
        exact hnil _ rfl
    · rw [if_neg h5]
      cases hd : p.deref r.newfid with
      | error x => exact hnil _ (by simp only [Run.ended]; rw [proc_deref_error p _ x hd])
      | ok nf =>
        simp only []
        by_cases h7 : r.ofcall.nwqid = 0
        · rw [if_pos h7]
          cases hd2 : p.deref r.fid with
          | error x => exact hnil _ (by simp only [Run.ended]; rw [proc_deref_error p _ x hd2])
          | ok f => exact hnil _ (proc_store_log _ _ _)
        · rw [if_neg h7]
          cases r.ofcall.wqid[r.ofcall.nwqid - 1]? with
          | none => exact hnil _ rfl
          | some q => exact hnil _ (proc_store_log _ _ _)
  rw [if_neg h4]
  by_cases h8 : r.ifcall.type = FType.TWrite
  · rw [if_pos h8]
    exact hnil _ rfl
  rw [if_neg h8]
  by_cases h9 : r.ifcall.type = FType.TRemove ∨ r.ifcall.type = FType.TClunk
  · rw [if_pos h9]
    cases hf : r.fid with
    | none => exact hnil _ rfl
    | some k =>
      simp only []
      have := proc_destroy_through_log E p r.fid r.conn r.ofcall error
      rw [hf] at this
      exact this
  rw [if_neg h9]
  by_cases h10 : r.ifcall.type = FType.TFlush
  · rw [if_pos h10]
    cases hg : p.get r.conn with
    | error x => exact hnil _ (by simp only [Run.ended]; rw [proc_get_error p _ x hg])
    | ok cn =>
      simp only []
      cases Map.find cn.tagmap r.ifcall.oldtag with
      | none => exact hnil _ rfl
      | some oldreq =>
        simp only []
        obtain ⟨l, hl, hp⟩ := hn p oldreq (some Eintr)
        refine ⟨l, ?_, hp⟩
        cases hx : nested p oldreq (some Eintr) with
        | error x =>
          rw [hx] at hl
          exact hl
        | ok y =>
          rw [hx] at hl
          exact hl
  rw [if_neg h10]
  by_cases h11 : r.ifcall.type = FType.TWStat ∨ r.ifcall.type = FType.TRead ∨
      r.ifcall.type = FType.TStat
  · rw [if_pos h11]
    exact hnil _ rfl
  rw [if_neg h11]
  cases error with
  | none => exact hnil _ rfl
  | some e => exact hnil _ rfl

theorem proc_finish_log (E : Process.Env) (p : Process) (r : Process.Req9) (o : Fcall) :
    ∃ l, (Run.ended Prod.fst (Process.finish E p r o)).log = p.log ++ l ∧
      ∀ e ∈ l, ∀ sv h c1 f1, e ≠ Process.Event.call sv h c1 f1 := by
  unfold Process.finish
  cases hg : p.get r.conn with
  | error x =>
    refine ⟨[], ?_, by simp⟩
    simp only [Run.ended]
    rw [proc_get_error p _ x hg]
    simp
  | ok cn =>
    simp only []
    by_cases hc : cn.conn = true
    · rw [if_pos hc]
      by_cases hw : E.whole o = true
      · rw [if_pos hw]
        refine ⟨[Process.Event.send r.conn o], ?_, ?_⟩
        · have := proc_decref_log
            ({ p.set r.conn { cn with tagmap := Map.erase cn.tagmap r.ifcall.tag } with
               log := (p.set r.conn { cn with tagmap := Map.erase cn.tagmap r.ifcall.tag }).log ++
                        [Process.Event.send r.conn o] } : Process) r.conn
          cases hd : Process.decref_p9conn
              ({ p.set r.conn { cn with tagmap := Map.erase cn.tagmap r.ifcall.tag } with
                 log := (p.set r.conn { cn with tagmap := Map.erase cn.tagmap r.ifcall.tag }).log ++
                          [Process.Event.send r.conn o] } : Process) r.conn with
          | error x =>
            rw [hd] at this
            exact this
          | ok q =>
            rw [hd] at this
            exact this
        · intro e he sv h c1 f1 hcall
          simp only [List.mem_singleton] at he
          rw [he] at hcall
          exact Process.Event.noConfusion hcall
      · rw [if_neg hw]
        refine ⟨[Process.Event.send r.conn o], rfl, ?_⟩
        intro e he sv h c1 f1 hcall
        simp only [List.mem_singleton] at he
        rw [he] at hcall
        exact Process.Event.noConfusion hcall
    · rw [if_neg hc]
      refine ⟨[], ?_, by simp⟩
      have := proc_decref_log (p.set r.conn { cn with tagmap := Map.erase cn.tagmap r.ifcall.tag })
        r.conn
      cases hd : Process.decref_p9conn
          (p.set r.conn { cn with tagmap := Map.erase cn.tagmap r.ifcall.tag }) r.conn with
      | error x =>
        rw [hd] at this
        simp only [Run.ended] at this ⊢
        rw [this]
        simp [Process.set]
      | ok q =>
        rw [hd] at this
        simp only [Run.ended, id] at this ⊢
        rw [this]
        simp [Process.set]

/-- A call of respond appends to the log, and appends no call of a handler. -/
theorem proc_respond_log (E : Process.Env) (fuel : Nat) :
    ∀ (p : Process) (r : Process.Req9) (error : Option String),
      ∃ l, (Run.ended Prod.fst (Process.respond E fuel p r error)).log = p.log ++ l ∧
        ∀ e ∈ l, ∀ sv h c1 f1, e ≠ Process.Event.call sv h c1 f1 := by
  induction fuel with
  | zero =>
    intro p r error
    exact ⟨[], by simp [Process.respond, Run.ended], by simp⟩
  | succ n ih =>
    intro p r error
    simp only [Process.respond]
    obtain ⟨l1, h1, hp1⟩ := proc_respondSwitch_log E (Process.respond E n) ih p r error
    cases hs : Process.respondSwitch E (Process.respond E n) p r error with
    | error x =>
      rw [hs] at h1
      exact ⟨l1, h1, hp1⟩
    | ok y =>
      obtain ⟨p1, ofcall, error1⟩ := y
      rw [hs] at h1
      simp only [Run.ended] at h1
      obtain ⟨l2, h2, hp2⟩ := proc_finish_log E p1 r (Process.reply r.ifcall ofcall error1)
      refine ⟨l1 ++ l2, ?_, ?_⟩
      · simp only []
        rw [h2, h1, List.append_assoc]
      · intro e he
        rcases List.mem_append.mp he with h | h
        · exact hp1 e h
        · exact hp2 e h

theorem proc_commit_log (p : Process) (r : Process.Req9) : (Process.commit p r).log = p.log := by
  unfold Process.commit
  cases Map.find p.conns r.conn with
  | none => rfl
  | some cn => rfl

theorem proc_answer_log (E : Process.Env) (fuel : Nat) (p : Process) (r : Process.Req9)
    (error : Option String) :
    ∃ l, (Run.ended id (Process.answer E fuel p r error)).log = p.log ++ l ∧
      ∀ e ∈ l, ∀ sv h c1 f1, e ≠ Process.Event.call sv h c1 f1 := by
  rw [proc_ended_answer]
  obtain ⟨l, hl, hp⟩ := proc_respond_log E fuel (Process.commit p r) r error
  exact ⟨l, by rw [hl, proc_commit_log], hp⟩

/-- A call of a handler logs the call first; what follows is no call of a handler. -/
theorem proc_invoke_log (E : Process.Env) (fuel : Nat) (srv : Nat) (h : Handler)
    (f : Process → Process.Req9 → Reaction) (p : Process) (r : Process.Req9) :
    ∃ l, (Run.ended id (Process.invoke E fuel srv h f p r)).log
        = p.log ++ Process.Event.call srv h r.conn r.ifcall :: l ∧
      ∀ e ∈ l, ∀ sv h1 c1 f1, e ≠ Process.Event.call sv h1 c1 f1 := by
  have tail : ∀ (a : Option (Option String)) (q2 : Process) (r1 : Process.Req9),
      q2.log = p.log ++ [Process.Event.call srv h r.conn r.ifcall] →
      ∃ l, (Run.ended id
          (match a with
           | none => (.ok (Process.commit q2 r1) : Run Process)
           | some e => Process.answer E fuel q2 r1 e)).log
          = p.log ++ Process.Event.call srv h r.conn r.ifcall :: l ∧
        ∀ e ∈ l, ∀ sv h1 c1 f1, e ≠ Process.Event.call sv h1 c1 f1 := by
    intro a q2 r1 hq2
    cases a with
    | none =>
      refine ⟨[], ?_, by simp⟩
      simp only [Run.ended, id]
      rw [proc_commit_log, hq2]
    | some e =>
      obtain ⟨l, hl, hp⟩ := proc_answer_log E fuel q2 r1 e
      refine ⟨l, ?_, hp⟩
      simp only []
      rw [hl, hq2, List.append_assoc]
      rfl
  have mid : ∀ (q : Process), q.log = p.log ++ [Process.Event.call srv h r.conn r.ifcall] →
      (match (f q r).fidqid, q.deref r.fid with
       | some qd, .ok fd => q.store r.fid { fd with qid := qd }
       | _, _ => q).log = p.log ++ [Process.Event.call srv h r.conn r.ifcall] := by
    intro q hq
    split
    · rw [proc_store_log, hq]
    · exact hq
  have hq0 : ({ Process.commit p r with
      log := (Process.commit p r).log ++ [Process.Event.call srv h r.conn r.ifcall] } : Process).log
        = p.log ++ [Process.Event.call srv h r.conn r.ifcall] := by
    show (Process.commit p r).log ++ _ = _
    rw [proc_commit_log]
  exact tail _ _ _ (mid _ hq0)

theorem proc_fidmap_assign (m : Map Process.Conn9) (c a : Nat) (old v : Process.Conn9)
    (h : Map.find m c = some old) (hv : v.fidmap = old.fidmap) :
    (Map.find (Map.assign m c v) a).map (fun x => x.fidmap)
      = (Map.find m a).map (fun x => x.fidmap) := by
  by_cases hac : a = c
  · rw [hac, Map.find_assign_self m c old v h, h]
    simp [hv]
  · rw [Map.find_assign_ne m c a v hac]

theorem proc_destructFid_ok (E : Process.Env) (p : Process) (c fid : Nat) (cn : Process.Conn9)
    (h : Map.find p.conns c = some cn) (hr : 2 ≤ cn.ref) :
    Process.destructFid E p c fid
      = .ok { conns := Map.assign p.conns c { cn with ref := cn.ref - 1 },
              table := p.table,
              log := p.log ++ (if (E.srvs cn.srv).freefid
                               then [Process.Event.freefid cn.srv fid] else []) } := by
  unfold Process.destructFid
  rw [proc_get_of_find p c cn h]
  simp only []
  by_cases hf : (E.srvs cn.srv).freefid = true
  · rw [if_pos hf, if_pos hf]
    have h1 : Map.find ({ p with log := p.log ++ [Process.Event.freefid cn.srv fid] } : Process).conns c
        = some cn := h
    rw [proc_decref_ok _ c cn h1 hr]
    rfl
  · rw [if_neg hf, if_neg hf]
    rw [proc_decref_ok _ c cn h hr]
    simp [Process.set]

/-- The function createfid on a connection that is counted at least twice, for a key that
is free: the entry is added, the count is one less (one more when a copy counts a
reference), and the log has grown by freefid events only. -/
theorem proc_createfid_ok (E : Process.Env) (p : Process) (a k : Nat) (cn : Process.Conn9)
    (h : Map.find p.conns a = some cn) (hk : Map.find cn.fidmap k = none) (hr : 2 ≤ cn.ref) :
    ∃ pre, Process.createfid E p a k
        = .ok ({ conns := Map.assign p.conns a
                   { cn with
                     fidmap := cn.fidmap ++ [(k, { fid := k })],
                     ref := cn.ref - 1 + (if E.copyCounts then 2 else 0) },
                 table := p.table,
                 log := p.log ++ pre }, some (a, k)) ∧
      ∀ e ∈ pre, ∃ sv j, e = Process.Event.freefid sv j := by
  unfold Process.createfid
  rw [proc_get_of_find p a cn h]
  simp only [Map.emplace, hk]
  have h1 := proc_find_set_self p a cn
    { cn with
      ref := cn.ref + 1 + (if E.copyCounts then 2 else 0),
      fidmap := cn.fidmap ++ [(k, { fid := k })] } h
  rw [proc_destructFid_ok E _ a k _ h1 (by simp only []; split_ifs <;> omega)]
  simp only []
  have h2 : Map.find (Map.assign (p.set a
      { cn with
        ref := cn.ref + 1 + (if E.copyCounts then 2 else 0),
        fidmap := cn.fidmap ++ [(k, { fid := k })] }).conns a
      { cn with
        ref := cn.ref + 1 + (if E.copyCounts then 2 else 0) - 1,
        fidmap := cn.fidmap ++ [(k, { fid := k })] }) a = some _ :=
    Map.find_assign_self _ _ _ _ h1
  rw [proc_destructFid_ok E _ a k _ h2 (by simp only []; split_ifs <;> omega)]
  refine ⟨(if (E.srvs cn.srv).freefid then [Process.Event.freefid cn.srv k] else []) ++
      (if (E.srvs cn.srv).freefid then [Process.Event.freefid cn.srv k] else []), ?_, ?_⟩
  · simp only [Process.set, Map.assign_assign, List.append_assoc]
    congr 3
    · congr 2
      split_ifs <;> omega
  · intro e he
    rcases List.mem_append.mp he with h3 | h3
    · split_ifs at h3
      · exact ⟨_, _, List.mem_singleton.mp h3⟩
      · simp at h3
    · split_ifs at h3
      · exact ⟨_, _, List.mem_singleton.mp h3⟩
      · simp at h3

/-- The local variable `error` of respond after the switch: an error passed in is kept; on
a call with nullptr none is set unless the request is a Twalk of at least one name whose
reply holds no qid, and then the request type is below 255. -/
theorem proc_respondSwitch_error (E : Process.Env)
    (nested : Process → Process.Req9 → Option String → Run (Process × Fcall))
    (p p1 : Process) (r : Process.Req9) (error error1 : Option String) (ofcall : Fcall)
    (h : Process.respondSwitch E nested p r error = .ok (p1, ofcall, error1)) :
    (∀ e, error = some e → error1 = some e) ∧
    (error = none → (r.ifcall.type = FType.TWalk → r.ofcall.nwqid ≠ 0 ∨ r.ifcall.nwname = 0) →
      error1 = none ∧ r.ifcall.type + 1 < 256) := by
  unfold Process.respondSwitch at h
  simp only [] at h
  split_ifs at h with h1 h2 h3 h4 h5 h6 h7 h8 h9
  all_goals (repeat' split at h)
  all_goals (try (simp only [reduceCtorEq] at h))
  all_goals (simp only [Except.ok.injEq, Prod.mk.injEq] at h)
  all_goals (obtain ⟨-, -, rfl⟩ := h)
  all_goals (try (simp_all; done))
  all_goals (try (simp_all; omega))

theorem proc_reply_tag (ifcall ofcall : Fcall) (error : Option String) :
    (Process.reply ifcall ofcall error).tag = ifcall.tag := by
  cases error <;> rfl

/-- What finish returns is the reply it was given, and it has sent the reply if the
transport pointer is set afterwards. -/
theorem proc_finish_returned (E : Process.Env) (q p1 : Process) (r : Process.Req9)
    (o o1 : Fcall) (h : Process.finish E q r o = .ok (p1, o1)) :
    o1 = o ∧
    ∀ cn1, Map.find p1.conns r.conn = some cn1 → cn1.conn = true →
      p1.log = q.log ++ [Process.Event.send r.conn o] := by
  unfold Process.finish at h
  rcases proc_get_cases q r.conn with ⟨cn, hfind, hg⟩ | ⟨-, hg⟩
  · rw [hg] at h
    simp only [] at h
    by_cases hc : cn.conn = true
    · rw [if_pos hc] at h
      by_cases hw : E.whole o = true
      · rw [if_pos hw] at h
        have hl := proc_decref_log
          ({ q.set r.conn { cn with tagmap := Map.erase cn.tagmap r.ifcall.tag } with
             log := (q.set r.conn { cn with tagmap := Map.erase cn.tagmap r.ifcall.tag }).log ++
                      [Process.Event.send r.conn o] } : Process) r.conn
        cases hd : Process.decref_p9conn
            ({ q.set r.conn { cn with tagmap := Map.erase cn.tagmap r.ifcall.tag } with
               log := (q.set r.conn { cn with tagmap := Map.erase cn.tagmap r.ifcall.tag }).log ++
                        [Process.Event.send r.conn o] } : Process) r.conn with
        | error x => rw [hd] at h; simp at h
        | ok p2 =>
          rw [hd] at h hl
          simp only [Except.ok.injEq, Prod.mk.injEq] at h
          obtain ⟨h1, h2⟩ := h
          refine ⟨h2.symm, ?_⟩
          intro cn1 _ _
          rw [← h1]
          exact hl
      · rw [if_neg hw] at h
        simp at h
    · rw [if_neg hc] at h
      have hset : Map.find (q.set r.conn
          { cn with tagmap := Map.erase cn.tagmap r.ifcall.tag }).conns r.conn
          = some { cn with tagmap := Map.erase cn.tagmap r.ifcall.tag } :=
        proc_find_set_self q r.conn cn _ hfind
      unfold Process.decref_p9conn at h
      rw [proc_get_of_find _ _ _ hset] at h
      simp only [] at h
      by_cases hr : cn.ref - 1 > 0
      · rw [if_pos hr] at h
        simp only [Except.ok.injEq, Prod.mk.injEq] at h
        obtain ⟨h1, h2⟩ := h
        refine ⟨h2.symm, ?_⟩
        intro cn1 hf1 hc1
        rw [← h1, proc_set_set] at hf1
        rw [proc_find_set_self q r.conn cn _ hfind] at hf1
        have := Option.some.inj hf1
        rw [← this] at hc1
        exact absurd hc1 hc
      · rw [if_neg hr, if_neg hc] at h
        simp only [Except.ok.injEq, Prod.mk.injEq] at h
        obtain ⟨h1, h2⟩ := h
        refine ⟨h2.symm, ?_⟩
        intro cn1 hf1 hc1
        rw [← h1] at hf1
        simp only [] at hf1
        rw [Map.find_erase_self] at hf1
        simp at hf1
  · rw [hg] at h
    simp at h

theorem proc_store_conns (p : Process) (a k : Nat) (ca : Process.Conn9) (f : Fid)
    (hca : Map.find p.conns a = some ca) :
    p.store (some (a, k)) f
      = { p with conns := Map.assign p.conns a
                   { ca with fidmap := Map.assign ca.fidmap k f } } := by
  simp [Process.store, hca, Process.set]

/-- The connection of a request after a Fid was written through a pointer: only the fid map
can have changed. -/
theorem proc_store_find (p : Process) (a k c : Nat) (ca cn : Process.Conn9) (f : Fid)
    (hca : Map.find p.conns a = some ca) (hcn : Map.find p.conns c = some cn) :
    ∃ cn1, Map.find (p.store (some (a, k)) f).conns c = some cn1 ∧
      cn1.conn = cn.conn ∧ cn1.rmsg = cn.rmsg ∧ cn1.ref = cn.ref ∧ cn1.tagmap = cn.tagmap := by
  rw [proc_store_conns p a k ca f hca]
  by_cases hac : c = a
  · subst hac
    rw [hca] at hcn
    have := Option.some.inj hcn
    subst this
    exact ⟨_, Map.find_assign_self _ _ _ _ hca, rfl, rfl, rfl, rfl⟩
  · refine ⟨cn, ?_, rfl, rfl, rfl, rfl⟩
    show Map.find (Map.assign p.conns a _) c = _
    rw [Map.find_assign_ne _ _ _ _ hac]
    exact hcn

theorem proc_store_fid (p : Process) (a k : Nat) (ca : Process.Conn9) (f fd : Fid)
    (hca : Map.find p.conns a = some ca) (hfd : Map.find ca.fidmap k = some fd) :
    (Map.find (p.store (some (a, k)) f).conns a).bind (fun x => Map.find x.fidmap k)
      = some f := by
  rw [proc_store_conns p a k ca f hca]
  show (Map.find (Map.assign p.conns a _) a).bind _ = _
  rw [Map.find_assign_self _ _ _ _ hca]
  exact Map.find_assign_self _ _ _ _ hfd

theorem proc_deref_of_find (p : Process) (a k : Nat) (ca : Process.Conn9) (fd : Fid)
    (hca : Map.find p.conns a = some ca) (hfd : Map.find ca.fidmap k = some fd) :
    p.deref (some (a, k)) = .ok fd := by
  simp [Process.deref, hca, hfd]

theorem cstr_of_no_nul (s : String) (h : Char.ofNat 0 ∉ s.data) : cstr s = s := by
  unfold cstr
  have : s.data.takeWhile (fun ch => decide (ch ≠ Char.ofNat 0)) = s.data := by
    rw [List.takeWhile_eq_self_iff]
    intro ch hch
    simp only [decide_eq_true_eq]
    intro heq
    exact h (heq ▸ hch)
  rw [this]

theorem proc_answer_version (E : Process.Env) (fuel : Nat) (p : Process) (r : Process.Req9)
    (cn : Process.Conn9) (ht : r.ifcall.type = FType.TVersion)
    (h : Map.find p.conns r.conn = some cn) (hc : cn.conn = true) :
    ∃ o, (Run.ended id (Process.answer E (fuel + 1) p r none)).log
        = p.log ++ [Process.Event.send r.conn o] ∧
      o.type = FType.RVersion ∧ o.tag = r.ifcall.tag ∧ o.version = r.ofcall.version := by
  rw [proc_ended_answer, proc_commit_of_find p r cn h]
  simp only [Process.respond]
  have hf := proc_find_set_self p r.conn cn
    { cn with tagmap := Map.assign cn.tagmap r.ifcall.tag r } h
  have hsw : Process.respondSwitch E (Process.respond E fuel)
      (p.set r.conn { cn with tagmap := Map.assign cn.tagmap r.ifcall.tag r }) r none
      = .ok ((p.set r.conn { cn with tagmap := Map.assign cn.tagmap r.ifcall.tag r }).set r.conn
               { cn with
                 tagmap := Map.assign cn.tagmap r.ifcall.tag r,
                 rmsg := toUInt32 (min (toInt32 r.ofcall.msize) (E.maxMsg : Int)),
                 wmsg := toUInt32 (min (toInt32 r.ofcall.msize) (E.maxMsg : Int)) },
             { r.ofcall with msize := toUInt32 (min (toInt32 r.ofcall.msize) (E.maxMsg : Int)) },
             none) := by
    unfold Process.respondSwitch
    simp only [ht, if_true]
    rw [proc_get_of_find _ _ _ hf]
  rw [hsw]
  simp only []
  obtain ⟨d, hd⟩ := proc_finish_live E
    ((p.set r.conn { cn with tagmap := Map.assign cn.tagmap r.ifcall.tag r }).set r.conn
      { cn with
        tagmap := Map.assign cn.tagmap r.ifcall.tag r,
        rmsg := toUInt32 (min (toInt32 r.ofcall.msize) (E.maxMsg : Int)),
        wmsg := toUInt32 (min (toInt32 r.ofcall.msize) (E.maxMsg : Int)) }) r
    (Process.reply r.ifcall
      { r.ofcall with msize := toUInt32 (min (toInt32 r.ofcall.msize) (E.maxMsg : Int)) } none)
    _ (proc_find_set_self _ r.conn _ _ hf) hc
  rw [hd]
  refine ⟨_, rfl, ?_, rfl, rfl⟩
  simp [Process.reply, ht]

/-- The function destroyfid on a connection that is counted at least twice returns: the
count is the same or one less, the log has grown by freefid events only, and the tag map
and the transport pointer are as before. -/
theorem proc_destroyfid_ok (E : Process.Env) (p : Process) (c k : Nat) (cn : Process.Conn9)
    (h : Map.find p.conns c = some cn) (hr : 2 ≤ cn.ref) :
    ∃ pre cn1 p1, Process.destroyfid E p c k = .ok p1 ∧
      p1.log = p.log ++ pre ∧ (∀ e ∈ pre, ∃ sv j, e = Process.Event.freefid sv j) ∧
      Map.find p1.conns c = some cn1 ∧ cn1.conn = cn.conn ∧ cn1.tagmap = cn.tagmap ∧
      cn.ref - 1 ≤ cn1.ref ∧ cn1.ref ≤ cn.ref := by
  unfold Process.destroyfid
  rw [proc_get_of_find p c cn h]
  simp only []
  cases hf : Map.find cn.fidmap k with
  | none =>
    exact ⟨[], cn, p, rfl, by simp, by simp, h, rfl, rfl, by omega, le_refl _⟩
  | some f =>
    simp only []
    have h1 := proc_find_set_self p c cn { cn with fidmap := Map.erase cn.fidmap k } h
    rw [proc_destructFid_ok E _ c f.fid _ h1 hr]
    refine ⟨_, _, _, rfl, rfl, ?_, Map.find_assign_self _ _ _ _ h1, rfl, rfl, ?_, ?_⟩
    · intro e he
      simp only [] at he
      split_ifs at he
      · exact ⟨_, _, List.mem_singleton.mp he⟩
      · simp at he
    · simp only []; omega
    · simp only []; omega

/-- The switch of respond on a call with an error, for a request that is neither a
Tversion nor a Tflush and whose fid pointers on the error path point into a fid map, on a
connection that is counted at least twice. -/
theorem proc_respondSwitch_error_ok (E : Process.Env)
    (nested : Process → Process.Req9 → Option String → Run (Process × Fcall))
    (p : Process) (r : Process.Req9) (e : String) (cn : Process.Conn9)
    (hcn : Map.find p.conns r.conn = some cn) (hr : 2 ≤ cn.ref)
    (hv : r.ifcall.type ≠ FType.TVersion) (hf : r.ifcall.type ≠ FType.TFlush)
    (hatt : r.ifcall.type = FType.TAttach → ∃ fd, p.deref r.fid = .ok fd)
    (hwalk : r.ifcall.type = FType.TWalk → r.ifcall.fid ≠ r.ifcall.newfid →
      r.newfid.isSome = true → ∃ fd, p.deref r.newfid = .ok fd)
    (hclunk : r.ifcall.type = FType.TRemove ∨ r.ifcall.type = FType.TClunk →
      r.fid.isSome = true → ∃ fd, p.deref r.fid = .ok fd) :
    ∃ pre cn1 p1, Process.respondSwitch E nested p r (some e) = .ok (p1, r.ofcall, some e) ∧
      p1.log = p.log ++ pre ∧ (∀ x ∈ pre, ∃ sv j, x = Process.Event.freefid sv j) ∧
      Map.find p1.conns r.conn = some cn1 ∧ cn1.conn = cn.conn ∧ cn1.tagmap = cn.tagmap ∧
      cn.ref - 1 ≤ cn1.ref ∧ cn1.ref ≤ cn.ref := by
  have hsame : ∃ pre cn1 p1, (.ok (p, r.ofcall, some e) : Run (Process × Fcall × Option String))
        = .ok (p1, r.ofcall, some e) ∧
      p1.log = p.log ++ pre ∧ (∀ x ∈ pre, ∃ sv j, x = Process.Event.freefid sv j) ∧
      Map.find p1.conns r.conn = some cn1 ∧ cn1.conn = cn.conn ∧ cn1.tagmap = cn.tagmap ∧
      cn.ref - 1 ≤ cn1.ref ∧ cn1.ref ≤ cn.ref :=
    ⟨[], cn, p, rfl, by simp, by simp, hcn, rfl, rfl, by omega, le_refl _⟩
  have hdestroy : ∀ (ptr : Process.Ptr) (fd : Fid), p.deref ptr = .ok fd →
      ∃ pre cn1 p1,
        (match p.deref ptr with
         | .error x => (.error x : Run (Process × Fcall × Option String))
         | .ok f =>
           match Process.destroyfid E p r.conn f.fid with
           | .error x => .error x
           | .ok p1 => .ok (p1, r.ofcall, some e)) = .ok (p1, r.ofcall, some e) ∧
        p1.log = p.log ++ pre ∧ (∀ x ∈ pre, ∃ sv j, x = Process.Event.freefid sv j) ∧
        Map.find p1.conns r.conn = some cn1 ∧ cn1.conn = cn.conn ∧ cn1.tagmap = cn.tagmap ∧
        cn.ref - 1 ≤ cn1.ref ∧ cn1.ref ≤ cn.ref := by
    intro ptr fd hd
    obtain ⟨pre, cn1, p1, h1, h2, h3, h4, h5, h6, h7, h8⟩ :=
      proc_destroyfid_ok E p r.conn fd.fid cn hcn hr
    refine ⟨pre, cn1, p1, ?_, h2, h3, h4, h5, h6, h7, h8⟩
    rw [hd]
    simp only []
    rw [h1]
  unfold Process.respondSwitch
  simp only []
  rw [if_neg hv]
  by_cases h2 : r.ifcall.type = FType.TAttach
  · rw [if_pos h2]
    obtain ⟨fd, hfd⟩ := hatt h2
    exact hdestroy r.fid fd hfd
  rw [if_neg h2]
  by_cases h3 : r.ifcall.type = FType.TOpen ∨ r.ifcall.type = FType.TCreate
  · rw [if_pos h3]
    exact hsame
  rw [if_neg h3]
  by_cases h4 : r.ifcall.type = FType.TWalk
  · rw [if_pos h4,
      if_pos (show (some e).isSome = true ∨ r.ofcall.nwqid < r.ifcall.nwname from Or.inl rfl)]
    have he : (if (some e).isNone = true ∧ r.ofcall.nwqid = 0 then some Enofile else some e)
        = some e := by simp
    rw [he]
    by_cases h6 : r.ifcall.fid ≠ r.ifcall.newfid ∧ r.newfid.isSome = true
    · rw [if_pos h6]
      obtain ⟨fd, hfd⟩ := hwalk h4 h6.1 h6.2
      exact hdestroy r.newfid fd hfd
    · rw [if_neg h6]
      exact hsame
  rw [if_neg h4]
  by_cases h8 : r.ifcall.type = FType.TWrite
  · rw [if_pos h8]
    exact hsame
  rw [if_neg h8]
  by_cases h9 : r.ifcall.type = FType.TRemove ∨ r.ifcall.type = FType.TClunk
  · rw [if_pos h9]
    cases hfid : r.fid with
    | none => exact hsame
    | some k =>
      simp only []
      obtain ⟨fd, hfd⟩ := hclunk h9 (by rw [hfid]; rfl)
      have := hdestroy r.fid fd hfd
      rw [hfid] at this
      exact this
  rw [if_neg h9, if_neg hf]
  by_cases h11 : r.ifcall.type = FType.TWStat ∨ r.ifcall.type = FType.TRead ∨
      r.ifcall.type = FType.TStat
  · rw [if_pos h11]
    exact hsame
  rw [if_neg h11]
  exact hsame

/-- Respond with an error on a request that is neither a Tversion nor a Tflush and whose
fid pointers on the error path point into a fid map, on a connection whose transport
pointer is set and that is counted at least three times, when the reply is sent whole:
respond returns, the reply is the last thing logged, after freefid events only, and the
tag of the request has left the tag map. -/
theorem proc_respond_error_ok (E : Process.Env) (fuel : Nat) (p : Process) (r : Process.Req9)
    (e : String) (cn : Process.Conn9)
    (hcn : Map.find p.conns r.conn = some cn) (hc : cn.conn = true) (hr : 3 ≤ cn.ref)
    (hw : E.whole (Process.reply r.ifcall r.ofcall (some e)) = true)
    (hv : r.ifcall.type ≠ FType.TVersion) (hf : r.ifcall.type ≠ FType.TFlush)
    (hatt : r.ifcall.type = FType.TAttach → ∃ fd, p.deref r.fid = .ok fd)
    (hwalk : r.ifcall.type = FType.TWalk → r.ifcall.fid ≠ r.ifcall.newfid →
      r.newfid.isSome = true → ∃ fd, p.deref r.newfid = .ok fd)
    (hclunk : r.ifcall.type = FType.TRemove ∨ r.ifcall.type = FType.TClunk →
      r.fid.isSome = true → ∃ fd, p.deref r.fid = .ok fd) :
    ∃ pre cn1 p1,
      Process.respond E (fuel + 1) p r (some e)
        = .ok (p1, Process.reply r.ifcall r.ofcall (some e)) ∧
      p1.log = p.log ++ pre ++ [Process.Event.send r.conn (Process.reply r.ifcall r.ofcall (some e))] ∧
      (∀ x ∈ pre, ∃ sv j, x = Process.Event.freefid sv j) ∧
      Map.find p1.conns r.conn = some cn1 ∧ cn1.conn = true ∧
      cn1.tagmap = Map.erase cn.tagmap r.ifcall.tag ∧
      cn.ref - 2 ≤ cn1.ref ∧ cn1.ref ≤ cn.ref := by
  obtain ⟨pre, cn1, p1, hsw, hlog, hpre, hfind, hconn, htag, hlo, hhi⟩ :=
    proc_respondSwitch_error_ok E (Process.respond E fuel) p r e cn hcn (by omega) hv hf
      hatt hwalk hclunk
  simp only [Process.respond, hsw]
  rw [proc_finish_ok E p1 r _ cn1 hfind (by omega) (fun _ => hw)]
  refine ⟨pre, _, _, rfl, ?_, hpre, Map.find_assign_self _ _ _ _ hfind, ?_, ?_, ?_, ?_⟩
  · simp only [hconn, hc, if_true, hlog]
  · exact hconn.trans hc
  · simp only [htag]
  · simp only []; omega
  · simp only []; omega

/-- A fid is read the same after a connection was assigned a state with the same fid map. -/
theorem proc_fid_after_assign (m : Map Process.Conn9) (c a k : Nat) (old v : Process.Conn9)
    (h : Map.find m c = some old) (hv : v.fidmap = old.fidmap) :
    (Map.find (Map.assign m c v) a).bind (fun x => Map.find x.fidmap k)
      = (Map.find m a).bind (fun x => Map.find x.fidmap k) := by
  by_cases hac : a = c
  · rw [hac, Map.find_assign_self m c old v h, h]
    simp [hv]
  · rw [Map.find_assign_ne m c a v hac]

/-! ### The fids stay with the connection of the dispatch table -/


theorem keepsFids_refl (a : Option Nat) (p : Process) : Process.keepsFids a p p :=
  ⟨rfl, fun _ cn1 _ h => ⟨cn1, h, id⟩⟩

theorem keepsFids_trans (a : Option Nat) (p q s : Process)
    (h1 : Process.keepsFids a p q) (h2 : Process.keepsFids a q s) : Process.keepsFids a p s := by
  refine ⟨h2.1.trans h1.1, ?_⟩
  intro c cn2 ha hf
  obtain ⟨cn1, hf1, he1⟩ := h2.2 c cn2 ha hf
  obtain ⟨cn, hf0, he0⟩ := h1.2 c cn1 ha hf1
  exact ⟨cn, hf0, fun h => he1 (he0 h)⟩

theorem keepsFids_weaken (a : Option Nat) (p q : Process)
    (h : Process.keepsFids none p q) : Process.keepsFids a p q :=
  ⟨h.1, fun c cn1 _ hf => h.2 c cn1 (by simp) hf⟩

theorem keepsFids_set (p : Process) (c : Nat) (cn cn1 : Process.Conn9)
    (h : Map.find p.conns c = some cn) (hf : cn.fidmap = [] → cn1.fidmap = []) :
    Process.keepsFids none p (p.set c cn1) := by
  refine ⟨rfl, ?_⟩
  intro c1 cn2 _ hf2
  by_cases hc : c1 = c
  · rw [hc, proc_find_set_self p c cn cn1 h] at hf2
    have := Option.some.inj hf2
    rw [← this, hc]
    exact ⟨cn, h, hf⟩
  · have : Map.find (p.set c cn1).conns c1 = Map.find p.conns c1 :=
      Map.find_assign_ne _ _ _ _ hc
    rw [this] at hf2
    exact ⟨cn2, hf2, id⟩

theorem keepsFids_decref (p q : Process) (c : Nat)
    (h : Process.decref_p9conn p c = .ok q) : Process.keepsFids none p q := by
  unfold Process.decref_p9conn at h
  rcases proc_get_cases p c with ⟨cn, hfind, hg⟩ | ⟨-, hg⟩
  · rw [hg] at h
    simp only [] at h
    by_cases hr : cn.ref - 1 > 0
    · rw [if_pos hr] at h
      simp only [Except.ok.injEq] at h
      rw [← h]
      exact keepsFids_set p c cn _ hfind id
    · rw [if_neg hr] at h
      by_cases hc : cn.conn = true
      · rw [if_pos hc] at h
        simp at h
      · rw [if_neg hc] at h
        simp only [Except.ok.injEq] at h
        rw [← h]
        refine ⟨rfl, ?_⟩
        intro c1 cn2 _ hf2
        simp only [] at hf2
        by_cases hcc : c1 = c
        · rw [hcc, Map.find_erase_self] at hf2
          simp at hf2
        · rw [Map.find_erase_ne _ _ _ hcc] at hf2
          exact (keepsFids_set p c cn { cn with ref := cn.ref - 1 } hfind id).2 c1 cn2
            (by simp) hf2
  · rw [hg] at h
    simp at h

theorem keepsFids_destructFid (E : Process.Env) (p q : Process) (c fid : Nat)
    (h : Process.destructFid E p c fid = .ok q) : Process.keepsFids none p q := by
  unfold Process.destructFid at h
  rcases proc_get_cases p c with ⟨cn, hfind, hg⟩ | ⟨-, hg⟩
  · rw [hg] at h
    simp only [] at h
    by_cases hf : (E.srvs cn.srv).freefid = true
    · rw [if_pos hf] at h
      have := keepsFids_decref _ q c h
      exact ⟨this.1, this.2⟩
    · rw [if_neg hf] at h
      exact keepsFids_decref _ q c h
  · rw [hg] at h
    simp at h

theorem keepsFids_destroyfid (E : Process.Env) (p q : Process) (c fid : Nat)
    (h : Process.destroyfid E p c fid = .ok q) : Process.keepsFids none p q := by
  unfold Process.destroyfid at h
  rcases proc_get_cases p c with ⟨cn, hfind, hg⟩ | ⟨-, hg⟩
  · rw [hg] at h
    simp only [] at h
    cases hf : Map.find cn.fidmap fid with
    | none =>
      rw [hf] at h
      simp only [Except.ok.injEq] at h
      rw [← h]
      exact keepsFids_refl none p
    | some f =>
      rw [hf] at h
      simp only [] at h
      refine keepsFids_trans none p _ q
        (keepsFids_set p c cn { cn with fidmap := Map.erase cn.fidmap fid } hfind ?_)
        (keepsFids_destructFid E _ q c f.fid h)
      intro he
      simp only [he]
      rfl
  · rw [hg] at h
    simp at h

theorem keepsFids_store (p : Process) (ptr : Process.Ptr) (f : Fid) :
    Process.keepsFids none p (p.store ptr f) := by
  unfold Process.store
  cases ptr with
  | none => exact keepsFids_refl none p
  | some x =>
    obtain ⟨a, k⟩ := x
    simp only []
    cases hf : Map.find p.conns a with
    | none => exact keepsFids_refl none p
    | some cn =>
      simp only []
      refine keepsFids_set p a cn _ hf ?_
      intro he
      simp only [he]
      rfl

theorem keepsFids_createfid (E : Process.Env) (p q : Process) (a k : Nat) (ptr : Process.Ptr)
    (h : Process.createfid E p a k = .ok (q, ptr)) : Process.keepsFids (some a) p q := by
  unfold Process.createfid at h
  rcases proc_get_cases p a with ⟨cn, hfind, hg⟩ | ⟨-, hg⟩
  · rw [hg] at h
    simp only [] at h
    have hset : ∀ cn1 : Process.Conn9, Process.keepsFids (some a) p (p.set a cn1) := by
      intro cn1
      refine ⟨rfl, ?_⟩
      intro c1 cn2 ha hf2
      have hne : c1 ≠ a := fun hx => ha (by rw [hx])
      have : Map.find (p.set a cn1).conns c1 = Map.find p.conns c1 :=
        Map.find_assign_ne _ _ _ _ hne
      rw [this] at hf2
      exact ⟨cn2, hf2, id⟩
    split at h
    · split at h
      · simp at h
      · rename_i p1 h1
        split at h
        · simp at h
        · rename_i p2 h2
          simp only [Except.ok.injEq, Prod.mk.injEq] at h
          rw [← h.1]
          exact keepsFids_trans _ p _ p2 (hset _)
            (keepsFids_weaken _ _ _ (keepsFids_trans none _ p1 p2
              (keepsFids_destructFid E _ p1 a k h1) (keepsFids_destructFid E _ p2 a k h2)))
    · split at h
      · simp at h
      · rename_i p1 h1
        split at h
        · simp at h
        · rename_i p2 h2
          split at h
          · simp at h
          · rename_i p3 h3
            simp only [Except.ok.injEq, Prod.mk.injEq] at h
            rw [← h.1]
            exact keepsFids_trans _ p _ p3 (hset _)
              (keepsFids_weaken _ _ _ (keepsFids_trans none _ p1 p3
                (keepsFids_destructFid E _ p1 a k h1)
                (keepsFids_trans none _ p2 p3 (keepsFids_destructFid E _ p2 a k h2)
                  (keepsFids_destructFid E _ p3 a k h3))))
  · rw [hg] at h
    simp at h

theorem keepsFids_finish (E : Process.Env) (p q : Process) (r : Process.Req9) (o o1 : Fcall)
    (h : Process.finish E p r o = .ok (q, o1)) : Process.keepsFids none p q := by
  unfold Process.finish at h
  rcases proc_get_cases p r.conn with ⟨cn, hfind, hg⟩ | ⟨-, hg⟩
  · rw [hg] at h
    simp only [] at h
    have hset := keepsFids_set p r.conn cn
      { cn with tagmap := Map.erase cn.tagmap r.ifcall.tag } hfind id
    split at h
    · split at h
      · split at h
        · simp at h
        · rename_i p2 h2
          simp only [Except.ok.injEq, Prod.mk.injEq] at h
          rw [← h.1]
          have := keepsFids_decref _ p2 r.conn h2
          exact keepsFids_trans none p _ p2 hset ⟨this.1, this.2⟩
      · simp at h
    · split at h
      · simp at h
      · rename_i p2 h2
        simp only [Except.ok.injEq, Prod.mk.injEq] at h
        rw [← h.1]
        exact keepsFids_trans none p _ p2 hset (keepsFids_decref _ p2 r.conn h2)
  · rw [hg] at h
    simp at h

theorem keepsFids_destroy_through (E : Process.Env) (p q : Process) (ptr : Process.Ptr)
    (c : Nat) (o o1 : Fcall) (err err1 : Option String)
    (h : (match p.deref ptr with
          | .error x => (.error x : Run (Process × Fcall × Option String))
          | .ok f =>
            match Process.destroyfid E p c f.fid with
            | .error x => .error x
            | .ok p1 => .ok (p1, o, err)) = .ok (q, o1, err1)) :
    Process.keepsFids none p q := by
  cases hd : p.deref ptr with
  | error x => rw [hd] at h; simp at h
  | ok f =>
    rw [hd] at h
    simp only [] at h
    cases h1 : Process.destroyfid E p c f.fid with
    | error x => rw [h1] at h; simp at h
    | ok p1 =>
      rw [h1] at h
      simp only [Except.ok.injEq, Prod.mk.injEq] at h
      rw [← h.1]
      exact keepsFids_destroyfid E p p1 c f.fid h1

theorem keepsFids_respondSwitch (E : Process.Env)
    (nested : Process → Process.Req9 → Option String → Run (Process × Fcall))
    (hn : ∀ p1 r1 e1 q1 o1, nested p1 r1 e1 = .ok (q1, o1) → Process.keepsFids none p1 q1)
    (p q : Process) (r : Process.Req9) (error error1 : Option String) (ofcall : Fcall)
    (h : Process.respondSwitch E nested p r error = .ok (q, ofcall, error1)) :
    Process.keepsFids none p q := by
  have hsame : ∀ (o : Fcall) (e : Option String),
      (.ok (p, o, e) : Run (Process × Fcall × Option String)) = .ok (q, ofcall, error1) →
      Process.keepsFids none p q := by
    intro o e hx
    simp only [Except.ok.injEq, Prod.mk.injEq] at hx
    rw [← hx.1]
    exact keepsFids_refl none p
  have hstore : ∀ (ptr : Process.Ptr) (f : Fid) (o : Fcall) (e : Option String),
      (.ok (p.store ptr f, o, e) : Run (Process × Fcall × Option String))
        = .ok (q, ofcall, error1) → Process.keepsFids none p q := by
    intro ptr f o e hx
    simp only [Except.ok.injEq, Prod.mk.injEq] at hx
    rw [← hx.1]
    exact keepsFids_store p ptr f
  unfold Process.respondSwitch at h
  simp only [] at h
  by_cases h1 : r.ifcall.type = FType.TVersion
  · rw [if_pos h1] at h
    cases error with
    | some e => simp at h
    | none =>
      simp only [] at h
      rcases proc_get_cases p r.conn with ⟨cn, hfind, hg⟩ | ⟨-, hg⟩
      · rw [hg] at h
        simp only [Except.ok.injEq, Prod.mk.injEq] at h
        rw [← h.1]
        exact keepsFids_set p r.conn cn _ hfind id
      · rw [hg] at h
        simp at h
  rw [if_neg h1] at h
  by_cases h2 : r.ifcall.type = FType.TAttach
  · rw [if_pos h2] at h
    cases error with
    | some e => exact keepsFids_destroy_through E p q r.fid r.conn r.ofcall ofcall _ _ h
    | none => exact hsame _ _ h
  rw [if_neg h2] at h
  by_cases h3 : r.ifcall.type = FType.TOpen ∨ r.ifcall.type = FType.TCreate
  · rw [if_pos h3] at h
    cases error with
    | some e => exact hsame _ _ h
    | none =>
      simp only [] at h
      split at h
      · simp at h
      · split at h
        · simp at h
        · exact hstore _ _ _ _ h
  rw [if_neg h3] at h
  by_cases h4 : r.ifcall.type = FType.TWalk
  · rw [if_pos h4] at h
    by_cases h5 : error.isSome = true ∨ r.ofcall.nwqid < r.ifcall.nwname
    · rw [if_pos h5] at h
      by_cases h6 : r.ifcall.fid ≠ r.ifcall.newfid ∧ r.newfid.isSome = true
      · rw [if_pos h6] at h
        exact keepsFids_destroy_through E p q r.newfid r.conn r.ofcall ofcall _ _ h
      · rw [if_neg h6] at h
        exact hsame _ _ h
    · rw [if_neg h5] at h
      split at h
      · simp at h
      · by_cases h7 : r.ofcall.nwqid = 0
        · rw [if_pos h7] at h
          split at h
          · simp at h
          · exact hstore _ _ _ _ h
        · rw [if_neg h7] at h
          split at h
          · simp at h
          · exact hstore _ _ _ _ h
  rw [if_neg h4] at h
  by_cases h8 : r.ifcall.type = FType.TWrite
  · rw [if_pos h8] at h
    exact hsame _ _ h
  rw [if_neg h8] at h
  by_cases h9 : r.ifcall.type = FType.TRemove ∨ r.ifcall.type = FType.TClunk
  · rw [if_pos h9] at h
    cases hf : r.fid with
    | none =>
      rw [hf] at h
      exact hsame _ _ h
    | some k =>
      rw [hf] at h
      simp only [] at h
      exact keepsFids_destroy_through E p q (some k) r.conn r.ofcall ofcall _ _ h
  rw [if_neg h9] at h
  by_cases h10 : r.ifcall.type = FType.TFlush
  · rw [if_pos h10] at h
    split at h
    · simp at h
    · split at h
      · exact hsame _ _ h
      · split at h
        · simp at h
        · rename_i p1 o1 hx
          simp only [Except.ok.injEq, Prod.mk.injEq] at h
          rw [← h.1]
          exact hn _ _ _ _ _ hx
  rw [if_neg h10] at h
  by_cases h11 : r.ifcall.type = FType.TWStat ∨ r.ifcall.type = FType.TRead ∨
      r.ifcall.type = FType.TStat
  · rw [if_pos h11] at h
    exact hsame _ _ h
  rw [if_neg h11] at h
  cases error with
  | none => simp at h
  | some e => exact hsame _ _ h

theorem keepsFids_respond (E : Process.Env) (fuel : Nat) :
    ∀ (p : Process) (r : Process.Req9) (error : Option String) (q : Process) (o : Fcall),
      Process.respond E fuel p r error = .ok (q, o) → Process.keepsFids none p q := by
  induction fuel with
  | zero =>
    intro p r error q o h
    simp [Process.respond] at h
  | succ n ih =>
    intro p r error q o h
    simp only [Process.respond] at h
    split at h
    · simp at h
    · rename_i p1 ofcall error1 hsw
      exact keepsFids_trans none p p1 q
        (keepsFids_respondSwitch E _ ih p p1 r error error1 ofcall hsw)
        (keepsFids_finish E p1 q r _ o h)

theorem keepsFids_commit (p : Process) (r : Process.Req9) :
    Process.keepsFids none p (Process.commit p r) := by
  unfold Process.commit
  cases hf : Map.find p.conns r.conn with
  | none => exact keepsFids_refl none p
  | some cn => exact keepsFids_set p r.conn cn _ hf id

theorem keepsFids_answer (E : Process.Env) (fuel : Nat) (p q : Process) (r : Process.Req9)
    (error : Option String) (h : Process.answer E fuel p r error = .ok q) :
    Process.keepsFids none p q := by
  unfold Process.answer at h
  split at h
  · simp at h
  · rename_i p1 o hr
    simp only [Except.ok.injEq] at h
    rw [← h]
    exact keepsFids_trans none p _ p1 (keepsFids_commit p r)
      (keepsFids_respond E fuel _ r error p1 o hr)

theorem keepsFids_invoke (E : Process.Env) (fuel : Nat) (srv : Nat) (hd : Handler)
    (f : Process → Process.Req9 → Reaction) (p q : Process) (r : Process.Req9)
    (h : Process.invoke E fuel srv hd f p r = .ok q) : Process.keepsFids none p q := by
  have tail : ∀ (a : Option (Option String)) (q2 : Process) (r1 : Process.Req9),
      Process.keepsFids none p q2 →
      (match a with
       | none => (.ok (Process.commit q2 r1) : Run Process)
       | some e => Process.answer E fuel q2 r1 e) = .ok q →
      Process.keepsFids none p q := by
    intro a q2 r1 hk hx
    cases a with
    | none =>
      simp only [Except.ok.injEq] at hx
      rw [← hx]
      exact keepsFids_trans none p q2 _ hk (keepsFids_commit q2 r1)
    | some e => exact keepsFids_trans none p q2 q hk (keepsFids_answer E fuel q2 q r1 e hx)
  have mid : ∀ (q1 : Process), Process.keepsFids none p q1 →
      Process.keepsFids none p
        (match (f q1 r).fidqid, q1.deref r.fid with
         | some qd, .ok fd => q1.store r.fid { fd with qid := qd }
         | _, _ => q1) := by
    intro q1 hk
    split
    · exact keepsFids_trans none p q1 _ hk (keepsFids_store q1 _ _)
    · exact hk
  have h0 : Process.keepsFids none p
      ({ Process.commit p r with
         log := (Process.commit p r).log ++ [Process.Event.call srv hd r.conn r.ifcall] } :
        Process) := keepsFids_commit p r
  exact tail _ _ _ (mid _ h0) h

theorem keepsFids_invokeOpt (E : Process.Env) (fuel : Nat) (srv : Nat) (hd : Handler)
    (slot : Option (Process → Process.Req9 → Reaction)) (p q : Process) (r : Process.Req9)
    (h : Process.invokeOpt E fuel srv hd slot p r = .ok q) : Process.keepsFids none p q := by
  unfold Process.invokeOpt at h
  cases slot with
  | none => exact keepsFids_answer E fuel p q r _ h
  | some f => exact keepsFids_invoke E fuel srv hd f p q r h

theorem keepsFids_invokeSet (E : Process.Env) (fuel : Nat) (srv : Nat) (hd : Handler)
    (slot : Option (Process → Process.Req9 → Reaction)) (p q : Process) (r : Process.Req9)
    (h : Process.invokeSet E fuel srv hd slot p r = .ok q) : Process.keepsFids none p q := by
  unfold Process.invokeSet at h
  cases slot with
  | none => simp at h
  | some f => exact keepsFids_invoke E fuel srv hd f p q r h

theorem keepsFids_entry (E : Process.Env) (fuel : Nat) (a sv : Nat) (cn : Process.Conn9)
    (p q : Process) (r : Process.Req9) (h : Process.entry E fuel a sv cn p r = .ok q) :
    Process.keepsFids (some a) p q := by
  unfold Process.entry at h
  simp only [] at h
  by_cases h0 : r.ifcall.type = FType.TAttach
  · rw [if_pos h0] at h
    repeat' split at h
    all_goals first
      | exact keepsFids_trans _ _ _ _ (keepsFids_createfid _ _ _ _ _ _ (by assumption))
          (keepsFids_weaken _ _ _ (keepsFids_answer _ _ _ _ _ _ h))
      | exact keepsFids_trans _ _ _ _ (keepsFids_createfid _ _ _ _ _ _ (by assumption))
          (keepsFids_weaken _ _ _ (keepsFids_invoke _ _ _ _ _ _ _ _ h))
      | exact absurd h (by simp)
  rw [if_neg h0] at h
  by_cases h1 : r.ifcall.type = FType.TClunk
  · rw [if_pos h1] at h
    repeat' split at h
    all_goals first
      | exact keepsFids_weaken _ _ _ (keepsFids_answer _ _ _ _ _ _ h)
      | exact keepsFids_weaken _ _ _ (keepsFids_invoke _ _ _ _ _ _ _ _ h)
  rw [if_neg h1] at h
  by_cases h2 : r.ifcall.type = FType.TFlush
  · rw [if_pos h2] at h
    repeat' split at h
    all_goals first
      | exact keepsFids_weaken _ _ _ (keepsFids_answer _ _ _ _ _ _ h)
      | exact keepsFids_weaken _ _ _ (keepsFids_invokeOpt _ _ _ _ _ _ _ _ h)
  rw [if_neg h2] at h
  by_cases h3 : r.ifcall.type = FType.TCreate
  · rw [if_pos h3] at h
    repeat' split at h
    all_goals first
      | exact keepsFids_weaken _ _ _ (keepsFids_answer _ _ _ _ _ _ h)
      | exact keepsFids_weaken _ _ _ (keepsFids_invokeSet _ _ _ _ _ _ _ _ h)
  rw [if_neg h3] at h
  by_cases h4 : r.ifcall.type = FType.TOpen
  · rw [if_pos h4] at h
    repeat' split at h
    all_goals first
      | exact keepsFids_weaken _ _ _ (keepsFids_answer _ _ _ _ _ _ h)
      | exact keepsFids_weaken _ _ _ (keepsFids_invokeSet _ _ _ _ _ _ _ _ h)
  rw [if_neg h4] at h
  by_cases h5 : r.ifcall.type = FType.TRead
  · rw [if_pos h5] at h
    repeat' split at h
    all_goals first
      | exact keepsFids_weaken _ _ _ (keepsFids_answer _ _ _ _ _ _ h)
      | exact keepsFids_weaken _ _ _ (keepsFids_invokeOpt _ _ _ _ _ _ _ _ h)
  rw [if_neg h5] at h
  by_cases h6 : r.ifcall.type = FType.TRemove
  · rw [if_pos h6] at h
    repeat' split at h
    all_goals first
      | exact keepsFids_weaken _ _ _ (keepsFids_answer _ _ _ _ _ _ h)
      | exact keepsFids_weaken _ _ _ (keepsFids_invokeOpt _ _ _ _ _ _ _ _ h)
  rw [if_neg h6] at h
  by_cases h7 : r.ifcall.type = FType.TStat
  · rw [if_pos h7] at h
    repeat' split at h
    all_goals first
      | exact keepsFids_weaken _ _ _ (keepsFids_answer _ _ _ _ _ _ h)
      | exact keepsFids_weaken _ _ _ (keepsFids_invokeOpt _ _ _ _ _ _ _ _ h)
  rw [if_neg h7] at h
  by_cases h8 : r.ifcall.type = FType.TWalk
  · rw [if_pos h8] at h
    repeat' split at h
    all_goals first
      | exact keepsFids_weaken _ _ _ (keepsFids_answer _ _ _ _ _ _ h)
      | exact keepsFids_weaken _ _ _ (keepsFids_invokeOpt _ _ _ _ _ _ _ _ h)
      | exact keepsFids_trans _ _ _ _ (keepsFids_createfid _ _ _ _ _ _ (by assumption))
          (keepsFids_weaken _ _ _ (keepsFids_answer _ _ _ _ _ _ h))
      | exact keepsFids_trans _ _ _ _ (keepsFids_createfid _ _ _ _ _ _ (by assumption))
          (keepsFids_weaken _ _ _ (keepsFids_invokeOpt _ _ _ _ _ _ _ _ h))
      | exact absurd h (by simp)
  rw [if_neg h8] at h
  by_cases h9 : r.ifcall.type = FType.TWrite
  · rw [if_pos h9] at h
    repeat' split at h
    all_goals first
      | exact keepsFids_weaken _ _ _ (keepsFids_answer _ _ _ _ _ _ h)
      | exact keepsFids_weaken _ _ _ (keepsFids_invokeOpt _ _ _ _ _ _ _ _ h)
  rw [if_neg h9] at h
  by_cases h10 : r.ifcall.type = FType.TWStat
  · rw [if_pos h10] at h
    repeat' split at h
    all_goals first
      | exact keepsFids_weaken _ _ _ (keepsFids_answer _ _ _ _ _ _ h)
      | exact keepsFids_weaken _ _ _ (keepsFids_invokeOpt _ _ _ _ _ _ _ _ h)
  rw [if_neg h10] at h
  exact keepsFids_weaken _ _ _ (keepsFids_answer _ _ _ _ _ _ h)

theorem fidsAtTable_of_keepsFids (a : Option Nat) (p q : Process)
    (hp : Process.fidsAtTable p) (hk : Process.keepsFids a p q)
    (ha : ∀ c, a = some c → ∃ sv, q.table = some (c, sv)) : Process.fidsAtTable q := by
  intro c cn1 hf hne
  by_cases hc : a = some c
  · exact ha c hc
  · obtain ⟨cn, hf0, he⟩ := hk.2 c cn1 hc hf
    obtain ⟨sv, hsv⟩ := hp c cn hf0 (fun h0 => hne (he h0))
    exact ⟨sv, hk.1.trans hsv⟩

theorem fidsAtTable_table (p : Process) (t : Nat × Nat) (hp : Process.fidsAtTable p) :
    Process.fidsAtTable { p with table := some (p.table.getD t) } := by
  intro c cn hf hne
  obtain ⟨sv, hsv⟩ := hp c cn hf hne
  exact ⟨sv, by simp [hsv]⟩

theorem fidsAtTable_handlereq (E : Process.Env) (fuel : Nat) (p q : Process)
    (r : Process.Req9) (hp : Process.fidsAtTable p)
    (h : Process.handlereq E fuel p r = .ok q) : Process.fidsAtTable q := by
  unfold Process.handlereq at h
  cases hg : p.get r.conn with
  | error x => rw [hg] at h; simp at h
  | ok own =>
    rw [hg] at h
    simp only [] at h
    have hp1 := fidsAtTable_table p (r.conn, own.srv) hp
    by_cases h1 : r.ifcall.type = FType.TVersion
    · rw [if_pos h1] at h
      exact fidsAtTable_of_keepsFids none _ q hp1 (keepsFids_answer _ _ _ _ _ _ h)
        (fun c hc => by simp at hc)
    rw [if_neg h1] at h
    by_cases h2 : r.ifcall.type ∈ Process.captured
    · rw [if_pos h2] at h
      split at h
      · simp at h
      · have hk := keepsFids_entry _ _ _ _ _ _ _ _ h
        refine fidsAtTable_of_keepsFids _ _ q hp1 hk ?_
        intro c hc
        simp only [Option.some.injEq] at hc
        exact ⟨(p.table.getD (r.conn, own.srv)).2, by rw [hk.1, ← hc]⟩
    · rw [if_neg h2] at h
      exact fidsAtTable_of_keepsFids none _ q hp1 (keepsFids_answer _ _ _ _ _ _ h)
        (fun c hc => by simp at hc)

theorem fidsAtTable_set (p : Process) (c : Nat) (cn cn1 : Process.Conn9)
    (hp : Process.fidsAtTable p) (h : Map.find p.conns c = some cn)
    (hf : cn.fidmap = [] → cn1.fidmap = []) : Process.fidsAtTable (p.set c cn1) :=
  fidsAtTable_of_keepsFids none p _ hp (keepsFids_set p c cn cn1 h hf)
    (fun c hc => by simp at hc)

theorem fidsAtTable_handlefcall (E : Process.Env) (fuel : Nat) (p q : Process) (c : Nat)
    (unset : Process.Req9) (fcall : Fcall) (hp : Process.fidsAtTable p)
    (h : Process.handlefcall E fuel p c unset fcall = .ok q) : Process.fidsAtTable q := by
  unfold Process.handlefcall at h
  rcases proc_get_cases p c with ⟨cn, hfind, hg⟩ | ⟨-, hg⟩
  · rw [hg] at h
    simp only [] at h
    split at h
    · rename_i m hm
      exact fidsAtTable_handlereq E fuel _ q _
        (fidsAtTable_set p c cn { cn with ref := cn.ref + 1, conn := true, tagmap := m }
          hp hfind id) h
    · split at h
      · simp at h
      · rename_i p1 o hr
        simp only [Except.ok.injEq] at h
        rw [← h]
        exact fidsAtTable_of_keepsFids none _ p1
          (fidsAtTable_set p c cn { cn with ref := cn.ref + 1, conn := true } hp hfind id)
          (keepsFids_respond E fuel _ _ _ p1 o hr) (fun c hc => by simp at hc)
  · rw [hg] at h
    simp at h

theorem fidsAtTable_serve9conn (p : Process) (c srv : Nat) (hp : Process.fidsAtTable p) :
    Process.fidsAtTable (p.serve9conn c srv) := by
  intro c1 cn1 hf hne
  unfold Process.serve9conn at hf
  simp only [Map.emplace] at hf
  show ∃ sv, p.table = some (c1, sv)
  cases hc : Map.find p.conns c with
  | some cn0 =>
    rw [hc] at hf
    exact hp c1 cn1 hf hne
  | none =>
    rw [hc] at hf
    simp only [] at hf
    rw [Map.find_append] at hf
    cases h0 : Map.find p.conns c1 with
    | some cn0 =>
      rw [h0] at hf
      simp only [Option.orElse, Option.some.injEq] at hf
      rw [← hf] at hne
      exact hp c1 cn0 h0 hne
    | none =>
      rw [h0] at hf
      simp only [Option.orElse] at hf
      split at hf
      · simp only [Option.some.injEq] at hf
        rw [← hf] at hne
        exact absurd rfl hne
      · simp at hf

theorem fidsAtTable_step (E : Process.Env) (fuel : Nat) (p q : Process) (s : Process.Step)
    (hp : Process.fidsAtTable p) (h : Process.step E fuel p s = .ok q) :
    Process.fidsAtTable q := by
  cases s with
  | accept c srv =>
    simp only [Process.step, Except.ok.injEq] at h
    rw [← h]
    exact fidsAtTable_serve9conn p c srv hp
  | arrive c unset fcall => exact fidsAtTable_handlefcall E fuel p q c unset fcall hp h
  | answer c tag fill error =>
    simp only [Process.step] at h
    split at h
    · simp at h
    · split at h
      · simp at h
      · split at h
        · simp at h
        · rename_i p1 o hr
          simp only [Except.ok.injEq] at h
          rw [← h]
          exact fidsAtTable_of_keepsFids none p p1 hp
            (keepsFids_trans none p _ p1 (keepsFids_commit p _)
              (keepsFids_respond E fuel _ _ _ p1 o hr)) (fun c hc => by simp at hc)

theorem fidsAtTable_run (E : Process.Env) (fuel : Nat) (steps : List Process.Step) :
    ∀ (p q : Process), Process.fidsAtTable p → Process.run E fuel p steps = .ok q →
      Process.fidsAtTable q := by
  induction steps with
  | nil =>
    intro p q hp h
    simp only [Process.run, Except.ok.injEq] at h
    rw [← h]
    exact hp
  | cons s rest ih =>
    intro p q hp h
    simp only [Process.run] at h
    split at h
    · simp at h
    · rename_i p1 hs
      exact ih p1 q (fidsAtTable_step E fuel p p1 s hp hs) h

theorem fidsAtTable_start : Process.fidsAtTable {} := by
  intro c cn hf
  simp [Map.find] at hf

/-- In a state that the process reaches from its start, a connection whose fid map is not
empty is the connection that the dispatch table kept. -/
theorem proc_reachable_conn (E : Process.Env) (fuel0 : Nat) (steps : List Process.Step)
    (p : Process) (c : Nat) (own cn : Process.Conn9)
    (hrun : Process.run E fuel0 {} steps = .ok p)
    (hown : Map.find p.conns c = some own)
    (hcn : Map.find p.conns (p.table.getD (c, own.srv)).1 = some cn)
    (hne : own.fidmap ≠ []) : cn = own := by
  have hinv := fidsAtTable_run E fuel0 steps {} p fidsAtTable_start hrun
  obtain ⟨sv, hsv⟩ := hinv c own hown hne
  rw [hsv] at hcn
  simp only [Option.getD] at hcn
  rw [hown] at hcn
  simp only [Option.some.injEq] at hcn
  exact hcn.symm

/-- In a state that the process reaches from its start, a fid that the fid map of the
connection of a request holds is the fid that the dispatcher finds: the dispatcher looks it
up in that same fid map. -/
theorem proc_reachable_own (E : Process.Env) (fuel0 : Nat) (steps : List Process.Step)
    (p : Process) (c fid : Nat) (own cn : Process.Conn9) (fd fd1 : Fid)
    (hrun : Process.run E fuel0 {} steps = .ok p)
    (hown : Map.find p.conns c = some own)
    (hcn : Map.find p.conns (p.table.getD (c, own.srv)).1 = some cn)
    (hfid : Map.find cn.fidmap fid = some fd)
    (hf : Map.find own.fidmap fid = some fd1) : cn = own ∧ fd1 = fd := by
  have hne : own.fidmap ≠ [] := by
    intro h0
    rw [h0] at hf
    simp [Map.find] at hf
  have hc := proc_reachable_conn E fuel0 steps p c own cn hrun hown hcn hne
  rw [hc, hf] at hfid
  simp only [Option.some.injEq] at hfid
  exact ⟨hc, hfid⟩

/-! ## The claims -/

/-- C1: the reply that respond returns carries the tag of the request; a call with an
error string e gives the type Rerror and the ename e; a call with nullptr that finishes
with no error (no Twalk of at least one name whose reply holds no qid) gives the request
type plus one; and the reply is what was sent last when the transport pointer of the
connection is set. On a Twrite, Twstat, Tread or Tstat, respond returns that reply when the
connection is counted at least twice and the reply is sent whole. -/
theorem respond_reply_fields (E : Process.Env) (p : Process) (r : Process.Req9)
    (error : Option String) :
    (∀ fuel p1 o, Process.respond E fuel p r error = .ok (p1, o) →
      o.tag = r.ifcall.tag ∧
      (∀ e, error = some e → o.type = FType.RError ∧ o.ename = e) ∧
      (error = none →
        (r.ifcall.type = FType.TWalk → r.ofcall.nwqid ≠ 0 ∨ r.ifcall.nwname = 0) →
        o.type = r.ifcall.type + 1) ∧
      (∀ cn1, Map.find p1.conns r.conn = some cn1 → cn1.conn = true →
        p1.log.getLast? = some (Process.Event.send r.conn o))) ∧
    (r.ifcall.type ∈ [FType.TWrite, FType.TWStat, FType.TRead, FType.TStat] →
      ∀ cn, Map.find p.conns r.conn = some cn → 2 ≤ cn.ref →
        (cn.conn = true → E.whole (Process.reply r.ifcall r.ofcall error) = true) →
        ∀ fuel, ∃ p1, Process.respond E (fuel + 1) p r error
          = .ok (p1, Process.reply r.ifcall r.ofcall error)) := by
  constructor
  · intro fuel p1 o h
    cases fuel with
    | zero => simp [Process.respond] at h
    | succ n =>
      simp only [Process.respond] at h
      cases hsw : Process.respondSwitch E (Process.respond E n) p r error with
      | error x => rw [hsw] at h; simp at h
      | ok y =>
        obtain ⟨p2, ofcall, error1⟩ := y
        rw [hsw] at h
        simp only [] at h
        have hE := proc_respondSwitch_error E _ p p2 r error error1 ofcall hsw
        obtain ⟨ho, hsent⟩ := proc_finish_returned E p2 p1 r _ o h
        refine ⟨?_, ?_, ?_, ?_⟩
        · rw [ho]; exact proc_reply_tag r.ifcall ofcall error1
        · intro e he
          rw [ho, hE.1 e he]
          exact ⟨rfl, rfl⟩
        · intro he hw
          obtain ⟨h1, h2⟩ := hE.2 he hw
          rw [ho, h1]
          show (r.ifcall.type + 1) % 256 = r.ifcall.type + 1
          exact Nat.mod_eq_of_lt h2
        · intro cn1 hf hc
          rw [hsent cn1 hf hc, ho]
          simp
  · intro ht cn hcn hr hw fuel
    have hsw : Process.respondSwitch E (Process.respond E fuel) p r error
        = .ok (p, r.ofcall, error) := by
      unfold Process.respondSwitch
      simp only [List.mem_cons, List.mem_singleton, List.not_mem_nil, or_false] at ht
      rcases ht with h | h | h | h <;> simp [h]
    simp only [Process.respond, hsw]
    exact ⟨_, proc_finish_ok E p r _ cn hcn hr hw⟩

theorem respond_reply_fields_witness :
    (∃ p1 o, Process.respond exEnv 1 exOpenPending exOpenPendingReq none = .ok (p1, o) ∧
      o.tag = 2 ∧ o.type = FType.ROpen ∧
      p1.log.getLast? = some (Process.Event.send 0 o)) ∧
    (∃ p1, Process.respond exEnv 1 exFlushPending exReadPendingReq (some "permission denied")
      = .ok (p1, { type := FType.RError, tag := 3, ename := "permission denied" })) :=
  ⟨⟨_, _, rfl,
     ((respond_reply_fields exEnv exOpenPending exOpenPendingReq none).1 1 _ _ rfl).1,
     ((respond_reply_fields exEnv exOpenPending exOpenPendingReq none).1 1 _ _ rfl).2.2.1 rfl
       (fun h => absurd h (by decide)),
     ((respond_reply_fields exEnv exOpenPending exOpenPendingReq none).1 1 _ _ rfl).2.2.2
       _ rfl rfl⟩,
   (respond_reply_fields exEnv exFlushPending exReadPendingReq (some "permission denied")).2
     (by decide) _ rfl (by decide) (fun _ => rfl) 0⟩

/-- C2, defect in the code: on a fresh connection whose handlers answer at once with no
error, the Tversion is answered Rversion, the Tattach reaches the attach handler and is
answered Rattach, and then the decrement at the end of respond brings the reference count
of the connection to zero while the transport pointer is set: the assertion of
decref_p9conn fails, and whatever requests follow (the Twalk, the Topen, the Treads, the
Tclunk) are not served. Had a copy of a Fid counted a reference, the run of the claim with
two Treads would go as the claim says and end with the reference count 1 and no fid. -/
theorem lifecycle_aborts_after_rattach (rest : List Process.Step) :
    (∃ p,
      Process.run exEnv 1 {}
        ([Process.Step.accept 0 0,
          Process.Step.arrive 0 exUnset
            { type := FType.TVersion, tag := NoTag, msize := 8192, version := "9P2000" },
          Process.Step.arrive 0 exUnset { type := FType.TAttach, tag := 1, fid := 0 }] ++ rest)
        = .error (Abort.assertion, p) ∧
      p.log =
        [Process.Event.send 0
           { type := FType.RVersion, tag := NoTag, msize := 8192, version := "9P2000" },
         Process.Event.call 0 Handler.attach 0 { type := FType.TAttach, tag := 1, fid := 0 },
         Process.Event.send 0
           { type := FType.RAttach, tag := 1, qid := { type := QType.DIR, path := 1 } }] ∧
      (Map.find p.conns 0).map (fun cn => (cn.ref, cn.conn)) = some (0, true)) ∧
    (∃ p,
      Process.run exEnvCounting 1 {}
        [Process.Step.accept 0 0,
         Process.Step.arrive 0 exUnset
           { type := FType.TVersion, tag := NoTag, msize := 8192, version := "9P2000" },
         Process.Step.arrive 0 exUnset { type := FType.TAttach, tag := 1, fid := 0 },
         Process.Step.arrive 0 exUnset { type := FType.TWalk, tag := 2, fid := 0, newfid := 0 },
         Process.Step.arrive 0 exUnset { type := FType.TOpen, tag := 3, fid := 0 },
         Process.Step.arrive 0 exUnset { type := FType.TRead, tag := 4, fid := 0, count := 100 },
         Process.Step.arrive 0 exUnset { type := FType.TRead, tag := 5, fid := 0, count := 100 },
         Process.Step.arrive 0 exUnset { type := FType.TClunk, tag := 6, fid := 0 }]
        = .ok p ∧
      p.log =
        [Process.Event.send 0
           { type := FType.RVersion, tag := NoTag, msize := 8192, version := "9P2000" },
         Process.Event.call 0 Handler.attach 0 { type := FType.TAttach, tag := 1, fid := 0 },
         Process.Event.send 0
           { type := FType.RAttach, tag := 1, qid := { type := QType.DIR, path := 1 } },
         Process.Event.call 0 Handler.walk 0
           { type := FType.TWalk, tag := 2, fid := 0, newfid := 0 },
         Process.Event.send 0 { type := FType.RWalk, tag := 2 },
         Process.Event.call 0 Handler.open_ 0 { type := FType.TOpen, tag := 3, fid := 0 },
         Process.Event.send 0
           { type := FType.ROpen, tag := 3, qid := { type := QType.DIR, path := 1 },
             iounit := 8168 },
         Process.Event.call 0 Handler.read 0
           { type := FType.TRead, tag := 4, fid := 0, count := 100 },
         Process.Event.send 0 { type := FType.RRead, tag := 4 },
         Process.Event.call 0 Handler.read 0
           { type := FType.TRead, tag := 5, fid := 0, count := 100 },
         Process.Event.send 0 { type := FType.RRead, tag := 5 },
         Process.Event.call 0 Handler.clunk 0 { type := FType.TClunk, tag := 6, fid := 0 },
         Process.Event.send 0 { type := FType.RClunk, tag := 6 }] ∧
      (Map.find p.conns 0).map (fun cn => (cn.ref, cn.fidmap)) = some (1, [])) :=
  ⟨⟨_, rfl, rfl, rfl⟩, ⟨_, rfl, rfl, rfl⟩⟩

/-- C3, defect in the code: on a connection where tag 1 is taken by a pending Tread, a
decoded Tversion with tag 1 makes handlefcall call respond with "tag in use", which breaks
the assertion of respond's Tversion case; a decoded Tattach with tag 1 makes respond read
the fid of the request, which was never set. No Rerror is sent in either run. -/
theorem duplicate_tag_faults (maxMsg : Nat) (srv : Srv9) (fuel : Nat) :
    handlefcall maxMsg srv (fuel + 1) exPending
        { type := FType.TVersion, tag := 1, msize := 8192, version := "9P2000" }
      = .error Fault.assertion ∧
    handlefcall maxMsg srv (fuel + 1) exPending { type := FType.TAttach, tag := 1, fid := 0 }
      = .error Fault.nullPointer :=
  ⟨rfl, rfl⟩

/-- C4, defect in the code: on a connection where fid 0 is registered, a Tattach naming
fid 0 makes the dispatcher call respond with "fid in use" while the fid pointer of the
request is null, and respond's Tattach case reads the fid through it. The attach handler is
not called, and no Rerror is sent. -/
theorem tattach_fid_in_use_faults (maxMsg : Nat) (srv : Srv9) (fuel : Nat) :
    handlefcall maxMsg srv (fuel + 1) exAttached { type := FType.TAttach, tag := 1, fid := 0 }
      = .error Fault.nullPointer :=
  rfl

/-- C5, defect in the code: (a) fid 0 is in the fid map (its Tattach is with the attach
handler) and a Tclunk on it is answered Rclunk by the dispatcher; the decrement at the end
of that respond brings the reference count to zero and the assertion of decref_p9conn
fails, so the Topen that follows is never answered. (b) With two connections accepted, fid
0 is attached on the first; a Topen naming fid 0 arrives on the second, whose fid map is
empty: it is handed to the open handler, and no Rerror "fid does not exist" is sent. -/
theorem topen_after_clunk_not_answered (rest : List Process.Step) :
    (∃ p,
      Process.run exEnv 1 {}
        ([Process.Step.accept 0 1,
          Process.Step.arrive 0 exUnset { type := FType.TAttach, tag := 1, fid := 0 },
          Process.Step.arrive 0 exUnset { type := FType.TClunk, tag := 2, fid := 0 },
          Process.Step.arrive 0 exUnset { type := FType.TOpen, tag := 3, fid := 0 }] ++ rest)
        = .error (Abort.assertion, p) ∧
      p.log =
        [Process.Event.call 1 Handler.attach 0 { type := FType.TAttach, tag := 1, fid := 0 },
         Process.Event.send 0 { type := FType.RClunk, tag := 2 }] ∧
      (Map.find p.conns 0).map (fun cn => (cn.ref, cn.conn)) = some (0, true)) ∧
    (∃ p,
      Process.run exEnv 1 {}
        [Process.Step.accept 0 1, Process.Step.accept 1 1,
         Process.Step.arrive 0 exUnset { type := FType.TAttach, tag := 1, fid := 0 },
         Process.Step.arrive 1 exUnset { type := FType.TOpen, tag := 1, fid := 0 }]
        = .ok p ∧
      p.log =
        [Process.Event.call 1 Handler.attach 0 { type := FType.TAttach, tag := 1, fid := 0 },
         Process.Event.call 1 Handler.open_ 1 { type := FType.TOpen, tag := 1, fid := 0 }] ∧
      (Map.find p.conns 1).map (fun cn => cn.fidmap) = some []) :=
  ⟨⟨_, rfl, rfl, rfl⟩, ⟨_, rfl, rfl, rfl⟩⟩

/-- C6: a Twrite that arrives with a free tag on a fid of the fid map (the fid map in
which the dispatcher looks the fid up: the one of the connection that the dispatch table
kept, which is the connection of the request on the first connection served) is handed to
the write handler when the low two bits of the omode of the fid are WRITE or RDWR, and the
call of the handler is the first thing that happens; otherwise the only thing that happens
is that Rerror "write on fid not opened for writing" is sent with the tag of the request,
and no handler is called. A fid that was never opened (omode -1) and a fid opened READ are
rejected. In a state that the process reaches from its
start, a fid that the fid map of the connection of the request holds is the fid that the
dispatcher finds. -/
theorem twrite_open_for_writing (E : Process.Env) (fuel : Nat) (p : Process) (c : Nat)
    (unset : Process.Req9) (fcall : Fcall) (own cn : Process.Conn9) (fd : Fid)
    (ht : fcall.type = FType.TWrite)
    (hown : Map.find p.conns c = some own)
    (hfree : Map.find own.tagmap fcall.tag = none)
    (hcn : Map.find p.conns (p.table.getD (c, own.srv)).1 = some cn)
    (hfid : Map.find cn.fidmap fcall.fid = some fd) :
    (land3 fd.omode = OMode.WRITE ∨ land3 fd.omode = OMode.RDWR →
      ∀ h, (E.srvs (p.table.getD (c, own.srv)).2).write = some h →
        ∃ l, (Run.ended id (Process.handlefcall E (fuel + 1) p c unset fcall)).log
            = p.log ++
                Process.Event.call (p.table.getD (c, own.srv)).2 Handler.write c fcall :: l ∧
          ∀ e ∈ l, ∀ sv h1 c1 f1, e ≠ Process.Event.call sv h1 c1 f1) ∧
    (¬ (land3 fd.omode = OMode.WRITE ∨ land3 fd.omode = OMode.RDWR) →
      ∃ o, (Run.ended id (Process.handlefcall E (fuel + 1) p c unset fcall)).log
          = p.log ++ [Process.Event.send c o] ∧
        o.type = FType.RError ∧ o.tag = fcall.tag ∧
        o.ename = "write on fid not opened for writing") ∧
    (fd.omode = -1 ∨ fd.omode = (OMode.READ : Int) →
      ¬ (land3 fd.omode = OMode.WRITE ∨ land3 fd.omode = OMode.RDWR)) ∧
    (∀ fuel0 steps fd1, Process.run E fuel0 {} steps = .ok p →
      Map.find own.fidmap fcall.fid = some fd1 → cn = own ∧ fd1 = fd) := by
  obtain ⟨cn1, hent, hfind, hfm, hsrv, -⟩ :=
    proc_handlefcall_entry E (fuel + 1) p c unset fcall own cn hown hfree hcn
      (by rw [ht]; decide)
  have hfid1 : Map.find cn1.fidmap fcall.fid = some fd := by rw [hfm]; exact hfid
  have harr : Map.find (p.arrived c unset fcall).conns c
      = some { own with
               ref := own.ref + 1, conn := true,
               tagmap := own.tagmap ++ [(fcall.tag, Process.incoming unset c fcall)] } := by
    simp only [Process.arrived, hown]
    exact Map.find_assign_self _ _ _ _ hown
  have hlog : (p.arrived c unset fcall).log = p.log := by
    simp only [Process.arrived, hown]
  rw [hent]
  refine ⟨?_, ?_, ?_, ?_⟩
  · intro hw h hh
    have hw' : ¬ (land3 fd.omode ≠ OMode.WRITE ∧ land3 fd.omode ≠ OMode.RDWR) := by
      intro hx
      rcases hw with h1 | h1
      · exact hx.1 h1
      · exact hx.2 h1
    have : Process.entry E (fuel + 1) (p.table.getD (c, own.srv)).1 (p.table.getD (c, own.srv)).2
        cn1 (p.arrived c unset fcall) (Process.incoming unset c fcall)
        = Process.invoke E (fuel + 1) (p.table.getD (c, own.srv)).2 Handler.write h
            (p.arrived c unset fcall)
            { Process.incoming unset c fcall with
              fid := some ((p.table.getD (c, own.srv)).1, fcall.fid) } := by
      simp only [Process.entry, Process.incoming, ht, hfid1, FType.TAttach, FType.TClunk,
        FType.TFlush, FType.TCreate, FType.TOpen, FType.TRead, FType.TRemove, FType.TStat,
        FType.TWalk, FType.TWrite, Nat.reduceEqDiff, if_false, if_true, ite_false, ite_true]
      rw [if_neg hw']
      simp only [Process.invokeOpt, hh]
    rw [this]
    obtain ⟨l, hl, hp⟩ := proc_invoke_log E (fuel + 1) (p.table.getD (c, own.srv)).2
      Handler.write h (p.arrived c unset fcall)
      { Process.incoming unset c fcall with
        fid := some ((p.table.getD (c, own.srv)).1, fcall.fid) }
    refine ⟨l, ?_, hp⟩
    rw [hl, hlog]
    rfl
  · intro hw
    have hw' : land3 fd.omode ≠ OMode.WRITE ∧ land3 fd.omode ≠ OMode.RDWR :=
      ⟨fun h => hw (Or.inl h), fun h => hw (Or.inr h)⟩
    have : Process.entry E (fuel + 1) (p.table.getD (c, own.srv)).1 (p.table.getD (c, own.srv)).2
        cn1 (p.arrived c unset fcall) (Process.incoming unset c fcall)
        = Process.answer E (fuel + 1) (p.arrived c unset fcall)
            { Process.incoming unset c fcall with
              fid := some ((p.table.getD (c, own.srv)).1, fcall.fid) }
            (some "write on fid not opened for writing") := by
      simp only [Process.entry, Process.incoming, ht, hfid1, FType.TAttach, FType.TClunk,
        FType.TFlush, FType.TCreate, FType.TOpen, FType.TRead, FType.TRemove, FType.TStat,
        FType.TWalk, FType.TWrite, Nat.reduceEqDiff, if_false, if_true, ite_false, ite_true]
      rw [if_pos hw']
    rw [this]
    obtain ⟨d, hd⟩ := proc_answer_error_live E fuel (p.arrived c unset fcall)
      { Process.incoming unset c fcall with
        fid := some ((p.table.getD (c, own.srv)).1, fcall.fid) }
      "write on fid not opened for writing" _ harr rfl
      (Or.inl (by simp [Process.incoming, ht]))
    rw [hd]
    exact ⟨Process.reply fcall unset.ofcall (some "write on fid not opened for writing"),
      by rw [hlog]; rfl, rfl, rfl, rfl⟩
  · intro ho
    rcases ho with h | h <;> rw [h] <;> decide
  · intro fuel0 steps fd1 hrun hf
    exact proc_reachable_own E fuel0 steps p c fcall.fid own cn fd fd1 hrun hown hcn hfid hf

theorem twrite_open_for_writing_witness :
    (∃ l, (Run.ended id (Process.handlefcall exEnv 1 exOpenedRdwr 0 exUnset
          { type := FType.TWrite, tag := 5, fid := 0 })).log
        = exOpenedRdwr.log ++
            Process.Event.call 2 Handler.write 0 { type := FType.TWrite, tag := 5, fid := 0 } :: l ∧
      ∀ e ∈ l, ∀ sv h1 c1 f1, e ≠ Process.Event.call sv h1 c1 f1) ∧
    (∃ o, (Run.ended id (Process.handlefcall exEnv 1 exAttachedFile 0 exUnset
          { type := FType.TWrite, tag := 5, fid := 0 })).log
        = exAttachedFile.log ++ [Process.Event.send 0 o] ∧
      o.type = FType.RError ∧ o.tag = 5 ∧ o.ename = "write on fid not opened for writing") :=
  ⟨(twrite_open_for_writing exEnv 0 exOpenedRdwr 0 exUnset
      { type := FType.TWrite, tag := 5, fid := 0 } _ _ _ rfl rfl rfl rfl rfl).1
      (Or.inr (by decide)) exDefer rfl,
   (twrite_open_for_writing exEnv 0 exAttachedFile 0 exUnset
      { type := FType.TWrite, tag := 5, fid := 0 } _ _ _ rfl rfl rfl rfl rfl).2.1 (by decide)⟩

/-- C7: a Tread that arrives with a free tag on a fid of the fid map (the fid map in which
the dispatcher looks the fid up: the one of the connection that the dispatch table kept,
which is the connection of the request on the first connection served) whose omode is -1
or WRITE: the only thing that happens is that Rerror "file not open for reading" is sent
with the tag of the request, and no handler is called. For every other omode the request
is handed to the read handler, and the call of the handler is the first thing that
happens. In a state that the process reaches from its
start, a fid that the fid map of the connection of the request holds is the fid that the
dispatcher finds. -/
theorem tread_open_for_reading (E : Process.Env) (fuel : Nat) (p : Process) (c : Nat)
    (unset : Process.Req9) (fcall : Fcall) (own cn : Process.Conn9) (fd : Fid)
    (ht : fcall.type = FType.TRead)
    (hown : Map.find p.conns c = some own)
    (hfree : Map.find own.tagmap fcall.tag = none)
    (hcn : Map.find p.conns (p.table.getD (c, own.srv)).1 = some cn)
    (hfid : Map.find cn.fidmap fcall.fid = some fd) :
    (fd.omode = -1 ∨ fd.omode = (OMode.WRITE : Int) →
      ∃ o, (Run.ended id (Process.handlefcall E (fuel + 1) p c unset fcall)).log
          = p.log ++ [Process.Event.send c o] ∧
        o.type = FType.RError ∧ o.tag = fcall.tag ∧ o.ename = "file not open for reading") ∧
    (¬ (fd.omode = -1 ∨ fd.omode = (OMode.WRITE : Int)) →
      ∀ h, (E.srvs (p.table.getD (c, own.srv)).2).read = some h →
        ∃ l, (Run.ended id (Process.handlefcall E (fuel + 1) p c unset fcall)).log
            = p.log ++
                Process.Event.call (p.table.getD (c, own.srv)).2 Handler.read c fcall :: l ∧
          ∀ e ∈ l, ∀ sv h1 c1 f1, e ≠ Process.Event.call sv h1 c1 f1) ∧
    (∀ fuel0 steps fd1, Process.run E fuel0 {} steps = .ok p →
      Map.find own.fidmap fcall.fid = some fd1 → cn = own ∧ fd1 = fd) := by
  obtain ⟨cn1, hent, hfind, hfm, hsrv, -⟩ :=
    proc_handlefcall_entry E (fuel + 1) p c unset fcall own cn hown hfree hcn
      (by rw [ht]; decide)
  have hfid1 : Map.find cn1.fidmap fcall.fid = some fd := by rw [hfm]; exact hfid
  have harr : Map.find (p.arrived c unset fcall).conns c
      = some { own with
               ref := own.ref + 1, conn := true,
               tagmap := own.tagmap ++ [(fcall.tag, Process.incoming unset c fcall)] } := by
    simp only [Process.arrived, hown]
    exact Map.find_assign_self _ _ _ _ hown
  have hlog : (p.arrived c unset fcall).log = p.log := by
    simp only [Process.arrived, hown]
  rw [hent]
  refine ⟨?_, ?_, ?_⟩
  · intro ho
    have : Process.entry E (fuel + 1) (p.table.getD (c, own.srv)).1 (p.table.getD (c, own.srv)).2
        cn1 (p.arrived c unset fcall) (Process.incoming unset c fcall)
        = Process.answer E (fuel + 1) (p.arrived c unset fcall)
            { Process.incoming unset c fcall with
              fid := some ((p.table.getD (c, own.srv)).1, fcall.fid) }
            (some Enoread) := by
      simp only [Process.entry, Process.incoming, ht, hfid1, FType.TAttach, FType.TClunk,
        FType.TFlush, FType.TCreate, FType.TOpen, FType.TRead, Nat.reduceEqDiff, if_false,
        if_true, ite_false, ite_true]
      rw [if_pos ho]
    rw [this]
    obtain ⟨d, hd⟩ := proc_answer_error_live E fuel (p.arrived c unset fcall)
      { Process.incoming unset c fcall with
        fid := some ((p.table.getD (c, own.srv)).1, fcall.fid) }
      Enoread _ harr rfl
      (Or.inl (by simp [Process.incoming, ht]))
    rw [hd]
    exact ⟨Process.reply fcall unset.ofcall (some Enoread),
      by rw [hlog]; rfl, rfl, rfl, rfl⟩
  · intro ho h hh
    have : Process.entry E (fuel + 1) (p.table.getD (c, own.srv)).1 (p.table.getD (c, own.srv)).2
        cn1 (p.arrived c unset fcall) (Process.incoming unset c fcall)
        = Process.invoke E (fuel + 1) (p.table.getD (c, own.srv)).2 Handler.read h
            (p.arrived c unset fcall)
            { Process.incoming unset c fcall with
              fid := some ((p.table.getD (c, own.srv)).1, fcall.fid) } := by
      simp only [Process.entry, Process.incoming, ht, hfid1, FType.TAttach, FType.TClunk,
        FType.TFlush, FType.TCreate, FType.TOpen, FType.TRead, Nat.reduceEqDiff, if_false,
        if_true, ite_false, ite_true]
      rw [if_neg ho]
      simp only [Process.invokeOpt, hh]
    rw [this]
    obtain ⟨l, hl, hp⟩ := proc_invoke_log E (fuel + 1) (p.table.getD (c, own.srv)).2
      Handler.read h (p.arrived c unset fcall)
      { Process.incoming unset c fcall with
        fid := some ((p.table.getD (c, own.srv)).1, fcall.fid) }
    refine ⟨l, ?_, hp⟩
    rw [hl, hlog]
    rfl
  · intro fuel0 steps fd1 hrun hf
    exact proc_reachable_own E fuel0 steps p c fcall.fid own cn fd fd1 hrun hown hcn hfid hf

theorem tread_open_for_reading_witness :
    (∃ o, (Run.ended id (Process.handlefcall exEnv 1 exAttachedFile 0 exUnset
          { type := FType.TRead, tag := 4, fid := 0, count := 100 })).log
        = exAttachedFile.log ++ [Process.Event.send 0 o] ∧
      o.type = FType.RError ∧ o.tag = 4 ∧ o.ename = "file not open for reading") ∧
    (∃ l, (Run.ended id (Process.handlefcall exEnv 1 exOpenedRdwr 0 exUnset
          { type := FType.TRead, tag := 4, fid := 0, count := 100 })).log
        = exOpenedRdwr.log ++
            Process.Event.call 2 Handler.read 0
              { type := FType.TRead, tag := 4, fid := 0, count := 100 } :: l ∧
      ∀ e ∈ l, ∀ sv h1 c1 f1, e ≠ Process.Event.call sv h1 c1 f1) :=
  ⟨(tread_open_for_reading exEnv 0 exAttachedFile 0 exUnset
      { type := FType.TRead, tag := 4, fid := 0, count := 100 } _ _ _ rfl rfl rfl rfl rfl).1
      (Or.inl rfl),
   (tread_open_for_reading exEnv 0 exOpenedRdwr 0 exUnset
      { type := FType.TRead, tag := 4, fid := 0, count := 100 } _ _ _ rfl rfl rfl rfl rfl).2.1
      (by decide) exDefer rfl⟩

/-- C8: a Topen that arrives with a free tag on a fid of the fid map (the fid map in which
the dispatcher looks the fid up: the one of the connection that the dispatch table kept,
which is the connection of the request on the first connection served) whose qid has the
DIR bit is handed to the open handler when the mode is READ or READ|RCLOSE, and the call of
the handler is the first thing that happens; for every other mode byte the only thing that
happens is that Rerror "cannot perform operation on a directory" is sent with the tag of
the request, and no handler is called. In a state that the process reaches from its
start, a fid that the fid map of the connection of the request holds is the fid that the
dispatcher finds. -/
theorem topen_directory_reading_only (E : Process.Env) (fuel : Nat) (p : Process) (c : Nat)
    (unset : Process.Req9) (fcall : Fcall) (own cn : Process.Conn9) (fd : Fid)
    (ht : fcall.type = FType.TOpen)
    (hown : Map.find p.conns c = some own)
    (hfree : Map.find own.tagmap fcall.tag = none)
    (hcn : Map.find p.conns (p.table.getD (c, own.srv)).1 = some cn)
    (hfid : Map.find cn.fidmap fcall.fid = some fd)
    (hdir : fd.qid.type &&& QType.DIR ≠ 0) :
    (fcall.mode = OMode.READ ∨ fcall.mode = OMode.READ ||| OMode.RCLOSE →
      ∀ h, (E.srvs cn.srv).open_ = some h →
        (E.srvs (p.table.getD (c, own.srv)).2).open_ = some h →
        ∃ l, (Run.ended id (Process.handlefcall E (fuel + 1) p c unset fcall)).log
            = p.log ++
                Process.Event.call (p.table.getD (c, own.srv)).2 Handler.open_ c fcall :: l ∧
          ∀ e ∈ l, ∀ sv h1 c1 f1, e ≠ Process.Event.call sv h1 c1 f1) ∧
    (¬ (fcall.mode = OMode.READ ∨ fcall.mode = OMode.READ ||| OMode.RCLOSE) →
      ∃ o, (Run.ended id (Process.handlefcall E (fuel + 1) p c unset fcall)).log
          = p.log ++ [Process.Event.send c o] ∧
        o.type = FType.RError ∧ o.tag = fcall.tag ∧
        o.ename = "cannot perform operation on a directory") ∧
    (∀ fuel0 steps fd1, Process.run E fuel0 {} steps = .ok p →
      Map.find own.fidmap fcall.fid = some fd1 → cn = own ∧ fd1 = fd) := by
  obtain ⟨cn1, hent, hfind, hfm, hsrv, -⟩ :=
    proc_handlefcall_entry E (fuel + 1) p c unset fcall own cn hown hfree hcn
      (by rw [ht]; decide)
  have hfid1 : Map.find cn1.fidmap fcall.fid = some fd := by rw [hfm]; exact hfid
  have harr : Map.find (p.arrived c unset fcall).conns c
      = some { own with
               ref := own.ref + 1, conn := true,
               tagmap := own.tagmap ++ [(fcall.tag, Process.incoming unset c fcall)] } := by
    simp only [Process.arrived, hown]
    exact Map.find_assign_self _ _ _ _ hown
  have hlog : (p.arrived c unset fcall).log = p.log := by
    simp only [Process.arrived, hown]
  have hm := lor_rclose fcall.mode
  rw [hent]
  refine ⟨?_, ?_, ?_⟩
  · intro ho h hh1 hh
    have hguard : ¬ (fd.qid.type &&& QType.DIR ≠ 0 ∧
        fcall.mode ||| OMode.RCLOSE ≠ OMode.READ ||| OMode.RCLOSE) := by
      intro hx
      exact hx.2 (hm.mpr (by simpa using ho))
    have : Process.entry E (fuel + 1) (p.table.getD (c, own.srv)).1 (p.table.getD (c, own.srv)).2
        cn1 (p.arrived c unset fcall) (Process.incoming unset c fcall)
        = Process.invoke E (fuel + 1) (p.table.getD (c, own.srv)).2 Handler.open_ h
            (p.arrived c unset fcall)
            { Process.incoming unset c fcall with
              fid := some ((p.table.getD (c, own.srv)).1, fcall.fid),
              ofcall := { unset.ofcall with qid := fd.qid } } := by
      simp only [Process.entry, Process.incoming, ht, hfid1, FType.TAttach, FType.TClunk,
        FType.TFlush, FType.TCreate, FType.TOpen, Nat.reduceEqDiff, if_false,
        if_true, ite_false, ite_true]
      rw [if_neg hguard, hsrv, hh1]
      simp only [Process.invokeSet, hh]
    rw [this]
    obtain ⟨l, hl, hp⟩ := proc_invoke_log E (fuel + 1) (p.table.getD (c, own.srv)).2
      Handler.open_ h (p.arrived c unset fcall)
      { Process.incoming unset c fcall with
        fid := some ((p.table.getD (c, own.srv)).1, fcall.fid),
        ofcall := { unset.ofcall with qid := fd.qid } }
    refine ⟨l, ?_, hp⟩
    rw [hl, hlog]
    rfl
  · intro ho
    have hguard : fd.qid.type &&& QType.DIR ≠ 0 ∧
        fcall.mode ||| OMode.RCLOSE ≠ OMode.READ ||| OMode.RCLOSE := by
      refine ⟨hdir, ?_⟩
      intro hx
      exact ho (by simpa using hm.mp hx)
    have : Process.entry E (fuel + 1) (p.table.getD (c, own.srv)).1 (p.table.getD (c, own.srv)).2
        cn1 (p.arrived c unset fcall) (Process.incoming unset c fcall)
        = Process.answer E (fuel + 1) (p.arrived c unset fcall)
            { Process.incoming unset c fcall with
              fid := some ((p.table.getD (c, own.srv)).1, fcall.fid) }
            (some Eisdir) := by
      simp only [Process.entry, Process.incoming, ht, hfid1, FType.TAttach, FType.TClunk,
        FType.TFlush, FType.TCreate, FType.TOpen, Nat.reduceEqDiff, if_false,
        if_true, ite_false, ite_true]
      rw [if_pos hguard]
    rw [this]
    obtain ⟨d, hd⟩ := proc_answer_error_live E fuel (p.arrived c unset fcall)
      { Process.incoming unset c fcall with
        fid := some ((p.table.getD (c, own.srv)).1, fcall.fid) }
      Eisdir _ harr rfl
      (Or.inl (by simp [Process.incoming, ht]))
    rw [hd]
    exact ⟨Process.reply fcall unset.ofcall (some Eisdir),
      by rw [hlog]; rfl, rfl, rfl, rfl⟩
  · intro fuel0 steps fd1 hrun hf
    exact proc_reachable_own E fuel0 steps p c fcall.fid own cn fd fd1 hrun hown hcn hfid hf

theorem topen_directory_reading_only_witness :
    (∃ l, (Run.ended id (Process.handlefcall exEnv 1 exAttachedDir 0 exUnset
          { type := FType.TOpen, tag := 3, fid := 0, mode := OMode.READ ||| OMode.RCLOSE })).log
        = exAttachedDir.log ++
            Process.Event.call 1 Handler.open_ 0
              { type := FType.TOpen, tag := 3, fid := 0,
                mode := OMode.READ ||| OMode.RCLOSE } :: l ∧
      ∀ e ∈ l, ∀ sv h1 c1 f1, e ≠ Process.Event.call sv h1 c1 f1) ∧
    (∃ o, (Run.ended id (Process.handlefcall exEnv 1 exAttachedDir 0 exUnset
          { type := FType.TOpen, tag := 3, fid := 0, mode := OMode.WRITE })).log
        = exAttachedDir.log ++ [Process.Event.send 0 o] ∧
      o.type = FType.RError ∧ o.tag = 3 ∧
      o.ename = "cannot perform operation on a directory") :=
  ⟨(topen_directory_reading_only exEnv 0 exAttachedDir 0 exUnset
      { type := FType.TOpen, tag := 3, fid := 0, mode := OMode.READ ||| OMode.RCLOSE }
      _ _ _ rfl rfl rfl rfl rfl (by decide)).1 (Or.inr rfl) exDefer rfl rfl,
   (topen_directory_reading_only exEnv 0 exAttachedDir 0 exUnset
      { type := FType.TOpen, tag := 3, fid := 0, mode := OMode.WRITE }
      _ _ _ rfl rfl rfl rfl rfl (by decide)).2.1 (by decide)⟩

/-- C9, as stated, fails: fid 0 and fid 1 are in the fid map (their Tattach requests are
with the attach handler, and two Tstat requests are with the stat handler); fid 0 is not
open and is a directory, and the server has a walk handler. The Twalk from fid 0 to fid 1
passes the three checks, and it is answered Rerror "fid in use": the walk handler is not
called. -/
theorem twalk_guard_counterexample :
    exServerDefer.walk.isSome = true ∧
    ∃ p,
      Process.run exEnv 1 {}
        [Process.Step.accept 0 1,
         Process.Step.arrive 0 exUnset { type := FType.TAttach, tag := 1, fid := 0 },
         Process.Step.arrive 0 exUnset { type := FType.TAttach, tag := 2, fid := 1 },
         Process.Step.arrive 0 exUnset { type := FType.TStat, tag := 3, fid := 0 },
         Process.Step.arrive 0 exUnset { type := FType.TStat, tag := 4, fid := 0 },
         Process.Step.arrive 0 exUnset { type := FType.TWalk, tag := 5, fid := 0, newfid := 1 }]
        = .ok p ∧
      p.log =
        [Process.Event.call 1 Handler.attach 0 { type := FType.TAttach, tag := 1, fid := 0 },
         Process.Event.call 1 Handler.attach 0 { type := FType.TAttach, tag := 2, fid := 1 },
         Process.Event.call 1 Handler.stat 0 { type := FType.TStat, tag := 3, fid := 0 },
         Process.Event.call 1 Handler.stat 0 { type := FType.TStat, tag := 4, fid := 0 },
         Process.Event.send 0 { type := FType.RError, tag := 5, ename := "fid in use" }] ∧
      (Map.find p.conns 0).bind (fun cn => Map.find cn.fidmap 0)
        = some { fid := 0, qid := { type := QType.DIR, path := 1 } } :=
  ⟨rfl, _, rfl, rfl, rfl⟩

/-- C9, amended: the dispatcher checks a Twalk that arrives with a free tag in this order:
fid not in the fid map (the fid map in which the dispatcher looks the fid up: the one of
the connection that the dispatch table kept, which is the connection of the request on the
first connection served), "fid does not exist"; fid open, "cannot walk from an open fid";
at least one name on a fid that is no directory, "not a directory". For a request whose
newfid number is its fid number, or whose newfid pointer is null, the only thing that
happens then is that the Rerror is sent with the tag of the request: no handler is called
and every fid map is as before. When the three checks pass and a walk handler exists, the
request is handed to the walk handler if newfid is fid, and also if newfid is not in the
fid map and the connection of the fid map is counted at least twice when createfid runs;
before the call nothing but freefid callbacks happens. In a state that the process reaches
from its start, the fid map of the connection of the request, if it holds a fid at all, is
the fid map in which the dispatcher looks. -/
theorem twalk_guards (E : Process.Env) (fuel : Nat) (p : Process) (c : Nat)
    (unset : Process.Req9) (fcall : Fcall) (own cn : Process.Conn9)
    (ht : fcall.type = FType.TWalk)
    (hown : Map.find p.conns c = some own)
    (hfree : Map.find own.tagmap fcall.tag = none)
    (hcn : Map.find p.conns (p.table.getD (c, own.srv)).1 = some cn) :
    (fcall.fid = fcall.newfid ∨ unset.newfid = none →
      ∀ e,
        (Map.find cn.fidmap fcall.fid = none ∧ e = "fid does not exist") ∨
        (∃ fd, Map.find cn.fidmap fcall.fid = some fd ∧ fd.omode ≠ -1 ∧
          e = "cannot walk from an open fid") ∨
        (∃ fd, Map.find cn.fidmap fcall.fid = some fd ∧ fd.omode = -1 ∧
          fcall.nwname ≠ 0 ∧ fd.qid.type &&& QType.DIR = 0 ∧ e = "not a directory") →
        ∃ o, (Run.ended id (Process.handlefcall E (fuel + 1) p c unset fcall)).log
            = p.log ++ [Process.Event.send c o] ∧
          o.type = FType.RError ∧ o.tag = fcall.tag ∧ o.ename = e ∧
          ∀ a, (Map.find (Run.ended id
                  (Process.handlefcall E (fuel + 1) p c unset fcall)).conns a).map
                (fun x => x.fidmap)
              = (Map.find p.conns a).map (fun x => x.fidmap)) ∧
    (∀ fd h, Map.find cn.fidmap fcall.fid = some fd → fd.omode = -1 →
      (fcall.nwname = 0 ∨ fd.qid.type &&& QType.DIR ≠ 0) →
      (E.srvs (p.table.getD (c, own.srv)).2).walk = some h →
      (fcall.fid = fcall.newfid ∨
        (Map.find cn.fidmap fcall.newfid = none ∧
          2 ≤ cn.ref + (if (p.table.getD (c, own.srv)).1 = c then 1 else 0))) →
      ∃ pre l, (Run.ended id (Process.handlefcall E (fuel + 1) p c unset fcall)).log
          = p.log ++ pre ++
              Process.Event.call (p.table.getD (c, own.srv)).2 Handler.walk c fcall :: l ∧
        (∀ e ∈ pre, ∃ sv j, e = Process.Event.freefid sv j) ∧
        ∀ e ∈ l, ∀ sv h1 c1 f1, e ≠ Process.Event.call sv h1 c1 f1) ∧
    (∀ fuel0 steps, Process.run E fuel0 {} steps = .ok p → own.fidmap ≠ [] → cn = own) := by
  obtain ⟨cn1, hent, hfind, hfm, hsrv, href⟩ :=
    proc_handlefcall_entry E (fuel + 1) p c unset fcall own cn hown hfree hcn
      (by rw [ht]; decide)
  have harr : Map.find (p.arrived c unset fcall).conns c
      = some { own with
               ref := own.ref + 1, conn := true,
               tagmap := own.tagmap ++ [(fcall.tag, Process.incoming unset c fcall)] } := by
    simp only [Process.arrived, hown]
    exact Map.find_assign_self _ _ _ _ hown
  have hlog : (p.arrived c unset fcall).log = p.log := by
    simp only [Process.arrived, hown]
  have hconns : (p.arrived c unset fcall).conns
      = Map.assign p.conns c
          { own with
            ref := own.ref + 1, conn := true,
            tagmap := own.tagmap ++ [(fcall.tag, Process.incoming unset c fcall)] } := by
    simp only [Process.arrived, hown]
  rw [hent]
  -- what a rejection does
  have hrej : ∀ (r : Process.Req9) (e : String), r.conn = c → r.ifcall = fcall →
      r.ofcall = unset.ofcall → (fcall.fid = fcall.newfid ∨ r.newfid = none) →
      ∃ o, (Run.ended id (Process.answer E (fuel + 1) (p.arrived c unset fcall) r (some e))).log
          = p.log ++ [Process.Event.send c o] ∧
        o.type = FType.RError ∧ o.tag = fcall.tag ∧ o.ename = e ∧
        ∀ a, (Map.find (Run.ended id
                (Process.answer E (fuel + 1) (p.arrived c unset fcall) r (some e))).conns a).map
              (fun x => x.fidmap)
            = (Map.find p.conns a).map (fun x => x.fidmap) := by
    intro r e hrc hri hro hnull
    have harr' : Map.find (p.arrived c unset fcall).conns r.conn
        = some { own with
                 ref := own.ref + 1, conn := true,
                 tagmap := own.tagmap ++ [(fcall.tag, Process.incoming unset c fcall)] } := by
      rw [hrc]; exact harr
    obtain ⟨d, hd⟩ := proc_answer_error_live E fuel (p.arrived c unset fcall) r e _ harr' rfl
      (Or.inr (Or.inl ⟨by rw [hri]; exact ht, by rw [hri]; exact hnull⟩))
    rw [hd]
    refine ⟨Process.reply fcall unset.ofcall (some e), ?_, rfl, rfl, rfl, ?_⟩
    · simp only [hlog, hrc, hri, hro]
    · intro a
      simp only [hrc]
      refine (proc_fidmap_assign _ c a _ _ harr ?_).trans ?_
      · rfl
      · rw [hconns]
        exact proc_fidmap_assign _ c a own _ hown rfl
  refine ⟨?_, ?_, ?_⟩
  · intro hnull e hcase
    rcases hcase with ⟨hnone, he⟩ | ⟨fd, hfd, hopen, he⟩ | ⟨fd, hfd, hclosed, hnw, hdir, he⟩
    · have hfid1 : Map.find cn1.fidmap fcall.fid = none := by rw [hfm]; exact hnone
      have : Process.entry E (fuel + 1) (p.table.getD (c, own.srv)).1
          (p.table.getD (c, own.srv)).2 cn1 (p.arrived c unset fcall)
          (Process.incoming unset c fcall)
          = Process.answer E (fuel + 1) (p.arrived c unset fcall)
              { Process.incoming unset c fcall with fid := none } (some Enofid) := by
        simp only [Process.entry, Process.incoming, ht, hfid1, FType.TAttach, FType.TClunk,
          FType.TFlush, FType.TCreate, FType.TOpen, FType.TRead, FType.TRemove, FType.TStat,
          FType.TWalk, Nat.reduceEqDiff, if_false, if_true, ite_false, ite_true]
      rw [this, he]
      exact hrej { Process.incoming unset c fcall with fid := none } Enofid rfl rfl rfl hnull
    · have hfid1 : Map.find cn1.fidmap fcall.fid = some fd := by rw [hfm]; exact hfd
      have : Process.entry E (fuel + 1) (p.table.getD (c, own.srv)).1
          (p.table.getD (c, own.srv)).2 cn1 (p.arrived c unset fcall)
          (Process.incoming unset c fcall)
          = Process.answer E (fuel + 1) (p.arrived c unset fcall)
              { Process.incoming unset c fcall with
                fid := some ((p.table.getD (c, own.srv)).1, fcall.fid) }
              (some "cannot walk from an open fid") := by
        simp only [Process.entry, Process.incoming, ht, hfid1, FType.TAttach, FType.TClunk,
          FType.TFlush, FType.TCreate, FType.TOpen, FType.TRead, FType.TRemove, FType.TStat,
          FType.TWalk, Nat.reduceEqDiff, if_false, if_true, ite_false, ite_true]
        rw [if_pos hopen]
      rw [this, he]
      exact hrej { Process.incoming unset c fcall with
                   fid := some ((p.table.getD (c, own.srv)).1, fcall.fid) }
        "cannot walk from an open fid" rfl rfl rfl hnull
    · have hfid1 : Map.find cn1.fidmap fcall.fid = some fd := by rw [hfm]; exact hfd
      have : Process.entry E (fuel + 1) (p.table.getD (c, own.srv)).1
          (p.table.getD (c, own.srv)).2 cn1 (p.arrived c unset fcall)
          (Process.incoming unset c fcall)
          = Process.answer E (fuel + 1) (p.arrived c unset fcall)
              { Process.incoming unset c fcall with
                fid := some ((p.table.getD (c, own.srv)).1, fcall.fid) }
              (some Enotdir) := by
        simp only [Process.entry, Process.incoming, ht, hfid1, FType.TAttach, FType.TClunk,
          FType.TFlush, FType.TCreate, FType.TOpen, FType.TRead, FType.TRemove, FType.TStat,
          FType.TWalk, Nat.reduceEqDiff, if_false, if_true, ite_false, ite_true]
        rw [if_neg (by simpa using hclosed), if_pos ⟨hnw, hdir⟩]
      rw [this, he]
      exact hrej { Process.incoming unset c fcall with
                   fid := some ((p.table.getD (c, own.srv)).1, fcall.fid) }
        Enotdir rfl rfl rfl hnull
  · intro fd h hfd hclosed hdir hh hnew
    have hfid1 : Map.find cn1.fidmap fcall.fid = some fd := by rw [hfm]; exact hfd
    have hg2 : ¬ (fcall.nwname ≠ 0 ∧ fd.qid.type &&& QType.DIR = 0) := by
      rintro ⟨h1, h2⟩
      rcases hdir with h3 | h3
      · exact h1 h3
      · exact h3 h2
    by_cases hsame : fcall.fid = fcall.newfid
    · have : Process.entry E (fuel + 1) (p.table.getD (c, own.srv)).1
          (p.table.getD (c, own.srv)).2 cn1 (p.arrived c unset fcall)
          (Process.incoming unset c fcall)
          = Process.invoke E (fuel + 1) (p.table.getD (c, own.srv)).2 Handler.walk h
              (p.arrived c unset fcall)
              { Process.incoming unset c fcall with
                fid := some ((p.table.getD (c, own.srv)).1, fcall.fid),
                newfid := some ((p.table.getD (c, own.srv)).1, fcall.fid) } := by
        simp only [Process.entry, Process.incoming, ht, hfid1, FType.TAttach, FType.TClunk,
          FType.TFlush, FType.TCreate, FType.TOpen, FType.TRead, FType.TRemove, FType.TStat,
          FType.TWalk, Nat.reduceEqDiff, if_false, if_true, ite_false, ite_true]
        rw [if_neg (by simpa using hclosed), if_neg hg2, if_neg (by simpa using hsame)]
        simp only [Process.invokeOpt, hh]
      rw [this]
      obtain ⟨l, hl, hp⟩ := proc_invoke_log E (fuel + 1) (p.table.getD (c, own.srv)).2
        Handler.walk h (p.arrived c unset fcall)
        { Process.incoming unset c fcall with
          fid := some ((p.table.getD (c, own.srv)).1, fcall.fid),
          newfid := some ((p.table.getD (c, own.srv)).1, fcall.fid) }
      refine ⟨[], l, ?_, by simp, hp⟩
      rw [hl, hlog]
      simp
      exact ⟨rfl, rfl⟩
    · rcases hnew with hnew | ⟨hnone, hr⟩
      · exact absurd hnew hsame
      · have hnone1 : Map.find cn1.fidmap fcall.newfid = none := by rw [hfm]; exact hnone
        obtain ⟨pre, hcr, hpre⟩ := proc_createfid_ok E (p.arrived c unset fcall)
          (p.table.getD (c, own.srv)).1 fcall.newfid cn1 hfind hnone1 (by rw [href]; exact hr)
        have : Process.entry E (fuel + 1) (p.table.getD (c, own.srv)).1
            (p.table.getD (c, own.srv)).2 cn1 (p.arrived c unset fcall)
            (Process.incoming unset c fcall)
            = Process.invoke E (fuel + 1) (p.table.getD (c, own.srv)).2 Handler.walk h
                { conns := Map.assign (p.arrived c unset fcall).conns
                    (p.table.getD (c, own.srv)).1
                    { cn1 with
                      fidmap := cn1.fidmap ++ [(fcall.newfid, { fid := fcall.newfid })],
                      ref := cn1.ref - 1 + (if E.copyCounts then 2 else 0) },
                  table := (p.arrived c unset fcall).table,
                  log := (p.arrived c unset fcall).log ++ pre }
                { Process.incoming unset c fcall with
                  fid := some ((p.table.getD (c, own.srv)).1, fcall.fid),
                  newfid := some ((p.table.getD (c, own.srv)).1, fcall.newfid) } := by
          simp only [Process.entry, Process.incoming, ht, hfid1, FType.TAttach, FType.TClunk,
            FType.TFlush, FType.TCreate, FType.TOpen, FType.TRead, FType.TRemove, FType.TStat,
            FType.TWalk, Nat.reduceEqDiff, if_false, if_true, ite_false, ite_true]
          rw [if_neg (by simpa using hclosed), if_neg hg2, if_pos hsame, hcr]
          simp only [Process.invokeOpt, hh]
        rw [this]
        obtain ⟨l, hl, hp⟩ := proc_invoke_log E (fuel + 1) (p.table.getD (c, own.srv)).2
          Handler.walk h
          { conns := Map.assign (p.arrived c unset fcall).conns
              (p.table.getD (c, own.srv)).1
              { cn1 with
                fidmap := cn1.fidmap ++ [(fcall.newfid, { fid := fcall.newfid })],
                ref := cn1.ref - 1 + (if E.copyCounts then 2 else 0) },
            table := (p.arrived c unset fcall).table,
            log := (p.arrived c unset fcall).log ++ pre }
          { Process.incoming unset c fcall with
            fid := some ((p.table.getD (c, own.srv)).1, fcall.fid),
            newfid := some ((p.table.getD (c, own.srv)).1, fcall.newfid) }
        refine ⟨pre, l, ?_, hpre, hp⟩
        rw [hl]
        simp only [hlog]
        rfl
  · intro fuel0 steps hrun hne
    exact proc_reachable_conn E fuel0 steps p c own cn hrun hown hcn hne

theorem twalk_guards_witness :
    (∃ o, (Run.ended id (Process.handlefcall exEnv 1 exAttachedDir 0 exUnset
          { type := FType.TWalk, tag := 2, fid := 9, newfid := 3, nwname := 1 })).log
        = exAttachedDir.log ++ [Process.Event.send 0 o] ∧
      o.type = FType.RError ∧ o.tag = 2 ∧ o.ename = "fid does not exist" ∧
      ∀ a, (Map.find (Run.ended id (Process.handlefcall exEnv 1 exAttachedDir 0 exUnset
              { type := FType.TWalk, tag := 2, fid := 9, newfid := 3, nwname := 1 })).conns a).map
            (fun x => x.fidmap)
          = (Map.find exAttachedDir.conns a).map (fun x => x.fidmap)) ∧
    (∃ pre l, (Run.ended id (Process.handlefcall exEnv 1 exAttachedDir 0 exUnset
          { type := FType.TWalk, tag := 2, fid := 0, newfid := 3, nwname := 1 })).log
        = exAttachedDir.log ++ pre ++
            Process.Event.call 1 Handler.walk 0
              { type := FType.TWalk, tag := 2, fid := 0, newfid := 3, nwname := 1 } :: l ∧
      (∀ e ∈ pre, ∃ sv j, e = Process.Event.freefid sv j) ∧
      ∀ e ∈ l, ∀ sv h1 c1 f1, e ≠ Process.Event.call sv h1 c1 f1) :=
  ⟨(twalk_guards exEnv 0 exAttachedDir 0 exUnset
      { type := FType.TWalk, tag := 2, fid := 9, newfid := 3, nwname := 1 } _ _
      rfl rfl rfl rfl).1 (Or.inr rfl) _ (Or.inl ⟨rfl, rfl⟩),
   (twalk_guards exEnv 0 exAttachedDir 0 exUnset
      { type := FType.TWalk, tag := 2, fid := 0, newfid := 3, nwname := 1 } _ _
      rfl rfl rfl rfl).2.1 _ exDefer rfl rfl (Or.inr (by decide)) rfl
      (Or.inr ⟨rfl, by decide⟩)⟩

/-- C10, defect in the code: fid 0 and fid 1 are in the fid map (their Tattach requests
are with the attach handler) when a Twalk from fid 0 to fid 1 arrives. createfid finds the
key taken: it has constructed one Fid and destroys three, and the third decrement brings
the reference count to zero while the transport pointer is set. The assertion of
decref_p9conn fails before respond is called: no Rerror "fid in use" is sent. -/
theorem twalk_collision_aborts :
    ∃ p,
      Process.run exEnv 1 {}
        [Process.Step.accept 0 1,
         Process.Step.arrive 0 exUnset { type := FType.TAttach, tag := 1, fid := 0 },
         Process.Step.arrive 0 exUnset { type := FType.TAttach, tag := 2, fid := 1 },
         Process.Step.arrive 0 exUnset { type := FType.TWalk, tag := 3, fid := 0, newfid := 1 }]
        = .error (Abort.assertion, p) ∧
      p.log =
        [Process.Event.call 1 Handler.attach 0 { type := FType.TAttach, tag := 1, fid := 0 },
         Process.Event.call 1 Handler.attach 0 { type := FType.TAttach, tag := 2, fid := 1 }] ∧
      (Map.find p.conns 0).map (fun cn => (cn.ref, cn.conn)) = some (0, true) :=
  ⟨_, rfl, rfl, rfl⟩

/-- C11, defect in the code: fid 0, a directory, is in the fid map (its Tattach is with
the attach handler); a Twalk of one name from fid 0 to the new fid 1 passes the checks and
the walk handler responds with no error and no qid. respond destroys the new fid, whose
destructor brings the reference count to zero while the transport pointer is set: the
assertion of decref_p9conn fails before the reply is completed, and no Rerror "file does
not exist" is sent. -/
theorem twalk_no_qid_aborts :
    ∃ p,
      Process.run exEnv 1 {}
        [Process.Step.accept 0 1,
         Process.Step.arrive 0 exUnset { type := FType.TAttach, tag := 1, fid := 0 },
         Process.Step.arrive 0 exUnset
           { type := FType.TWalk, tag := 2, fid := 0, newfid := 1, nwname := 1 },
         Process.Step.answer 0 2 id none]
        = .error (Abort.assertion, p) ∧
      p.log =
        [Process.Event.call 1 Handler.attach 0 { type := FType.TAttach, tag := 1, fid := 0 },
         Process.Event.call 1 Handler.walk 0
           { type := FType.TWalk, tag := 2, fid := 0, newfid := 1, nwname := 1 }] ∧
      (Map.find p.conns 0).map (fun cn => (cn.ref, cn.conn)) = some (0, true) :=
  ⟨_, rfl, rfl, rfl⟩

/-- C12, defect in the code: fid 0, a directory, is in the fid map (its Tattach is with
the attach handler); a Twalk of two names from fid 0 to the new fid 1 passes the checks and
the walk handler responds with no error and one qid. respond destroys the new fid, whose
destructor brings the reference count to zero while the transport pointer is set: the
assertion of decref_p9conn fails before the reply is completed, and no Rwalk is sent. -/
theorem twalk_partial_aborts :
    ∃ p,
      Process.run exEnv 1 {}
        [Process.Step.accept 0 1,
         Process.Step.arrive 0 exUnset { type := FType.TAttach, tag := 1, fid := 0 },
         Process.Step.arrive 0 exUnset
           { type := FType.TWalk, tag := 2, fid := 0, newfid := 1, nwname := 2 },
         Process.Step.answer 0 2 (fun o => { o with nwqid := 1, wqid := [{ path := 7 }] }) none]
        = .error (Abort.assertion, p) ∧
      p.log =
        [Process.Event.call 1 Handler.attach 0 { type := FType.TAttach, tag := 1, fid := 0 },
         Process.Event.call 1 Handler.walk 0
           { type := FType.TWalk, tag := 2, fid := 0, newfid := 1, nwname := 2 }] ∧
      (Map.find p.conns 0).map (fun cn => (cn.ref, cn.conn)) = some (0, true) :=
  ⟨_, rfl, rfl, rfl⟩

/-- C13, defect in the code: fid 0, a directory, is in the fid map (its Tattach is with
the attach handler); a Twalk of one name from fid 0 to the new fid 1 passes the checks and
the walk handler responds with no error and one qid. respond stores the qid in the new fid
and sends the Rwalk; the decrement at its end brings the reference count to zero while the
transport pointer is set, and the assertion of decref_p9conn fails: respond does not
return. -/
theorem twalk_success_aborts :
    ∃ p,
      Process.run exEnv 1 {}
        [Process.Step.accept 0 1,
         Process.Step.arrive 0 exUnset { type := FType.TAttach, tag := 1, fid := 0 },
         Process.Step.arrive 0 exUnset
           { type := FType.TWalk, tag := 2, fid := 0, newfid := 1, nwname := 1 },
         Process.Step.answer 0 2 (fun o => { o with nwqid := 1, wqid := [{ path := 7 }] }) none]
        = .error (Abort.assertion, p) ∧
      p.log =
        [Process.Event.call 1 Handler.attach 0 { type := FType.TAttach, tag := 1, fid := 0 },
         Process.Event.call 1 Handler.walk 0
           { type := FType.TWalk, tag := 2, fid := 0, newfid := 1, nwname := 1 },
         Process.Event.send 0
           { type := FType.RWalk, tag := 2, nwqid := 1, wqid := [{ path := 7 }] }] ∧
      (Map.find p.conns 0).map (fun cn => (cn.ref, cn.conn)) = some (0, true) :=
  ⟨_, rfl, rfl, rfl⟩

/-- C14, as stated, fails: the version of the Tversion is the four bytes '9', 'P', NUL,
'x', which is not the string "9P", and the Rversion carries the version "9P". -/
theorem tversion_nul_counterexample :
    String.mk ['9', 'P', Char.ofNat 0, 'x'] ≠ "9P" ∧
    ∃ p,
      Process.run exEnv 1 {}
        [Process.Step.accept 0 0,
         Process.Step.arrive 0 exUnset
           { type := FType.TVersion, tag := NoTag, msize := 8192,
             version := String.mk ['9', 'P', Char.ofNat 0, 'x'] }]
        = .ok p ∧
      p.log = [Process.Event.send 0
                 { type := FType.RVersion, tag := NoTag, msize := 8192, version := "9P" }] :=
  ⟨by decide, _, rfl, rfl⟩

/-- C14, amended: a Tversion that arrives with a free tag is answered with an Rversion with
the tag of the request, and nothing else happens (no handler is called); strcmp reads the
version of the request as a C string, up to its first NUL byte: the version of the reply
is "9P" when that is "9P", "9P2000" when that is "9P2000", and "unknown" otherwise. A
version that holds no NUL byte is read whole. -/
theorem tversion_reply_cstr (E : Process.Env) (fuel : Nat) (p : Process) (c : Nat)
    (unset : Process.Req9) (fcall : Fcall) (own : Process.Conn9)
    (ht : fcall.type = FType.TVersion)
    (hown : Map.find p.conns c = some own)
    (hfree : Map.find own.tagmap fcall.tag = none) :
    (∃ o, (Run.ended id (Process.handlefcall E (fuel + 1) p c unset fcall)).log
        = p.log ++ [Process.Event.send c o] ∧
      o.type = FType.RVersion ∧ o.tag = fcall.tag ∧
      (cstr fcall.version = "9P" → o.version = "9P") ∧
      (cstr fcall.version = "9P2000" → o.version = "9P2000") ∧
      (cstr fcall.version ≠ "9P" → cstr fcall.version ≠ "9P2000" → o.version = "unknown")) ∧
    (Char.ofNat 0 ∉ fcall.version.data → cstr fcall.version = fcall.version) := by
  refine ⟨?_, cstr_of_no_nul fcall.version⟩
  rw [proc_handlefcall_arrived E (fuel + 1) p c unset fcall own hown hfree]
  have hself := proc_find_set_self p c own
    { own with
      ref := own.ref + 1, conn := true,
      tagmap := own.tagmap ++ [(fcall.tag, Process.incoming unset c fcall)] } hown
  unfold Process.handlereq
  rw [proc_get_of_find _ (Process.incoming unset c fcall).conn _ hself]
  simp only []
  rw [if_pos (show (Process.incoming unset c fcall).ifcall.type = FType.TVersion from ht)]
  obtain ⟨o, hl, hty, htag, hver⟩ := proc_answer_version E fuel
    { p.set c { own with
                ref := own.ref + 1, conn := true,
                tagmap := own.tagmap ++ [(fcall.tag, Process.incoming unset c fcall)] } with
      table := some ((p.set c { own with
                ref := own.ref + 1, conn := true,
                tagmap := own.tagmap ++ [(fcall.tag, Process.incoming unset c fcall)] }).table.getD
                  ((Process.incoming unset c fcall).conn, own.srv)) }
    { Process.incoming unset c fcall with
      ofcall := { (Process.incoming unset c fcall).ofcall with
                  version := if cstr fcall.version = "9P" then "9P"
                             else if cstr fcall.version = "9P2000" then "9P2000"
                             else "unknown",
                  msize := fcall.msize } }
    _ ht hself rfl
  refine ⟨o, hl, hty, htag, ?_, ?_, ?_⟩
  · intro h
    rw [hver]
    simp [h]
  · intro h
    rw [hver]
    simp [h]
  · intro h1 h2
    rw [hver]
    simp [h1, h2]

theorem tversion_reply_cstr_witness :
    (∃ o, (Run.ended id (Process.handlefcall exEnv 1 (Process.serve9conn {} 0 0) 0 exUnset
          { type := FType.TVersion, tag := NoTag, msize := 8192, version := "9P2000" })).log
        = [Process.Event.send 0 o] ∧
      o.type = FType.RVersion ∧ o.tag = NoTag ∧ o.version = "9P2000") ∧
    cstr "9P2000" = "9P2000" := by
  obtain ⟨⟨o, hl, ht, hg, -, h2, -⟩, h3⟩ := tversion_reply_cstr exEnv 0 (Process.serve9conn {} 0 0) 0
    exUnset { type := FType.TVersion, tag := NoTag, msize := 8192, version := "9P2000" } _
    rfl rfl rfl
  exact ⟨⟨o, hl, ht, hg, h2 rfl⟩, h3 (by decide)⟩

/-- C15, defect in the code: a Tversion that requests the msize 4294967295 on a fresh
connection is answered with an Rversion whose msize is 4294967295, and both buffer sizes
become 4294967295, whatever maximum::Msg is: the requested msize is converted to int
before the minimum is taken. -/
theorem tversion_msize_not_clamped (maxMsg : Nat) (srv : Srv9) (fuel : Nat) :
    handlefcall maxMsg srv (fuel + 1) serve9conn
        { type := FType.TVersion, tag := NoTag, msize := 4294967295, version := "9P2000" }
      = .ok { p9conn := { rmsg := 4294967295, wmsg := 4294967295, conn := true },
              log := [Event.send { type := FType.RVersion, tag := NoTag, version := "9P2000",
                                   msize := 4294967295 }] } := by
  rw [handlefcall_version maxMsg srv fuel serve9conn _ rfl rfl]
  have h : versionMsize maxMsg 4294967295 = 4294967295 :=
    versionMsize_wraps maxMsg 4294967295 (by norm_num) (by norm_num)
  simp only [h]
  rfl

/-- C16, defect in the code: fid 0, a plain file, is in the fid map; a Topen of it with
the mode byte 255 is answered by its handler with no error. respond returns and has sent
the Ropen, and the omode of the fid is -1, the value of a fid that was never opened, and
not the requested mode. -/
theorem topen_mode_not_recorded :
    ∃ p fd,
      Process.run exEnv 1 {}
        [Process.Step.accept 0 2,
         Process.Step.arrive 0 exUnset { type := FType.TAttach, tag := 1, fid := 0 },
         Process.Step.arrive 0 exUnset { type := FType.TOpen, tag := 2, fid := 0, mode := 255 },
         Process.Step.answer 0 2 id none]
        = .ok p ∧
      p.log =
        [Process.Event.call 2 Handler.attach 0 { type := FType.TAttach, tag := 1, fid := 0 },
         Process.Event.call 2 Handler.open_ 0
           { type := FType.TOpen, tag := 2, fid := 0, mode := 255 },
         Process.Event.send 0 { type := FType.ROpen, tag := 2, iounit := 1000 }] ∧
      (Map.find p.conns 0).bind (fun cn => Map.find cn.fidmap 0) = some fd ∧
      fd.omode = -1 ∧ fd.omode ≠ ((255 : Nat) : Int) :=
  ⟨_, _, rfl, rfl, rfl, rfl, by decide⟩

/-- C17, as stated, fails: the open handler stored the iounit 4096 in the reply of a Topen
and responded with no error, on a connection whose read buffer has the size 1024; the
iounit of the Ropen that is sent and the iounit of the fid are 1000. -/
theorem topen_iounit_replaced_counterexample :
    ∃ p fd,
      Process.run exEnv 1 {}
        [Process.Step.accept 0 2,
         Process.Step.arrive 0 exUnset { type := FType.TAttach, tag := 1, fid := 0 },
         Process.Step.arrive 0 exUnset { type := FType.TOpen, tag := 2, fid := 0 },
         Process.Step.answer 0 2 (fun o => { o with iounit := 4096 }) none]
        = .ok p ∧
      p.log =
        [Process.Event.call 2 Handler.attach 0 { type := FType.TAttach, tag := 1, fid := 0 },
         Process.Event.call 2 Handler.open_ 0 { type := FType.TOpen, tag := 2, fid := 0 },
         Process.Event.send 0 { type := FType.ROpen, tag := 2, iounit := 1000 }] ∧
      (Map.find p.conns 0).bind (fun cn => Map.find cn.fidmap 0) = some fd ∧
      fd.iounit = 1000 :=
  ⟨_, _, rfl, rfl, rfl, rfl⟩

/-- C17, amended: respond with no error on a Topen or Tcreate of a fid of a fid map, on a
connection whose read buffer has a size m of at least 24, overwrites the iounit of the
reply: whatever value u the handler stored there, the iounit of the reply and the iounit it
stores in the fid are m - 24. When the transport pointer of the connection is set, this
reply is what is sent, and the fid has that iounit in the state in which respond ends. When
the connection is counted at least twice and the reply, if it is sent, is sent whole,
respond returns this reply and the fid has that iounit afterwards. -/
theorem topen_iounit_replaced (E : Process.Env) (fuel : Nat) (p : Process) (r : Process.Req9)
    (cn ca : Process.Conn9) (a k : Nat) (fd : Fid) (u : Nat)
    (ht : r.ifcall.type = FType.TOpen ∨ r.ifcall.type = FType.TCreate)
    (hcn : Map.find p.conns r.conn = some cn)
    (hf : r.fid = some (a, k))
    (hca : Map.find p.conns a = some ca) (hfd : Map.find ca.fidmap k = some fd)
    (hm : 24 ≤ cn.rmsg) (hm2 : cn.rmsg < 2 ^ 32) :
    ∃ o fd1,
      o.type = r.ifcall.type + 1 ∧ o.tag = r.ifcall.tag ∧ o.iounit = cn.rmsg - 24 ∧
      fd1.iounit = cn.rmsg - 24 ∧
      (cn.conn = true →
        (Run.ended Prod.fst (Process.respond E (fuel + 1) p
            { r with ofcall := { r.ofcall with iounit := u } } none)).log
          = p.log ++ [Process.Event.send r.conn o] ∧
        (Map.find (Run.ended Prod.fst (Process.respond E (fuel + 1) p
            { r with ofcall := { r.ofcall with iounit := u } } none)).conns a).bind
          (fun x => Map.find x.fidmap k) = some fd1) ∧
      (2 ≤ cn.ref → (cn.conn = true → E.whole o = true) →
        ∃ p1, Process.respond E (fuel + 1) p
            { r with ofcall := { r.ofcall with iounit := u } } none = .ok (p1, o) ∧
          (Map.find p1.conns a).bind (fun x => Map.find x.fidmap k) = some fd1) := by
  have hio : toUInt32 ((cn.rmsg : Int) - 24) = cn.rmsg - 24 := by
    unfold toUInt32
    omega
  have hd := proc_deref_of_find p a k ca fd hca hfd
  have hsw : Process.respondSwitch E (Process.respond E fuel) p
      { r with ofcall := { r.ofcall with iounit := u } } none
      = .ok (p.store (some (a, k))
               { fd with
                 iounit := cn.rmsg - 24, omode := toInt8 r.ifcall.mode, qid := r.ofcall.qid },
             { r.ofcall with iounit := cn.rmsg - 24 }, none) := by
    unfold Process.respondSwitch
    have h1 : r.ifcall.type ≠ FType.TVersion := by rcases ht with h | h <;> rw [h] <;> decide
    have h2 : r.ifcall.type ≠ FType.TAttach := by rcases ht with h | h <;> rw [h] <;> decide
    simp only []
    rw [if_neg h1, if_neg h2, if_pos ht, proc_get_of_find p r.conn cn hcn]
    simp only [hf, hd, hio]
  obtain ⟨cn1, hcn1, hc1, hr1, href1, htag1⟩ := proc_store_find p a k r.conn ca cn
    { fd with iounit := cn.rmsg - 24, omode := toInt8 r.ifcall.mode, qid := r.ofcall.qid }
    hca hcn
  have hfid := proc_store_fid p a k ca
    { fd with iounit := cn.rmsg - 24, omode := toInt8 r.ifcall.mode, qid := r.ofcall.qid }
    fd hca hfd
  have hty : (r.ifcall.type + 1) % 256 = r.ifcall.type + 1 := by
    rcases ht with h | h <;> rw [h] <;> rfl
  simp only [Process.respond, hsw]
  refine ⟨Process.reply r.ifcall { r.ofcall with iounit := cn.rmsg - 24 } none,
    { fd with iounit := cn.rmsg - 24, omode := toInt8 r.ifcall.mode, qid := r.ofcall.qid },
    ?_, rfl, rfl, rfl, ?_, ?_⟩
  · show (r.ifcall.type + 1) % 256 = _
    exact hty
  · intro hlive
    obtain ⟨d, hfin⟩ := proc_finish_live E
      (p.store (some (a, k))
        { fd with iounit := cn.rmsg - 24, omode := toInt8 r.ifcall.mode, qid := r.ofcall.qid })
      { r with ofcall := { r.ofcall with iounit := u } }
      (Process.reply r.ifcall { r.ofcall with iounit := cn.rmsg - 24 } none) cn1 hcn1
      (by rw [hc1]; exact hlive)
    rw [hfin]
    refine ⟨?_, ?_⟩
    · show (p.store _ _).log ++ _ = _
      rw [proc_store_log]
    · show (Map.find (Map.assign (p.store _ _).conns r.conn _) a).bind _ = _
      refine (proc_fid_after_assign _ r.conn a k cn1 _ hcn1 ?_).trans hfid
      rfl
  · intro href hw
    have hw' : cn1.conn = true → E.whole
        (Process.reply r.ifcall { r.ofcall with iounit := cn.rmsg - 24 } none) = true := by
      intro h
      exact hw (by rw [← hc1]; exact h)
    refine ⟨_, proc_finish_ok E _ _ _ cn1 hcn1 (by rw [href1]; exact href) hw', ?_⟩
    show (Map.find (Map.assign (p.store _ _).conns r.conn _) a).bind _ = _
    refine (proc_fid_after_assign _ r.conn a k cn1 _ hcn1 ?_).trans hfid
    rfl

theorem topen_iounit_replaced_witness :
    ∃ o fd1 p1,
      Process.respond exEnv 1 exOpenPending
          { exOpenPendingReq with ofcall := { exOpenPendingReq.ofcall with iounit := 4096 } } none
        = .ok (p1, o) ∧
      p1.log = exOpenPending.log ++ [Process.Event.send 0 o] ∧
      o.type = FType.ROpen ∧ o.tag = 2 ∧ o.iounit = 1000 ∧
      (Map.find p1.conns 0).bind (fun x => Map.find x.fidmap 0) = some fd1 ∧
      fd1.iounit = 1000 := by
  obtain ⟨o, fd1, hty, htag, hio, hfio, hlive, hret⟩ :=
    topen_iounit_replaced exEnv 0 exOpenPending exOpenPendingReq _ _ 0 0 _ 4096
      (Or.inl rfl) rfl rfl rfl rfl (by decide) (by decide)
  obtain ⟨p1, hp1, hfid⟩ := hret (by decide) (fun _ => rfl)
  obtain ⟨hlog, -⟩ := hlive rfl
  rw [hp1] at hlog
  exact ⟨o, fd1, p1, hp1, hlog, hty, htag, hio, hfid, hfio⟩

/-- C18, defect in the code: fid 0 is in the fid map (its Tattach is with the attach
handler), a Tremove of it is with the remove handler, and a Twalk from fid 0 to the new
fid 1 was answered Rwalk. The remove handler responds with no error: respond erases fid 0
from the fid map, and the destructor of the Fid brings the reference count to zero while
the transport pointer is set. The assertion of decref_p9conn fails inside the erase:
respond does not return and no Rremove is sent. Without the Twalk the Rremove is sent and
the assertion fails in the decrement at the end of respond. -/
theorem tremove_aborts_before_reply :
    (∃ p,
      Process.run exEnv 1 {}
        [Process.Step.accept 0 1,
         Process.Step.arrive 0 exUnset { type := FType.TAttach, tag := 1, fid := 0 },
         Process.Step.arrive 0 exUnset { type := FType.TRemove, tag := 2, fid := 0 },
         Process.Step.arrive 0 exUnset { type := FType.TWalk, tag := 3, fid := 0, newfid := 1 },
         Process.Step.answer 0 3 id none,
         Process.Step.answer 0 2 id none]
        = .error (Abort.assertion, p) ∧
      p.log =
        [Process.Event.call 1 Handler.attach 0 { type := FType.TAttach, tag := 1, fid := 0 },
         Process.Event.call 1 Handler.remove 0 { type := FType.TRemove, tag := 2, fid := 0 },
         Process.Event.call 1 Handler.walk 0
           { type := FType.TWalk, tag := 3, fid := 0, newfid := 1 },
         Process.Event.send 0 { type := FType.RWalk, tag := 3 }] ∧
      (Map.find p.conns 0).map (fun cn => (cn.ref, cn.conn)) = some (0, true)) ∧
    (∃ p,
      Process.run exEnv 1 {}
        [Process.Step.accept 0 1,
         Process.Step.arrive 0 exUnset { type := FType.TAttach, tag := 1, fid := 0 },
         Process.Step.arrive 0 exUnset { type := FType.TRemove, tag := 2, fid := 0 },
         Process.Step.answer 0 2 id none]
        = .error (Abort.assertion, p) ∧
      p.log =
        [Process.Event.call 1 Handler.attach 0 { type := FType.TAttach, tag := 1, fid := 0 },
         Process.Event.call 1 Handler.remove 0 { type := FType.TRemove, tag := 2, fid := 0 },
         Process.Event.send 0 { type := FType.RRemove, tag := 2 }] ∧
      (Map.find p.conns 0).map (fun cn => (cn.ref, cn.conn)) = some (0, true)) :=
  ⟨⟨_, rfl, rfl, rfl⟩, ⟨_, rfl, rfl, rfl⟩⟩

/-- C19, defect in the code: the server has no clunk handler. (a) fid 0 is in the fid map
(its Tattach is with the attach handler) and a Tclunk on it arrives: the dispatcher sends
the Rclunk, and the decrement at the end of respond brings the reference count to zero
while the transport pointer is set; the assertion of decref_p9conn fails. (b) With two
connections accepted, fid 0 is attached on the first; a Tclunk naming fid 0 arrives on the
second, whose fid map is empty: it is answered Rclunk, not Rerror "fid does not exist",
and fid 0 stays in the fid map of the first connection. -/
theorem tclunk_auto_reply_aborts :
    (∃ p,
      Process.run exEnv 1 {}
        [Process.Step.accept 0 1,
         Process.Step.arrive 0 exUnset { type := FType.TAttach, tag := 1, fid := 0 },
         Process.Step.arrive 0 exUnset { type := FType.TClunk, tag := 2, fid := 0 }]
        = .error (Abort.assertion, p) ∧
      p.log =
        [Process.Event.call 1 Handler.attach 0 { type := FType.TAttach, tag := 1, fid := 0 },
         Process.Event.send 0 { type := FType.RClunk, tag := 2 }] ∧
      (Map.find p.conns 0).map (fun cn => (cn.ref, cn.conn)) = some (0, true)) ∧
    (∃ p,
      Process.run exEnv 1 {}
        [Process.Step.accept 0 1, Process.Step.accept 1 1,
         Process.Step.arrive 0 exUnset { type := FType.TAttach, tag := 1, fid := 0 },
         Process.Step.arrive 1 exUnset { type := FType.TClunk, tag := 1, fid := 0 }]
        = .ok p ∧
      p.log =
        [Process.Event.call 1 Handler.attach 0 { type := FType.TAttach, tag := 1, fid := 0 },
         Process.Event.send 1 { type := FType.RClunk, tag := 1 }] ∧
      (Map.find p.conns 1).map (fun cn => cn.fidmap) = some [] ∧
      (Map.find p.conns 0).map (fun cn => cn.fidmap.map (fun e => e.1)) = some [0]) :=
  ⟨⟨_, rfl, rfl, rfl⟩, ⟨_, rfl, rfl, rfl, rfl⟩⟩

/-- C20, defect in the code: a Tflush with tag 5 whose oldtag is 5 too, on a connection
with no pending request and a server with no flush handler, finds itself in the tag map;
the dispatcher calls respond with "function not implemented", and respond calls itself on
the same request without end. No reply is sent. -/
theorem tflush_own_tag_never_returns (maxMsg fuel : Nat) :
    handlefcall maxMsg exFs fuel exAttached { type := FType.TFlush, tag := 5, oldtag := 5 }
      = .error Fault.outOfFuel := by
  rw [handlefcall_free maxMsg exFs fuel exAttached _ rfl]
  have h := respond_flush_self maxMsg
    (commit true (arrive exAttached { type := FType.TFlush, tag := 5, oldtag := 5 })
      { oldreq := some 5, ifcall := { type := FType.TFlush, tag := 5, oldtag := 5 } })
    { oldreq := some 5, ifcall := { type := FType.TFlush, tag := 5, oldtag := 5 } }
    rfl rfl fuel (some Enofunc)
  have hd : handlereq maxMsg exFs fuel true
      (arrive exAttached { type := FType.TFlush, tag := 5, oldtag := 5 })
      (Req9.incoming { type := FType.TFlush, tag := 5, oldtag := 5 })
      = answer maxMsg fuel true
          (arrive exAttached { type := FType.TFlush, tag := 5, oldtag := 5 })
          { oldreq := some 5, ifcall := { type := FType.TFlush, tag := 5, oldtag := 5 } }
          (some Enofunc) := rfl
  rw [hd]
  simp only [answer, h]

/-! ## Tflush of a pending request -/

/-- C21, as stated, fails. When the request that the oldtag names is itself a pending
Tflush of a third request (a Tstat with tag 5, a Tflush of it with tag 6, and a Tflush of
that one with tag 7, all with their handlers), respond with no error on the Tflush with tag
7 sends three replies, the first of them the Rerror for tag 5 and not for its own oldtag 6.
On a connection whose transport pointer is null respond returns and sends nothing. -/
theorem tflush_nested_counterexample :
    (∃ p,
      Process.run exEnv 3 {}
        [Process.Step.accept 0 2,
         Process.Step.arrive 0 exUnset { type := FType.TAttach, tag := 1, fid := 0 },
         Process.Step.arrive 0 exUnset { type := FType.TStat, tag := 5, fid := 0 },
         Process.Step.arrive 0 exUnset { type := FType.TFlush, tag := 6, oldtag := 5 },
         Process.Step.arrive 0 exUnset { type := FType.TFlush, tag := 7, oldtag := 6 },
         Process.Step.answer 0 7 id none]
        = .ok p ∧
      p.log =
        [Process.Event.call 2 Handler.attach 0 { type := FType.TAttach, tag := 1, fid := 0 },
         Process.Event.call 2 Handler.stat 0 { type := FType.TStat, tag := 5, fid := 0 },
         Process.Event.call 2 Handler.flush 0 { type := FType.TFlush, tag := 6, oldtag := 5 },
         Process.Event.call 2 Handler.flush 0 { type := FType.TFlush, tag := 7, oldtag := 6 },
         Process.Event.send 0 { type := FType.RError, tag := 5, ename := "interrupted" },
         Process.Event.send 0 { type := FType.RError, tag := 6, ename := "interrupted" },
         Process.Event.send 0 { type := FType.RFlush, tag := 7 }]) ∧
    (∃ p1,
      Process.respond exEnv 2 exHungUpProcess exFlushPendingReq none
        = .ok (p1, { type := FType.RFlush, tag := 4 }) ∧
      p1.log = [] ∧
      (Map.find p1.conns 0).map (fun cn => cn.tagmap) = some []) :=
  ⟨⟨_, rfl, rfl⟩, ⟨_, rfl, rfl, rfl⟩⟩

/-- C21, amended: respond with no error on a Tflush with tag t, on a connection whose
transport pointer is set and that is counted at least three times, whose oldtag o,
different from t, names a request of the tag map that is neither a Tflush nor a Tversion,
whose fid pointers on the error path point into a fid map, and whose Rerror is sent whole:
after freefid callbacks only, respond sends Rerror "interrupted" with the tag o and then
the Rflush with the tag t, and in the state in which it ends neither o nor t is in the tag
map. Respond returns when the connection is counted at least four times and the Rflush is
sent whole. -/
theorem tflush_interrupts_first (E : Process.Env) (fuel : Nat) (p : Process)
    (r old : Process.Req9) (cn : Process.Conn9)
    (ht : r.ifcall.type = FType.TFlush)
    (hne : r.ifcall.oldtag ≠ r.ifcall.tag)
    (hcn : Map.find p.conns r.conn = some cn)
    (hold : Map.find cn.tagmap r.ifcall.oldtag = some old)
    (hkey : old.ifcall.tag = r.ifcall.oldtag)
    (hoc : old.conn = r.conn)
    (hc : cn.conn = true)
    (hr : 3 ≤ cn.ref)
    (hw : E.whole (Process.reply old.ifcall old.ofcall (some Eintr)) = true)
    (hv : old.ifcall.type ≠ FType.TVersion) (hf : old.ifcall.type ≠ FType.TFlush)
    (hatt : old.ifcall.type = FType.TAttach → ∃ fd, p.deref old.fid = .ok fd)
    (hwalk : old.ifcall.type = FType.TWalk → old.ifcall.fid ≠ old.ifcall.newfid →
      old.newfid.isSome = true → ∃ fd, p.deref old.newfid = .ok fd)
    (hclunk : old.ifcall.type = FType.TRemove ∨ old.ifcall.type = FType.TClunk →
      old.fid.isSome = true → ∃ fd, p.deref old.fid = .ok fd) :
    ∃ pre cn2,
      (Run.ended Prod.fst (Process.respond E (fuel + 2) p r none)).log
        = p.log ++ pre ++
            [Process.Event.send r.conn
               { old.ofcall with tag := r.ifcall.oldtag, type := FType.RError, ename := Eintr },
             Process.Event.send r.conn
               { r.ofcall with tag := r.ifcall.tag, type := FType.RFlush }] ∧
      (∀ x ∈ pre, ∃ sv j, x = Process.Event.freefid sv j) ∧
      Map.find (Run.ended Prod.fst (Process.respond E (fuel + 2) p r none)).conns r.conn
        = some cn2 ∧
      Map.find cn2.tagmap r.ifcall.oldtag = none ∧
      Map.find cn2.tagmap r.ifcall.tag = none ∧
      (4 ≤ cn.ref →
        E.whole { r.ofcall with tag := r.ifcall.tag, type := FType.RFlush } = true →
        ∃ p1, Process.respond E (fuel + 2) p r none
          = .ok (p1, { r.ofcall with tag := r.ifcall.tag, type := FType.RFlush })) := by
  have hcn' : Map.find p.conns old.conn = some cn := by rw [hoc]; exact hcn
  obtain ⟨pre, cn1, p1, hresp, hlog, hpre, hfind, hconn, htag, hlo, hhi⟩ :=
    proc_respond_error_ok E fuel p old Eintr cn hcn' hc hr hw hv hf hatt hwalk hclunk
  rw [hoc] at hfind hlog
  have hsw : Process.respondSwitch E (Process.respond E (fuel + 1)) p r none
      = .ok (p1, r.ofcall, none) := by
    unfold Process.respondSwitch
    have h1 : r.ifcall.type ≠ FType.TVersion := by rw [ht]; decide
    have h2 : r.ifcall.type ≠ FType.TAttach := by rw [ht]; decide
    have h3 : ¬ (r.ifcall.type = FType.TOpen ∨ r.ifcall.type = FType.TCreate) := by
      rw [ht]; decide
    have h4 : r.ifcall.type ≠ FType.TWalk := by rw [ht]; decide
    have h5 : r.ifcall.type ≠ FType.TWrite := by rw [ht]; decide
    have h6 : ¬ (r.ifcall.type = FType.TRemove ∨ r.ifcall.type = FType.TClunk) := by
      rw [ht]; decide
    simp only []
    rw [if_neg h1, if_neg h2, if_neg h3, if_neg h4, if_neg h5, if_neg h6, if_pos ht,
      proc_get_of_find p r.conn cn hcn]
    simp only [hold, hresp]
  have hrep : Process.reply r.ifcall r.ofcall none
      = { r.ofcall with tag := r.ifcall.tag, type := FType.RFlush } := by
    simp [Process.reply, ht]
  have hrep1 : Process.reply old.ifcall old.ofcall (some Eintr)
      = { old.ofcall with tag := r.ifcall.oldtag, type := FType.RError, ename := Eintr } := by
    simp [Process.reply, hkey]
  have hunf : Process.respond E (fuel + 2) p r none
      = Process.finish E p1 r { r.ofcall with tag := r.ifcall.tag, type := FType.RFlush } := by
    rw [show fuel + 2 = (fuel + 1) + 1 from rfl, Process.respond, hsw]
    simp only [hrep]
  rw [hunf]
  obtain ⟨d, hfin⟩ := proc_finish_live E p1 r
    { r.ofcall with tag := r.ifcall.tag, type := FType.RFlush } cn1 hfind hconn
  rw [hfin]
  refine ⟨pre, _, ?_, hpre, Map.find_assign_self _ _ _ _ hfind, ?_, ?_, ?_⟩
  · simp only [hlog, hrep1, List.append_assoc, List.singleton_append]
  · simp only [htag, hkey]
    rw [Map.find_erase_ne _ _ _ hne, Map.find_erase_self]
  · simp only []
    exact Map.find_erase_self _ _
  · intro hr4 hw2
    exact ⟨_, proc_finish_ok E p1 r _ cn1 hfind (by omega) (fun _ => hw2)⟩

theorem tflush_interrupts_first_witness :
    ∃ pre p1,
      Process.respond exEnv 2 exFlushPending exFlushPendingReq none
        = .ok (p1, { type := FType.RFlush, tag := 4 }) ∧
      p1.log = exFlushPending.log ++ pre ++
        [Process.Event.send 0 { type := FType.RError, tag := 3, ename := "interrupted" },
         Process.Event.send 0 { type := FType.RFlush, tag := 4 }] ∧
      (∀ x ∈ pre, ∃ sv j, x = Process.Event.freefid sv j) ∧
      (Map.find p1.conns 0).bind (fun x => Map.find x.tagmap 3) = none ∧
      (Map.find p1.conns 0).bind (fun x => Map.find x.tagmap 4) = none := by
  obtain ⟨pre, cn2, hlog, hpre, hfind, h3, h4, hret⟩ :=
    tflush_interrupts_first exEnv 0 exFlushPending exFlushPendingReq exReadPendingReq _
      rfl (by decide) rfl rfl rfl rfl rfl (by decide) rfl (by decide) (by decide)
      (fun h => absurd h (by decide)) (fun h => absurd h (by decide))
      (fun h => absurd h (by decide))
  obtain ⟨p1, hp1⟩ := hret (by decide) rfl
  rw [hp1] at hlog hfind
  refine ⟨pre, p1, hp1, hlog, hpre, ?_, ?_⟩
  · show (Map.find p1.conns 0).bind _ = none
    have : Map.find p1.conns 0 = some cn2 := hfind
    rw [this]
    exact h3
  · have : Map.find p1.conns 0 = some cn2 := hfind
    rw [this]
    exact h4

/-! ## Twstat -/

/-- C22: every Twstat on a fid of the fid map, whatever its stat holds, is answered by the
dispatcher with Rerror "wstat of type" and the wstat handler is not called: the test
`~stat.type` complements the promoted 16-bit field, which is never zero. This holds in
particular for the stat whose fields all carry the don't-touch value. -/
theorem twstat_rejected_for_type (maxMsg : Nat) (srv : Srv9) (fuel : Nat) (s : State)
    (fcall : Fcall) (fd : Fid)
    (ht : fcall.type = FType.TWStat)
    (hfree : Map.find s.p9conn.tagmap fcall.tag = none)
    (hfid : Map.find s.p9conn.fidmap fcall.fid = some fd) :
    handlefcall maxMsg srv (fuel + 1) s fcall
      = .ok (answered s { type := FType.RError, tag := fcall.tag, ename := "wstat of type" }) := by
  rw [handlefcall_free maxMsg srv _ s fcall hfree]
  have hfid' : Map.find (arrive s fcall).p9conn.fidmap fcall.fid = some fd := hfid
  have hn : notPromoted fcall.stat.type = true := by
    unfold notPromoted
    simp only [decide_eq_true_eq]
    omega
  simp only [handlereq, Req9.incoming, ht, hfid', FType.TRead, FType.TVersion, FType.TAttach,
    FType.TClunk, FType.TFlush, FType.TCreate, FType.TOpen, FType.TRemove, FType.TStat,
    FType.TWalk, FType.TWrite, FType.TWStat, hn]
  simp only [Nat.reduceEqDiff, if_false, if_true]
  rw [answer_error_arrive maxMsg fuel s fcall _ _ hfree rfl (by simp [ht]) (by simp [ht])
    (by simp [ht]) (by simp [ht]) (by simp [ht])]
  simp [reply, ht]

theorem twstat_rejected_for_type_witness :
    handlefcall 8192 exSrv 1 exAttached exWstatNone
      = .ok (answered exAttached { type := FType.RError, tag := 9, ename := "wstat of type" }) :=
  twstat_rejected_for_type 8192 exSrv 0 exAttached exWstatNone { fid := 1, qid := { path := 2 } }
    rfl rfl rfl

/-! ## Cleanup after a hangup -/

/-- C23: cleanupconn on a connection that holds a fid or a pending request dispatches no
synthesized request. When the reference count is above 1 the list of Tclunk and Tflush
requests is built, and the first pass of the loop throws std::bad_any_cast, because the link
was stored in `aux` as a `void*` and is read as a `Req9*`; otherwise nothing is synthesized.
In both cases no handler is called and the fid map and the tag map keep their entries. -/
theorem cleanupconn_dispatches_nothing (maxMsg : Nat) (srv : Srv9) (fuel ref : Nat) (s : State)
    (h : s.p9conn.fidmap ≠ [] ∨ s.p9conn.tagmap ≠ []) :
    (1 < ref → cleanupconn maxMsg srv fuel ref s = .error Fault.badAnyCast) ∧
    (ref ≤ 1 → cleanupconn maxMsg srv fuel ref s
      = .ok { s with p9conn := { s.p9conn with conn := false } }) := by
  constructor
  · intro hr
    have hhead : Synth.headVoid
        (s.p9conn.tagmap.foldl voidrequest (s.p9conn.fidmap.foldl voidfid ([], none))) := by
      refine foldl_headVoid voidrequest voidrequest_headVoid _ _ ?_
      rcases h with h | h
      · exact Or.inr (foldl_headVoid voidfid voidfid_headVoid _ _ (Or.inl h))
      · exact Or.inl h
    have hr' : ref > 1 := hr
    simp only [cleanupconn, hr', if_true]
    exact drain_headVoid maxMsg srv fuel _ _ _ hhead
  · intro hr
    have hr' : ¬ ref > 1 := by omega
    simp [cleanupconn, hr', drain]

theorem cleanupconn_dispatches_nothing_witness :
    cleanupconn 8192 exSrv 3 3 exAttached = .error Fault.badAnyCast :=
  (cleanupconn_dispatches_nothing 8192 exSrv 3 3 exAttached (Or.inl (by decide))).1 (by decide)

/-! ## The wire codec -/

/-- C24: for an Fcall `f` within the length limits of its message type that holds nothing
but the members of that type, and a buffer that has room for it, fcall2msg writes the
message and returns its size, four more than the number of bytes of the header and the
fields; msg2fcall on the buffer so written returns the same size, which is not zero, and an
Fcall equal to `f`; the cursor then stands that many bytes behind the start of the buffer,
and the first four bytes of the buffer hold the size in little-endian order, followed by the
bytes of `f`. -/
theorem codec_round_trip (f : Fcall) (m : Msg)
    (hfits : f.fits) (hwire : f.onWire = f)
    (hsize : m.data.length = m.size) (hroom : 4 + f.bytes.length ≤ m.size)
    (h32 : m.size < 256 ^ 4) :
    ∃ m1 m2, fcall2msg m f = (4 + f.bytes.length, m1) ∧
      msg2fcall m1 = (4 + f.bytes.length, f, m2) ∧
      4 + f.bytes.length ≠ 0 ∧ m2.pos = 4 + f.bytes.length ∧
      fromLE (m1.data.take 4) = 4 + f.bytes.length ∧
      m1.data.take (4 + f.bytes.length) = toLE 4 (4 + f.bytes.length) ++ f.bytes := by
  have hp := packUnpack_pack { m with end_ := m.size, pos := 4, mode := Msg.Mode.Pack } f rfl
    hroom (by simp only []; omega)
  simp only [] at hp
  have hn : 4 + f.bytes.length < 256 ^ 4 := by omega
  have hle := toLE_length 4 (4 + f.bytes.length)
  have h4 : (List.take 4 m.data).length = 4 := by
    rw [List.length_take]
    omega
  have hdata : List.drop 4 (List.take 4 m.data ++ (f.bytes ++ List.drop (4 + f.bytes.length) m.data))
      = f.bytes ++ List.drop (4 + f.bytes.length) m.data := by
    rw [List.drop_append_eq_append_drop, h4]
    simp
  have h1 : fcall2msg m f
      = (4 + f.bytes.length,
         { data := toLE 4 (4 + f.bytes.length) ++
                     (f.bytes ++ List.drop (4 + f.bytes.length) m.data),
           size := m.size, pos := 0, end_ := 4 + f.bytes.length, mode := Msg.Mode.Pack }) := by
    have hnot : ¬ 4 + f.bytes.length > m.size := by omega
    simp only [fcall2msg, hp, hnot, if_false, Msg.field, enc, hle]
    simp [hdata]
  have htake : List.take (4 + f.bytes.length)
      (toLE 4 (4 + f.bytes.length) ++ (f.bytes ++ List.drop (4 + f.bytes.length) m.data))
      = toLE 4 (4 + f.bytes.length) ++ f.bytes := by
    rw [← List.append_assoc, List.take_append_eq_append_take]
    simp [hle]
  have hlen : 4 + f.bytes.length ≤
      (toLE 4 (4 + f.bytes.length) ++ (f.bytes ++ List.drop (4 + f.bytes.length) m.data)).length := by
    simp only [List.length_append, hle, List.length_drop]
    omega
  have hin : List.drop 4 (List.take (4 + f.bytes.length)
      (toLE 4 (4 + f.bytes.length) ++ (f.bytes ++ List.drop (4 + f.bytes.length) m.data)))
      = f.bytes ++ [] := by
    rw [htake, List.drop_append_eq_append_drop, hle]
    simp [hle]
  have hu := packUnpack_unpack
    { data := toLE 4 (4 + f.bytes.length) ++ (f.bytes ++ List.drop (4 + f.bytes.length) m.data),
      size := m.size, pos := 4, end_ := 4 + f.bytes.length, mode := Msg.Mode.Unpack }
    f [] rfl (Nat.le_add_right 4 _) hlen hin hfits
  simp only [] at hu
  have h2 : msg2fcall
      { data := toLE 4 (4 + f.bytes.length) ++
                  (f.bytes ++ List.drop (4 + f.bytes.length) m.data),
        size := m.size, pos := 0, end_ := 4 + f.bytes.length, mode := Msg.Mode.Pack }
      = (4 + f.bytes.length, f,
         { data := toLE 4 (4 + f.bytes.length) ++
                     (f.bytes ++ List.drop (4 + f.bytes.length) m.data),
           size := m.size, pos := 4 + f.bytes.length, end_ := 4 + f.bytes.length,
           mode := Msg.Mode.Unpack }) := by
    simp only [msg2fcall, hu, hwire]
    simp
  have h3 : List.take 4 (toLE 4 (4 + f.bytes.length)) = toLE 4 (4 + f.bytes.length) :=
    List.take_of_length_le (le_of_eq hle)
  refine ⟨_, _, h1, h2, by omega, rfl, ?_, htake⟩
  simp only []
  rw [List.take_append_eq_append_take, hle]
  simp [h3, fromLE_toLE 4 _ hn]

theorem codec_round_trip_witness :
    ∃ m1 m2, fcall2msg exBuf exTwalk = (4 + exTwalk.bytes.length, m1) ∧
      msg2fcall m1 = (4 + exTwalk.bytes.length, exTwalk, m2) ∧
      4 + exTwalk.bytes.length ≠ 0 ∧ m2.pos = 4 + exTwalk.bytes.length ∧
      fromLE (m1.data.take 4) = 4 + exTwalk.bytes.length ∧
      m1.data.take (4 + exTwalk.bytes.length)
        = toLE 4 (4 + exTwalk.bytes.length) ++ exTwalk.bytes :=
  codec_round_trip exTwalk exBuf
    (fun op hop => by
      simp only [header, schema, exTwalk, FType.TWalk, FType.TVersion, FType.RVersion,
        FType.TAuth, FType.RAuth, FType.TAttach, FType.RAttach, FType.RError, FType.TFlush,
        Nat.reduceEqDiff, or_self, if_false, if_true, List.cons_append, List.nil_append,
        List.mem_cons, List.mem_singleton, List.not_mem_nil, or_false] at hop
      rcases hop with rfl | rfl | rfl | rfl | rfl <;> simp [Kind.fits, opFid] <;> decide)
    rfl rfl (by decide) (by decide)

/-! ## The mode of a Msg -/

/-- C25: Msg::pack and Msg::unpack run the traversal in the mode the Msg had before the
call, not in the mode Pack or Unpack: the ModePreserver they construct is a temporary that
is destroyed, and the mode restored, before the traversal starts. On a Msg in mode Unpack
the traversal of pack sees the mode Unpack, on a Msg in mode Pack the traversal of unpack
sees the mode Pack. -/
theorem pack_keeps_callers_mode (traversal : Msg → Msg) (m : Msg) :
    Msg.pack traversal m = traversal m ∧ Msg.unpack traversal m = traversal m ∧
    (Msg.pack exRecordMode { mode := Msg.Mode.Unpack }).data = [1] ∧
    (Msg.unpack exRecordMode { mode := Msg.Mode.Pack }).data = [0] := by
  refine ⟨?_, ?_, rfl, rfl⟩
  · cases hm : m.mode <;>
      simp [Msg.pack, Msg.ModePreserver.construct, Msg.ModePreserver.destroy, hm]
    rw [← hm]
  · cases hm : m.mode <;>
      simp [Msg.unpack, Msg.ModePreserver.construct, Msg.ModePreserver.destroy, hm]
    rw [← hm]

/-! ## Replies to the client -/

/-- C26: dispatchandqlock on a client whose sleep list is well formed and holds the Rpcs
of `l`. When the tag of the reply, less mintag, is an index of the tag table and the Rpc
stored there is on the sleep list, that Rpc gets the reply pointer and leaves the sleep
list, which stays well formed and holds the other Rpcs in their order, also for the walk of
electmuxer, and the reply pointer of every other Rpc and the tag table are as before. In every other case (tag out of range, empty slot, Rpc not on the sleep
list) the reply is dropped and the client is unchanged. -/
theorem dispatch_hands_reply_to_waiter (c : Client) (f : Fcall) (l : List Nat)
    (hs : c.sleeping l) (hlen : c.wait.length = c.mwait) :
    (∀ r2, 0 ≤ (f.tag : Int) - c.mintag → (f.tag : Int) - c.mintag < (c.mwait : Int) →
      c.wait[((f.tag : Int) - c.mintag).toNat]? = some (some r2) → r2 ∈ l →
      ∃ d, dispatchandqlock c f = .ok d ∧ (d.rpc r2).p = some f ∧
        d.sleeping (l.erase r2) ∧
        sleepers d (l.erase r2).length d.sleep.next = some (l.erase r2) ∧
        (∀ k, k ≠ r2 → (d.rpc k).p = (c.rpc k).p) ∧
        d.wait = c.wait ∧ d.nwait = c.nwait ∧ d.mwait = c.mwait) ∧
    ((¬ ∃ r2, 0 ≤ (f.tag : Int) - c.mintag ∧ (f.tag : Int) - c.mintag < (c.mwait : Int) ∧
        c.wait[((f.tag : Int) - c.mintag).toNat]? = some (some r2) ∧ r2 ∈ l) →
      dispatchandqlock c f = .ok c) := by
  obtain ⟨hnd, hch, hnull⟩ := hs
  constructor
  · intro r2 h0 h1 hw hin
    obtain ⟨A, B, rfl⟩ := List.append_of_mem hin
    have hrA : r2 ∉ A := fun e => by
      have := List.nodup_append.1 hnd
      exact this.2.2 e (by simp) 
    have hrB : r2 ∉ B := fun e => by
      have := (List.nodup_append.1 hnd).2.1
      exact (List.nodup_cons.1 this).1 e
    have hprev : (c.rpc r2).prev ≠ Link.null ∧ (c.rpc r2).prev ≠ Link.rpc r2 := by
      rcases Client.chain_prev_mem c r2 B A Link.head hch with e | ⟨k, hk, e⟩
      · rw [e]
        simp
      · rw [e]
        refine ⟨by simp, fun e2 => ?_⟩
        simp only [Link.rpc.injEq] at e2
        exact hrA (e2 ▸ hk)
    have hnext : (c.rpc r2).next ≠ Link.null ∧ (c.rpc r2).next ≠ Link.rpc r2 := by
      rcases Client.chain_next_mem c r2 B A Link.head hch with e | ⟨k, hk, e⟩
      · rw [e]
        simp
      · rw [e]
        refine ⟨by simp, fun e2 => ?_⟩
        simp only [Link.rpc.injEq] at e2
        exact hrB (e2 ▸ hk)
    let c0 : Client := { c with rpc := Function.update c.rpc r2 { c.rpc r2 with p := some f } }
    have hc0n : ∀ k, (c0.rpc k).next = (c.rpc k).next := by
      intro k
      by_cases hk : k = r2
      · subst hk
        simp [c0, Function.update]
      · simp [c0, Function.update, hk]
    have hc0p : ∀ k, (c0.rpc k).prev = (c.rpc k).prev := by
      intro k
      by_cases hk : k = r2
      · subst hk
        simp [c0, Function.update]
      · simp [c0, Function.update, hk]
    have hch0 : c0.chain Link.head (A ++ r2 :: B) :=
      Client.chain_congr c c0 _ Link.head rfl (fun k _ => ⟨hc0n k, hc0p k⟩) rfl hch
    obtain ⟨d, hd, d1, d2, d3, d4, d5, d6, d7⟩ := dequeue_spec c0 r2
      (by rw [hc0p]; exact hprev.1) (by rw [hc0n]; exact hnext.1)
      (by rw [hc0p]; exact hprev.2) (by rw [hc0n]; exact hnext.2)
    have hdisp : dispatchandqlock c f = .ok d := by
      have hr : ¬ ((f.tag : Int) - c.mintag < 0 ∨ (f.tag : Int) - c.mintag ≥ (c.mwait : Int)) := by
        omega
      simp only [dispatchandqlock, hr, if_false, hw, hprev.1]
      exact hd
    have herase : (A ++ r2 :: B).erase r2 = A ++ B := by
      rw [List.erase_append_right _ hrA, List.erase_cons_head]
    have hchd : d.chain Link.head (A ++ B) :=
      Client.chain_unlink c0 d r2 B d1 d2 d3 d4 A Link.head hnd (fun k _ => by simp) hch0
    refine ⟨d, hdisp, ?_, ?_, ?_, ?_, d7.2.2.1, d7.2.2.2.2.1, d7.2.2.2.1⟩
    · rw [d7.1]
      simp [c0, Function.update]
    · rw [herase]
      refine ⟨herase ▸ hnd.erase r2, hchd, ?_⟩
      · intro k hk
        by_cases hkr : k = r2
        · rw [hkr]
          exact d5
        · have hkl : k ∉ A ++ r2 :: B := by
            intro e
            rcases List.mem_append.1 e with e1 | e1
            · exact hk (by simp [e1])
            · rcases List.mem_cons.1 e1 with e2 | e2
              · exact hkr e2
              · exact hk (by simp [e2])
          have hne : Link.rpc k ≠ (c0.rpc r2).next := by
            rw [hc0n]
            rcases Client.chain_next_mem c r2 B A Link.head hch with e | ⟨j, hj, e⟩
            · rw [e]
              simp
            · rw [e]
              intro e2
              simp only [Link.rpc.injEq] at e2
              exact hk (by simp [e2, hj])
          have := d2 (Link.rpc k) (by simp [hkr]) hne
          have h3 : (d.rpc k).prev = (c0.rpc k).prev := this
          rw [h3, hc0p]
          exact hnull k hkl
    · rw [herase]
      exact sleepers_chain d (A ++ B) Link.head hchd
    · intro k hk
      rw [d7.1]
      simp [c0, Function.update, hk]
  · intro hno
    unfold dispatchandqlock
    by_cases hr : (f.tag : Int) - c.mintag < 0 ∨ (f.tag : Int) - c.mintag ≥ (c.mwait : Int)
    · simp only [hr, if_true]
    · simp only [hr, if_false]
      have hlt : ((f.tag : Int) - c.mintag).toNat < c.wait.length := by omega
      cases hw : c.wait[((f.tag : Int) - c.mintag).toNat]? with
      | none =>
        rw [List.getElem?_eq_none_iff] at hw
        omega
      | some w =>
        cases w with
        | none => rfl
        | some r2 =>
          have hnot : r2 ∉ l := fun e => hno ⟨r2, by omega, by omega, hw, e⟩
          simp [hnull r2 hnot]

theorem dispatch_hands_reply_to_waiter_witness :
    ∃ d, dispatchandqlock exWaiting { type := FType.RRead, tag := 10 } = .ok d ∧
      (d.rpc 1).p = some { type := FType.RRead, tag := 10 } ∧
      d.sleeping ([2, 1].erase 1) ∧
      sleepers d ([2, 1].erase 1).length d.sleep.next = some ([2, 1].erase 1) ∧
      (∀ k, k ≠ 1 → (d.rpc k).p = (exWaiting.rpc k).p) ∧
      d.wait = exWaiting.wait ∧ d.nwait = exWaiting.nwait ∧ d.mwait = exWaiting.mwait :=
  (dispatch_hands_reply_to_waiter exWaiting { type := FType.RRead, tag := 10 } [2, 1]
    ⟨by decide, ⟨rfl, rfl, rfl, rfl, rfl, rfl⟩, fun k hk => by
      simp only [List.mem_cons, List.mem_singleton, not_or, List.not_mem_nil, or_false] at hk
      simp [exWaiting, hk.1, hk.2]⟩
    rfl).1 1 (by decide) (by decide) rfl (by decide)

/-! ## Tag exhaustion -/

/-- C27: with a tag range of one tag and an empty tag table, the first gettag returns the
tag mintag without waiting (realloc succeeding); a second gettag, made while that tag is
held, blocks in `tagrend.sleep()`; after puttag has released the tag, the second gettag
returns mintag. In general a run of gettag blocks exactly when nwait = mwait and mwait is
at least maxtag - mintag. -/
theorem gettag_waits_when_exhausted (alloc : Nat → Bool) :
    (∀ (c : Client) (r1 r2 : Nat), c.maxtag - c.mintag = 1 → c.mwait = 0 → c.nwait = 0 →
      c.wait = [] → alloc 1 = true →
      ∃ c1, gettag alloc c r1 = .ok (c1, c.mintag) ∧
        gettag alloc c1 r2 = .error Halt.sleeps ∧
        ∃ c2, puttag c1 r1 = .ok c2 ∧ ∃ c3, gettag alloc c2 r2 = .ok (c3, c.mintag)) ∧
    (∀ (c : Client) (r : Nat), gettag alloc c r = .error Halt.sleeps ↔
      c.nwait = c.mwait ∧ c.maxtag - c.mintag ≤ (c.mwait : Int)) := by
  refine ⟨?_, gettag_sleeps_iff alloc⟩
  intro c r1 r2 hrange hm hn hw ha
  have hlt : (0 : Int) < c.maxtag - c.mintag := by omega
  let c1 : Client :=
    { c with nwait := 1, mwait := 1, freetag := 0, wait := [some r1],
             rpc := Function.update c.rpc r1 { c.rpc r1 with tag := c.mintag } }
  let c2 : Client := { c1 with nwait := 0, wait := [none] }
  have h1 : gettag alloc c r1 = .ok (c1, c.mintag) := by
    simp [gettag, Client.probe, hm, hn, hw, ha, hlt, Client.Found, c1]
  have h2 : puttag c1 r1 = .ok c2 := by
    simp [puttag, c1, c2]
  have h3 : gettag alloc c2 r2
      = .ok ({ c2 with nwait := 1, wait := [some r2],
                       rpc := Function.update c2.rpc r2 { c2.rpc r2 with tag := c.mintag } },
             c.mintag) := by
    simp [gettag, Client.probe, Client.Found, c1, c2]
  refine ⟨c1, h1, ?_, c2, h2, _, h3⟩
  rw [gettag_sleeps_iff]
  simp [c1, hrange]

theorem gettag_waits_when_exhausted_witness :
    ∃ c1, gettag (fun _ => true) exClient 1 = .ok (c1, 10) ∧
      gettag (fun _ => true) c1 2 = .error Halt.sleeps ∧
      ∃ c2, puttag c1 1 = .ok c2 ∧ ∃ c3, gettag (fun _ => true) c2 2 = .ok (c3, 10) :=
  (gettag_waits_when_exhausted (fun _ => true)).1 exClient 1 2 rfl rfl rfl rfl rfl

/-! ## Addresses -/

/-- C28: Connection::decompose of an address that holds a '!' returns the pair of the text
before the first '!' and the text after it: the first part holds no '!', and the two parts
with a '!' between them are the address. For an address without '!' it throws the exception
"no address type defined!". -/
theorem decompose_at_first_bang (address : Str) :
    ('!' ∈ address → ∃ scheme rest, Connection.decompose address = .ok (scheme, rest) ∧
      scheme ++ '!' :: rest = address ∧ '!' ∉ scheme) ∧
    ('!' ∉ address → Connection.decompose address = .error "no address type defined!") := by
  constructor
  · intro hin
    cases hf : Str.find address '!' with
    | none => exact absurd hin ((Str.find_none_iff _ _).1 hf)
    | some i =>
      obtain ⟨h1, h2, h3⟩ := Str.find_some address '!' i hf
      refine ⟨address.take i, address.drop (i + 1), ?_, h2, h3⟩
      have hle : ¬ i + 1 > address.length := by omega
      simp [Connection.decompose, hf, Str.substr, hle]
  · intro hout
    simp [Connection.decompose, (Str.find_none_iff _ _).2 hout]

theorem decompose_at_first_bang_witness :
    (∃ scheme rest, Connection.decompose "tcp!localhost!564".toList = .ok (scheme, rest) ∧
      scheme ++ '!' :: rest = "tcp!localhost!564".toList ∧ '!' ∉ scheme) ∧
    Connection.decompose "localhost".toList = .error "no address type defined!" :=
  ⟨(decompose_at_first_bang "tcp!localhost!564".toList).1 (by decide),
   (decompose_at_first_bang "localhost".toList).2 (by decide)⟩

/-- C29: alookup, for dial and for announce alike, on an address `h!p` (`h` without '!')
calls getaddrinfo with the whole address `h!p` as the node and with `!p`, the '!' included,
as the service. The address is never cut at the '!', and since an address with a port is
never the string "*", the node is never nullptr: the address `*!p` is looked up as the host
`*!p`. -/
theorem alookup_whole_address (α : Type) (announce : Bool)
    (getaddrinfo : Option Str → Str → Option α) (h p : Str) (hh : '!' ∉ h) :
    alookup announce getaddrinfo (h ++ '!' :: p)
      = .ok (getaddrinfo (some (h ++ '!' :: p)) ('!' :: p)) := by
  have hne : h ++ '!' :: p ≠ "*".toList := by
    intro e
    have hm : '!' ∈ h ++ '!' :: p := by simp
    rw [e] at hm
    revert hm
    decide
  have hle : ¬ h.length > h.length + (p.length + 1) := by omega
  have hne' : ¬ h ++ '!' :: p = ['*'] := hne
  simp [alookup, getPort, Str.find_past_head h p '!' hh, Str.substr, hle, hne']

theorem alookup_whole_address_witness :
    alookup true exLookup "*!564".toList = .ok (some (some "*!564".toList, "!564".toList)) :=
  alookup_whole_address _ true exLookup "*".toList "564".toList (by decide)

/-! ## Tag allocation -/

/-- C30: gettag on a tag table with a free slot (the table has mwait slots, nwait counts
the taken ones and is below mwait, the hint freetag is an index of the table) returns the
tag mintag + i, where i is freetag if that slot is free, else the first free index after
freetag if there is one, else the first free index from 0; the slot i takes the Rpc, nwait
grows by one and every other slot is unchanged. The failure branch is not reached. -/
theorem gettag_takes_first_free (alloc : Nat → Bool) (c : Client) (r : Nat)
    (hlen : c.wait.length = c.mwait)
    (hhint : c.freetag < c.mwait)
    (hcount : c.nwait = (c.wait.filter Option.isSome).length)
    (hlt : c.nwait < c.mwait) :
    ∃ (i : Nat) (c1 : Client), gettag alloc c r = .ok (c1, (i : Int) + c.mintag) ∧
      c.wait[i]? = some none ∧
      (c.wait[c.freetag]? = some none → i = c.freetag) ∧
      (c.wait[c.freetag]? ≠ some none →
        ((∃ j : Nat, c.freetag < j ∧ c.wait[j]? = some none) →
          c.freetag < i ∧ ∀ j : Nat, c.freetag < j → j < i → c.wait[j]? ≠ some none) ∧
        ((¬ ∃ j : Nat, c.freetag < j ∧ c.wait[j]? = some none) →
          ∀ j : Nat, j < i → c.wait[j]? ≠ some none)) ∧
      c1.wait = c.wait.set i (some r) ∧ c1.nwait = c.nwait + 1 ∧
      (c1.rpc r).tag = (i : Int) + c.mintag ∧
      c1.mwait = c.mwait ∧ c1.mintag = c.mintag ∧ c1.maxtag = c.maxtag := by
  have hne : ¬ c.nwait = c.mwait := by omega
  have hfound : ∀ i : Nat, (c.Found r i).1.wait = c.wait.set i (some r) ∧
      (c.Found r i).1.nwait = c.nwait + 1 ∧
      ((c.Found r i).1.rpc r).tag = (i : Int) + c.mintag ∧
      (c.Found r i).1.mwait = c.mwait ∧ (c.Found r i).1.mintag = c.mintag ∧
      (c.Found r i).1.maxtag = c.maxtag := by
    intro i
    simp [Client.Found]
  cases hw : c.wait[c.freetag]? with
  | none =>
    rw [List.getElem?_eq_none_iff] at hw
    omega
  | some w =>
    cases w with
    | none =>
      refine ⟨c.freetag, (c.Found r c.freetag).1, ?_, hw, fun _ => rfl, ?_, hfound _⟩
      · simp [gettag, Client.probe, hne, hw, Client.Found]
      · intro h
        exact absurd rfl h
    | some x =>
      have hocc : ∀ j : Nat, (∃ y, c.wait[j]? = some (some y)) → c.wait[j]? ≠ some none := by
        rintro j ⟨y, hy⟩
        simp [hy]
      rcases scan_spec c.wait (c.mwait - c.freetag) c.freetag (by omega) with
        ⟨k, h1, h2, h3, h4, h5⟩ | ⟨h1, h2⟩
      · have hk : c.freetag < k := by
          rcases Nat.lt_or_ge c.freetag k with h | h
          · exact h
          · have : k = c.freetag := by omega
            rw [this, hw] at h4
            simp at h4
        refine ⟨k, (c.Found r k).1, ?_, h4, ?_, ?_, hfound _⟩
        · simp [gettag, Client.probe, hne, hw, h1, Client.Found]
        · intro h
          simp at h
        · intro _
          refine ⟨fun _ => ⟨hk, fun j hj1 hj2 => hocc j (h5 j (by omega) hj2)⟩, fun hno => ?_⟩
          exact absurd ⟨k, hk, h4⟩ hno
      · rcases scan_spec c.wait c.freetag 0 (by omega) with
          ⟨k, g1, g2, g3, g4, g5⟩ | ⟨g1, g2⟩
        · refine ⟨k, (c.Found r k).1, ?_, g4, ?_, ?_, hfound _⟩
          · simp [gettag, Client.probe, hne, hw, h1, g1, Client.Found]
          · intro h
            simp at h
          · intro _
            refine ⟨fun hex => ?_, fun _ j hj => hocc j (g5 j (by omega) hj)⟩
            obtain ⟨j, hj1, hj2⟩ := hex
            have hjl : j < c.wait.length := by
              by_contra hcon
              rw [List.getElem?_eq_none_iff.2 (by omega)] at hj2
              simp at hj2
            exact absurd hj2 (hocc j (h2 j (by omega) (by omega)))
        · exfalso
          obtain ⟨j, hj⟩ := exists_free_slot c.wait (by omega)
          have hjl : j < c.wait.length := by
            by_contra hcon
            rw [List.getElem?_eq_none_iff.2 (by omega)] at hj
            simp at hj
          rcases Nat.lt_or_ge j c.freetag with h | h
          · exact hocc j (g2 j (by omega) (by omega)) hj
          · exact hocc j (h2 j h (by omega)) hj

theorem gettag_takes_first_free_witness :
    ∃ (i : Nat) (c1 : Client), gettag (fun _ => true) exTable 3 = .ok (c1, (i : Int) + 10) ∧
      exTable.wait[i]? = some none ∧
      (exTable.wait[2]? = some none → i = 2) ∧
      (exTable.wait[2]? ≠ some none →
        ((∃ j : Nat, 2 < j ∧ exTable.wait[j]? = some none) →
          2 < i ∧ ∀ j : Nat, 2 < j → j < i → exTable.wait[j]? ≠ some none) ∧
        ((¬ ∃ j : Nat, 2 < j ∧ exTable.wait[j]? = some none) →
          ∀ j : Nat, j < i → exTable.wait[j]? ≠ some none)) ∧
      c1.wait = exTable.wait.set i (some 3) ∧ c1.nwait = 2 + 1 ∧
      (c1.rpc 3).tag = (i : Int) + 10 ∧
      c1.mwait = 4 ∧ c1.mintag = 10 ∧ c1.maxtag = 14 :=
  gettag_takes_first_free (fun _ => true) exTable 3 rfl (by decide) rfl (by decide)

/-! ## The tag table over runs -/

/-- C31: in every client state reached from an empty tag table by calls of gettag (for an
Rpc that holds no slot, as in sendrpc) and of puttag, nwait is the number of taken slots of
the table, freetag is an index of the table once the table has a slot, the Rpc in slot i
holds the tag mintag + i, no Rpc is in two slots, and two different Rpcs of the table hold
different tags. -/
theorem tag_table_invariants (c : Client) (h : c.Reachable) :
    c.nwait = (c.wait.filter Option.isSome).length ∧
    (0 < c.mwait → c.freetag < c.mwait ∧ c.freetag < c.wait.length) ∧
    (∀ (i r : Nat), c.wait[i]? = some (some r) → (c.rpc r).tag - c.mintag = (i : Int)) ∧
    (∀ (i j r : Nat), c.wait[i]? = some (some r) → c.wait[j]? = some (some r) → i = j) ∧
    (∀ (i j r q : Nat), c.wait[i]? = some (some r) → c.wait[j]? = some (some q) → r ≠ q →
      (c.rpc r).tag ≠ (c.rpc q).tag) := by
  obtain ⟨h0, h1, h2, h3⟩ := Reachable_tableOk c h
  refine ⟨h1, fun hm => ⟨h2 hm, by rw [h0]; exact h2 hm⟩, ?_, ?_, ?_⟩
  · intro i r hi
    rw [h3 i r hi]
    omega
  · intro i j r hi hj
    have a := h3 i r hi
    have b := h3 j r hj
    omega
  · intro i j r q hi hj hne heq
    have a := h3 i r hi
    have b := h3 j q hj
    have hij : i = j := by omega
    subst hij
    rw [hi] at hj
    simp only [Option.some.injEq] at hj
    exact hne hj

theorem tag_table_invariants_witness :
    ∃ c1 c2 c3, gettag (fun _ => true) exRange3 1 = .ok (c1, 10) ∧
      gettag (fun _ => true) c1 2 = .ok (c2, 11) ∧ puttag c2 1 = .ok c3 ∧
      c3.wait = [none, some 2] ∧
      c3.nwait = (c3.wait.filter Option.isSome).length ∧
      (0 < c3.mwait → c3.freetag < c3.mwait ∧ c3.freetag < c3.wait.length) ∧
      (∀ (i r : Nat), c3.wait[i]? = some (some r) → (c3.rpc r).tag - c3.mintag = (i : Int)) ∧
      (∀ (i j r : Nat), c3.wait[i]? = some (some r) → c3.wait[j]? = some (some r) → i = j) ∧
      (∀ (i j r q : Nat), c3.wait[i]? = some (some r) → c3.wait[j]? = some (some q) → r ≠ q →
        (c3.rpc r).tag ≠ (c3.rpc q).tag) :=
  ⟨_, _, _, rfl, rfl, rfl, rfl,
    tag_table_invariants _
      (Client.Reachable.byPuttag _ _ 1
        (Client.Reachable.byGettag (fun _ => true) _ _ 2 11
          (Client.Reachable.byGettag (fun _ => true) exRange3 _ 1 10
            (Client.Reachable.start exRange3 rfl rfl rfl) (by decide) rfl)
          (by decide) rfl)
        rfl)⟩

/-- C32, defect in the code: gettag grows a full table while mwait is below
maxtag - mintag, and it grows it to twice its size. With the tag range 10 to 13 and no
puttag in between, the third gettag grows the table from 2 to 4 slots, one more than the
range, and the fourth gettag returns the tag 13, which is maxtag. The states are reached
from the empty table by gettag calls for Rpcs that hold no slot. In general the tag that
gettag returns is the failure value -1, or at least mintag and below mintag + mwait. -/
theorem gettag_exceeds_tag_range :
    (∃ c1 c2 c3 c4, gettag (fun _ => true) exRange3 1 = .ok (c1, 10) ∧
      gettag (fun _ => true) c1 2 = .ok (c2, 11) ∧
      gettag (fun _ => true) c2 3 = .ok (c3, 12) ∧
      gettag (fun _ => true) c3 4 = .ok (c4, 13) ∧
      c3.Reachable ∧ c3.mwait = 4 ∧ c3.maxtag - c3.mintag = 3 ∧
      c4.Reachable ∧ c4.maxtag = 13 ∧ c4.wait = [some 1, some 2, some 3, some 4]) ∧
    (∀ (alloc : Nat → Bool) (c c1 : Client) (r : Nat) (tag : Int), c.Reachable →
      some r ∉ c.wait → gettag alloc c r = .ok (c1, tag) →
      tag = -1 ∨ (c.mintag ≤ tag ∧ tag < c.mintag + (c1.mwait : Int))) := by
  have r1 : Client.Reachable _ := Client.Reachable.byGettag (fun _ => true) exRange3 _ 1 10
    (Client.Reachable.start exRange3 rfl rfl rfl) (by decide) rfl
  have r2 : Client.Reachable _ := Client.Reachable.byGettag (fun _ => true) _ _ 2 11 r1
    (by decide) rfl
  have r3 : Client.Reachable _ := Client.Reachable.byGettag (fun _ => true) _ _ 3 12 r2
    (by decide) rfl
  have r4 : Client.Reachable _ := Client.Reachable.byGettag (fun _ => true) _ _ 4 13 r3
    (by decide) rfl
  refine ⟨⟨_, _, _, _, rfl, rfl, rfl, rfl, r3, rfl, rfl, r4, rfl, rfl⟩, ?_⟩
  intro alloc c c1 r tag hc hfresh hg
  obtain ⟨-, -, -, h | ⟨i, hi, ht, -⟩⟩ :=
    gettag_tableOk alloc c c1 r tag (Reachable_tableOk c hc)
      (fun j hj => hfresh (List.getElem?_mem hj)) hg
  · exact Or.inl h.2
  · right
    omega

theorem gettag_exceeds_tag_range_witness :
    ∃ c1, gettag (fun _ => true) exRange3 1 = .ok (c1, 10) ∧
      ((10 : Int) = -1 ∨ (exRange3.mintag ≤ 10 ∧ 10 < exRange3.mintag + (c1.mwait : Int))) :=
  ⟨_, rfl, gettag_exceeds_tag_range.2 (fun _ => true) exRange3 _ 1 10
    (Client.Reachable.start exRange3 rfl rfl rfl) (by decide) rfl⟩

/-! ## Error paths of the server, again -/

/-- C33, defect in the code: when a decoded Topen, Tcreate, Tread, Twrite, Tstat or Twstat
carries a tag that is taken by a request in flight, handlefcall answers Rerror "tag in use"
through respond, and respond removes the tag of the request it answers from the tag map.
The entry it removes is the one of the request in flight: afterwards the tag names no
request, and a Tflush of it is answered "tag does not exist". -/
theorem duplicate_tag_drops_original (maxMsg : Nat) (srv : Srv9) (fuel : Nat) (s : State)
    (fcall : Fcall) (orig : Req9)
    (htaken : Map.find s.p9conn.tagmap fcall.tag = some orig)
    (ht : fcall.type = FType.TOpen ∨ fcall.type = FType.TCreate ∨
      fcall.type = FType.TRead ∨ fcall.type = FType.TWrite ∨
      fcall.type = FType.TStat ∨ fcall.type = FType.TWStat) :
    handlefcall maxMsg srv (fuel + 1) s fcall = .ok (rejected s fcall.tag) ∧
    Map.find (rejected s fcall.tag).p9conn.tagmap fcall.tag = none ∧
    (rejected s fcall.tag).p9conn.retrieveTag fcall.tag = none ∧
    ∀ flush : Fcall, flush.type = FType.TFlush → flush.oldtag = fcall.tag →
      flush.tag ≠ fcall.tag → Map.find s.p9conn.tagmap flush.tag = none →
      handlefcall maxMsg srv (fuel + 1) (rejected s fcall.tag) flush
        = .ok (answered (rejected s fcall.tag)
            { type := FType.RError, tag := flush.tag, ename := Enotag }) := by
  have hgone : Map.find (rejected s fcall.tag).p9conn.tagmap fcall.tag = none :=
    Map.find_erase_self _ _
  refine ⟨?_, hgone, ?_, ?_⟩
  · have hr := respond_error_plain maxMsg fuel
      { s with p9conn := { s.p9conn with conn := true } } (Req9.incoming fcall) Eduptag ht
    simp only [handlefcall, Map.emplace, htaken, hr]
    simp [finish, reply, rejected, Conn9.removeTag, Req9.incoming]
  · simp only [Conn9.retrieveTag, hgone]
  · intro flush hft hold hne hfree
    have hfree' : Map.find (rejected s fcall.tag).p9conn.tagmap flush.tag = none := by
      show Map.find (Map.erase s.p9conn.tagmap fcall.tag) flush.tag = none
      rw [Map.find_erase_ne _ _ _ hne, hfree]
    refine (tflush_dispatch maxMsg srv fuel _ flush hft hfree').1 ?_ ?_
    · rw [hold]; exact hgone
    · rw [hold]; exact fun h => hne h.symm

theorem duplicate_tag_drops_original_witness :
    handlefcall 8192 exSrv 2 exPending { type := FType.TRead, tag := 1, fid := 0 }
      = .ok (rejected exPending 1) ∧
    Map.find (rejected exPending 1).p9conn.tagmap 1 = none ∧
    (rejected exPending 1).p9conn.retrieveTag 1 = none ∧
    ∀ flush : Fcall, flush.type = FType.TFlush → flush.oldtag = 1 →
      flush.tag ≠ 1 → Map.find exPending.p9conn.tagmap flush.tag = none →
      handlefcall 8192 exSrv 2 (rejected exPending 1) flush
        = .ok (answered (rejected exPending 1)
            { type := FType.RError, tag := flush.tag, ename := Enotag }) :=
  duplicate_tag_drops_original 8192 exSrv 1 exPending { type := FType.TRead, tag := 1, fid := 0 }
    { ifcall := { type := FType.TRead, tag := 1 } } rfl (Or.inr (Or.inr (Or.inl rfl)))

/-- C34, defect in the code: when a Tattach names a fid that is registered, createfid
returns nullptr, the dispatcher stores it as the fid of the request and calls respond with
"fid in use"; the Tattach case of respond then reads `fid->fid` through that null pointer,
for every state the request finds. Respond does not complete and no reply is sent. -/
theorem tattach_rejection_reads_null (maxMsg : Nat) (srv : Srv9) (fuel : Nat) (s : State)
    (fcall : Fcall) (fd : Fid)
    (ht : fcall.type = FType.TAttach)
    (hfree : Map.find s.p9conn.tagmap fcall.tag = none)
    (hfid : Map.find s.p9conn.fidmap fcall.fid = some fd) :
    (∀ (s1 : State) (error : String),
      respond maxMsg (fuel + 1) s1 { Req9.incoming fcall with fid := none } (some error)
        = .error Fault.nullPointer) ∧
    handlefcall maxMsg srv (fuel + 1) s fcall = .error Fault.nullPointer := by
  have hr : ∀ (s1 : State) (error : String),
      respond maxMsg (fuel + 1) s1 { Req9.incoming fcall with fid := none } (some error)
        = .error Fault.nullPointer := by
    intro s1 error
    have hsw : respondSwitch maxMsg (respond maxMsg fuel) s1
        { Req9.incoming fcall with fid := none } (some error) = .error Fault.nullPointer := by
      unfold respondSwitch
      simp [Req9.incoming, ht, deref]
    simp only [respond, hsw]
  refine ⟨hr, ?_⟩
  rw [handlefcall_free maxMsg srv _ s fcall hfree]
  have hfid' : Map.find (arrive s fcall).p9conn.fidmap fcall.fid = some fd := hfid
  simp only [handlereq, Req9.incoming, ht, FType.TVersion, FType.TAttach, createfid,
    Map.emplace, hfid']
  simp only [Nat.reduceEqDiff, if_false, if_true]
  simp only [answer]
  have := hr (commit true (arrive s fcall) { Req9.incoming fcall with fid := none }) Edupfid
  simp only [Req9.incoming] at this
  simp only [this]

theorem tattach_rejection_reads_null_witness :
    (∀ (s1 : State) (error : String),
      respond 8192 2 s1
          { Req9.incoming { type := FType.TAttach, tag := 1, fid := 0 } with fid := none }
          (some error)
        = .error Fault.nullPointer) ∧
    handlefcall 8192 exSrv 2 exAttached { type := FType.TAttach, tag := 1, fid := 0 }
      = .error Fault.nullPointer :=
  tattach_rejection_reads_null 8192 exSrv 1 exAttached
    { type := FType.TAttach, tag := 1, fid := 0 }
    { fid := 0, qid := { type := QType.DIR, path := 1 } } rfl rfl rfl

/-- C35, defect in the code: respond on a Tflush looks the oldtag up in the tag map and
calls respond on the request it finds, before the tag of the Tflush itself leaves the map.
When the request found is the Tflush itself, or a Tflush whose oldtag names the first one,
the nested calls never end: no depth is enough for respond to return. Both states are
reached by handling decoded requests: a Tflush carrying its own tag finds itself, and a
Tflush with tag 6 of a pending Tflush with tag 5 of an answered request with tag 6 finds
its own flusher. -/
theorem respond_flush_cycle_never_returns (maxMsg : Nat) :
    (∀ (s : State) (r : Req9), r.ifcall.type = FType.TFlush →
      Map.find s.p9conn.tagmap r.ifcall.oldtag = some r →
      ∀ (fuel : Nat) (error : Option String),
        respond maxMsg fuel s r error = .error Fault.outOfFuel) ∧
    (∀ (s : State) (a b : Req9), a.ifcall.type = FType.TFlush → b.ifcall.type = FType.TFlush →
      Map.find s.p9conn.tagmap a.ifcall.oldtag = some b →
      Map.find s.p9conn.tagmap b.ifcall.oldtag = some a →
      ∀ (fuel : Nat) (error : Option String),
        respond maxMsg fuel s a error = .error Fault.outOfFuel ∧
        respond maxMsg fuel s b error = .error Fault.outOfFuel) ∧
    (∀ fuel : Nat, ∃ s1 s2 o,
      serve maxMsg exFlushSrv (fuel + 1) exAttached
          [{ type := FType.TStat, tag := 6, fid := 0 },
           { type := FType.TFlush, tag := 5, oldtag := 6 }] = .ok [s1, s2] ∧
      Map.find s2.p9conn.tagmap 6 = some exStat6 ∧
      respond maxMsg (fuel + 1) s2 exStat6 none = .ok (exCrossed, o)) ∧
    (∀ fuel : Nat,
      handlefcall maxMsg exFlushSrv fuel exCrossed { type := FType.TFlush, tag := 6, oldtag := 5 }
        = .error Fault.outOfFuel) := by
  refine ⟨fun s r ht hself => respond_flush_self maxMsg s r ht hself, ?_, ?_, ?_⟩
  · intro s a b hta htb hab hba fuel error
    exact ⟨(respond_flush_pair maxMsg s a b hta htb hab hba fuel).1 error,
      (respond_flush_pair maxMsg s a b hta htb hab hba fuel).2 error⟩
  · intro fuel
    exact ⟨_, _, _, rfl, rfl, rfl⟩
  · intro fuel
    rw [handlefcall_free maxMsg exFlushSrv fuel exCrossed
      { type := FType.TFlush, tag := 6, oldtag := 5 } rfl]
    have hd : handlereq maxMsg exFlushSrv fuel true
        (arrive exCrossed { type := FType.TFlush, tag := 6, oldtag := 5 })
        (Req9.incoming { type := FType.TFlush, tag := 6, oldtag := 5 })
        = answer maxMsg fuel true
            { (commit true (arrive exCrossed { type := FType.TFlush, tag := 6, oldtag := 5 })
                exFlush6)
              with log := exCrossed.log ++
                [Event.call Handler.flush { type := FType.TFlush, tag := 6, oldtag := 5 }] }
            exFlush6
            none := rfl
    rw [hd]
    have h := (respond_flush_pair maxMsg
      (commit true
        { (commit true (arrive exCrossed { type := FType.TFlush, tag := 6, oldtag := 5 })
            exFlush6)
          with log := exCrossed.log ++
            [Event.call Handler.flush { type := FType.TFlush, tag := 6, oldtag := 5 }] }
        exFlush6)
      exFlush6
      exFlush5 rfl rfl rfl rfl fuel).1 none
    simp only [answer, h]

theorem respond_flush_cycle_never_returns_witness :
    respond 8192 100 { p9conn := { tagmap := [(5, exFlush5), (6, exFlush6)] } } exFlush6 none
      = .error Fault.outOfFuel ∧
    respond 8192 100 { p9conn := { tagmap := [(5, exFlush5), (6, exFlush6)] } } exFlush5 none
      = .error Fault.outOfFuel :=
  (respond_flush_cycle_never_returns 8192).2.1
    { p9conn := { tagmap := [(5, exFlush5), (6, exFlush6)] } } exFlush6 exFlush5
    rfl rfl rfl rfl 100 none

/-- C36, defect in the code: respond stores the mode byte of a Topen or Tcreate in the
signed 8-bit omode of the fid, where -1 stands for "not open"; the byte 255 is stored as
-1, and it is the only one. After a Topen with mode 255 of the file fid 1 was answered
Ropen, a Twalk from fid 1 is handed to the walk handler and answered Rwalk; after a Tcreate
with mode 255 on the directory fid 0 was answered Rcreate, a second Tcreate on fid 0 is
handed to the create handler. With the mode 254 the Twalk is rejected with "cannot walk
from an open fid". -/
theorem topen_mode_255_counts_unopened (maxMsg fuel : Nat) :
    (∀ m : Nat, m < 256 → (toInt8 m = -1 ↔ m = 255)) ∧
    (∀ (s : State) (r : Req9) (f : Nat) (fd : Fid),
      r.ifcall.type = FType.TOpen ∨ r.ifcall.type = FType.TCreate →
      r.fid = some f → Map.find s.p9conn.fidmap f = some fd → r.ifcall.mode = 255 →
      ∃ s1 o fd1, respond maxMsg (fuel + 1) s r none = .ok (s1, o) ∧
        o.type = r.ifcall.type + 1 ∧
        Map.find s1.p9conn.fidmap f = some fd1 ∧ fd1.omode = -1) ∧
    (∃ s1 s2, serve maxMsg exMkdir (fuel + 1) exAttached
        [{ type := FType.TOpen, tag := 3, fid := 1, mode := 255 },
         { type := FType.TWalk, tag := 4, fid := 1, newfid := 1 }] = .ok [s1, s2] ∧
      (Map.find s1.p9conn.fidmap 1).map Fid.omode = some (-1) ∧
      s2.log.map Event.summary =
        [Event.call Handler.open_ { type := FType.TOpen, tag := 3, fid := 1, mode := 255 },
         Event.send { type := FType.ROpen, tag := 3 },
         Event.call Handler.walk { type := FType.TWalk, tag := 4, fid := 1, newfid := 1 },
         Event.send { type := FType.RWalk, tag := 4 }]) ∧
    (∃ s1 s2, serve maxMsg exMkdir (fuel + 1) exAttached
        [{ type := FType.TCreate, tag := 3, fid := 0, mode := 255, name := "d" },
         { type := FType.TCreate, tag := 4, fid := 0, name := "e" }] = .ok [s1, s2] ∧
      (Map.find s1.p9conn.fidmap 0).map Fid.omode = some (-1) ∧
      s2.log.map Event.summary =
        [Event.call Handler.create
           { type := FType.TCreate, tag := 3, fid := 0, mode := 255, name := "d" },
         Event.send { type := FType.RCreate, tag := 3 },
         Event.call Handler.create { type := FType.TCreate, tag := 4, fid := 0, name := "e" },
         Event.send { type := FType.RCreate, tag := 4 }]) ∧
    (∃ s1 s2, serve maxMsg exMkdir (fuel + 1) exAttached
        [{ type := FType.TOpen, tag := 3, fid := 1, mode := 254 },
         { type := FType.TWalk, tag := 4, fid := 1, newfid := 1 }] = .ok [s1, s2] ∧
      (Map.find s1.p9conn.fidmap 1).map Fid.omode = some (-2) ∧
      s2.log.map Event.summary =
        [Event.call Handler.open_ { type := FType.TOpen, tag := 3, fid := 1, mode := 254 },
         Event.send { type := FType.ROpen, tag := 3 },
         Event.send { type := FType.RError, tag := 4 }] ∧
      s2.log.getLast? = some (Event.send
        { type := FType.RError, tag := 4, ename := "cannot walk from an open fid" })) := by
  refine ⟨?_, ?_, ⟨_, _, rfl, rfl, rfl⟩, ⟨_, _, rfl, rfl, rfl⟩, ⟨_, _, rfl, rfl, rfl, rfl⟩⟩
  · intro m hm
    unfold toInt8
    rw [Nat.mod_eq_of_lt hm]
    by_cases h : m < 128
    · rw [if_pos h]; omega
    · rw [if_neg h]; omega
  · intro s r f fd ht hf hfd hm
    have hd : deref s.p9conn r.fid = .ok fd := by simp [deref, hf, hfd]
    have hsw : respondSwitch maxMsg (respond maxMsg fuel) s r none
        = .ok (s.store r.fid
                { fd with iounit := toUInt32 ((s.p9conn.rmsg : Int) - 24), omode := -1,
                          qid := r.ofcall.qid },
               { r.ofcall with iounit := toUInt32 ((s.p9conn.rmsg : Int) - 24) }, none) := by
      have h8 : toInt8 255 = -1 := by decide
      unfold respondSwitch
      rcases ht with h | h <;> simp [h, hd, hm, h8]
    refine ⟨finish (s.store r.fid
                { fd with iounit := toUInt32 ((s.p9conn.rmsg : Int) - 24), omode := -1,
                          qid := r.ofcall.qid }) r
        (reply r { r.ofcall with iounit := toUInt32 ((s.p9conn.rmsg : Int) - 24) } none),
      reply r { r.ofcall with iounit := toUInt32 ((s.p9conn.rmsg : Int) - 24) } none,
      Fid.mk fd.fid (-1) (toUInt32 ((s.p9conn.rmsg : Int) - 24)) r.ofcall.qid,
      by simp only [respond, hsw], ?_, ?_, rfl⟩
    · simp only [reply]
      rcases ht with h | h <;> simp [h]
    · rw [finish_fidmap, hf, store_fidmap]
      exact Map.find_assign_self _ _ _ _ hfd

theorem topen_mode_255_counts_unopened_witness :
    ∃ s1 o fd1, respond 8192 1 exOpenState exOpenHigh none = .ok (s1, o) ∧
      o.type = exOpenHigh.ifcall.type + 1 ∧
      Map.find s1.p9conn.fidmap 0 = some fd1 ∧ fd1.omode = -1 :=
  (topen_mode_255_counts_unopened 8192 0).2.1 exOpenState exOpenHigh 0 { fid := 0 }
    (Or.inl rfl) rfl rfl rfl

/-- C37, defect in the code: on a fresh connection (reference count 1, no fid, no request)
a decoded Tattach of fid 0 whose handler answers later leaves one fid in the fid map and one
request in the tag map, for which the claim wants the count 3. The count is 3 only if the
two copies of the Fid that createfid makes count a reference each; with copies that count
nothing it is 1, because createfid constructs one Fid and destroys two, and the decrement at
the end of respond on that request then brings the count to 0 while the transport pointer is
set, which breaks the assertion of decref_p9conn. A createfid that finds the fid taken
destroys three Fids. -/
theorem attach_reference_count (maxMsg fuel : Nat) :
    (∃ s1, handlefcall maxMsg { exSrv with attach := exLater } (fuel + 1) serve9conn
        { type := FType.TAttach, tag := 1, fid := 0 } = .ok s1 ∧
      s1.p9conn.fidmap.length = 1 ∧ s1.p9conn.tagmap.length = 1 ∧ s1.p9conn.conn = true ∧
      Map.find serve9conn.p9conn.tagmap 1 = none) ∧
    (∀ copyCounts : Bool,
      attachCount copyCounts serve9conn 1 { type := FType.TAttach, tag := 1, fid := 0 }
        = .ok (if copyCounts then 3 else 1)) ∧
    decref_p9conn true 1 = .error Fault.assertion ∧
    (∀ ref : Int, 3 < ref →
      countFids false true ref (createfidLifetimes true) = .ok (ref - 1) ∧
      countFids false true ref (createfidLifetimes false) = .ok (ref - 2)) := by
  refine ⟨⟨_, rfl, rfl, rfl, rfl, rfl⟩, ?_, rfl, ?_⟩
  · intro copyCounts
    cases copyCounts <;> rfl
  · intro ref href
    have h1 : ref + 1 - 1 > 0 := by omega
    have h2 : ref + 1 - 1 - 1 > 0 := by omega
    have h3 : ref + 1 - 1 - 1 - 1 > 0 := by omega
    constructor
    · simp only [countFids, createfidLifetimes, FidEvent.count, decref_p9conn, if_true,
        List.append_nil, List.cons_append, List.nil_append, Bool.false_eq_true, if_false,
        if_pos h1, if_pos h2]
      congr 1
      omega
    · simp only [countFids, createfidLifetimes, FidEvent.count, decref_p9conn,
        List.cons_append, List.nil_append, Bool.false_eq_true, if_false,
        if_pos h1, if_pos h2, if_pos h3]
      congr 1
      omega

theorem attach_reference_count_witness :
    countFids false true 5 (createfidLifetimes true) = .ok (5 - 1) ∧
    countFids false true 5 (createfidLifetimes false) = .ok (5 - 2) :=
  (attach_reference_count 8192 0).2.2.2 5 (by decide)

/-- C38: the dispatcher answers Rerror "function not implemented", with the tag of the
request, every request whose type has no entry in the dispatch table, and every Tcreate,
Topen, Tread, Tremove, Tstat, Twalk and Twrite that passes the checks of its entry when the
server has no handler for it; and for every request handlereq is one call of one handler of
the table or one call of respond. For a Twstat the reply is "function not implemented" for
no request: whether the server has a wstat handler or not, every Twstat on a fid of the fid
map is answered "wstat of type". -/
theorem absent_handler_not_implemented (maxMsg : Nat) (srv : Srv9) (fuel : Nat) :
    (∀ (s : State) (fcall : Fcall), Map.find s.p9conn.tagmap fcall.tag = none →
      fcall.type ∉ FType.dispatched →
      repliesError maxMsg srv (fuel + 1) s fcall Enofunc) ∧
    (∀ (s : State) (fcall : Fcall) (fd : Fid), Map.find s.p9conn.tagmap fcall.tag = none →
      Map.find s.p9conn.fidmap fcall.fid = some fd →
      (fcall.type = FType.TCreate → srv.create = none → fd.omode = -1 →
        fd.qid.type &&& QType.DIR ≠ 0 →
        repliesError maxMsg srv (fuel + 1) s fcall Enofunc) ∧
      (fcall.type = FType.TOpen → srv.open_ = none →
        (fd.qid.type &&& QType.DIR = 0 ∨
          fcall.mode ||| OMode.RCLOSE = OMode.READ ||| OMode.RCLOSE) →
        repliesError maxMsg srv (fuel + 1) s fcall Enofunc) ∧
      (fcall.type = FType.TRead → srv.read = none → fd.omode ≠ -1 →
        fd.omode ≠ (OMode.WRITE : Int) →
        repliesError maxMsg srv (fuel + 1) s fcall Enofunc) ∧
      (fcall.type = FType.TRemove → srv.remove = none →
        repliesError maxMsg srv (fuel + 1) s fcall Enofunc) ∧
      (fcall.type = FType.TStat → srv.stat = none →
        repliesError maxMsg srv (fuel + 1) s fcall Enofunc) ∧
      (fcall.type = FType.TWalk → srv.walk = none → fd.omode = -1 →
        (fcall.nwname = 0 ∨ fd.qid.type &&& QType.DIR ≠ 0) →
        (fcall.fid = fcall.newfid ∨ Map.find s.p9conn.fidmap fcall.newfid = none) →
        repliesError maxMsg srv (fuel + 1) s fcall Enofunc) ∧
      (fcall.type = FType.TWrite → srv.write = none →
        (land3 fd.omode = OMode.WRITE ∨ land3 fd.omode = OMode.RDWR) →
        repliesError maxMsg srv (fuel + 1) s fcall Enofunc) ∧
      (fcall.type = FType.TWStat →
        repliesError maxMsg srv (fuel + 1) s fcall "wstat of type")) ∧
    (∀ (inMap : Bool) (s : State) (r : Req9),
      (∃ h f s1 r1, srv.slot h = some f ∧
        handlereq maxMsg srv fuel inMap s r = invoke maxMsg fuel inMap h f s1 r1) ∨
      (∃ s1 r1 e, handlereq maxMsg srv fuel inMap s r = answer maxMsg fuel inMap s1 r1 e)) := by
  refine ⟨?_, ?_, fun inMap s r => handlereq_one_call maxMsg srv fuel inMap s r⟩
  · intro s fcall hfree ht
    simp only [FType.dispatched, List.mem_cons, List.mem_singleton, List.not_mem_nil,
      or_false, not_or] at ht
    obtain ⟨h1, h2, h3, h4, h5, h6, h7, h8, h9, h10, h11, h12⟩ := ht
    refine repliesError_of_answer maxMsg srv fuel s (arrive s fcall) fcall
      (Req9.incoming fcall) Enofunc hfree ?_ rfl rfl rfl h1 h4 h2
      (fun h => absurd h h10) (fun h => by rcases h with h | h; exact absurd h h8; exact absurd h h3)
    simp only [handlereq, Req9.incoming, if_neg h1, if_neg h2, if_neg h3, if_neg h4, if_neg h5,
      if_neg h6, if_neg h7, if_neg h8, if_neg h9, if_neg h10, if_neg h11, if_neg h12]
  · intro s fcall fd hfree hfid
    have hfid' : Map.find (arrive s fcall).p9conn.fidmap fcall.fid = some fd := hfid
    have hder : deref (arrive s fcall).p9conn (some fcall.fid) = .ok fd := by
      simp [deref, hfid']
    refine ⟨?_, ?_, ?_, ?_, ?_, ?_, ?_, ?_⟩
    · intro ht hs ho hdir
      refine repliesError_of_answer maxMsg srv fuel s (arrive s fcall) fcall
        { Req9.incoming fcall with fid := some fcall.fid } Enofunc hfree ?_ rfl rfl rfl
        (by simp [ht]) (by simp [ht]) (by simp [ht]) (by simp [ht]) (by simp [ht])
      simp only [QType.DIR] at hdir
      simp only [handlereq, Req9.incoming, ht, hfid', FType.TRead, FType.TVersion,
        FType.TAttach, FType.TClunk, FType.TFlush, FType.TCreate, QType.DIR, invokeOpt, hs, ho]
      simp only [Nat.reduceEqDiff, if_false, if_true, ne_eq, not_true_eq_false, hdir]
    · intro ht hs hmode
      refine repliesError_of_answer maxMsg srv fuel s (arrive s fcall) fcall
        { Req9.incoming fcall with fid := some fcall.fid, ofcall := { qid := fd.qid } }
        Enofunc hfree ?_ rfl rfl rfl
        (by simp [ht]) (by simp [ht]) (by simp [ht]) (by simp [ht]) (by simp [ht])
      have hm : ¬ (fd.qid.type &&& 128 ≠ 0 ∧ fcall.mode ||| 64 ≠ 0 ||| 64) := by
        simp only [QType.DIR, OMode.RCLOSE, OMode.READ] at hmode
        rcases hmode with h | h
        · simp [h]
        · simp [h]
      simp only [handlereq, Req9.incoming, ht, hfid', FType.TRead, FType.TVersion,
        FType.TAttach, FType.TClunk, FType.TFlush, FType.TCreate, FType.TOpen, QType.DIR,
        OMode.RCLOSE, OMode.READ, invokeOpt, hs]
      simp only [Nat.reduceEqDiff, if_false, if_true, if_neg hm]
    · intro ht hs ho hw
      refine repliesError_of_answer maxMsg srv fuel s (arrive s fcall) fcall
        { Req9.incoming fcall with fid := some fcall.fid } Enofunc hfree ?_ rfl rfl rfl
        (by simp [ht]) (by simp [ht]) (by simp [ht]) (by simp [ht]) (by simp [ht])
      have hm : ¬ (fd.omode = -1 ∨ fd.omode = (OMode.WRITE : Int)) := by
        rintro (h | h)
        · exact ho h
        · exact hw h
      simp only [handlereq, Req9.incoming, ht, hfid', FType.TRead, FType.TVersion,
        FType.TAttach, FType.TClunk, FType.TFlush, FType.TCreate, FType.TOpen, invokeOpt, hs]
      simp only [Nat.reduceEqDiff, if_false, if_true, if_neg hm]
    · intro ht hs
      refine repliesError_of_answer maxMsg srv fuel s (arrive s fcall) fcall
        { Req9.incoming fcall with fid := some fcall.fid } Enofunc hfree ?_ rfl rfl rfl
        (by simp [ht]) (by simp [ht]) (by simp [ht]) (by simp [ht])
        (fun _ _ => ⟨fd, hder⟩)
      simp only [handlereq, Req9.incoming, ht, hfid', FType.TRead, FType.TVersion,
        FType.TAttach, FType.TClunk, FType.TFlush, FType.TCreate, FType.TOpen, FType.TRemove,
        Conn9.retrieveFid, invokeOpt, hs]
      simp only [Nat.reduceEqDiff, if_false, if_true]
    · intro ht hs
      refine repliesError_of_answer maxMsg srv fuel s (arrive s fcall) fcall
        { Req9.incoming fcall with fid := some fcall.fid } Enofunc hfree ?_ rfl rfl rfl
        (by simp [ht]) (by simp [ht]) (by simp [ht]) (by simp [ht]) (by simp [ht])
      simp only [handlereq, Req9.incoming, ht, hfid', FType.TRead, FType.TVersion,
        FType.TAttach, FType.TClunk, FType.TFlush, FType.TCreate, FType.TOpen, FType.TRemove,
        FType.TStat, Conn9.retrieveFid, invokeOpt, hs]
      simp only [Nat.reduceEqDiff, if_false, if_true]
    · intro ht hs ho hdir hnew
      have hdir' : ¬ (fcall.nwname ≠ 0 ∧ fd.qid.type &&& 128 = 0) := by
        simp only [QType.DIR] at hdir
        rcases hdir with h | h
        · simp [h]
        · simp [h]
      by_cases he : fcall.fid = fcall.newfid
      · refine repliesError_of_answer maxMsg srv fuel s (arrive s fcall) fcall
          { Req9.incoming fcall with fid := some fcall.fid, newfid := some fcall.fid }
          Enofunc hfree ?_ rfl rfl rfl
          (by simp [ht]) (by simp [ht]) (by simp [ht]) (fun _ h => absurd he h) (by simp [ht])
        simp only [handlereq, Req9.incoming, ht, hfid', FType.TRead, FType.TVersion,
          FType.TAttach, FType.TClunk, FType.TFlush, FType.TCreate, FType.TOpen, FType.TRemove,
          FType.TStat, FType.TWalk, QType.DIR, invokeOpt, hs, ho]
        simp only [Nat.reduceEqDiff, if_false, if_true, ne_eq, not_true_eq_false, hdir', he]
      · have hnew' : Map.find (arrive s fcall).p9conn.fidmap fcall.newfid = none := by
          rcases hnew with h | h
          · exact absurd h he
          · exact h
        refine repliesError_of_answer maxMsg srv fuel s
          { arrive s fcall with p9conn :=
              { (arrive s fcall).p9conn with
                fidmap := s.p9conn.fidmap ++ [(fcall.newfid, { fid := fcall.newfid })] } }
          fcall
          { Req9.incoming fcall with fid := some fcall.fid, newfid := some fcall.newfid }
          Enofunc hfree ?_ rfl rfl rfl
          (by simp [ht]) (by simp [ht]) (by simp [ht]) ?_ (by simp [ht])
        · simp only [handlereq, Req9.incoming, ht, hfid', FType.TRead, FType.TVersion,
            FType.TAttach, FType.TClunk, FType.TFlush, FType.TCreate, FType.TOpen,
            FType.TRemove, FType.TStat, FType.TWalk, QType.DIR, invokeOpt, hs, ho, createfid,
            Map.emplace, hnew']
          simp only [Nat.reduceEqDiff, if_false, if_true, ne_eq, not_true_eq_false, hdir', he,
            not_false_eq_true]
          rfl
        · intro _ _ _
          refine ⟨{ fid := fcall.newfid }, ?_⟩
          have hnew2 : Map.find s.p9conn.fidmap fcall.newfid = none := hnew'
          simp [deref, Map.find_append, hnew2]
    · intro ht hs hw
      refine repliesError_of_answer maxMsg srv fuel s (arrive s fcall) fcall
        { Req9.incoming fcall with fid := some fcall.fid } Enofunc hfree ?_ rfl rfl rfl
        (by simp [ht]) (by simp [ht]) (by simp [ht]) (by simp [ht]) (by simp [ht])
      have hm : ¬ (land3 fd.omode ≠ OMode.WRITE ∧ land3 fd.omode ≠ OMode.RDWR) := by
        rcases hw with h | h
        · simp [h]
        · simp [h]
      simp only [handlereq, Req9.incoming, ht, hfid', FType.TRead, FType.TVersion,
        FType.TAttach, FType.TClunk, FType.TFlush, FType.TCreate, FType.TOpen, FType.TRemove,
        FType.TStat, FType.TWalk, FType.TWrite, invokeOpt, hs]
      simp only [Nat.reduceEqDiff, if_false, if_true, if_neg hm]
    · intro ht
      refine repliesError_of_answer maxMsg srv fuel s (arrive s fcall) fcall
        { Req9.incoming fcall with fid := some fcall.fid } "wstat of type" hfree ?_ rfl rfl rfl
        (by simp [ht]) (by simp [ht]) (by simp [ht]) (by simp [ht]) (by simp [ht])
      have hn : notPromoted fcall.stat.type = true := by
        unfold notPromoted
        simp only [decide_eq_true_eq]
        omega
      simp only [handlereq, Req9.incoming, ht, hfid', FType.TRead, FType.TVersion,
        FType.TAttach, FType.TClunk, FType.TFlush, FType.TCreate, FType.TOpen, FType.TRemove,
        FType.TStat, FType.TWalk, FType.TWrite, FType.TWStat, hn]
      simp only [Nat.reduceEqDiff, if_false, if_true]

theorem absent_handler_not_implemented_witness :
    repliesError 8192 exFs 1 exAttached { type := FType.TAuth, tag := 1 } Enofunc ∧
    repliesError 8192 exFs 1 exAttached { type := FType.TStat, tag := 1, fid := 1 } Enofunc ∧
    repliesError 8192 exFs 1 exAttached exWstatNone "wstat of type" :=
  ⟨(absent_handler_not_implemented 8192 exFs 0).1 exAttached
      { type := FType.TAuth, tag := 1 } rfl (by decide),
   ((absent_handler_not_implemented 8192 exFs 0).2.1 exAttached
      { type := FType.TStat, tag := 1, fid := 1 } { fid := 1, qid := { path := 2 } }
      rfl rfl).2.2.2.2.1 rfl rfl,
   ((absent_handler_not_implemented 8192 exFs 0).2.1 exAttached exWstatNone
      { fid := 1, qid := { path := 2 } } rfl rfl).2.2.2.2.2.2.2 rfl⟩

end jyq
